import Mathlib

/-! # Reverse-mode differentiation pass (`src/src/Derivative.cpp`)

A shallow embedding of the pass: the expression IR, the three traversals
(`FunctionSorter`, `ExpressionSorter`, `BoundsInferencer`), the symbolic helpers
(`VariableFinder`, `VariableReplacer`, `inverse`, `get_min_max_bounds`,
`merge_bounds`) and the engine `ReverseAccumulationVisitor`.

Conventions of the embedding:

* every IR node carries the field `id`, the address of the node: the C++ code keys
  its `visited` sets and `accumulated_adjoints` on `const BaseExprNode *`;
* `Function` objects and reduction domains live in a `Memory` and are referred to
  by handles (indices), as `FunctionPtr` and `ReductionDomain` are reference
  counted pointers in the host; `Memory.next_id` is the address the next node
  allocated by the pass receives;
* floating-point values are exact rationals;
* `assert`, `internal_error`, `user_error` and out-of-range vector accesses are
  the values of `Err`.
-/

namespace Derivative

/-! ## Data model -/

/-- Ways in which a run of the pass stops without a result. -/
inductive Err where
  /-- A C `assert` failed. -/
  | assert_failed
  /-- The host macro `internal_error` fired. -/
  | internal_error
  /-- The host macro `user_error` fired. -/
  | user_error
  /-- A vector or reduction domain was indexed outside its size. -/
  | out_of_range
  /-- An undefined expression or function was dereferenced. -/
  | undefined
  /-- The recursion budget of the model was used up. -/
  | fuel
  deriving DecidableEq

/-- The host enumeration `Call::CallType`. -/
inductive CallType where
  | Image
  | Extern
  | ExternCPlusPlus
  | PureExtern
  | Halide
  | Intrinsic
  | PureIntrinsic
  deriving DecidableEq

/-- Expression nodes of the host IR that the pass reads or builds.  `id` is the
address of the node; `reduction_domain` and `func` are handles into `Memory`. -/
inductive Expr where
  | IntImm (id : Nat) (value : Int)
  | FloatImm (id : Nat) (value : Rat)
  | Variable (id : Nat) (name : String) (reduction_domain : Option Nat)
  | Cast (id : Nat) (value : Expr)
  | Add (id : Nat) (a b : Expr)
  | Sub (id : Nat) (a b : Expr)
  | Mul (id : Nat) (a b : Expr)
  | Div (id : Nat) (a b : Expr)
  | Min (id : Nat) (a b : Expr)
  | Max (id : Nat) (a b : Expr)
  | LE (id : Nat) (a b : Expr)
  | GE (id : Nat) (a b : Expr)
  | Select (id : Nat) (condition true_value false_value : Expr)
  | Let (id : Nat) (name : String) (value body : Expr)
  | Call (id : Nat) (name : String) (call_type : CallType) (func : Option Nat)
      (args : List Expr)

/-- The address of a node (`Expr::get()`). -/
def Expr.id : Expr → Nat
  | .IntImm i _ => i
  | .FloatImm i _ => i
  | .Variable i _ _ => i
  | .Cast i _ => i
  | .Add i _ _ => i
  | .Sub i _ _ => i
  | .Mul i _ _ => i
  | .Div i _ _ => i
  | .Min i _ _ => i
  | .Max i _ _ => i
  | .LE i _ _ => i
  | .GE i _ _ => i
  | .Select i _ _ _ => i
  | .Let i _ _ _ => i
  | .Call i _ _ _ _ => i

/-- The host method `Expr::same_as`: pointer equality. -/
def Expr.same_as (a b : Expr) : Bool := a.id == b.id

/-- One slot of a reduction domain (`ReductionVariable`). -/
structure ReductionVariable where
  var : String
  min : Expr
  extent : Expr

/-- One definition of a function: left-hand-side arguments and value. -/
structure Definition where
  args : List Expr
  value : Expr

/-- The contents of a host `Function`: name, pure arguments, pure definition
(`none` while undefined) and update definitions in declaration order. -/
structure Function where
  name : String
  args : List String
  value : Option Expr
  updates : List Definition

/-- The objects that IR pointers refer to, and the next free node address. -/
structure Memory where
  funcs : List Function
  rdoms : List (List ReductionVariable)
  next_id : Nat

/-- A host `RDom`: a handle to a reduction domain, `none` when default constructed. -/
abbrev RDom := Option Nat

/-! ## Association lists standing for `std::map` and `std::set` -/

/-- The method `std::map::find`. -/
def map_find {κ α : Type} [DecidableEq κ] (k : κ) : List (κ × α) → Option α
  | [] => none
  | (k', v) :: rest => if k' = k then some v else map_find k rest

/-- Assignment `m[k] = v`: overwrite the entry of `k` or add one. -/
def map_set {κ α : Type} [DecidableEq κ] (k : κ) (v : α) : List (κ × α) → List (κ × α)
  | [] => [(k, v)]
  | (k', v') :: rest => if k' = k then (k, v) :: rest else (k', v') :: map_set k v rest

/-- The keys of a map. -/
def map_keys {κ α : Type} (m : List (κ × α)) : List κ := m.map Prod.fst

/-! ## Node builders of the host (`IR.h`, `IROperator.h`)

Each builder allocates one node at address `Memory.next_id`.  Types are not
modelled, so the implicit casts of `match_types` do not appear. -/

/-- The address of a new node, and the memory after the allocation. -/
def Memory.fresh (m : Memory) : Nat × Memory := (m.next_id, { m with next_id := m.next_id + 1 })

/-- The builder `Add::make`, reached through `operator+`. -/
def mk_add (a b : Expr) (m : Memory) : Expr × Memory := (.Add m.next_id a b, m.fresh.2)

/-- The builder `Sub::make`, reached through binary `operator-`. -/
def mk_sub (a b : Expr) (m : Memory) : Expr × Memory := (.Sub m.next_id a b, m.fresh.2)

/-- The builder `Mul::make`, reached through `operator*`. -/
def mk_mul (a b : Expr) (m : Memory) : Expr × Memory := (.Mul m.next_id a b, m.fresh.2)

/-- The builder `Div::make`, reached through `operator/`. -/
def mk_div (a b : Expr) (m : Memory) : Expr × Memory := (.Div m.next_id a b, m.fresh.2)

/-- The builder `Min::make`, reached through `min`. -/
def mk_min (a b : Expr) (m : Memory) : Expr × Memory := (.Min m.next_id a b, m.fresh.2)

/-- The builder `Max::make`, reached through `max`. -/
def mk_max (a b : Expr) (m : Memory) : Expr × Memory := (.Max m.next_id a b, m.fresh.2)

/-- The builder `LE::make`, reached through `operator<=`. -/
def mk_le (a b : Expr) (m : Memory) : Expr × Memory := (.LE m.next_id a b, m.fresh.2)

/-- The builder `GE::make`, reached through `operator>=`. -/
def mk_ge (a b : Expr) (m : Memory) : Expr × Memory := (.GE m.next_id a b, m.fresh.2)

/-- The builder `Select::make`, reached through `select`. -/
def mk_select (c t f : Expr) (m : Memory) : Expr × Memory := (.Select m.next_id c t f, m.fresh.2)

/-- The builder `Let::make`. -/
def mk_let (name : String) (value body : Expr) (m : Memory) : Expr × Memory :=
  (.Let m.next_id name value body, m.fresh.2)

/-- A floating-point literal converted to an expression (`FloatImm::make`). -/
def mk_float (v : Rat) (m : Memory) : Expr × Memory := (.FloatImm m.next_id v, m.fresh.2)

/-- A `Var` converted to an expression (`Variable::make` without reduction domain). -/
def mk_var (name : String) (m : Memory) : Expr × Memory := (.Variable m.next_id name none, m.fresh.2)

/-- A list of `Var` converted to expressions, left to right. -/
def mk_vars : List String → Memory → List Expr × Memory
  | [], m => ([], m)
  | n :: ns, m =>
    let (e, m1) := mk_var n m
    let (es, m2) := mk_vars ns m1
    (e :: es, m2)

/-- Unary `operator-`: the host builds `0 - a`. -/
def mk_neg (a : Expr) (m : Memory) : Expr × Memory :=
  let (z, m1) := mk_float 0 m
  mk_sub z a m1

/-- The host function `exp` on a 32-bit float: a pure extern call to `exp_f32`. -/
def mk_exp (x : Expr) (m : Memory) : Expr × Memory :=
  (.Call m.next_id "exp_f32" .PureExtern none [x], m.fresh.2)

/-- The builder `Call::make(Function, args)`: a call of the function behind handle
`h`; the host asserts that the function has a definition. -/
def mk_call (h : Nat) (args : List Expr) (m : Memory) : Except Err (Expr × Memory) :=
  match m.funcs[h]? with
  | none => .error .undefined
  | some f =>
    match f.value with
    | none => .error .internal_error
    | some _ => .ok (.Call m.next_id f.name .Halide (some h) args, m.fresh.2)

/-! ## `VariableFinder` (lines 11-30)

An `IRGraphVisitor`: the inherited `include` skips a node whose address is in
`visited`, otherwise records it and dispatches to `visit`; the inherited `visit`
methods call `include` on the operands from left to right. -/

/-- The members of `VariableFinder` with the inherited `visited` set. -/
structure VariableFinder where
  visited : List Nat
  var_name : String
  found : Bool

/-- The inherited `IRGraphVisitor::include`, given the dispatch of the node. -/
def VariableFinder.include_with (id : Nat) (accept : VariableFinder → VariableFinder)
    (s : VariableFinder) : VariableFinder :=
  if id ∈ s.visited then s else accept { s with visited := id :: s.visited }

mutual
/-- Dispatch `e.accept(this)` for a `VariableFinder`. -/
def VariableFinder.accept : Expr → VariableFinder → VariableFinder
  | .IntImm _ _, s => s
  | .FloatImm _ _, s => s
  | .Variable _ name _, s => if name = s.var_name then { s with found := true } else s
  | .Cast _ v, s => VariableFinder.include_with v.id (VariableFinder.accept v) s
  | .Add _ a b, s => VariableFinder.include_with b.id (VariableFinder.accept b)
      (VariableFinder.include_with a.id (VariableFinder.accept a) s)
  | .Sub _ a b, s => VariableFinder.include_with b.id (VariableFinder.accept b)
      (VariableFinder.include_with a.id (VariableFinder.accept a) s)
  | .Mul _ a b, s => VariableFinder.include_with b.id (VariableFinder.accept b)
      (VariableFinder.include_with a.id (VariableFinder.accept a) s)
  | .Div _ a b, s => VariableFinder.include_with b.id (VariableFinder.accept b)
      (VariableFinder.include_with a.id (VariableFinder.accept a) s)
  | .Min _ a b, s => VariableFinder.include_with b.id (VariableFinder.accept b)
      (VariableFinder.include_with a.id (VariableFinder.accept a) s)
  | .Max _ a b, s => VariableFinder.include_with b.id (VariableFinder.accept b)
      (VariableFinder.include_with a.id (VariableFinder.accept a) s)
  | .LE _ a b, s => VariableFinder.include_with b.id (VariableFinder.accept b)
      (VariableFinder.include_with a.id (VariableFinder.accept a) s)
  | .GE _ a b, s => VariableFinder.include_with b.id (VariableFinder.accept b)
      (VariableFinder.include_with a.id (VariableFinder.accept a) s)
  | .Select _ c t f, s => VariableFinder.include_with f.id (VariableFinder.accept f)
      (VariableFinder.include_with t.id (VariableFinder.accept t)
        (VariableFinder.include_with c.id (VariableFinder.accept c) s))
  | .Let _ _ v b, s => VariableFinder.include_with b.id (VariableFinder.accept b)
      (VariableFinder.include_with v.id (VariableFinder.accept v) s)
  | .Call _ _ _ _ args, s => VariableFinder.accept_list args s
/-- The loop `include(op->args[i])` over the arguments of a call. -/
def VariableFinder.accept_list : List Expr → VariableFinder → VariableFinder
  | [], s => s
  | e :: es, s =>
    VariableFinder.accept_list es (VariableFinder.include_with e.id (VariableFinder.accept e) s)
end

/-- The method `VariableFinder::find(expr, var)`. -/
def VariableFinder.find (expr : Expr) (var : String) : Bool :=
  (VariableFinder.accept expr { visited := [], var_name := var, found := false }).found

/-! ## `VariableReplacer` (lines 33-52)

An `IRMutator`: the inherited `visit` methods mutate the operands from left to
right and return the node itself when every operand came back `same_as` the
original, otherwise a node rebuilt with the new operands. -/

mutual
/-- The method `VariableReplacer::mutate` with `replaced_var_name` and `replace_expr`. -/
def VariableReplacer.mutate (replaced_var_name : String) (replace_expr : Expr) :
    Expr → Memory → Expr × Memory
  | .IntImm i v, m => (.IntImm i v, m)
  | .FloatImm i v, m => (.FloatImm i v, m)
  | .Variable i name rd, m =>
    if name = replaced_var_name then (replace_expr, m) else (.Variable i name rd, m)
  | .Cast i v, m =>
    let r := VariableReplacer.mutate replaced_var_name replace_expr v m
    if r.1.same_as v then (.Cast i v, r.2) else (.Cast r.2.next_id r.1, r.2.fresh.2)
  | .Add i a b, m =>
    let ra := VariableReplacer.mutate replaced_var_name replace_expr a m
    let rb := VariableReplacer.mutate replaced_var_name replace_expr b ra.2
    if ra.1.same_as a && rb.1.same_as b then (.Add i a b, rb.2) else mk_add ra.1 rb.1 rb.2
  | .Sub i a b, m =>
    let ra := VariableReplacer.mutate replaced_var_name replace_expr a m
    let rb := VariableReplacer.mutate replaced_var_name replace_expr b ra.2
    if ra.1.same_as a && rb.1.same_as b then (.Sub i a b, rb.2) else mk_sub ra.1 rb.1 rb.2
  | .Mul i a b, m =>
    let ra := VariableReplacer.mutate replaced_var_name replace_expr a m
    let rb := VariableReplacer.mutate replaced_var_name replace_expr b ra.2
    if ra.1.same_as a && rb.1.same_as b then (.Mul i a b, rb.2) else mk_mul ra.1 rb.1 rb.2
  | .Div i a b, m =>
    let ra := VariableReplacer.mutate replaced_var_name replace_expr a m
    let rb := VariableReplacer.mutate replaced_var_name replace_expr b ra.2
    if ra.1.same_as a && rb.1.same_as b then (.Div i a b, rb.2) else mk_div ra.1 rb.1 rb.2
  | .Min i a b, m =>
    let ra := VariableReplacer.mutate replaced_var_name replace_expr a m
    let rb := VariableReplacer.mutate replaced_var_name replace_expr b ra.2
    if ra.1.same_as a && rb.1.same_as b then (.Min i a b, rb.2) else mk_min ra.1 rb.1 rb.2
  | .Max i a b, m =>
    let ra := VariableReplacer.mutate replaced_var_name replace_expr a m
    let rb := VariableReplacer.mutate replaced_var_name replace_expr b ra.2
    if ra.1.same_as a && rb.1.same_as b then (.Max i a b, rb.2) else mk_max ra.1 rb.1 rb.2
  | .LE i a b, m =>
    let ra := VariableReplacer.mutate replaced_var_name replace_expr a m
    let rb := VariableReplacer.mutate replaced_var_name replace_expr b ra.2
    if ra.1.same_as a && rb.1.same_as b then (.LE i a b, rb.2) else mk_le ra.1 rb.1 rb.2
  | .GE i a b, m =>
    let ra := VariableReplacer.mutate replaced_var_name replace_expr a m
    let rb := VariableReplacer.mutate replaced_var_name replace_expr b ra.2
    if ra.1.same_as a && rb.1.same_as b then (.GE i a b, rb.2) else mk_ge ra.1 rb.1 rb.2
  | .Select i c t f, m =>
    let rc := VariableReplacer.mutate replaced_var_name replace_expr c m
    let rt := VariableReplacer.mutate replaced_var_name replace_expr t rc.2
    let rf := VariableReplacer.mutate replaced_var_name replace_expr f rt.2
    if rc.1.same_as c && rt.1.same_as t && rf.1.same_as f then (.Select i c t f, rf.2)
    else mk_select rc.1 rt.1 rf.1 rf.2
  | .Let i name v b, m =>
    let rv := VariableReplacer.mutate replaced_var_name replace_expr v m
    let rb := VariableReplacer.mutate replaced_var_name replace_expr b rv.2
    if rv.1.same_as v && rb.1.same_as b then (.Let i name v b, rb.2)
    else mk_let name rv.1 rb.1 rb.2
  | .Call i name ct func args, m =>
    let r := VariableReplacer.mutate_args replaced_var_name replace_expr args m
    if r.2.1 then (.Call r.2.2.next_id name ct func r.1, r.2.2.fresh.2)
    else (.Call i name ct func args, r.2.2)
/-- The loop of `IRMutator::visit(const Call *)` over the arguments: the new
arguments, the flag `changed`, and the memory. -/
def VariableReplacer.mutate_args (replaced_var_name : String) (replace_expr : Expr) :
    List Expr → Memory → List Expr × Bool × Memory
  | [], m => ([], false, m)
  | e :: es, m =>
    let r := VariableReplacer.mutate replaced_var_name replace_expr e m
    let rs := VariableReplacer.mutate_args replaced_var_name replace_expr es r.2
    (r.1 :: rs.1, (!r.1.same_as e) || rs.2.1, rs.2.2)
end

/-- The method `VariableReplacer::replace`. -/
def VariableReplacer.replace (expr : Expr) (replaced_var_name : String) (replace_expr : Expr)
    (m : Memory) : Expr × Memory :=
  VariableReplacer.mutate replaced_var_name replace_expr expr m

/-! ## `inverse` (lines 55-99) -/

/-- The function `inverse(var, expr)`; the final `assert(false)` is `Err.assert_failed`. -/
def inverse (var : String) : Expr → Memory → Except Err (Expr × Memory)
  | .Add _ a b, m =>
    let in_a := VariableFinder.find a var
    let in_b := VariableFinder.find b var
    if in_a && !in_b then
      (inverse var a m).bind fun r => .ok (mk_sub r.1 b r.2)
    else if in_b && !in_a then
      (inverse var b m).bind fun r => .ok (mk_sub r.1 a r.2)
    else .error .assert_failed
  | .Sub _ a b, m =>
    let in_a := VariableFinder.find a var
    let in_b := VariableFinder.find b var
    if in_a && !in_b then
      (inverse var a m).bind fun r => .ok (mk_add r.1 b r.2)
    else if in_b && !in_a then
      (inverse var b m).bind fun r => .ok (mk_sub r.1 a r.2)
    else .error .assert_failed
  | .Max _ a b, m =>
    let in_a := VariableFinder.find a var
    let in_b := VariableFinder.find b var
    if in_a && !in_b then
      (inverse var a m).bind fun r => .ok (mk_max r.1 b r.2)
    else if in_b && !in_a then
      (inverse var b m).bind fun r => .ok (mk_max a r.1 r.2)
    else .error .assert_failed
  | .Min _ a b, m =>
    let in_a := VariableFinder.find a var
    let in_b := VariableFinder.find b var
    if in_a && !in_b then
      (inverse var a m).bind fun r => .ok (mk_min r.1 b r.2)
    else if in_b && !in_a then
      (inverse var b m).bind fun r => .ok (mk_min a r.1 r.2)
    else .error .assert_failed
  | .Variable i name rd, m => .ok (.Variable i name rd, m)
  | _, _ => .error .assert_failed

/-! ## Reduction domains of the host (`RDom.h`) -/

/-- The name the host gives slot `i` of the reduction domain with handle `h`:
the unique domain name followed by `$x`, `$y`, `$z`, `$w` or `$i`. -/
def rvar_name (h i : Nat) : String :=
  "r" ++ toString h ++ "$" ++
    (if i = 0 then "x" else if i = 1 then "y" else if i = 2 then "z" else if i = 3 then "w"
     else toString i)

/-- Slots for a list of `(min, extent)` pairs, numbered from `i`. -/
def rdom_slots (h : Nat) : Nat → List (Expr × Expr) → List ReductionVariable
  | _, [] => []
  | i, r :: rs => { var := rvar_name h i, min := r.1, extent := r.2 } :: rdom_slots h (i + 1) rs

/-- The constructor `RDom(ranges)`: a new reduction domain with one slot per range. -/
def mk_rdom (ranges : List (Expr × Expr)) (m : Memory) : RDom × Memory :=
  (some m.rdoms.length,
    { m with rdoms := m.rdoms ++ [rdom_slots m.rdoms.length 0 ranges] })

/-- The slots behind an `RDom` (`RDom::domain().domain()`). -/
def rdom_domain (rd : RDom) (m : Memory) : Except Err (List ReductionVariable) :=
  match rd with
  | none => .error .undefined
  | some h =>
    match m.rdoms[h]? with
    | none => .error .undefined
    | some dom => .ok dom

/-- The slot `rd[i]` of a reduction domain (`RDom::operator[]`). -/
def rdom_at (rd : RDom) (i : Nat) (m : Memory) : Except Err ReductionVariable :=
  (rdom_domain rd m).bind fun dom =>
    match dom[i]? with
    | none => .error .out_of_range
    | some rv => .ok rv

/-- The conversion of `rd[i]` to an expression: a variable bound to the domain. -/
def rdom_var (rd : RDom) (i : Nat) (m : Memory) : Except Err (Expr × Memory) :=
  (rdom_at rd i m).bind fun rv => .ok (.Variable m.next_id rv.var rd, m.fresh.2)

/-! ## `get_min_max_bounds` and `merge_bounds` (lines 101-145) -/

/-- The loop over `current_args` in `get_min_max_bounds`: the first position, counted
from `i`, whose name is `name`. -/
def find_arg (name : String) : List String → Nat → Option Nat
  | [], _ => none
  | a :: rest, i => if a = name then some i else find_arg name rest (i + 1)

/-- The function `get_min_max_bounds(expr, current_args, current_bounds, index)`. -/
def get_min_max_bounds (current_args : List String) (current_bounds : RDom) (index : Nat) :
    Expr → Memory → Except Err ((Expr × Expr) × Memory)
  | .Add _ a b, m =>
    (get_min_max_bounds current_args current_bounds index a m).bind fun ra =>
      (get_min_max_bounds current_args current_bounds index b ra.2).bind fun rb =>
        .ok (((mk_add ra.1.1 rb.1.1 rb.2).1, (mk_add ra.1.2 rb.1.2 (mk_add ra.1.1 rb.1.1 rb.2).2).1),
          (mk_add ra.1.2 rb.1.2 (mk_add ra.1.1 rb.1.1 rb.2).2).2)
  | .Sub _ a b, m =>
    (get_min_max_bounds current_args current_bounds index a m).bind fun ra =>
      (get_min_max_bounds current_args current_bounds index b ra.2).bind fun rb =>
        .ok (((mk_sub ra.1.1 rb.1.2 rb.2).1, (mk_sub ra.1.2 rb.1.1 (mk_sub ra.1.1 rb.1.2 rb.2).2).1),
          (mk_sub ra.1.2 rb.1.1 (mk_sub ra.1.1 rb.1.2 rb.2).2).2)
  | .Variable _ name rd, m =>
    match rd with
    | some d =>
      (rdom_domain (some d) m).bind fun dom =>
        match dom[index]? with
        | none => .error .out_of_range
        | some rvar =>
          .ok ((rvar.min, (mk_add rvar.min rvar.extent m).1), (mk_add rvar.min rvar.extent m).2)
    | none =>
      match find_arg name current_args 0 with
      | some i => (rdom_at current_bounds i m).bind fun rv => .ok ((rv.min, rv.extent), m)
      | none => .error .internal_error
  | .Max _ a b, m =>
    (get_min_max_bounds current_args current_bounds index a m).bind fun ra =>
      (get_min_max_bounds current_args current_bounds index b ra.2).bind fun rb =>
        .ok (((mk_max ra.1.1 rb.1.1 rb.2).1, (mk_max ra.1.2 rb.1.2 (mk_max ra.1.1 rb.1.1 rb.2).2).1),
          (mk_max ra.1.2 rb.1.2 (mk_max ra.1.1 rb.1.1 rb.2).2).2)
  | .Min _ a b, m =>
    (get_min_max_bounds current_args current_bounds index a m).bind fun ra =>
      (get_min_max_bounds current_args current_bounds index b ra.2).bind fun rb =>
        .ok (((mk_min ra.1.1 rb.1.1 rb.2).1, (mk_min ra.1.2 rb.1.2 (mk_min ra.1.1 rb.1.1 rb.2).2).1),
          (mk_min ra.1.2 rb.1.2 (mk_min ra.1.1 rb.1.1 rb.2).2).2)
  | .IntImm i v, m => .ok ((.IntImm i v, .IntImm i v), m)
  | _, _ => .error .internal_error

/-- The function `merge_bounds(bounds0, bounds1)`. -/
def merge_bounds (bounds0 bounds1 : Expr × Expr) (m : Memory) : (Expr × Expr) × Memory :=
  let lo := mk_min bounds0.1 bounds1.1 m
  let hi := mk_max bounds0.2 bounds1.2 lo.2
  ((lo.1, hi.1), hi.2)

/-! ## `FunctionSorter` (lines 147-210) -/

/-- The stage values of a function in the order of the loop
`for (update_id = num_update_definitions() - 1; update_id >= -1; update_id--)`:
last update first, pure definition (possibly undefined) last. -/
def Function.stage_values (f : Function) : List (Option Expr) :=
  (f.updates.reverse.map fun d => some d.value) ++ [f.value]

/-- The members of `FunctionSorter` with the inherited `visited` set; `functions`
holds the handles of the collected `Func`s. -/
structure FunctionSorter where
  visited : List Nat
  functions : List Nat
  traversed_functions : List String

/-- The inherited `IRGraphVisitor::include`, given the dispatch of the node. -/
def FunctionSorter.include_with (id : Nat)
    (accept : FunctionSorter → Except Err FunctionSorter) (s : FunctionSorter) :
    Except Err FunctionSorter :=
  if id ∈ s.visited then .ok s else accept { s with visited := id :: s.visited }

mutual
/-- Dispatch `e.accept(this)` for a `FunctionSorter`; `sort_func` is `sort(const Func &)`.
The case of `Call` is `FunctionSorter::visit(const Call *)`. -/
def FunctionSorter.accept (sort_func : Nat → FunctionSorter → Except Err FunctionSorter)
    (mem : Memory) : Expr → FunctionSorter → Except Err FunctionSorter
  | .IntImm _ _, s => .ok s
  | .FloatImm _ _, s => .ok s
  | .Variable _ _ _, s => .ok s
  | .Cast _ v, s => FunctionSorter.include_with v.id (FunctionSorter.accept sort_func mem v) s
  | .Add _ a b, s => (FunctionSorter.include_with a.id (FunctionSorter.accept sort_func mem a) s).bind
      (FunctionSorter.include_with b.id (FunctionSorter.accept sort_func mem b))
  | .Sub _ a b, s => (FunctionSorter.include_with a.id (FunctionSorter.accept sort_func mem a) s).bind
      (FunctionSorter.include_with b.id (FunctionSorter.accept sort_func mem b))
  | .Mul _ a b, s => (FunctionSorter.include_with a.id (FunctionSorter.accept sort_func mem a) s).bind
      (FunctionSorter.include_with b.id (FunctionSorter.accept sort_func mem b))
  | .Div _ a b, s => (FunctionSorter.include_with a.id (FunctionSorter.accept sort_func mem a) s).bind
      (FunctionSorter.include_with b.id (FunctionSorter.accept sort_func mem b))
  | .Min _ a b, s => (FunctionSorter.include_with a.id (FunctionSorter.accept sort_func mem a) s).bind
      (FunctionSorter.include_with b.id (FunctionSorter.accept sort_func mem b))
  | .Max _ a b, s => (FunctionSorter.include_with a.id (FunctionSorter.accept sort_func mem a) s).bind
      (FunctionSorter.include_with b.id (FunctionSorter.accept sort_func mem b))
  | .LE _ a b, s => (FunctionSorter.include_with a.id (FunctionSorter.accept sort_func mem a) s).bind
      (FunctionSorter.include_with b.id (FunctionSorter.accept sort_func mem b))
  | .GE _ a b, s => (FunctionSorter.include_with a.id (FunctionSorter.accept sort_func mem a) s).bind
      (FunctionSorter.include_with b.id (FunctionSorter.accept sort_func mem b))
  | .Select _ c t f, s =>
    ((FunctionSorter.include_with c.id (FunctionSorter.accept sort_func mem c) s).bind
      (FunctionSorter.include_with t.id (FunctionSorter.accept sort_func mem t))).bind
      (FunctionSorter.include_with f.id (FunctionSorter.accept sort_func mem f))
  | .Let _ _ v b, s => (FunctionSorter.include_with v.id (FunctionSorter.accept sort_func mem v) s).bind
      (FunctionSorter.include_with b.id (FunctionSorter.accept sort_func mem b))
  | .Call _ _ call_type func args, s =>
    if call_type = .Halide then
      match func with
      | none => .error .undefined
      | some h =>
        match mem.funcs[h]? with
        | none => .error .undefined
        | some f =>
          if f.name ∈ s.traversed_functions then .ok s else sort_func h s
    else FunctionSorter.accept_list sort_func mem args s
/-- The loop `include(op->args[i])` over the arguments of a call. -/
def FunctionSorter.accept_list (sort_func : Nat → FunctionSorter → Except Err FunctionSorter)
    (mem : Memory) : List Expr → FunctionSorter → Except Err FunctionSorter
  | [], s => .ok s
  | e :: es, s =>
    (FunctionSorter.include_with e.id (FunctionSorter.accept sort_func mem e) s).bind
      (FunctionSorter.accept_list sort_func mem es)
end

/-- The loop over the stages of a function: `accept` on each stage value. -/
def FunctionSorter.accept_stages (sort_func : Nat → FunctionSorter → Except Err FunctionSorter)
    (mem : Memory) : List (Option Expr) → FunctionSorter → Except Err FunctionSorter
  | [], s => .ok s
  | none :: _, _ => .error .user_error
  | some e :: rest, s =>
    (FunctionSorter.accept sort_func mem e s).bind (FunctionSorter.accept_stages sort_func mem rest)

/-- The method `FunctionSorter::sort(const Func &)` for the function with handle `h`.
The first argument bounds the depth of nested calls of this method. -/
def FunctionSorter.sort_func (mem : Memory) :
    Nat → Nat → FunctionSorter → Except Err FunctionSorter
  | 0, _, _ => .error .fuel
  | fuel + 1, h, s =>
    match mem.funcs[h]? with
    | none => .error .undefined
    | some f =>
      FunctionSorter.accept_stages (FunctionSorter.sort_func mem fuel) mem f.stage_values
        { s with traversed_functions := f.name :: s.traversed_functions,
                 functions := s.functions ++ [h] }

/-- The method `FunctionSorter::sort(const Expr &)` on a new sorter, followed by
`get_functions()`. -/
def FunctionSorter.sort (mem : Memory) (fuel : Nat) (expr : Expr) : Except Err (List Nat) :=
  (FunctionSorter.accept (FunctionSorter.sort_func mem fuel) mem expr
    { visited := [], functions := [], traversed_functions := [] }).map fun s => s.functions

/-! ## `ExpressionSorter` (lines 213-258) -/

/-- The members of `ExpressionSorter` with the inherited `visited` set. -/
structure ExpressionSorter where
  visited : List Nat
  expr_list : List Expr

/-- The method `ExpressionSorter::include`, given the dispatch of the node. -/
def ExpressionSorter.include_with (e : Expr) (accept : ExpressionSorter → ExpressionSorter)
    (s : ExpressionSorter) : ExpressionSorter :=
  if e.id ∈ s.visited then s
  else
    let s1 := accept { s with visited := e.id :: s.visited }
    { s1 with expr_list := s1.expr_list ++ [e] }

mutual
/-- Dispatch `e.accept(this)` for an `ExpressionSorter`.  The case of `Call` is
`ExpressionSorter::visit(const Call *)`. -/
def ExpressionSorter.accept : Expr → ExpressionSorter → ExpressionSorter
  | .IntImm _ _, s => s
  | .FloatImm _ _, s => s
  | .Variable _ _ _, s => s
  | .Cast _ v, s => ExpressionSorter.include_with v (ExpressionSorter.accept v) s
  | .Add _ a b, s => ExpressionSorter.include_with b (ExpressionSorter.accept b)
      (ExpressionSorter.include_with a (ExpressionSorter.accept a) s)
  | .Sub _ a b, s => ExpressionSorter.include_with b (ExpressionSorter.accept b)
      (ExpressionSorter.include_with a (ExpressionSorter.accept a) s)
  | .Mul _ a b, s => ExpressionSorter.include_with b (ExpressionSorter.accept b)
      (ExpressionSorter.include_with a (ExpressionSorter.accept a) s)
  | .Div _ a b, s => ExpressionSorter.include_with b (ExpressionSorter.accept b)
      (ExpressionSorter.include_with a (ExpressionSorter.accept a) s)
  | .Min _ a b, s => ExpressionSorter.include_with b (ExpressionSorter.accept b)
      (ExpressionSorter.include_with a (ExpressionSorter.accept a) s)
  | .Max _ a b, s => ExpressionSorter.include_with b (ExpressionSorter.accept b)
      (ExpressionSorter.include_with a (ExpressionSorter.accept a) s)
  | .LE _ a b, s => ExpressionSorter.include_with b (ExpressionSorter.accept b)
      (ExpressionSorter.include_with a (ExpressionSorter.accept a) s)
  | .GE _ a b, s => ExpressionSorter.include_with b (ExpressionSorter.accept b)
      (ExpressionSorter.include_with a (ExpressionSorter.accept a) s)
  | .Select _ c t f, s => ExpressionSorter.include_with f (ExpressionSorter.accept f)
      (ExpressionSorter.include_with t (ExpressionSorter.accept t)
        (ExpressionSorter.include_with c (ExpressionSorter.accept c) s))
  | .Let _ _ v b, s => ExpressionSorter.include_with b (ExpressionSorter.accept b)
      (ExpressionSorter.include_with v (ExpressionSorter.accept v) s)
  | .Call _ _ call_type _ args, s =>
    if call_type = .Halide ∨ call_type = .Image then s
    else ExpressionSorter.accept_list args s
/-- The loop `include(op->args[i])` over the arguments of a call. -/
def ExpressionSorter.accept_list : List Expr → ExpressionSorter → ExpressionSorter
  | [], s => s
  | e :: es, s =>
    ExpressionSorter.accept_list es (ExpressionSorter.include_with e (ExpressionSorter.accept e) s)
end

/-- The method `ExpressionSorter::sort`, followed by `get_expr_list()`. -/
def ExpressionSorter.sort (e : Expr) : List Expr :=
  (ExpressionSorter.accept e { visited := [], expr_list := [] }).expr_list ++ [e]

/-! ## `BoundsInferencer` (lines 260-342) -/

/-- The members of `BoundsInferencer` with the inherited `visited` set, and the
memory in which it allocates nodes and reduction domains. -/
structure BoundsInferencer where
  visited : List Nat
  func_bounds : List (String × RDom)
  traversed_functions : List String
  current_args : List String
  current_bounds : RDom
  mem : Memory

/-- The inherited `IRGraphVisitor::include`, given the dispatch of the node. -/
def BoundsInferencer.include_with (id : Nat)
    (accept : BoundsInferencer → Except Err BoundsInferencer) (s : BoundsInferencer) :
    Except Err BoundsInferencer :=
  if id ∈ s.visited then .ok s else accept { s with visited := id :: s.visited }

/-- The first loop of `BoundsInferencer::visit(const Call *)`: the `(min, extent)`
pair of every argument, the argument at position `i` being estimated with index `i`. -/
def BoundsInferencer.arg_bounds (current_args : List String) (current_bounds : RDom) :
    List Expr → Nat → Memory → Except Err (List (Expr × Expr) × Memory)
  | [], _, m => .ok ([], m)
  | a :: rest, i, m =>
    (get_min_max_bounds current_args current_bounds i a m).bind fun min_max_bounds =>
      (BoundsInferencer.arg_bounds current_args current_bounds rest (i + 1)
        (mk_sub min_max_bounds.1.2 min_max_bounds.1.1 min_max_bounds.2).2).bind fun rs =>
        .ok ((min_max_bounds.1.1,
          (mk_sub min_max_bounds.1.2 min_max_bounds.1.1 min_max_bounds.2).1) :: rs.1, rs.2)

/-- The second loop of `BoundsInferencer::visit(const Call *)`:
`arg_bounds[i] = merge_bounds({domain[i].min, domain[i].min + domain[i].extent}, arg_bounds[i])`. -/
def BoundsInferencer.merge_args :
    List ReductionVariable → List (Expr × Expr) → Memory → List (Expr × Expr) × Memory
  | d :: ds, b :: bs, m =>
    let hi := mk_add d.min d.extent m
    let merged := merge_bounds (d.min, hi.1) b hi.2
    let rest := BoundsInferencer.merge_args ds bs merged.2
    (merged.1 :: rest.1, rest.2)
  | _, _, m => ([], m)

/-- The block `if (func_bounds.find(func.name()) != func_bounds.end())` of
`BoundsInferencer::visit(const Call *)` (lines 311-319), with its `assert`. -/
def BoundsInferencer.merge_previous (previous : Option RDom) (arg_bounds : List (Expr × Expr))
    (m : Memory) : Except Err (List (Expr × Expr) × Memory) :=
  match previous with
  | none => .ok (arg_bounds, m)
  | some prev_rdom =>
    (rdom_domain prev_rdom m).bind fun domain =>
      if arg_bounds.length = domain.length then
        .ok (BoundsInferencer.merge_args domain arg_bounds m)
      else .error .assert_failed

/-- The part of `BoundsInferencer::visit(const Call *)` that updates `func_bounds`
for a call of the function `f` with arguments `args` (lines 303-320). -/
def BoundsInferencer.update_bounds (f : Function) (args : List Expr) (s : BoundsInferencer) :
    Except Err BoundsInferencer :=
  (BoundsInferencer.arg_bounds s.current_args s.current_bounds args 0 s.mem).bind fun ab =>
    (BoundsInferencer.merge_previous (map_find f.name s.func_bounds) ab.1 ab.2).bind fun merged =>
      .ok { s with func_bounds := map_set f.name (mk_rdom merged.1 merged.2).1 s.func_bounds,
                   mem := (mk_rdom merged.1 merged.2).2 }

mutual
/-- Dispatch `e.accept(this)` for a `BoundsInferencer`; `inference_func` is
`inference(const Func &)`.  The case of `Call` is `BoundsInferencer::visit(const Call *)`. -/
def BoundsInferencer.accept
    (inference_func : Nat → BoundsInferencer → Except Err BoundsInferencer) :
    Expr → BoundsInferencer → Except Err BoundsInferencer
  | .IntImm _ _, s => .ok s
  | .FloatImm _ _, s => .ok s
  | .Variable _ _ _, s => .ok s
  | .Cast _ v, s => BoundsInferencer.include_with v.id (BoundsInferencer.accept inference_func v) s
  | .Add _ a b, s => (BoundsInferencer.include_with a.id (BoundsInferencer.accept inference_func a) s).bind
      (BoundsInferencer.include_with b.id (BoundsInferencer.accept inference_func b))
  | .Sub _ a b, s => (BoundsInferencer.include_with a.id (BoundsInferencer.accept inference_func a) s).bind
      (BoundsInferencer.include_with b.id (BoundsInferencer.accept inference_func b))
  | .Mul _ a b, s => (BoundsInferencer.include_with a.id (BoundsInferencer.accept inference_func a) s).bind
      (BoundsInferencer.include_with b.id (BoundsInferencer.accept inference_func b))
  | .Div _ a b, s => (BoundsInferencer.include_with a.id (BoundsInferencer.accept inference_func a) s).bind
      (BoundsInferencer.include_with b.id (BoundsInferencer.accept inference_func b))
  | .Min _ a b, s => (BoundsInferencer.include_with a.id (BoundsInferencer.accept inference_func a) s).bind
      (BoundsInferencer.include_with b.id (BoundsInferencer.accept inference_func b))
  | .Max _ a b, s => (BoundsInferencer.include_with a.id (BoundsInferencer.accept inference_func a) s).bind
      (BoundsInferencer.include_with b.id (BoundsInferencer.accept inference_func b))
  | .LE _ a b, s => (BoundsInferencer.include_with a.id (BoundsInferencer.accept inference_func a) s).bind
      (BoundsInferencer.include_with b.id (BoundsInferencer.accept inference_func b))
  | .GE _ a b, s => (BoundsInferencer.include_with a.id (BoundsInferencer.accept inference_func a) s).bind
      (BoundsInferencer.include_with b.id (BoundsInferencer.accept inference_func b))
  | .Select _ c t f, s =>
    ((BoundsInferencer.include_with c.id (BoundsInferencer.accept inference_func c) s).bind
      (BoundsInferencer.include_with t.id (BoundsInferencer.accept inference_func t))).bind
      (BoundsInferencer.include_with f.id (BoundsInferencer.accept inference_func f))
  | .Let _ _ v b, s =>
    (BoundsInferencer.include_with v.id (BoundsInferencer.accept inference_func v) s).bind
      (BoundsInferencer.include_with b.id (BoundsInferencer.accept inference_func b))
  | .Call _ _ call_type func args, s =>
    if call_type = .Halide then
      match func with
      | none => .error .undefined
      | some h =>
        match s.mem.funcs[h]? with
        | none => .error .undefined
        | some f =>
          (BoundsInferencer.update_bounds f args s).bind fun s1 =>
            if f.name ∈ s1.traversed_functions then .ok s1
            else
              match map_find f.name s1.func_bounds with
              | none => .error .undefined
              | some rd =>
                (inference_func h { s1 with current_bounds := rd, current_args := f.args }).bind
                  fun s2 => .ok { s2 with current_args := s1.current_args,
                                          current_bounds := s1.current_bounds }
    else BoundsInferencer.accept_list inference_func args s
/-- The loop `include(op->args[i])` over the arguments of a call. -/
def BoundsInferencer.accept_list
    (inference_func : Nat → BoundsInferencer → Except Err BoundsInferencer) :
    List Expr → BoundsInferencer → Except Err BoundsInferencer
  | [], s => .ok s
  | e :: es, s =>
    (BoundsInferencer.include_with e.id (BoundsInferencer.accept inference_func e) s).bind
      (BoundsInferencer.accept_list inference_func es)
end

/-- The loop over the stages of a function: `accept` on each stage value. -/
def BoundsInferencer.accept_stages
    (inference_func : Nat → BoundsInferencer → Except Err BoundsInferencer) :
    List (Option Expr) → BoundsInferencer → Except Err BoundsInferencer
  | [], s => .ok s
  | none :: _, _ => .error .user_error
  | some e :: rest, s =>
    (BoundsInferencer.accept inference_func e s).bind
      (BoundsInferencer.accept_stages inference_func rest)

/-- The method `BoundsInferencer::inference(const Func &)` for the function with
handle `h`.  The first argument bounds the depth of nested calls of this method. -/
def BoundsInferencer.inference_func :
    Nat → Nat → BoundsInferencer → Except Err BoundsInferencer
  | 0, _, _ => .error .fuel
  | fuel + 1, h, s =>
    match s.mem.funcs[h]? with
    | none => .error .undefined
    | some f =>
      BoundsInferencer.accept_stages (BoundsInferencer.inference_func fuel) f.stage_values
        { s with traversed_functions := f.name :: s.traversed_functions }

/-- The method `BoundsInferencer::inference(const Expr &)` on a new inferencer,
followed by `get_func_bounds()`; the memory holds the nodes and domains it built. -/
def BoundsInferencer.inference (mem : Memory) (fuel : Nat) (expr : Expr) :
    Except Err (List (String × RDom) × Memory) :=
  (BoundsInferencer.accept (BoundsInferencer.inference_func fuel) expr
    { visited := [], func_bounds := [], traversed_functions := [], current_args := [],
      current_bounds := none, mem := mem }).map fun s => (s.func_bounds, s.mem)

/-! ## Function objects of the host (`Func.h`, `Function.h`) -/

/-- Replace the function behind handle `h`. -/
def Memory.set_func (m : Memory) (h : Nat) (f : Function) : Memory :=
  { m with funcs := m.funcs.set h f }

/-- The constructor `Func(name)`: a new function object without definition. -/
def mk_func (name : String) (m : Memory) : Nat × Memory :=
  (m.funcs.length,
    { m with funcs := m.funcs ++ [{ name := name, args := [], value := none, updates := [] }] })

/-- The default constructor `Func()`: a new function object with a generated name. -/
def mk_func_default (m : Memory) : Nat × Memory :=
  mk_func ("f" ++ toString m.funcs.length) m

/-- The statement `f(args) = value` for pure variables `args`: the pure definition
of a function that has none, otherwise a further update definition. -/
def func_define (h : Nat) (args : List String) (value : Expr) (m : Memory) :
    Except Err Memory :=
  match m.funcs[h]? with
  | none => .error .undefined
  | some f =>
    match f.value with
    | none => .ok (m.set_func h { f with args := args, value := some value })
    | some _ =>
      if args.length = f.args.length then
        let a := mk_vars args m
        .ok (a.2.set_func h { f with updates := f.updates ++ [{ args := a.1, value := value }] })
      else .error .user_error

/-- The host helper `define_base_case`: a function without pure definition gets the
base case `f(args) = 0`. -/
def define_base_case (h : Nat) (args : List String) (m : Memory) : Except Err Memory :=
  match m.funcs[h]? with
  | none => .error .undefined
  | some f =>
    match f.value with
    | none => .ok ((mk_float 0 m).2.set_func h { f with args := args, value := some (mk_float 0 m).1 })
    | some _ => .ok m

/-- The statement `f(args) += e` for pure variables `args` (`FuncRef::operator+=`):
a function without pure definition first gets the base case `f(args) = 0`; the
update definition added is `f(args) = f(args) + e`. -/
def func_add_update (h : Nat) (args : List String) (e : Expr) (m : Memory) :
    Except Err Memory :=
  (define_base_case h args (mk_vars args m).2).bind fun m1 =>
    (mk_call h (mk_vars args m).1 m1).bind fun self_ref =>
      match self_ref.2.funcs[h]? with
      | none => .error .undefined
      | some f =>
        if args.length = f.args.length then
          .ok ((mk_add self_ref.1 e self_ref.2).2.set_func h
            { f with updates := f.updates ++
                [{ args := (mk_vars args m).1, value := (mk_add self_ref.1 e self_ref.2).1 }] })
        else .error .user_error

/-! ## `ReverseAccumulationVisitor` (lines 345-615) -/

/-- The members of `ReverseAccumulationVisitor`, and the memory in which it
allocates nodes and function objects.  A `Func` member is the handle of its function. -/
structure ReverseAccumulationVisitor where
  accumulated_adjoints : List (Nat × Expr)
  adjoint_funcs : List (String × Nat)
  tmp_adjoint_func : Nat
  let_var_mapping : List (String × Expr)
  func_bounds : List (String × RDom)
  current_bounds : RDom
  current_args : List String
  current_func_name : String
  mem : Memory

/-- A newly constructed visitor: empty maps, and `tmp_adjoint_func` default constructed. -/
def ReverseAccumulationVisitor.new (m : Memory) : ReverseAccumulationVisitor :=
  { accumulated_adjoints := [], adjoint_funcs := [], tmp_adjoint_func := (mk_func_default m).1,
    let_var_mapping := [], func_bounds := [], current_bounds := none, current_args := [],
    current_func_name := "", mem := (mk_func_default m).2 }

/-- The method `accumulate(stub, adjoint)`. -/
def ReverseAccumulationVisitor.accumulate (stub adjoint : Expr)
    (s : ReverseAccumulationVisitor) : ReverseAccumulationVisitor :=
  match map_find stub.id s.accumulated_adjoints with
  | none => { s with accumulated_adjoints := map_set stub.id adjoint s.accumulated_adjoints }
  | some old =>
    let sum := mk_add old adjoint s.mem
    { s with accumulated_adjoints := map_set stub.id sum.1 s.accumulated_adjoints, mem := sum.2 }

/-- The opening of every `visit`: `assert(accumulated_adjoints.find(op) != end)` and
the read `accumulated_adjoints[op]`. -/
def ReverseAccumulationVisitor.adjoint_of (id : Nat) (s : ReverseAccumulationVisitor) :
    Except Err Expr :=
  match map_find id s.accumulated_adjoints with
  | none => .error .assert_failed
  | some adjoint => .ok adjoint

/-- The access `adjoint_funcs[name]` of `std::map::operator[]`: the handle stored for
`name`; a missing key is added with a default constructed `Func`. -/
def ReverseAccumulationVisitor.adjoint_funcs_at (name : String)
    (s : ReverseAccumulationVisitor) : Nat × ReverseAccumulationVisitor :=
  match map_find name s.adjoint_funcs with
  | some h => (h, s)
  | none =>
    let f := mk_func_default s.mem
    (f.1, { s with adjoint_funcs := map_set name f.1 s.adjoint_funcs, mem := f.2 })

/-- The body of the loop of `visit(const Call *)` that canonicalizes the left-hand
side (lines 581-599) for position `i`: `x` is `args[i]`, the `i`-th argument of the
callee, and `arg` is `op->args[i]`. -/
def ReverseAccumulationVisitor.canonicalize_arg (x : String) (current_bounds : RDom) (i : Nat)
    (arg adjoint : Expr) (m : Memory) : Except Err (Expr × Memory) :=
  if !VariableFinder.find arg x then
    (if VariableFinder.find adjoint x then
        (rdom_var current_bounds i m).bind fun rv =>
          .ok (VariableReplacer.replace adjoint x rv.1 rv.2)
      else .ok (adjoint, m)).bind fun r1 =>
      match arg with
      | .Variable _ name (some _) =>
        .ok (VariableReplacer.replace r1.1 name (mk_var x r1.2).1 (mk_var x r1.2).2)
      | _ => .ok r1
  else
    (inverse x arg m).bind fun inverse_arg =>
      .ok (VariableReplacer.replace adjoint x inverse_arg.1 inverse_arg.2)

/-- The loop of `visit(const Call *)` that canonicalizes the left-hand side (lines
580-600): `func_args` are the arguments of the callee, the list is `op->args` from
position `i` on. -/
def ReverseAccumulationVisitor.canonicalize (func_args : List String) (current_bounds : RDom) :
    List Expr → Nat → Expr → Memory → Except Err (Expr × Memory)
  | [], _, adjoint, m => .ok (adjoint, m)
  | arg :: rest, i, adjoint, m =>
    match func_args[i]? with
    | none => .error .out_of_range
    | some x =>
      (ReverseAccumulationVisitor.canonicalize_arg x current_bounds i arg adjoint m).bind fun r =>
        ReverseAccumulationVisitor.canonicalize func_args current_bounds rest (i + 1) r.1 r.2

/-- The part of `visit(const Call *)` for a call with a defined function (lines
554-606); the debug output, `print_func` included, is left out. -/
def ReverseAccumulationVisitor.scatter (h : Nat) (args : List Expr) (adjoint : Expr)
    (s : ReverseAccumulationVisitor) : Except Err ReverseAccumulationVisitor :=
  match s.mem.funcs[h]? with
  | none => .error .undefined
  | some func =>
    let target :=
      if func.name ≠ s.current_func_name then
        ReverseAccumulationVisitor.adjoint_funcs_at func.name s
      else (s.tmp_adjoint_func, s)
    match map_find func.name target.2.func_bounds with
    | none => .error .assert_failed
    | some _ =>
      (ReverseAccumulationVisitor.canonicalize func.args target.2.current_bounds args 0 adjoint
        target.2.mem).bind fun r =>
        (func_add_update target.1 func.args r.1 r.2).bind fun m =>
          .ok { target.2 with mem := m }

/-- The loop of `visit(const Call *)` for `exp_f32` (lines 547-552). -/
def ReverseAccumulationVisitor.accumulate_exp (adjoint : Expr) :
    List Expr → ReverseAccumulationVisitor → ReverseAccumulationVisitor
  | [], s => s
  | arg :: rest, s =>
    let e := mk_exp arg s.mem
    let p := mk_mul adjoint e.1 e.2
    ReverseAccumulationVisitor.accumulate_exp adjoint rest
      (ReverseAccumulationVisitor.accumulate arg p.1 { s with mem := p.2 })

/-- Dispatch `e.accept(this)` for the engine: the `visit` methods of lines 466-615;
for `LE`, `GE` and `Select`, which the class does not override, the inherited
`IRVisitor::visit` dispatches to the operands from left to right, and the inherited
methods for constants do nothing. -/
def ReverseAccumulationVisitor.accept :
    Expr → ReverseAccumulationVisitor → Except Err ReverseAccumulationVisitor
  | .IntImm _ _, s => .ok s
  | .FloatImm _ _, s => .ok s
  | .Cast i value, s =>
    (ReverseAccumulationVisitor.adjoint_of i s).bind fun adjoint =>
      .ok (ReverseAccumulationVisitor.accumulate value adjoint s)
  | .Variable i name _, s =>
    (ReverseAccumulationVisitor.adjoint_of i s).bind fun adjoint =>
      match map_find name s.let_var_mapping with
      | some value =>
        let l := mk_let name value adjoint s.mem
        .ok (ReverseAccumulationVisitor.accumulate value l.1 { s with mem := l.2 })
      | none => .ok s
  | .Add i a b, s =>
    (ReverseAccumulationVisitor.adjoint_of i s).bind fun adjoint =>
      .ok (ReverseAccumulationVisitor.accumulate b adjoint
        (ReverseAccumulationVisitor.accumulate a adjoint s))
  | .Sub i a b, s =>
    (ReverseAccumulationVisitor.adjoint_of i s).bind fun adjoint =>
      let s1 := ReverseAccumulationVisitor.accumulate a adjoint s
      let n := mk_neg adjoint s1.mem
      .ok (ReverseAccumulationVisitor.accumulate b n.1 { s1 with mem := n.2 })
  | .Mul i a b, s =>
    (ReverseAccumulationVisitor.adjoint_of i s).bind fun adjoint =>
      let pa := mk_mul adjoint b s.mem
      let s1 := ReverseAccumulationVisitor.accumulate a pa.1 { s with mem := pa.2 }
      let pb := mk_mul adjoint a s1.mem
      .ok (ReverseAccumulationVisitor.accumulate b pb.1 { s1 with mem := pb.2 })
  | .Div i a b, s =>
    (ReverseAccumulationVisitor.adjoint_of i s).bind fun adjoint =>
      let qa := mk_div adjoint b s.mem
      let s1 := ReverseAccumulationVisitor.accumulate a qa.1 { s with mem := qa.2 }
      let n := mk_neg adjoint s1.mem
      let na := mk_mul n.1 a n.2
      let bb := mk_mul b b na.2
      let qb := mk_div na.1 bb.1 bb.2
      .ok (ReverseAccumulationVisitor.accumulate b qb.1 { s1 with mem := qb.2 })
  | .Min i a b, s =>
    (ReverseAccumulationVisitor.adjoint_of i s).bind fun adjoint =>
      let ca := mk_le a b s.mem
      let za := mk_float 0 ca.2
      let sa := mk_select ca.1 adjoint za.1 za.2
      let s1 := ReverseAccumulationVisitor.accumulate a sa.1 { s with mem := sa.2 }
      let cb := mk_le b a s1.mem
      let zb := mk_float 0 cb.2
      let sb := mk_select cb.1 adjoint zb.1 zb.2
      .ok (ReverseAccumulationVisitor.accumulate b sb.1 { s1 with mem := sb.2 })
  | .Max i a b, s =>
    (ReverseAccumulationVisitor.adjoint_of i s).bind fun adjoint =>
      let ca := mk_ge a b s.mem
      let za := mk_float 0 ca.2
      let sa := mk_select ca.1 adjoint za.1 za.2
      let s1 := ReverseAccumulationVisitor.accumulate a sa.1 { s with mem := sa.2 }
      let cb := mk_ge b a s1.mem
      let zb := mk_float 0 cb.2
      let sb := mk_select cb.1 adjoint zb.1 zb.2
      .ok (ReverseAccumulationVisitor.accumulate b sb.1 { s1 with mem := sb.2 })
  | .Call i name _ func args, s =>
    (ReverseAccumulationVisitor.adjoint_of i s).bind fun adjoint =>
      let s1 :=
        if name = "exp_f32" then ReverseAccumulationVisitor.accumulate_exp adjoint args s
        else s
      match func with
      | some h => ReverseAccumulationVisitor.scatter h args adjoint s1
      | none => .ok s1
  | .Let i name value body, s =>
    (ReverseAccumulationVisitor.adjoint_of i s).bind fun adjoint =>
      let s1 := ReverseAccumulationVisitor.accumulate body adjoint s
      .ok { s1 with let_var_mapping := map_set name value s1.let_var_mapping }
  | .LE _ a b, s =>
    (ReverseAccumulationVisitor.accept a s).bind (ReverseAccumulationVisitor.accept b)
  | .GE _ a b, s =>
    (ReverseAccumulationVisitor.accept a s).bind (ReverseAccumulationVisitor.accept b)
  | .Select _ c t f, s =>
    ((ReverseAccumulationVisitor.accept c s).bind (ReverseAccumulationVisitor.accept t)).bind
      (ReverseAccumulationVisitor.accept f)

/-- The loop `for (it = expr_list.rbegin(); it != expr_list.rend(); it++) it->accept(this)`,
given the list already reversed. -/
def ReverseAccumulationVisitor.walk :
    List Expr → ReverseAccumulationVisitor → Except Err ReverseAccumulationVisitor
  | [], s => .ok s
  | e :: rest, s =>
    (ReverseAccumulationVisitor.accept e s).bind (ReverseAccumulationVisitor.walk rest)

/-- One turn of the loop of lines 390-394: the stub `name_d__(args) = 0.f` for the
function with handle `h`, stored under the name of the function. -/
def ReverseAccumulationVisitor.create_stub (h : Nat) (s : ReverseAccumulationVisitor) :
    Except Err ReverseAccumulationVisitor :=
  match s.mem.funcs[h]? with
  | none => .error .undefined
  | some func =>
    let adjoint_func := mk_func (func.name ++ "_d__") s.mem
    let zero := mk_float 0 adjoint_func.2
    (func_define adjoint_func.1 func.args zero.1 zero.2).bind fun m =>
      .ok { s with adjoint_funcs := map_set func.name adjoint_func.1 s.adjoint_funcs, mem := m }

/-- The loop of lines 390-394 over `funcs`. -/
def ReverseAccumulationVisitor.create_stubs :
    List Nat → ReverseAccumulationVisitor → Except Err ReverseAccumulationVisitor
  | [], s => .ok s
  | h :: rest, s =>
    (ReverseAccumulationVisitor.create_stub h s).bind
      (ReverseAccumulationVisitor.create_stubs rest)

/-- The block `if (update_id == func.num_update_definitions() - 1)` (lines 430-437):
the adjoint of the root `value` of the stage is set to a call of the adjoint of
`func` at the arguments of `func`. -/
def ReverseAccumulationVisitor.seed_root (func : Function) (value : Expr)
    (s : ReverseAccumulationVisitor) : Except Err ReverseAccumulationVisitor :=
  (mk_call
    (ReverseAccumulationVisitor.adjoint_funcs_at func.name
      { s with mem := (mk_vars func.args s.mem).2 }).1
    (mk_vars func.args s.mem).1
    (ReverseAccumulationVisitor.adjoint_funcs_at func.name
      { s with mem := (mk_vars func.args s.mem).2 }).2.mem).bind fun c =>
    .ok { (ReverseAccumulationVisitor.adjoint_funcs_at func.name
            { s with mem := (mk_vars func.args s.mem).2 }).2 with
      accumulated_adjoints := map_set value.id c.1 s.accumulated_adjoints,
      mem := c.2 }

/-- The statements of lines 440-441: `tmp_adjoint_func` becomes a new function
`name_d__(args) = 0.f`. -/
def ReverseAccumulationVisitor.new_tmp (func : Function) (s : ReverseAccumulationVisitor) :
    Except Err ReverseAccumulationVisitor :=
  (func_define (mk_func (func.name ++ "_d__") s.mem).1 func.args
    (mk_float 0 (mk_func (func.name ++ "_d__") s.mem).2).1
    (mk_float 0 (mk_func (func.name ++ "_d__") s.mem).2).2).bind fun m =>
    .ok { s with tmp_adjoint_func := (mk_func (func.name ++ "_d__") s.mem).1, mem := m }

/-- The statements of lines 450-452: the adjoint of `func` is added to
`tmp_adjoint_func`, which then replaces it in `adjoint_funcs`. -/
def ReverseAccumulationVisitor.add_back (func : Function) (s : ReverseAccumulationVisitor) :
    Except Err ReverseAccumulationVisitor :=
  match (ReverseAccumulationVisitor.adjoint_funcs_at func.name s).2.mem.funcs[
      (ReverseAccumulationVisitor.adjoint_funcs_at func.name s).1]? with
  | none => .error .undefined
  | some adjoint_func =>
    (mk_call (ReverseAccumulationVisitor.adjoint_funcs_at func.name s).1
      (mk_vars adjoint_func.args (ReverseAccumulationVisitor.adjoint_funcs_at func.name s).2.mem).1
      (mk_vars adjoint_func.args
        (ReverseAccumulationVisitor.adjoint_funcs_at func.name s).2.mem).2).bind fun rhs =>
      (func_add_update (ReverseAccumulationVisitor.adjoint_funcs_at func.name s).2.tmp_adjoint_func
        adjoint_func.args rhs.1 rhs.2).bind fun m =>
        .ok { (ReverseAccumulationVisitor.adjoint_funcs_at func.name s).2 with
          adjoint_funcs := map_set func.name
            (ReverseAccumulationVisitor.adjoint_funcs_at func.name s).2.tmp_adjoint_func
            (ReverseAccumulationVisitor.adjoint_funcs_at func.name s).2.adjoint_funcs,
          mem := m }

/-- The body of the loop over `update_id` (lines 415-452) for one stage value of
`func`; `is_last_update` is the test `update_id == func.num_update_definitions() - 1`. -/
def ReverseAccumulationVisitor.propagate_stage (func : Function) (stage : Option Expr)
    (is_last_update : Bool) (s : ReverseAccumulationVisitor) :
    Except Err ReverseAccumulationVisitor :=
  match stage with
  | none => .error .user_error
  | some value =>
    match map_find func.name s.func_bounds with
    | none => .error .assert_failed
    | some bounds =>
      ((if is_last_update then
          ReverseAccumulationVisitor.seed_root func value
            { s with current_bounds := bounds, current_args := func.args }
        else .ok { s with current_bounds := bounds, current_args := func.args }).bind
        (ReverseAccumulationVisitor.new_tmp func)).bind fun s3 =>
        (ReverseAccumulationVisitor.walk (ExpressionSorter.sort value).reverse s3).bind
          (ReverseAccumulationVisitor.add_back func)

/-- The loop over `update_id` (line 414) along the stage values of `func`. -/
def ReverseAccumulationVisitor.propagate_stages (func : Function) :
    List (Option Expr) → Bool → ReverseAccumulationVisitor →
      Except Err ReverseAccumulationVisitor
  | [], _, s => .ok s
  | stage :: rest, is_last_update, s =>
    (ReverseAccumulationVisitor.propagate_stage func stage is_last_update s).bind
      (ReverseAccumulationVisitor.propagate_stages func rest false)

/-- The body of the loop over `funcs` (lines 410-453) for the function with handle `h`. -/
def ReverseAccumulationVisitor.propagate_func (h : Nat) (s : ReverseAccumulationVisitor) :
    Except Err ReverseAccumulationVisitor :=
  match s.mem.funcs[h]? with
  | none => .error .undefined
  | some func =>
    ReverseAccumulationVisitor.propagate_stages func func.stage_values true
      { s with current_func_name := func.name }

/-- The loop over `funcs` (line 409). -/
def ReverseAccumulationVisitor.propagate_funcs :
    List Nat → ReverseAccumulationVisitor → Except Err ReverseAccumulationVisitor
  | [], s => .ok s
  | h :: rest, s =>
    (ReverseAccumulationVisitor.propagate_func h s).bind
      (ReverseAccumulationVisitor.propagate_funcs rest)

/-- The method `ReverseAccumulationVisitor::propagate_adjoints(output, funcs)`. -/
def ReverseAccumulationVisitor.propagate_adjoints (fuel : Nat) (output : Expr)
    (funcs : List Nat) (s : ReverseAccumulationVisitor) :
    Except Err ReverseAccumulationVisitor :=
  if funcs.length = 0 then .ok s
  else
    (BoundsInferencer.inference s.mem fuel output).bind fun bounds =>
      (ReverseAccumulationVisitor.create_stubs funcs
        { s with func_bounds := bounds.1, mem := bounds.2 }).bind fun s1 =>
        (ReverseAccumulationVisitor.walk (ExpressionSorter.sort output).reverse
          (ReverseAccumulationVisitor.accumulate output (mk_float 1 s1.mem).1
            { s1 with mem := (mk_float 1 s1.mem).2 })).bind
          (ReverseAccumulationVisitor.propagate_funcs funcs)

/-- The public function `propagate_adjoints(output)` (lines 619-631): the map from
function names to the handles of the adjoint functions, and the memory holding them. -/
def propagate_adjoints (mem : Memory) (fuel : Nat) (output : Expr) :
    Except Err (List (String × Nat) × Memory) :=
  (FunctionSorter.sort mem fuel output).bind fun funcs =>
    (ReverseAccumulationVisitor.propagate_adjoints fuel output funcs
      (ReverseAccumulationVisitor.new mem)).bind fun visitor =>
      .ok (visitor.adjoint_funcs, visitor.mem)

/-! ## Values of array functions

The pass only builds function objects; what a function object evaluates to is
fixed by the host. -/

mutual
/-- Modelled from the spec: the value of an expression of the host IR, which is not
under `src/`.  Variables are read from the environment `env`, a call of an array
function is answered by `call`, comparisons give `1` or `0`, a division by zero and
a call of an extern function have no value. -/
def eval_expr (call : Nat → List Rat → Option Rat) : List (String × Rat) → Expr → Option Rat
  | _, .IntImm _ v => some v
  | _, .FloatImm _ v => some v
  | env, .Variable _ name _ => map_find name env
  | env, .Cast _ v => eval_expr call env v
  | env, .Add _ a b => do
    let x ← eval_expr call env a
    let y ← eval_expr call env b
    pure (x + y)
  | env, .Sub _ a b => do
    let x ← eval_expr call env a
    let y ← eval_expr call env b
    pure (x - y)
  | env, .Mul _ a b => do
    let x ← eval_expr call env a
    let y ← eval_expr call env b
    pure (x * y)
  | env, .Div _ a b => do
    let x ← eval_expr call env a
    let y ← eval_expr call env b
    if y = 0 then none else pure (x / y)
  | env, .Min _ a b => do
    let x ← eval_expr call env a
    let y ← eval_expr call env b
    pure (min x y)
  | env, .Max _ a b => do
    let x ← eval_expr call env a
    let y ← eval_expr call env b
    pure (max x y)
  | env, .LE _ a b => do
    let x ← eval_expr call env a
    let y ← eval_expr call env b
    pure (if x ≤ y then 1 else 0)
  | env, .GE _ a b => do
    let x ← eval_expr call env a
    let y ← eval_expr call env b
    pure (if x ≥ y then 1 else 0)
  | env, .Select _ c t f => do
    let x ← eval_expr call env c
    let y ← eval_expr call env t
    let z ← eval_expr call env f
    pure (if x = 0 then z else y)
  | env, .Let _ name v b => do
    let x ← eval_expr call env v
    eval_expr call ((name, x) :: env) b
  | env, .Call _ _ _ func args =>
    match func with
    | none => none
    | some h => (eval_args call env args).bind (call h)
/-- Modelled from the spec: the values of the arguments of a call. -/
def eval_args (call : Nat → List Rat → Option Rat) : List (String × Rat) → List Expr →
    Option (List Rat)
  | _, [] => some []
  | env, e :: es => do
    let x ← eval_expr call env e
    let xs ← eval_args call env es
    pure (x :: xs)
end

mutual
/-- Modelled from the spec: the reduction domain an expression iterates over, the
domain of the first reduction variable met from left to right. -/
def find_rdom : Expr → Option Nat
  | .IntImm _ _ => none
  | .FloatImm _ _ => none
  | .Variable _ _ rd => rd
  | .Cast _ v => find_rdom v
  | .Add _ a b => (find_rdom a).orElse fun _ => find_rdom b
  | .Sub _ a b => (find_rdom a).orElse fun _ => find_rdom b
  | .Mul _ a b => (find_rdom a).orElse fun _ => find_rdom b
  | .Div _ a b => (find_rdom a).orElse fun _ => find_rdom b
  | .Min _ a b => (find_rdom a).orElse fun _ => find_rdom b
  | .Max _ a b => (find_rdom a).orElse fun _ => find_rdom b
  | .LE _ a b => (find_rdom a).orElse fun _ => find_rdom b
  | .GE _ a b => (find_rdom a).orElse fun _ => find_rdom b
  | .Select _ c t f =>
    ((find_rdom c).orElse fun _ => find_rdom t).orElse fun _ => find_rdom f
  | .Let _ _ v b => (find_rdom v).orElse fun _ => find_rdom b
  | .Call _ _ _ _ args => find_rdom_list args
/-- Modelled from the spec: `find_rdom` over the arguments of a call. -/
def find_rdom_list : List Expr → Option Nat
  | [] => none
  | e :: es => (find_rdom e).orElse fun _ => find_rdom_list es
end

/-- Modelled from the spec: the points of a reduction domain, each an environment
for its variables; slot `i` ranges over `min_i, ..., min_i + extent_i - 1`, the
first slot being the innermost loop. -/
def rdom_points : List ReductionVariable → Option (List (List (String × Rat)))
  | [] => some [[]]
  | rv :: rest => do
    let lo ← eval_expr (fun _ _ => none) [] rv.min
    let extent ← eval_expr (fun _ _ => none) [] rv.extent
    let outer ← rdom_points rest
    pure (outer.flatMap fun pt =>
      (List.range extent.floor.toNat).map fun k => (rv.var, lo + (k : Rat)) :: pt)

/-- Modelled from the spec: whether the left-hand side of an update definition is
the list of pure variables of the function. -/
def lhs_is_pure : List String → List Expr → Bool
  | [], [] => true
  | a :: rest, .Variable _ name none :: es => a = name && lhs_is_pure rest es
  | _, _ => false

/-- Modelled from the spec: the value at `idx` of function `h` after the update
`f(args) = value` has run over the points `pts`, starting from value `v`; a call
of `h` itself at `idx` reads the value reached so far. -/
def eval_update_points (call : Nat → List Rat → Option Rat) (h : Nat) (idx : List Rat)
    (env : List (String × Rat)) (value : Expr) : List (List (String × Rat)) → Rat → Option Rat
  | [], v => some v
  | pt :: pts, v =>
    (eval_expr (fun g xs => if g = h then (if xs = idx then some v else none) else call g xs)
      (pt ++ env) value).bind (eval_update_points call h idx env value pts)

/-- Modelled from the spec: one update stage applied at `idx`.  Only updates whose
left-hand side is the list of pure variables are given a value. -/
def eval_update (mem : Memory) (call : Nat → List Rat → Option Rat) (h : Nat)
    (args : List String) (idx : List Rat) (u : Definition) (v : Rat) : Option Rat :=
  if lhs_is_pure args u.args then
    (match find_rdom u.value with
      | none => some [[]]
      | some d => (mem.rdoms[d]?).bind rdom_points).bind fun pts =>
      eval_update_points call h idx (args.zip idx) u.value pts v
  else none

/-- Modelled from the spec: the update stages applied in declaration order. -/
def eval_updates (mem : Memory) (call : Nat → List Rat → Option Rat) (h : Nat)
    (args : List String) (idx : List Rat) : List Definition → Rat → Option Rat
  | [], v => some v
  | u :: us, v =>
    (eval_update mem call h args idx u v).bind (eval_updates mem call h args idx us)

/-- Modelled from the spec: the value at index `idx` of the array function with
handle `h`: the pure definition, then every update stage in declaration order.
The first argument bounds the depth of nested function calls. -/
def eval_func (mem : Memory) : Nat → Nat → List Rat → Option Rat
  | 0, _, _ => none
  | fuel + 1, h, idx =>
    match mem.funcs[h]? with
    | none => none
    | some f =>
      match f.value with
      | none => none
      | some value =>
        if f.args.length = idx.length then
          (eval_expr (eval_func mem fuel) (f.args.zip idx) value).bind
            (eval_updates mem (eval_func mem fuel) h f.args idx f.updates)
        else none

/-- The value at `idx` of the adjoint function that a run of the public
`propagate_adjoints` stores under `name`. -/
def adjoint_value (result : Except Err (List (String × Nat) × Memory)) (fuel : Nat)
    (name : String) (idx : List Rat) : Option Rat :=
  match result with
  | .error _ => none
  | .ok r => (map_find name r.1).bind fun h => eval_func r.2 fuel h idx

/-! ## Scenarios

The programs of the end-to-end scenarios.  Node addresses below `100` belong to
the program; the pass allocates from `next_id = 100` on. -/

/-- The program `out(x) = k`. -/
def constant_memory (k : Rat) : Memory :=
  { funcs := [{ name := "out", args := ["x"], value := some (.FloatImm 10 k), updates := [] }],
    rdoms := [], next_id := 100 }

/-- The output expression `out(c)`. -/
def constant_output (c : Int) : Expr := .Call 1 "out" .Halide (some 0) [.IntImm 2 c]

/-- The program `f(x) = p; g(x) = q; out(x) = f(x) * g(x)`. -/
def multiply_memory (p q : Rat) : Memory :=
  { funcs :=
      [{ name := "f", args := ["x"], value := some (.FloatImm 10 p), updates := [] },
       { name := "g", args := ["x"], value := some (.FloatImm 20 q), updates := [] },
       { name := "out", args := ["x"],
         value := some (.Mul 30 (.Call 31 "f" .Halide (some 0) [.Variable 32 "x" none])
           (.Call 33 "g" .Halide (some 1) [.Variable 34 "x" none])),
         updates := [] }],
    rdoms := [], next_id := 100 }

/-- The output expression `out(0)` for a function `out` with handle `h`. -/
def call_out_zero (h : Nat) : Expr := .Call 1 "out" .Halide (some h) [.IntImm 2 0]

/-- The program `f(x) = x; out(x) = f(x + c)`. -/
def shift_memory (c : Int) : Memory :=
  { funcs :=
      [{ name := "f", args := ["x"], value := some (.Variable 10 "x" none), updates := [] },
       { name := "out", args := ["x"],
         value := some (.Call 20 "f" .Halide (some 0)
           [.Add 21 (.Variable 22 "x" none) (.IntImm 23 c)]),
         updates := [] }],
    rdoms := [], next_id := 100 }

/-- The program `f(x, y) = 1; out(x) = 0; out(x) += f(x, r)` with `r` the only
variable of a reduction domain over `[0, 4)`. -/
def reduction_memory : Memory :=
  { funcs :=
      [{ name := "f", args := ["x", "y"], value := some (.FloatImm 10 1), updates := [] },
       { name := "out", args := ["x"], value := some (.FloatImm 20 0),
         updates :=
           [{ args := [.Variable 21 "x" none],
              value := .Add 22 (.Call 23 "out" .Halide (some 1) [.Variable 21 "x" none])
                (.Call 24 "f" .Halide (some 0)
                  [.Variable 25 "x" none, .Variable 26 "r$x" (some 0)]) }] }],
    rdoms := [[{ var := "r$x", min := .IntImm 30 0, extent := .IntImm 31 4 }]],
    next_id := 100 }

/-- The program `a(x) = p; b(x) = q`. -/
def two_inputs_memory (p q : Rat) : Memory :=
  { funcs :=
      [{ name := "a", args := ["x"], value := some (.FloatImm 10 p), updates := [] },
       { name := "b", args := ["x"], value := some (.FloatImm 20 q), updates := [] }],
    rdoms := [], next_id := 100 }

/-- The output expression `let t = a(0) in t * t`; `j` is the address of the
second operand of the product, `5` when both operands are one node. -/
def let_output (j : Nat) : Expr :=
  .Let 1 "t" (.Call 2 "a" .Halide (some 0) [.IntImm 3 0])
    (.Mul 4 (.Variable 5 "t" none) (.Variable j "t" none))

/-- The output expression `a(0) / b(0)`. -/
def divide_output : Expr :=
  .Div 1 (.Call 2 "a" .Halide (some 0) [.IntImm 3 0]) (.Call 4 "b" .Halide (some 1) [.IntImm 5 0])

/-- The diamond `a(x) = c(x); b(x) = c(x); c(x) = 1`. -/
def diamond_memory : Memory :=
  { funcs :=
      [{ name := "a", args := ["x"],
         value := some (.Call 10 "c" .Halide (some 2) [.Variable 11 "x" none]), updates := [] },
       { name := "b", args := ["x"],
         value := some (.Call 20 "c" .Halide (some 2) [.Variable 21 "x" none]), updates := [] },
       { name := "c", args := ["x"], value := some (.FloatImm 30 1), updates := [] }],
    rdoms := [], next_id := 100 }

/-- The output expression `a(0) + b(0)`. -/
def diamond_output : Expr :=
  .Add 1 (.Call 2 "a" .Halide (some 0) [.IntImm 3 0]) (.Call 4 "b" .Halide (some 1) [.IntImm 5 0])

/-! ## Notions used to state the properties of the traversals -/

/-- The operands of a node; for a call, its arguments. -/
def Expr.operands : Expr → List Expr
  | .IntImm _ _ => []
  | .FloatImm _ _ => []
  | .Variable _ _ _ => []
  | .Cast _ v => [v]
  | .Add _ a b => [a, b]
  | .Sub _ a b => [a, b]
  | .Mul _ a b => [a, b]
  | .Div _ a b => [a, b]
  | .Min _ a b => [a, b]
  | .Max _ a b => [a, b]
  | .LE _ a b => [a, b]
  | .GE _ a b => [a, b]
  | .Select _ c t f => [c, t, f]
  | .Let _ _ v b => [v, b]
  | .Call _ _ _ _ args => args

/-- Whether a node is a call with `call_type == Call::Halide`. -/
def Expr.is_halide_call : Expr → Bool
  | .Call _ _ call_type _ _ => call_type = .Halide
  | _ => false

/-- The function handle of a call node (`op->func`), `none` for other nodes. -/
def Expr.call_func : Expr → Option Nat
  | .Call _ _ _ func _ => func
  | _ => none

mutual
/-- The number of nodes of an expression tree. -/
def Expr.size : Expr → Nat
  | .IntImm _ _ => 1
  | .FloatImm _ _ => 1
  | .Variable _ _ _ => 1
  | .Cast _ v => v.size + 1
  | .Add _ a b => a.size + b.size + 1
  | .Sub _ a b => a.size + b.size + 1
  | .Mul _ a b => a.size + b.size + 1
  | .Div _ a b => a.size + b.size + 1
  | .Min _ a b => a.size + b.size + 1
  | .Max _ a b => a.size + b.size + 1
  | .LE _ a b => a.size + b.size + 1
  | .GE _ a b => a.size + b.size + 1
  | .Select _ c t f => c.size + t.size + f.size + 1
  | .Let _ _ v b => v.size + b.size + 1
  | .Call _ _ _ _ args => Expr.size_list args + 1
/-- The number of nodes of a list of expression trees. -/
def Expr.size_list : List Expr → Nat
  | [] => 0
  | e :: es => e.size + Expr.size_list es
end

mutual
/-- All nodes of an expression tree, the root first. -/
def subterms : Expr → List Expr
  | .IntImm i v => [.IntImm i v]
  | .FloatImm i v => [.FloatImm i v]
  | .Variable i n rd => [.Variable i n rd]
  | .Cast i v => .Cast i v :: subterms v
  | .Add i a b => .Add i a b :: (subterms a ++ subterms b)
  | .Sub i a b => .Sub i a b :: (subterms a ++ subterms b)
  | .Mul i a b => .Mul i a b :: (subterms a ++ subterms b)
  | .Div i a b => .Div i a b :: (subterms a ++ subterms b)
  | .Min i a b => .Min i a b :: (subterms a ++ subterms b)
  | .Max i a b => .Max i a b :: (subterms a ++ subterms b)
  | .LE i a b => .LE i a b :: (subterms a ++ subterms b)
  | .GE i a b => .GE i a b :: (subterms a ++ subterms b)
  | .Select i c t f => .Select i c t f :: (subterms c ++ (subterms t ++ subterms f))
  | .Let i n v b => .Let i n v b :: (subterms v ++ subterms b)
  | .Call i n ct func args => .Call i n ct func args :: subterms_list args
/-- All nodes of a list of expression trees. -/
def subterms_list : List Expr → List Expr
  | [] => []
  | e :: es => subterms e ++ subterms_list es
end

mutual
/-- The handles of the array functions called in an expression outside the index
arguments of array-function calls: what `FunctionSorter::visit(const Call *)` meets. -/
def direct_calls : Expr → List Nat
  | .IntImm _ _ => []
  | .FloatImm _ _ => []
  | .Variable _ _ _ => []
  | .Cast _ v => direct_calls v
  | .Add _ a b => direct_calls a ++ direct_calls b
  | .Sub _ a b => direct_calls a ++ direct_calls b
  | .Mul _ a b => direct_calls a ++ direct_calls b
  | .Div _ a b => direct_calls a ++ direct_calls b
  | .Min _ a b => direct_calls a ++ direct_calls b
  | .Max _ a b => direct_calls a ++ direct_calls b
  | .LE _ a b => direct_calls a ++ direct_calls b
  | .GE _ a b => direct_calls a ++ direct_calls b
  | .Select _ c t f => direct_calls c ++ (direct_calls t ++ direct_calls f)
  | .Let _ _ v b => direct_calls v ++ direct_calls b
  | .Call _ _ call_type func args =>
    if call_type = .Halide then func.toList else direct_calls_list args
/-- The function `direct_calls` over a list of expressions. -/
def direct_calls_list : List Expr → List Nat
  | [] => []
  | e :: es => direct_calls e ++ direct_calls_list es
end

mutual
/-- The handles of the array functions called anywhere in an expression, the index
arguments of array-function calls included. -/
def all_calls : Expr → List Nat
  | .IntImm _ _ => []
  | .FloatImm _ _ => []
  | .Variable _ _ _ => []
  | .Cast _ v => all_calls v
  | .Add _ a b => all_calls a ++ all_calls b
  | .Sub _ a b => all_calls a ++ all_calls b
  | .Mul _ a b => all_calls a ++ all_calls b
  | .Div _ a b => all_calls a ++ all_calls b
  | .Min _ a b => all_calls a ++ all_calls b
  | .Max _ a b => all_calls a ++ all_calls b
  | .LE _ a b => all_calls a ++ all_calls b
  | .GE _ a b => all_calls a ++ all_calls b
  | .Select _ c t f => all_calls c ++ (all_calls t ++ all_calls f)
  | .Let _ _ v b => all_calls v ++ all_calls b
  | .Call _ _ call_type func args =>
    (if call_type = .Halide then func.toList else []) ++ all_calls_list args
/-- The function `all_calls` over a list of expressions. -/
def all_calls_list : List Expr → List Nat
  | [] => []
  | e :: es => all_calls e ++ all_calls_list es
end

/-- The defined stage values of a function. -/
def Function.stage_exprs (f : Function) : List Expr :=
  f.stage_values.filterMap fun e => e

/-- The roots of a program: the output expression and every stage value of every
function object. -/
def program_roots (mem : Memory) (output : Expr) : List Expr :=
  output :: mem.funcs.flatMap Function.stage_exprs

/-- All nodes of a program. -/
def program_nodes (mem : Memory) (output : Expr) : List Expr :=
  subterms_list (program_roots mem output)

/-- Addresses identify nodes: two nodes of the program at the same address are the
same node. -/
def Consistent (mem : Memory) (output : Expr) : Prop :=
  ∀ a ∈ program_nodes mem output, ∀ b ∈ program_nodes mem output, a.id = b.id → a = b

/-- The name of the function behind a handle (the empty string for a dangling handle). -/
def func_name (mem : Memory) (h : Nat) : String :=
  match mem.funcs[h]? with
  | some f => f.name
  | none => ""

/-- Names identify function objects, as the host generates unique names. -/
def UniqueNames (mem : Memory) : Prop :=
  ∀ g h, g < mem.funcs.length → h < mem.funcs.length → func_name mem g = func_name mem h → g = h

/-- Reachability as `FunctionSorter` follows it: a function is reachable when it is
called in the output expression or in a stage value of a reachable function, in
both cases outside the index arguments of array-function calls. -/
inductive Reachable (mem : Memory) (output : Expr) : Nat → Prop
  | root (h : Nat) : h ∈ direct_calls output → Reachable mem output h
  | step (g h : Nat) (f : Function) (e : Expr) : Reachable mem output g →
      mem.funcs[g]? = some f → e ∈ f.stage_exprs → h ∈ direct_calls e →
      Reachable mem output h

/-- Reachability when calls inside the index arguments of array-function calls count
as well. -/
inductive ReachableThroughArgs (mem : Memory) (output : Expr) : Nat → Prop
  | root (h : Nat) : h ∈ all_calls output → ReachableThroughArgs mem output h
  | step (g h : Nat) (f : Function) (e : Expr) : ReachableThroughArgs mem output g →
      mem.funcs[g]? = some f → e ∈ f.stage_exprs → h ∈ all_calls e →
      ReachableThroughArgs mem output h

/-- The program `f(x) = 1; g(x) = 2`. -/
def nested_memory : Memory :=
  { funcs :=
      [{ name := "f", args := ["x"], value := some (.FloatImm 10 1), updates := [] },
       { name := "g", args := ["x"], value := some (.FloatImm 20 2), updates := [] }],
    rdoms := [], next_id := 100 }

/-- The output expression `f(g(0))`. -/
def nested_output : Expr :=
  .Call 1 "f" .Halide (some 0) [.Call 2 "g" .Halide (some 1) [.IntImm 3 0]]

/-! ## Invariants of `FunctionSorter` -/

/-- A node is settled in a state of the sorter when its share of the traversal is
done: the function of a call of an array function is traversed, the operands of
any other node are visited. -/
def FunctionSorter.Settled (mem : Memory) (s : FunctionSorter) (e : Expr) : Prop :=
  if e.is_halide_call then
    ∀ h, e.call_func = some h → h < mem.funcs.length ∧ func_name mem h ∈ s.traversed_functions
  else ∀ c ∈ e.operands, c.id ∈ s.visited

/-- The state invariant of the sorter: the collected functions have pairwise
different names, are valid handles, and their names are the traversed names. -/
def FunctionSorter.Good (mem : Memory) (s : FunctionSorter) : Prop :=
  (s.functions.map (func_name mem)).Nodup ∧
  (∀ g ∈ s.functions, g < mem.funcs.length ∧ func_name mem g ∈ s.traversed_functions) ∧
  (∀ n ∈ s.traversed_functions, ∃ g ∈ s.functions, func_name mem g = n)

/-- What a part of the traversal guarantees between its first state `s` and its
last state `t`; `R` is a set of handles the traversal stays in. -/
structure FunctionSorter.Step (mem : Memory) (output : Expr) (R : Nat → Prop)
    (s t : FunctionSorter) : Prop where
  visited_mono : ∀ i ∈ s.visited, i ∈ t.visited
  traversed_mono : ∀ n ∈ s.traversed_functions, n ∈ t.traversed_functions
  functions_mono : ∀ g ∈ s.functions, g ∈ t.functions
  new_visited : ∀ e ∈ program_nodes mem output, e.id ∈ t.visited → e.id ∉ s.visited →
    FunctionSorter.Settled mem t e
  new_functions : ∀ g ∈ t.functions, g ∉ s.functions →
    R g ∧ ∀ f, mem.funcs[g]? = some f → ∀ e ∈ f.stage_exprs, FunctionSorter.Settled mem t e
  good : FunctionSorter.Good mem s → FunctionSorter.Good mem t

/-- The specification of `sort(const Func &)` that `accept` relies on. -/
def FunctionSorter.SortFuncSpec (mem : Memory) (output : Expr) (R : Nat → Prop)
    (sf : Nat → FunctionSorter → Except Err FunctionSorter) : Prop :=
  ∀ h s t, R h → h < mem.funcs.length → func_name mem h ∉ s.traversed_functions →
    sf h s = .ok t →
    FunctionSorter.Step mem output R s t ∧ func_name mem h ∈ t.traversed_functions

/-- The calls of array functions in a program are bound to function objects of the
memory, and every function object has its pure definition. -/
def WellFormed (mem : Memory) (output : Expr) : Prop :=
  (∀ e ∈ program_nodes mem output, e.is_halide_call = true →
    ∃ h, e.call_func = some h ∧ h < mem.funcs.length) ∧
  (∀ f ∈ mem.funcs, ∃ v, f.value = some v)

/-- The number of function objects whose name is not in the set `traversed`. -/
def untraversed (mem : Memory) (traversed : List String) : Nat :=
  ((List.range mem.funcs.length).filter fun g => decide (func_name mem g ∉ traversed)).length

/-! ## Invariants of the engine -/

/-- Whether `ExpressionSorter::visit(const Call *)` returns without including the
arguments: a call of an array function or of an image. -/
def Expr.is_func_or_image_call : Expr → Bool
  | .Call _ _ call_type _ _ => call_type = .Halide ∨ call_type = .Image
  | _ => false

/-- The function handles that `ReverseAccumulationVisitor::accept` scatters to when
it is dispatched on a node: the function of a call, and for the nodes without a
rule of their own the handles of the operands. -/
def engine_calls : Expr → List Nat
  | .Call _ _ _ func _ => func.toList
  | .LE _ a b => engine_calls a ++ engine_calls b
  | .GE _ a b => engine_calls a ++ engine_calls b
  | .Select _ c t f => engine_calls c ++ (engine_calls t ++ engine_calls f)
  | _ => []

/-- Only calls of array functions carry a function handle, as the host builds them. -/
def FuncsOnlyInHalideCalls (mem : Memory) (output : Expr) : Prop :=
  ∀ e ∈ program_nodes mem output, ∀ h, e.call_func = some h → e.is_halide_call = true

/-- What the engine keeps of the program with memory `mem` it started from: the
function objects of the program are as they were, and the adjoint function objects
lie behind them. -/
structure ReverseAccumulationVisitor.Frame (mem : Memory) (s : ReverseAccumulationVisitor) :
    Prop where
  program_funcs : ∀ h, h < mem.funcs.length → s.mem.funcs[h]? = mem.funcs[h]?
  length_le : mem.funcs.length ≤ s.mem.funcs.length
  tmp_ge : mem.funcs.length ≤ s.tmp_adjoint_func
  adjoint_ge : ∀ k a, map_find k s.adjoint_funcs = some a → mem.funcs.length ≤ a

/-- How a reverse walk may change function objects and the adjoint map between its
first state `s` and its last state `t`: function objects keep their name and, once
defined, their arguments; only `tmp_adjoint_func` and the stored adjoints change at
all; entries of the adjoint map stay, and a new entry is a new function object. -/
structure ReverseAccumulationVisitor.Evolves (s t : ReverseAccumulationVisitor) : Prop where
  tmp_eq : t.tmp_adjoint_func = s.tmp_adjoint_func
  length_le : s.mem.funcs.length ≤ t.mem.funcs.length
  kept : ∀ (h : Nat) (F : Function), s.mem.funcs[h]? = some F →
    ∃ G : Function, t.mem.funcs[h]? = some G ∧
    G.name = F.name ∧ (F.value.isSome = true → G.value.isSome = true ∧ G.args = F.args)
  untouched : ∀ h, h ≠ s.tmp_adjoint_func → (∀ k, map_find k s.adjoint_funcs ≠ some h) →
    h < s.mem.funcs.length → t.mem.funcs[h]? = s.mem.funcs[h]?
  entries_stay : ∀ k a, map_find k s.adjoint_funcs = some a → map_find k t.adjoint_funcs = some a
  entries_new : ∀ k a, map_find k t.adjoint_funcs = some a →
    map_find k s.adjoint_funcs = some a ∨ s.mem.funcs.length ≤ a

/-- The keys of the adjoint map are among the names `names`. -/
def ReverseAccumulationVisitor.KeysIn (names : List String) (s : ReverseAccumulationVisitor) :
    Prop :=
  ∀ k ∈ map_keys s.adjoint_funcs, k ∈ names

/-- The adjoint map holds under `name` a defined function object with arguments `args`. -/
def ReverseAccumulationVisitor.Stored (s : ReverseAccumulationVisitor) (name : String)
    (args : List String) : Prop :=
  ∃ (a : Nat) (F : Function), map_find name s.adjoint_funcs = some a ∧
    s.mem.funcs[a]? = some F ∧
    F.value.isSome = true ∧ F.args = args

/-- The staging function `tmp_adjoint_func` is defined with arguments `args`. -/
def ReverseAccumulationVisitor.TmpDefined (s : ReverseAccumulationVisitor)
    (args : List String) : Prop :=
  ∃ F : Function, s.mem.funcs[s.tmp_adjoint_func]? = some F ∧ F.value.isSome = true ∧
    F.args = args

/-- What a stage of the function named `name` keeps of the state `s` it starts in:
the frame of the program, the keys of the adjoint map, and the adjoints stored
under other names. -/
structure ReverseAccumulationVisitor.Advances (name : String)
    (s t : ReverseAccumulationVisitor) : Prop where
  frame : ∀ mem : Memory, ReverseAccumulationVisitor.Frame mem s →
    ReverseAccumulationVisitor.Frame mem t
  keys_stay : ∀ k ∈ map_keys s.adjoint_funcs, k ∈ map_keys t.adjoint_funcs
  stored_others : ∀ (k : String) (args : List String), k ≠ name →
    ReverseAccumulationVisitor.Stored s k args → ReverseAccumulationVisitor.Stored t k args

/-- The functions with handles `funcs` of the program `mem` have their adjoints
stored in `s`, each with the arguments of its function. -/
def ReverseAccumulationVisitor.StoredAll (mem : Memory) (funcs : List Nat)
    (s : ReverseAccumulationVisitor) : Prop :=
  ∀ h ∈ funcs, ∀ P : Function, mem.funcs[h]? = some P →
    ReverseAccumulationVisitor.Stored s P.name P.args

/-- Functions of the list with the same name have the same arguments. -/
def SameNameSameArgs (mem : Memory) (funcs : List Nat) : Prop :=
  ∀ g ∈ funcs, ∀ h ∈ funcs, ∀ P Q : Function, mem.funcs[g]? = some P → mem.funcs[h]? = some Q →
    P.name = Q.name → P.args = Q.args

/-! ## Notions used to state the properties of `ExpressionSorter` -/

/-- Addresses identify the nodes of an expression: two nodes of `e` at the same
address are the same node. -/
def NodesById (e : Expr) : Prop :=
  ∀ a ∈ subterms e, ∀ b ∈ subterms e, a.id = b.id → a = b

/-- The nodes reachable from `e` without passing through the arguments of a call of
an array function or of an image. -/
inductive Visible (e : Expr) : Expr → Prop
  | root : Visible e e
  | operand (p c : Expr) : Visible e p → p.is_func_or_image_call = false → c ∈ p.operands →
      Visible e c

/-- Every operand of a listed node stands earlier in the list than the node; the
arguments of a call of an array function or of an image do not count as operands. -/
def OperandsFirst (l : List Expr) : Prop :=
  ∀ (j : Nat) (p : Expr), l[j]? = some p → p.is_func_or_image_call = false →
    ∀ c ∈ p.operands, ∃ i, i < j ∧ l[i]? = some c

/-- The invariant of `ExpressionSorter` while it sorts `root`. -/
structure ExpressionSorter.Inv (root : Expr) (s : ExpressionSorter) : Prop where
  listed_visited : ∀ x ∈ s.expr_list, x.id ∈ s.visited
  nodup : s.expr_list.Nodup
  operands_first : OperandsFirst s.expr_list
  visible : ∀ x ∈ s.expr_list, Visible root x ∧ x.size < root.size

/-- What a part of the traversal of `root` does to the state: the list grows at its
end by nodes that were not visited before, and every node visited meanwhile is
listed. -/
structure ExpressionSorter.Grows (root : Expr) (s t : ExpressionSorter) : Prop where
  extends_list : ∃ added, t.expr_list = s.expr_list ++ added
  visited_mono : ∀ i ∈ s.visited, i ∈ t.visited
  settled : ∀ x ∈ subterms root, x.id ∈ t.visited → x.id ∈ s.visited ∨ x ∈ t.expr_list
  fresh : ∀ x ∈ t.expr_list, x ∈ s.expr_list ∨ x.id ∉ s.visited
  inv : ExpressionSorter.Inv root t

/-- The nodes that are visited and not yet listed are larger than `k`: they are the
nodes whose visit is under way. -/
def ExpressionSorter.Pending (root : Expr) (k : Nat) (s : ExpressionSorter) : Prop :=
  ∀ x ∈ subterms root, x.id ∈ s.visited → x ∈ s.expr_list ∨ k < x.size

/-- The expression `f(x) + y * y` in which both operands of the product are one
node: the node at address `5` is shared. -/
def shared_operand_expr : Expr :=
  .Add 1 (.Call 2 "f" .Halide (some 0) [.Variable 3 "x" none])
    (.Mul 4 (.Variable 5 "y" none) (.Variable 5 "y" none))

/-- The index expression `5 - x`. -/
def five_minus_x : Expr := .Sub 1 (.IntImm 2 5) (.Variable 3 "x" none)

/-- The program `f(x) = 1`, and a reduction domain `r` over `[5, 8)`: `min = 5`,
`extent = 3`. -/
def two_sites_memory : Memory :=
  { funcs := [{ name := "f", args := ["x"], value := some (.FloatImm 10 1), updates := [] }],
    rdoms := [[{ var := "r$x", min := .IntImm 30 5, extent := .IntImm 31 3 }]],
    next_id := 100 }

/-- The output expression `f(r) + f(r)`: two call sites of `f` whose argument ranges
over `[5, 8)`. -/
def two_sites_output : Expr :=
  .Add 1 (.Call 2 "f" .Halide (some 0) [.Variable 3 "r$x" (some 0)])
    (.Call 4 "f" .Halide (some 0) [.Variable 5 "r$x" (some 0)])

/-- The values of a pair of index expressions without free variables. -/
def eval_pair (p : Expr × Expr) : Option (Rat × Rat) :=
  (eval_expr (fun _ _ => none) [] p.1).bind fun lo =>
    (eval_expr (fun _ _ => none) [] p.2).bind fun hi => some (lo, hi)

/-- The values of the pair `(min, extent)` that a run of `BoundsInferencer::inference`
stores for argument position `i` of the function named `name`. -/
def inferred_bounds (result : Except Err (List (String × RDom) × Memory)) (name : String)
    (i : Nat) : Option (Rat × Rat) :=
  match result with
  | .error _ => none
  | .ok r =>
    (map_find name r.1).bind fun rd =>
      match rdom_at rd i r.2 with
      | .error _ => none
      | .ok rv => eval_pair (rv.min, rv.extent)

/-- The values of the pair that `get_min_max_bounds` returns. -/
def bounds_values (result : Except Err ((Expr × Expr) × Memory)) : Option (Rat × Rat) :=
  match result with
  | .error _ => none
  | .ok r => eval_pair r.1

/-- A memory with a reduction domain of two slots: `r.x` over `[0, 4)` and `r.y`
over `[10, 30)`. -/
def two_slots_memory : Memory :=
  { funcs := [],
    rdoms := [[{ var := "r$x", min := .IntImm 30 0, extent := .IntImm 31 4 },
               { var := "r$y", min := .IntImm 32 10, extent := .IntImm 33 20 }]],
    next_id := 100 }

/-- The output expression `max(a(0), b(0))`. -/
def max_output : Expr :=
  .Max 1 (.Call 2 "a" .Halide (some 0) [.IntImm 3 0]) (.Call 4 "b" .Halide (some 1) [.IntImm 5 0])

/-- The output expression `min(a(0), b(0))`. -/
def min_output : Expr :=
  .Min 1 (.Call 2 "a" .Halide (some 0) [.IntImm 3 0]) (.Call 4 "b" .Halide (some 1) [.IntImm 5 0])

/-- The program `g(x) = 1; f(x) = g(x); f(x) += 1`: a function with an update stage
whose pure definition is a call. -/
def staged_memory : Memory :=
  { funcs :=
      [{ name := "f", args := ["x"],
         value := some (.Call 10 "g" .Halide (some 1) [.Variable 11 "x" none]),
         updates :=
           [{ args := [.Variable 20 "x" none],
              value := .Add 21 (.Call 22 "f" .Halide (some 0) [.Variable 20 "x" none])
                (.FloatImm 23 1) }] },
       { name := "g", args := ["x"], value := some (.FloatImm 30 1), updates := [] }],
    rdoms := [], next_id := 100 }

/-- The output expression `f(0)` for the function `f` with handle `0`. -/
def call_f_zero : Expr := .Call 1 "f" .Halide (some 0) [.IntImm 2 0]

/-- The program `a(x) = e; b(x) = e; c(x) = 1` where `e = c(x) * 2` is one node,
the definition of both `a` and `b`. -/
def shared_body_memory : Memory :=
  { funcs :=
      [{ name := "a", args := ["x"],
         value := some (.Mul 10 (.Call 11 "c" .Halide (some 2) [.Variable 12 "x" none])
           (.FloatImm 13 2)), updates := [] },
       { name := "b", args := ["x"],
         value := some (.Mul 10 (.Call 11 "c" .Halide (some 2) [.Variable 12 "x" none])
           (.FloatImm 13 2)), updates := [] },
       { name := "c", args := ["x"], value := some (.FloatImm 30 1), updates := [] }],
    rdoms := [], next_id := 100 }

/-- The shapes that `inverse` supports for the variable `var`: a variable node, or an
add, sub, min or max node with `var` in exactly one operand, that operand being
supported itself. -/
def supported_shape (var : String) : Expr → Bool
  | .Variable _ _ _ => true
  | .Add _ a b =>
    (VariableFinder.find a var && !VariableFinder.find b var && supported_shape var a) ||
    (VariableFinder.find b var && !VariableFinder.find a var && supported_shape var b)
  | .Sub _ a b =>
    (VariableFinder.find a var && !VariableFinder.find b var && supported_shape var a) ||
    (VariableFinder.find b var && !VariableFinder.find a var && supported_shape var b)
  | .Min _ a b =>
    (VariableFinder.find a var && !VariableFinder.find b var && supported_shape var a) ||
    (VariableFinder.find b var && !VariableFinder.find a var && supported_shape var b)
  | .Max _ a b =>
    (VariableFinder.find a var && !VariableFinder.find b var && supported_shape var a) ||
    (VariableFinder.find b var && !VariableFinder.find a var && supported_shape var b)
  | _ => false

/-- The program `f(x) = 1; h(x) = 2; g(u) = f(3) * h(u)`: the caller `g` names its
argument `u`, the callees name theirs `x`. -/
def renamed_args_memory : Memory :=
  { funcs :=
      [{ name := "f", args := ["x"], value := some (.FloatImm 10 1), updates := [] },
       { name := "h", args := ["x"], value := some (.FloatImm 20 2), updates := [] },
       { name := "g", args := ["u"],
         value := some (.Mul 30 (.Call 31 "f" .Halide (some 0) [.IntImm 32 3])
           (.Call 33 "h" .Halide (some 1) [.Variable 34 "u" none])),
         updates := [] }],
    rdoms := [], next_id := 100 }

/-- The output expression `g(0)` for the function `g` with handle `2`. -/
def call_g_zero : Expr := .Call 1 "g" .Halide (some 2) [.IntImm 2 0]

/-- The program `a(x) = p; b(x) = p; c(x) = y`: `a` and `b` have equal values. -/
def tie_memory (p y : Rat) : Memory :=
  { funcs :=
      [{ name := "a", args := ["x"], value := some (.FloatImm 10 p), updates := [] },
       { name := "b", args := ["x"], value := some (.FloatImm 20 p), updates := [] },
       { name := "c", args := ["x"], value := some (.FloatImm 30 y), updates := [] }],
    rdoms := [], next_id := 100 }

/-- The output expression `c(0) * max(a(0), b(0))`: the adjoint that reaches the
node `max` is `c(0)`. -/
def tie_max_output : Expr :=
  .Mul 1 (.Call 2 "c" .Halide (some 2) [.IntImm 3 0])
    (.Max 4 (.Call 5 "a" .Halide (some 0) [.IntImm 6 0])
      (.Call 7 "b" .Halide (some 1) [.IntImm 8 0]))

/-- The output expression `c(0) * min(a(0), b(0))`. -/
def tie_min_output : Expr :=
  .Mul 1 (.Call 2 "c" .Halide (some 2) [.IntImm 3 0])
    (.Min 4 (.Call 5 "a" .Halide (some 0) [.IntImm 6 0])
      (.Call 7 "b" .Halide (some 1) [.IntImm 8 0]))

/-- The output expression `let t = a(0) in b(0)`: the bound variable does not occur
in the body. -/
def unused_let_output : Expr :=
  .Let 1 "t" (.Call 2 "a" .Halide (some 0) [.IntImm 3 0])
    (.Call 4 "b" .Halide (some 1) [.IntImm 5 0])

/-! ## Invariants of `BoundsInferencer` -/

/-- A node is covered in a state of the inferencer when its share of the traversal
is done: the function of a call of an array function is traversed and has an entry
in `func_bounds`, the operands of any other node are visited. -/
def BoundsInferencer.Covered (mem : Memory) (s : BoundsInferencer) (e : Expr) : Prop :=
  if e.is_halide_call then
    ∀ h, e.call_func = some h → h < mem.funcs.length ∧
      func_name mem h ∈ s.traversed_functions ∧ func_name mem h ∈ map_keys s.func_bounds
  else ∀ c ∈ e.operands, c.id ∈ s.visited

/-- What a part of the traversal of the program `mem` guarantees between its first
state `s` and its last state `t`. -/
structure BoundsInferencer.Progress (mem : Memory) (output : Expr)
    (s t : BoundsInferencer) : Prop where
  funcs_eq : t.mem.funcs = s.mem.funcs
  visited_mono : ∀ i ∈ s.visited, i ∈ t.visited
  traversed_mono : ∀ n ∈ s.traversed_functions, n ∈ t.traversed_functions
  keys_mono : ∀ k ∈ map_keys s.func_bounds, k ∈ map_keys t.func_bounds
  new_visited : ∀ e ∈ program_nodes mem output, e.id ∈ t.visited → e.id ∉ s.visited →
    BoundsInferencer.Covered mem t e
  new_traversed : ∀ n ∈ t.traversed_functions, n ∉ s.traversed_functions →
    ∃ g, g < mem.funcs.length ∧ func_name mem g = n ∧
      ∀ f : Function, mem.funcs[g]? = some f → f.value.isSome = true ∧
        ∀ e ∈ f.stage_exprs, BoundsInferencer.Covered mem t e

/-- The specification of `inference(const Func &)` that `accept` relies on. -/
def BoundsInferencer.InferenceFuncSpec (mem : Memory) (output : Expr)
    (inf : Nat → BoundsInferencer → Except Err BoundsInferencer) : Prop :=
  ∀ h s t, s.mem.funcs = mem.funcs → h < mem.funcs.length → inf h s = .ok t →
    BoundsInferencer.Progress mem output s t ∧ func_name mem h ∈ t.traversed_functions

/-! ## Notions used to state the accumulation of per-node adjoints -/

mutual
/-- An expression with every node address set to `0`: the expression up to the
addresses of its nodes. -/
def Expr.erase : Expr → Expr
  | .IntImm _ v => .IntImm 0 v
  | .FloatImm _ v => .FloatImm 0 v
  | .Variable _ n rd => .Variable 0 n rd
  | .Cast _ v => .Cast 0 v.erase
  | .Add _ a b => .Add 0 a.erase b.erase
  | .Sub _ a b => .Sub 0 a.erase b.erase
  | .Mul _ a b => .Mul 0 a.erase b.erase
  | .Div _ a b => .Div 0 a.erase b.erase
  | .Min _ a b => .Min 0 a.erase b.erase
  | .Max _ a b => .Max 0 a.erase b.erase
  | .LE _ a b => .LE 0 a.erase b.erase
  | .GE _ a b => .GE 0 a.erase b.erase
  | .Select _ c t f => .Select 0 c.erase t.erase f.erase
  | .Let _ n v b => .Let 0 n v.erase b.erase
  | .Call _ n ct func args => .Call 0 n ct func (Expr.erase_list args)
/-- The function `Expr.erase` over a list of expressions. -/
def Expr.erase_list : List Expr → List Expr
  | [] => []
  | e :: es => e.erase :: Expr.erase_list es
end

/-- An expression built from cast, add, sub, mul, div, min and max over constants
and variables. -/
def Expr.arith : Expr → Bool
  | .IntImm _ _ => true
  | .FloatImm _ _ => true
  | .Variable _ _ _ => true
  | .Cast _ v => v.arith
  | .Add _ a b => a.arith && b.arith
  | .Sub _ a b => a.arith && b.arith
  | .Mul _ a b => a.arith && b.arith
  | .Div _ a b => a.arith && b.arith
  | .Min _ a b => a.arith && b.arith
  | .Max _ a b => a.arith && b.arith
  | _ => false

/-- The contributions that the accumulation rule of a node `p` with adjoint `adj`
assigns to its operands, in the order of the rule: the operand and the expression
added to its slot.  The nodes that the rule builds have address `0` here. -/
def rule_contributions (p : Expr) (adj : Expr) : List (Expr × Expr) :=
  match p with
  | .Cast _ v => [(v, adj)]
  | .Add _ a b => [(a, adj), (b, adj)]
  | .Sub _ a b => [(a, adj), (b, .Sub 0 (.FloatImm 0 0) adj)]
  | .Mul _ a b => [(a, .Mul 0 adj b), (b, .Mul 0 adj a)]
  | .Div _ a b =>
    [(a, .Div 0 adj b), (b, .Div 0 (.Mul 0 (.Sub 0 (.FloatImm 0 0) adj) a) (.Mul 0 b b))]
  | .Min _ a b =>
    [(a, .Select 0 (.LE 0 a b) adj (.FloatImm 0 0)),
     (b, .Select 0 (.LE 0 b a) adj (.FloatImm 0 0))]
  | .Max _ a b =>
    [(a, .Select 0 (.GE 0 a b) adj (.FloatImm 0 0)),
     (b, .Select 0 (.GE 0 b a) adj (.FloatImm 0 0))]
  | _ => []

/-- The sum that a slot holds after the contributions `cs` have been accumulated
into it in this order: the first write initialises an empty slot, every other one
adds. -/
def accumulate_all (slot : Option Expr) (cs : List Expr) : Option Expr :=
  cs.foldl (fun acc c => some (match acc with
    | none => c
    | some x => .Add 0 x c)) slot

/-- The contributions, up to addresses, that the node `p` makes to the slot of the
address `k`, its adjoint being read in the state `s`: one for every operand of `p`
at address `k`. -/
def contributions_into (k : Nat) (s : ReverseAccumulationVisitor) (p : Expr) : List Expr :=
  match map_find p.id s.accumulated_adjoints with
  | none => []
  | some adj =>
    ((rule_contributions p adj).filter fun c => decide (c.1.id = k)).map fun c => c.2.erase

/-- The expression `y + y * y` whose three uses of `y` are one node, at address `2`:
the node has three parent edges, two of them from the product. -/
def shared_leaf_expr : Expr :=
  .Add 1 (.Variable 2 "y" none) (.Mul 3 (.Variable 2 "y" none) (.Variable 2 "y" none))

/-- A state of the engine whose only adjoint is the one of the node at address `1`,
the constant `1.f`. -/
def seeded_engine : ReverseAccumulationVisitor :=
  { ReverseAccumulationVisitor.new (constant_memory 0) with
    accumulated_adjoints := [(1, .FloatImm 0 1)] }

/-- The statements of lines 415-441 for the stage `value` of `func`: the state in
which the reverse walk of the stage begins. -/
def ReverseAccumulationVisitor.stage_start (func : Function) (value : Expr)
    (is_last_update : Bool) (s : ReverseAccumulationVisitor) :
    Except Err ReverseAccumulationVisitor :=
  match map_find func.name s.func_bounds with
  | none => .error .assert_failed
  | some bounds =>
    (if is_last_update then
        ReverseAccumulationVisitor.seed_root func value
          { s with current_bounds := bounds, current_args := func.args }
      else .ok { s with current_bounds := bounds, current_args := func.args }).bind
      (ReverseAccumulationVisitor.new_tmp func)

/-- The definition of both `a` and `b` in `shared_body_memory`: the node `c(x) * 2`. -/
def shared_body_expr : Expr :=
  .Mul 10 (.Call 11 "c" .Halide (some 2) [.Variable 12 "x" none]) (.FloatImm 13 2)

/-- The function object `b` of `shared_body_memory`. -/
def shared_body_b : Function :=
  { name := "b", args := ["x"], value := some shared_body_expr, updates := [] }

/-- The run of `propagate_adjoints(a(0) + b(0))` on `shared_body_memory`, whose sorted
functions are `a, c, b` (handles `0, 2, 1`), as far as the point where the reverse
walk of the definition of `b` begins: bounds inference, the stubs, the walk of the
output, the passes of the loop over `funcs` for `a` and `c`, and lines 415-441 for
`b`. -/
def shared_body_walk_start (fuel : Nat) : Except Err ReverseAccumulationVisitor :=
  (BoundsInferencer.inference (ReverseAccumulationVisitor.new shared_body_memory).mem fuel
    diamond_output).bind fun bounds =>
    (ReverseAccumulationVisitor.create_stubs [0, 2, 1]
      { ReverseAccumulationVisitor.new shared_body_memory with
        func_bounds := bounds.1, mem := bounds.2 }).bind fun s1 =>
      (ReverseAccumulationVisitor.walk (ExpressionSorter.sort diamond_output).reverse
        (ReverseAccumulationVisitor.accumulate diamond_output (mk_float 1 s1.mem).1
          { s1 with mem := (mk_float 1 s1.mem).2 })).bind fun s2 =>
        (ReverseAccumulationVisitor.propagate_funcs [0, 2] s2).bind fun s3 =>
          ReverseAccumulationVisitor.stage_start shared_body_b shared_body_expr true
            { s3 with current_func_name := "b" }

/-! ## Theorems -/

theorem except_bind_ok {ε α : Type} (x : Except ε α) : x.bind Except.ok = x := by
  cases x <;> rfl

theorem except_bind_assoc {ε α β γ : Type} (x : Except ε α) (f : α → Except ε β)
    (g : β → Except ε γ) : (x.bind f).bind g = x.bind fun a => (f a).bind g := by
  cases x <;> rfl

theorem except_bind_eq_ok {ε α β : Type} {x : Except ε α} {f : α → Except ε β} {b : β}
    (h : x.bind f = .ok b) : ∃ a, x = .ok a ∧ f a = .ok b := by
  cases x with
  | error e => simp [Except.bind] at h
  | ok a => exact ⟨a, rfl, h⟩

/-! ### Nodes and operands -/

theorem Expr.size_le_size_list (c : Expr) :
    ∀ (es : List Expr), c ∈ es → c.size ≤ Expr.size_list es
  | [], h => by simp at h
  | e :: es, h => by
    simp only [List.mem_cons] at h
    rcases h with h | h
    · subst h; simp [Expr.size_list]
    · have := Expr.size_le_size_list c es h
      simp [Expr.size_list]; omega

theorem Expr.size_operand (e c : Expr) (h : c ∈ e.operands) : c.size < e.size := by
  cases e <;> simp [Expr.operands] at h <;> simp [Expr.size]
  all_goals first
    | (rcases h with h | h | h <;> subst h <;> omega)
    | (rcases h with h | h <;> subst h <;> omega)
    | (subst h; omega)
    | (have hle := Expr.size_le_size_list c _ h; omega)

theorem mem_subterms_list (a : Expr) :
    ∀ (es : List Expr), a ∈ subterms_list es ↔ ∃ c ∈ es, a ∈ subterms c
  | [] => by simp [subterms_list]
  | e :: es => by simp [subterms_list, mem_subterms_list a es]

theorem mem_subterms_iff (a e : Expr) :
    a ∈ subterms e ↔ a = e ∨ ∃ c ∈ e.operands, a ∈ subterms c := by
  cases e <;> simp [subterms, Expr.operands, mem_subterms_list]

theorem subterms_self (e : Expr) : e ∈ subterms e := by
  rw [mem_subterms_iff]; exact Or.inl rfl

theorem subterms_operand (c : Expr) :
    ∀ (n : Nat) (e r : Expr), r.size ≤ n → c ∈ e.operands → e ∈ subterms r → c ∈ subterms r := by
  intro n
  induction n with
  | zero =>
    intro e r hr
    have : 0 < r.size := by cases r <;> simp [Expr.size]
    omega
  | succ n ih =>
    intro e r hr hc he
    rw [mem_subterms_iff] at he ⊢
    rcases he with he | ⟨d, hd, he⟩
    · subst he
      exact Or.inr ⟨c, hc, subterms_self c⟩
    · have hlt := Expr.size_operand r d hd
      exact Or.inr ⟨d, hd, ih e d (by omega) hc he⟩

theorem program_nodes_operand {mem : Memory} {output e c : Expr}
    (he : e ∈ program_nodes mem output) (hc : c ∈ e.operands) :
    c ∈ program_nodes mem output := by
  unfold program_nodes at he ⊢
  rw [mem_subterms_list] at he ⊢
  obtain ⟨r, hr, he⟩ := he
  exact ⟨r, hr, subterms_operand c r.size e r (le_refl _) hc he⟩

theorem program_nodes_root {mem : Memory} {output e : Expr}
    (he : e ∈ program_roots mem output) : e ∈ program_nodes mem output := by
  unfold program_nodes
  rw [mem_subterms_list]
  exact ⟨e, he, subterms_self e⟩

theorem program_roots_stage {mem : Memory} {output e : Expr} {g : Nat} {f : Function}
    (hg : mem.funcs[g]? = some f) (he : e ∈ f.stage_exprs) :
    e ∈ program_roots mem output := by
  unfold program_roots
  simp only [List.mem_cons, List.mem_flatMap]
  exact Or.inr ⟨f, List.getElem?_mem hg, he⟩

theorem mem_direct_calls_list (h : Nat) :
    ∀ (es : List Expr), h ∈ direct_calls_list es ↔ ∃ c ∈ es, h ∈ direct_calls c
  | [] => by simp [direct_calls_list]
  | e :: es => by simp [direct_calls_list, mem_direct_calls_list h es]

theorem mem_direct_calls_iff (h : Nat) (e : Expr) :
    h ∈ direct_calls e ↔
      if e.is_halide_call then e.call_func = some h
      else ∃ c ∈ e.operands, h ∈ direct_calls c := by
  cases e <;>
    simp [direct_calls, Expr.operands, Expr.is_halide_call, Expr.call_func, mem_direct_calls_list]
  rename_i i n ct func args
  by_cases hct : ct = .Halide
  · simp only [hct, if_true]
    cases func <;> simp [eq_comm]
  · simp [hct, mem_direct_calls_list]
/-! ### `FunctionSorter`: every collected function is reachable, every reachable
function is collected -/

theorem FunctionSorter.Settled.mono {mem : Memory} {s t : FunctionSorter} {e : Expr}
    (h : FunctionSorter.Settled mem s e) (hv : ∀ i ∈ s.visited, i ∈ t.visited)
    (ht : ∀ n ∈ s.traversed_functions, n ∈ t.traversed_functions) :
    FunctionSorter.Settled mem t e := by
  unfold FunctionSorter.Settled at h ⊢
  split
  · rename_i hc
    rw [if_pos hc] at h
    intro g hg
    exact ⟨(h g hg).1, ht _ (h g hg).2⟩
  · rename_i hc
    rw [if_neg hc] at h
    intro c hcm
    exact hv _ (h c hcm)

theorem FunctionSorter.Step.refl (mem : Memory) (output : Expr) (R : Nat → Prop)
    (s : FunctionSorter) : FunctionSorter.Step mem output R s s :=
  { visited_mono := fun _ h => h
    traversed_mono := fun _ h => h
    functions_mono := fun _ h => h
    new_visited := fun _ _ h h' => absurd h h'
    new_functions := fun _ h h' => absurd h h'
    good := fun h => h }

theorem FunctionSorter.Step.trans {mem : Memory} {output : Expr} {R : Nat → Prop}
    {s t u : FunctionSorter} (h1 : FunctionSorter.Step mem output R s t)
    (h2 : FunctionSorter.Step mem output R t u) : FunctionSorter.Step mem output R s u :=
  { visited_mono := fun i h => h2.visited_mono i (h1.visited_mono i h)
    traversed_mono := fun n h => h2.traversed_mono n (h1.traversed_mono n h)
    functions_mono := fun g h => h2.functions_mono g (h1.functions_mono g h)
    new_visited := by
      intro e he hu hs
      by_cases ht : e.id ∈ t.visited
      · exact (h1.new_visited e he ht hs).mono h2.visited_mono h2.traversed_mono
      · exact h2.new_visited e he hu ht
    new_functions := by
      intro g hu hs
      by_cases ht : g ∈ t.functions
      · obtain ⟨hr, hf⟩ := h1.new_functions g ht hs
        exact ⟨hr, fun f hg e he => (hf f hg e he).mono h2.visited_mono h2.traversed_mono⟩
      · exact h2.new_functions g hu ht
    good := fun h => h2.good (h1.good h) }

/-- Recording the address of a node of the program is a step once the node is settled. -/
theorem FunctionSorter.Step.visit {mem : Memory} {output : Expr} {R : Nat → Prop}
    {s t : FunctionSorter} {c : Expr} (hcons : Consistent mem output)
    (hc : c ∈ program_nodes mem output)
    (h : FunctionSorter.Step mem output R { s with visited := c.id :: s.visited } t)
    (hs : FunctionSorter.Settled mem t c) : FunctionSorter.Step mem output R s t :=
  { visited_mono := fun i hi => h.visited_mono i (List.mem_cons_of_mem _ hi)
    traversed_mono := h.traversed_mono
    functions_mono := h.functions_mono
    new_visited := by
      intro e he ht hns
      by_cases hid : e.id = c.id
      · have := hcons e he c hc hid
        subst this
        exact hs
      · exact h.new_visited e he ht (by simp [hid, hns])
    new_functions := h.new_functions
    good := h.good }

theorem FunctionSorter.accept_list_nil (sf : Nat → FunctionSorter → Except Err FunctionSorter)
    (mem : Memory) : FunctionSorter.accept_list sf mem [] = Except.ok := by
  funext s
  simp [FunctionSorter.accept_list]

/-- On a node that is not a call of an array function, `accept` includes the operands. -/
theorem FunctionSorter.accept_eq_list (sf : Nat → FunctionSorter → Except Err FunctionSorter)
    (mem : Memory) (e : Expr) (s : FunctionSorter) (he : e.is_halide_call = false) :
    FunctionSorter.accept sf mem e s = FunctionSorter.accept_list sf mem e.operands s := by
  cases e <;>
    simp_all [FunctionSorter.accept, FunctionSorter.accept_list, Expr.operands,
      Expr.is_halide_call, except_bind_ok, except_bind_assoc, FunctionSorter.accept_list_nil]

theorem Expr.size_pos (e : Expr) : 0 < e.size := by
  cases e <;> simp [Expr.size]

theorem FunctionSorter.accept_step {mem : Memory} {output : Expr} {R : Nat → Prop}
    {sf : Nat → FunctionSorter → Except Err FunctionSorter} (hcons : Consistent mem output)
    (hsf : FunctionSorter.SortFuncSpec mem output R sf) :
    ∀ (n : Nat) (e : Expr) (s t : FunctionSorter), e.size ≤ n →
      e ∈ program_nodes mem output → (∀ h ∈ direct_calls e, R h) →
      FunctionSorter.accept sf mem e s = .ok t →
      FunctionSorter.Step mem output R s t ∧ FunctionSorter.Settled mem t e := by
  intro n
  induction n with
  | zero =>
    intro e s t hsz
    have := Expr.size_pos e
    omega
  | succ n ih =>
    intro e s t hsz he hR hacc
    by_cases hc : e.is_halide_call = true
    · cases e <;> simp [Expr.is_halide_call] at hc
      rename_i i name ct func args
      subst hc
      simp only [FunctionSorter.accept, if_true] at hacc
      cases func with
      | none => simp at hacc
      | some h =>
        simp only at hacc
        cases hget : mem.funcs[h]? with
        | none =>
          rw [hget] at hacc
          cases hacc
        | some f =>
          rw [hget] at hacc
          dsimp only at hacc
          have hlen : h < mem.funcs.length := by
            rcases List.getElem?_eq_some.1 hget with ⟨hl, _⟩
            exact hl
          have hname : func_name mem h = f.name := by
            unfold func_name
            rw [hget]
          have hset : ∀ u : FunctionSorter, func_name mem h ∈ u.traversed_functions →
              FunctionSorter.Settled mem u (.Call i name .Halide (some h) args) := by
            intro u hu
            simp only [FunctionSorter.Settled, Expr.is_halide_call, Expr.call_func,
              decide_True, if_true]
            intro g hg
            cases hg
            exact ⟨hlen, hu⟩
          by_cases htr : f.name ∈ s.traversed_functions
          · rw [if_pos htr] at hacc
            cases hacc
            exact ⟨FunctionSorter.Step.refl _ _ _ _, hset _ (hname ▸ htr)⟩
          · rw [if_neg htr] at hacc
            have hRh : R h := hR h (by simp [direct_calls])
            obtain ⟨hst, hin⟩ := hsf h s t hRh hlen (hname ▸ htr) hacc
            exact ⟨hst, hset _ hin⟩
    · have hc' : e.is_halide_call = false := by simpa using hc
      rw [FunctionSorter.accept_eq_list sf mem e s hc'] at hacc
      have key : ∀ (es : List Expr) (s t : FunctionSorter),
          (∀ c ∈ es, c.size ≤ n ∧ c ∈ program_nodes mem output ∧ ∀ h ∈ direct_calls c, R h) →
          FunctionSorter.accept_list sf mem es s = .ok t →
          FunctionSorter.Step mem output R s t ∧ ∀ c ∈ es, c.id ∈ t.visited := by
        intro es
        induction es with
        | nil =>
          intro s t _ h
          simp [FunctionSorter.accept_list] at h
          subst h
          exact ⟨FunctionSorter.Step.refl _ _ _ _, by simp⟩
        | cons c es ihl =>
          intro s t hes h
          simp only [FunctionSorter.accept_list] at h
          obtain ⟨s1, h1, h2⟩ := except_bind_eq_ok h
          obtain ⟨hcsz, hcp, hcR⟩ := hes c (List.mem_cons_self _ _)
          have hstep1 : FunctionSorter.Step mem output R s s1 ∧ c.id ∈ s1.visited := by
            unfold FunctionSorter.include_with at h1
            by_cases hv : c.id ∈ s.visited
            · rw [if_pos hv] at h1
              cases h1
              exact ⟨FunctionSorter.Step.refl _ _ _ _, hv⟩
            · rw [if_neg hv] at h1
              obtain ⟨hst, hse⟩ := ih c _ s1 hcsz hcp hcR h1
              exact ⟨FunctionSorter.Step.visit hcons hcp hst hse,
                hst.visited_mono _ (List.mem_cons_self _ _)⟩
          obtain ⟨hst2, hv2⟩ := ihl s1 t (fun d hd => hes d (List.mem_cons_of_mem _ hd)) h2
          refine ⟨hstep1.1.trans hst2, ?_⟩
          intro d hd
          simp only [List.mem_cons] at hd
          rcases hd with hd | hd
          · subst hd
            exact hst2.visited_mono _ hstep1.2
          · exact hv2 d hd
      have hops : ∀ c ∈ e.operands,
          c.size ≤ n ∧ c ∈ program_nodes mem output ∧ ∀ h ∈ direct_calls c, R h := by
        intro c hcm
        refine ⟨?_, program_nodes_operand he hcm, ?_⟩
        · have := Expr.size_operand e c hcm
          omega
        · intro h hh
          apply hR
          rw [mem_direct_calls_iff, if_neg hc]
          exact ⟨c, hcm, hh⟩
      obtain ⟨hst, hv⟩ := key e.operands s t hops hacc
      refine ⟨hst, ?_⟩
      unfold FunctionSorter.Settled
      rw [if_neg hc]
      exact hv
theorem mem_stage_exprs (f : Function) (e : Expr) :
    e ∈ f.stage_exprs ↔ some e ∈ f.stage_values := by
  simp [Function.stage_exprs, List.mem_filterMap]

theorem FunctionSorter.accept_stages_step {mem : Memory} {output : Expr} {R : Nat → Prop}
    {sf : Nat → FunctionSorter → Except Err FunctionSorter} (hcons : Consistent mem output)
    (hsf : FunctionSorter.SortFuncSpec mem output R sf) :
    ∀ (l : List (Option Expr)) (s t : FunctionSorter),
      (∀ e, some e ∈ l → e ∈ program_nodes mem output ∧ ∀ h ∈ direct_calls e, R h) →
      FunctionSorter.accept_stages sf mem l s = .ok t →
      FunctionSorter.Step mem output R s t ∧
        ∀ e, some e ∈ l → FunctionSorter.Settled mem t e := by
  intro l
  induction l with
  | nil =>
    intro s t _ h
    simp [FunctionSorter.accept_stages] at h
    subst h
    exact ⟨FunctionSorter.Step.refl _ _ _ _, by simp⟩
  | cons x l ih =>
    intro s t hl h
    cases x with
    | none => simp [FunctionSorter.accept_stages] at h
    | some e =>
      simp only [FunctionSorter.accept_stages] at h
      obtain ⟨s1, h1, h2⟩ := except_bind_eq_ok h
      obtain ⟨hp, hr⟩ := hl e (List.mem_cons_self _ _)
      obtain ⟨hst1, hse1⟩ := FunctionSorter.accept_step hcons hsf e.size e s s1 (le_refl _) hp hr h1
      obtain ⟨hst2, hse2⟩ := ih s1 t (fun d hd => hl d (List.mem_cons_of_mem _ hd)) h2
      refine ⟨hst1.trans hst2, ?_⟩
      intro d hd
      simp only [List.mem_cons] at hd
      rcases hd with hd | hd
      · cases hd
        exact hse1.mono hst2.visited_mono hst2.traversed_mono
      · exact hse2 d hd

theorem FunctionSorter.sort_func_step {mem : Memory} {output : Expr} {R : Nat → Prop}
    (hcons : Consistent mem output)
    (hR : ∀ g f e h, R g → mem.funcs[g]? = some f → e ∈ f.stage_exprs →
      h ∈ direct_calls e → R h) :
    ∀ fuel, FunctionSorter.SortFuncSpec mem output R (FunctionSorter.sort_func mem fuel) := by
  intro fuel
  induction fuel with
  | zero =>
    intro h s t _ _ _ hs
    simp [FunctionSorter.sort_func] at hs
  | succ fuel ih =>
    intro h s t hRh hlen hnot hs
    simp only [FunctionSorter.sort_func] at hs
    cases hget : mem.funcs[h]? with
    | none =>
      rw [hget] at hs
      cases hs
    | some f =>
      rw [hget] at hs
      dsimp only at hs
      have hname : func_name mem h = f.name := by
        unfold func_name
        rw [hget]
      have hstages : ∀ e, some e ∈ f.stage_values →
          e ∈ program_nodes mem output ∧ ∀ g ∈ direct_calls e, R g := by
        intro e he
        have he' := (mem_stage_exprs f e).2 he
        exact ⟨program_nodes_root (program_roots_stage hget he'),
          fun g hg => hR h f e g hRh hget he' hg⟩
      obtain ⟨hst, hse⟩ := FunctionSorter.accept_stages_step hcons ih f.stage_values _ t hstages hs
      have hin : func_name mem h ∈ t.traversed_functions :=
        hst.traversed_mono _ (by simp [hname])
      refine ⟨?_, hin⟩
      exact
        { visited_mono := fun i hi => hst.visited_mono i hi
          traversed_mono := fun n hn => hst.traversed_mono n (List.mem_cons_of_mem _ hn)
          functions_mono := fun g hg => hst.functions_mono g (List.mem_append_left _ hg)
          new_visited := fun e he ht hs' => hst.new_visited e he ht hs'
          new_functions := by
            intro g hg hgs
            by_cases hgh : g = h
            · subst hgh
              refine ⟨hRh, ?_⟩
              intro f' hf' e he
              rw [hget] at hf'
              cases hf'
              exact hse e ((mem_stage_exprs f e).1 he)
            · exact hst.new_functions g hg (by simp [hgs, hgh])
          good := by
            intro hgood
            apply hst.good
            obtain ⟨hnd, hval, hsur⟩ := hgood
            refine ⟨?_, ?_, ?_⟩
            · simp only [List.map_append, List.map_cons, List.map_nil]
              rw [List.nodup_append]
              refine ⟨hnd, by simp, ?_⟩
              intro a ha hb
              simp only [List.mem_singleton] at hb
              subst hb
              rcases List.mem_map.1 ha with ⟨g, hg, hge⟩
              exact hnot (hge ▸ (hval g hg).2)
            · intro g hg
              simp only [List.mem_append, List.mem_singleton] at hg
              rcases hg with hg | hg
              · exact ⟨(hval g hg).1, List.mem_cons_of_mem _ (hval g hg).2⟩
              · subst hg
                exact ⟨hlen, by simp [hname]⟩
            · intro n hn
              simp only [List.mem_cons] at hn
              rcases hn with hn | hn
              · exact ⟨h, by simp, by rw [hname, hn]⟩
              · obtain ⟨g, hg, hge⟩ := hsur n hn
                exact ⟨g, List.mem_append_left _ hg, hge⟩ }
/-- What a completed run of `FunctionSorter::sort(const Expr &)` guarantees: the
collected functions have pairwise different names and are reachable, and every
function called in the output or in a stage of a collected function, outside the
index arguments of array-function calls, has its name among the collected ones. -/
theorem FunctionSorter.sort_spec {mem : Memory} {output : Expr} {fuel : Nat} {funcs : List Nat}
    (hcons : Consistent mem output)
    (hsort : FunctionSorter.sort mem fuel output = .ok funcs) :
    (funcs.map (func_name mem)).Nodup ∧
    (∀ g ∈ funcs, g < mem.funcs.length ∧ Reachable mem output g) ∧
    (∀ h ∈ direct_calls output,
      h < mem.funcs.length ∧ func_name mem h ∈ funcs.map (func_name mem)) ∧
    (∀ g ∈ funcs, ∀ f, mem.funcs[g]? = some f → ∀ e ∈ f.stage_exprs, ∀ h ∈ direct_calls e,
      h < mem.funcs.length ∧ func_name mem h ∈ funcs.map (func_name mem)) := by
  unfold FunctionSorter.sort at hsort
  cases hacc : FunctionSorter.accept (FunctionSorter.sort_func mem fuel) mem output
      { visited := [], functions := [], traversed_functions := [] } with
  | error err =>
    rw [hacc] at hsort
    cases hsort
  | ok t =>
    rw [hacc] at hsort
    simp only [Except.map] at hsort
    cases hsort
    have hsf := @FunctionSorter.sort_func_step mem output (Reachable mem output) hcons
      (fun g f e h hg hf he hh => Reachable.step g h f e hg hf he hh) fuel
    have hout : output ∈ program_nodes mem output :=
      program_nodes_root (by simp [program_roots])
    obtain ⟨hst, hse⟩ := FunctionSorter.accept_step hcons hsf output.size output _ t (le_refl _)
      hout (fun h hh => Reachable.root h hh) hacc
    have hgood : FunctionSorter.Good mem t := hst.good ⟨by simp, by simp, by simp⟩
    have key : ∀ (n : Nat) (e : Expr), e.size ≤ n → e ∈ program_nodes mem output →
        FunctionSorter.Settled mem t e → ∀ h ∈ direct_calls e,
        h < mem.funcs.length ∧ func_name mem h ∈ t.traversed_functions := by
      intro n
      induction n with
      | zero =>
        intro e hsz
        have := Expr.size_pos e
        omega
      | succ n ih =>
        intro e hsz he hset h hh
        rw [mem_direct_calls_iff] at hh
        unfold FunctionSorter.Settled at hset
        by_cases hc : e.is_halide_call = true
        · rw [if_pos hc] at hh hset
          exact hset h hh
        · rw [if_neg hc] at hh hset
          obtain ⟨c, hcm, hhc⟩ := hh
          have hlt := Expr.size_operand e c hcm
          have hcp := program_nodes_operand he hcm
          exact ih c (by omega) hcp (hst.new_visited c hcp (hset c hcm) (by simp)) h hhc
    have hnames : ∀ n, n ∈ t.traversed_functions → n ∈ t.functions.map (func_name mem) := by
      intro n hn
      obtain ⟨g, hg, hge⟩ := hgood.2.2 n hn
      exact List.mem_map.2 ⟨g, hg, hge⟩
    refine ⟨hgood.1, ?_, ?_, ?_⟩
    · intro g hg
      exact ⟨(hgood.2.1 g hg).1, (hst.new_functions g hg (by simp)).1⟩
    · intro h hh
      obtain ⟨h1, h2⟩ := key output.size output (le_refl _) hout hse h hh
      exact ⟨h1, hnames _ h2⟩
    · intro g hg f hf e he h hh
      have hset := (hst.new_functions g hg (by simp)).2 f hf e he
      obtain ⟨h1, h2⟩ := key e.size e (le_refl _)
        (program_nodes_root (program_roots_stage hf he)) hset h hh
      exact ⟨h1, hnames _ h2⟩

theorem consistent_of_nodup_ids {mem : Memory} {output : Expr}
    (h : ((program_nodes mem output).map Expr.id).Nodup) : Consistent mem output := by
  intro a ha b hb hab
  exact List.inj_on_of_nodup_map h ha hb hab
/-! ### `FunctionSorter`: enough fuel gives a result -/

theorem filter_length_lt {α : Type} (p q : α → Bool) (hpq : ∀ x, p x = true → q x = true)
    (a : α) (hq : q a = true) (hp : p a = false) :
    ∀ (l : List α), a ∈ l → (l.filter p).length < (l.filter q).length
  | [], h => by simp at h
  | x :: l, h => by
    have hle : (l.filter p).length ≤ (l.filter q).length :=
      (List.monotone_filter_right l (fun x hx => hpq x hx)).length_le
    by_cases hxa : x = a
    · subst hxa
      simp [List.filter, hq, hp]
      omega
    · have hal : a ∈ l := by
        simp only [List.mem_cons] at h
        rcases h with h | h
        · exact absurd h.symm hxa
        · exact h
      have ih := filter_length_lt p q hpq a hq hp l hal
      cases hpx : p x
      · cases hqx : q x <;> simp [List.filter, hpx, hqx] <;> omega
      · have hqx := hpq x hpx
        simp [List.filter, hpx, hqx]
        omega

theorem untraversed_mono (mem : Memory) {s t : List String} (h : ∀ n ∈ s, n ∈ t) :
    untraversed mem t ≤ untraversed mem s := by
  unfold untraversed
  apply List.Sublist.length_le
  apply List.monotone_filter_right
  intro g hg
  simp only [decide_eq_true_eq] at hg ⊢
  exact fun hn => hg (h _ hn)

theorem untraversed_cons_lt (mem : Memory) (s : List String) (h : Nat)
    (hlen : h < mem.funcs.length) (hnot : func_name mem h ∉ s) :
    untraversed mem (func_name mem h :: s) < untraversed mem s := by
  unfold untraversed
  apply filter_length_lt _ _ _ h
  · simpa using hnot
  · simp
  · simpa using hlen
  · intro g hg
    simp only [decide_eq_true_eq, List.mem_cons, not_or] at hg ⊢
    exact hg.2

/-- The termination behaviour of `sort(const Func &)` that `accept` relies on. -/
theorem FunctionSorter.accept_total {mem : Memory} {output : Expr} {fuel : Nat}
    {sf : Nat → FunctionSorter → Except Err FunctionSorter} (hwf : WellFormed mem output)
    (hsf : ∀ h s, h < mem.funcs.length → func_name mem h ∉ s.traversed_functions →
      untraversed mem s.traversed_functions ≤ fuel →
      ∃ t, sf h s = .ok t ∧ ∀ n ∈ s.traversed_functions, n ∈ t.traversed_functions) :
    ∀ (n : Nat) (e : Expr) (s : FunctionSorter), e.size ≤ n →
      e ∈ program_nodes mem output → untraversed mem s.traversed_functions ≤ fuel →
      ∃ t, FunctionSorter.accept sf mem e s = .ok t ∧
        ∀ n ∈ s.traversed_functions, n ∈ t.traversed_functions := by
  intro n
  induction n with
  | zero =>
    intro e s hsz
    have := Expr.size_pos e
    omega
  | succ n ih =>
    intro e s hsz he hu
    by_cases hc : e.is_halide_call = true
    · obtain ⟨h, hf, hlen⟩ := hwf.1 e he hc
      cases e <;> simp [Expr.is_halide_call] at hc
      rename_i i name ct func args
      subst hc
      simp only [Expr.call_func] at hf
      subst hf
      obtain ⟨f, hget⟩ : ∃ f, mem.funcs[h]? = some f :=
        ⟨mem.funcs[h], List.getElem?_eq_getElem hlen⟩
      have hname : func_name mem h = f.name := by
        unfold func_name
        rw [hget]
      simp only [FunctionSorter.accept, if_true]
      rw [hget]
      dsimp only
      by_cases htr : f.name ∈ s.traversed_functions
      · rw [if_pos htr]
        exact ⟨s, rfl, fun _ h => h⟩
      · rw [if_neg htr]
        exact hsf h s hlen (hname ▸ htr) hu
    · have hc' : e.is_halide_call = false := by simpa using hc
      rw [FunctionSorter.accept_eq_list sf mem e s hc']
      have key : ∀ (es : List Expr) (s : FunctionSorter),
          (∀ c ∈ es, c.size ≤ n ∧ c ∈ program_nodes mem output) →
          untraversed mem s.traversed_functions ≤ fuel →
          ∃ t, FunctionSorter.accept_list sf mem es s = .ok t ∧
            ∀ n ∈ s.traversed_functions, n ∈ t.traversed_functions := by
        intro es
        induction es with
        | nil =>
          intro s _ _
          exact ⟨s, by simp [FunctionSorter.accept_list], fun _ h => h⟩
        | cons c es ihl =>
          intro s hes hu
          obtain ⟨hcsz, hcp⟩ := hes c (List.mem_cons_self _ _)
          have h1 : ∃ s1, FunctionSorter.include_with c.id (FunctionSorter.accept sf mem c) s
              = .ok s1 ∧ ∀ n ∈ s.traversed_functions, n ∈ s1.traversed_functions := by
            unfold FunctionSorter.include_with
            by_cases hv : c.id ∈ s.visited
            · rw [if_pos hv]
              exact ⟨s, rfl, fun _ h => h⟩
            · rw [if_neg hv]
              exact ih c _ hcsz hcp hu
          obtain ⟨s1, h1, hm1⟩ := h1
          obtain ⟨t, h2, hm2⟩ := ihl s1 (fun d hd => hes d (List.mem_cons_of_mem _ hd))
            (le_trans (untraversed_mono mem hm1) hu)
          refine ⟨t, ?_, fun n hn => hm2 n (hm1 n hn)⟩
          simp only [FunctionSorter.accept_list, h1, Except.bind, h2]
      apply key e.operands s _ hu
      intro c hcm
      have := Expr.size_operand e c hcm
      exact ⟨by omega, program_nodes_operand he hcm⟩

theorem FunctionSorter.sort_func_total {mem : Memory} {output : Expr}
    (hwf : WellFormed mem output) :
    ∀ (fuel : Nat) (h : Nat) (s : FunctionSorter), h < mem.funcs.length →
      func_name mem h ∉ s.traversed_functions →
      untraversed mem s.traversed_functions ≤ fuel →
      ∃ t, FunctionSorter.sort_func mem fuel h s = .ok t ∧
        ∀ n ∈ s.traversed_functions, n ∈ t.traversed_functions := by
  intro fuel
  induction fuel with
  | zero =>
    intro h s hlen hnot hu
    have := untraversed_cons_lt mem _ h hlen hnot
    omega
  | succ fuel ih =>
    intro h s hlen hnot hu
    obtain ⟨f, hget⟩ : ∃ f, mem.funcs[h]? = some f :=
      ⟨mem.funcs[h], List.getElem?_eq_getElem hlen⟩
    have hname : func_name mem h = f.name := by
      unfold func_name
      rw [hget]
    simp only [FunctionSorter.sort_func]
    rw [hget]
    dsimp only
    have hlt := untraversed_cons_lt mem _ h hlen hnot
    rw [hname] at hlt
    have key : ∀ (l : List (Option Expr)) (s : FunctionSorter),
        (∀ x ∈ l, ∃ e, x = some e ∧ e ∈ program_nodes mem output) →
        untraversed mem s.traversed_functions ≤ fuel →
        ∃ t, FunctionSorter.accept_stages (FunctionSorter.sort_func mem fuel) mem l s = .ok t ∧
          ∀ n ∈ s.traversed_functions, n ∈ t.traversed_functions := by
      intro l
      induction l with
      | nil =>
        intro s _ _
        exact ⟨s, by simp [FunctionSorter.accept_stages], fun _ h => h⟩
      | cons x l ihl =>
        intro s hl hu
        obtain ⟨e, hx, hep⟩ := hl x (List.mem_cons_self _ _)
        subst hx
        obtain ⟨s1, h1, hm1⟩ := FunctionSorter.accept_total hwf ih e.size e s (le_refl _) hep hu
        obtain ⟨t, h2, hm2⟩ := ihl s1 (fun d hd => hl d (List.mem_cons_of_mem _ hd))
          (le_trans (untraversed_mono mem hm1) hu)
        refine ⟨t, ?_, fun n hn => hm2 n (hm1 n hn)⟩
        simp only [FunctionSorter.accept_stages, h1, Except.bind, h2]
    have hstages : ∀ x ∈ f.stage_values, ∃ e, x = some e ∧ e ∈ program_nodes mem output := by
      intro x hx
      obtain ⟨v, hv⟩ := hwf.2 f (List.getElem?_mem hget)
      simp only [Function.stage_values, List.mem_append, List.mem_map, List.mem_reverse,
        List.mem_singleton] at hx
      rcases hx with ⟨d, hd, hdx⟩ | hx
      · refine ⟨d.value, hdx.symm, program_nodes_root (program_roots_stage hget ?_)⟩
        rw [mem_stage_exprs]
        simp only [Function.stage_values, List.mem_append, List.mem_map, List.mem_reverse]
        exact Or.inl ⟨d, hd, rfl⟩
      · refine ⟨v, by rw [hx, hv], program_nodes_root (program_roots_stage hget ?_)⟩
        rw [mem_stage_exprs]
        simp [Function.stage_values, hv]
    obtain ⟨t, ht, hm⟩ := key f.stage_values
      { s with traversed_functions := f.name :: s.traversed_functions,
               functions := s.functions ++ [h] } hstages (by simp only; omega)
    exact ⟨t, ht, fun n hn => hm n (List.mem_cons_of_mem _ hn)⟩

/-- With at least as much fuel as there are function objects, the sorter returns a list. -/
theorem FunctionSorter.sort_total {mem : Memory} {output : Expr} {fuel : Nat}
    (hwf : WellFormed mem output) (hfuel : mem.funcs.length ≤ fuel) :
    ∃ funcs, FunctionSorter.sort mem fuel output = .ok funcs := by
  have hu : untraversed mem [] ≤ fuel := by
    unfold untraversed
    exact le_trans (List.length_filter_le _ _) (by simpa using hfuel)
  obtain ⟨t, ht, _⟩ := FunctionSorter.accept_total hwf
    (FunctionSorter.sort_func_total hwf fuel) output.size output
    { visited := [], functions := [], traversed_functions := [] } (le_refl _)
    (program_nodes_root (by simp [program_roots])) hu
  exact ⟨t.functions, by simp [FunctionSorter.sort, ht, Except.map]⟩
/-- C8 amended: when reachability does not pass through the index arguments of
array-function calls, the list `FunctionSorter` produces (with at least as much
fuel as there are function objects) contains every reachable function and nothing
else, and no function and no name twice. -/
theorem function_sorter_reachable (mem : Memory) (output : Expr) (fuel : Nat)
    (hcons : Consistent mem output) (hnames : UniqueNames mem) (hwf : WellFormed mem output)
    (hfuel : mem.funcs.length ≤ fuel) :
    ∃ funcs, FunctionSorter.sort mem fuel output = .ok funcs ∧ funcs.Nodup ∧
      (funcs.map (func_name mem)).Nodup ∧ ∀ g, g ∈ funcs ↔ Reachable mem output g := by
  obtain ⟨funcs, hsort⟩ := FunctionSorter.sort_total hwf hfuel
  obtain ⟨hnd, hreach, hout, hstage⟩ := FunctionSorter.sort_spec hcons hsort
  have hmem : ∀ h, h < mem.funcs.length → func_name mem h ∈ funcs.map (func_name mem) →
      h ∈ funcs := by
    intro h hlen hin
    obtain ⟨g, hg, hge⟩ := List.mem_map.1 hin
    have := hnames g h (hreach g hg).1 hlen hge
    exact this ▸ hg
  refine ⟨funcs, hsort, List.Nodup.of_map _ hnd, hnd, fun g => ⟨fun hg => (hreach g hg).2, ?_⟩⟩
  intro hr
  induction hr with
  | root h hh => exact hmem h (hout h hh).1 (hout h hh).2
  | step g h f e _ hf he hh ih =>
    exact hmem h (hstage g ih f hf e he h hh).1 (hstage g ih f hf e he h hh).2

/-- Witness of C8 amended: the diamond `a(0) + b(0)`, `a(x) = c(x)`, `b(x) = c(x)`. -/
theorem function_sorter_reachable_witness :
    Consistent diamond_memory diamond_output ∧ UniqueNames diamond_memory ∧
    WellFormed diamond_memory diamond_output ∧ diamond_memory.funcs.length ≤ 3 ∧
    ∃ funcs, FunctionSorter.sort diamond_memory 3 diamond_output = .ok funcs ∧ funcs.Nodup ∧
      (funcs.map (func_name diamond_memory)).Nodup ∧
      ∀ g, g ∈ funcs ↔ Reachable diamond_memory diamond_output g :=
  have hc : Consistent diamond_memory diamond_output :=
    consistent_of_nodup_ids (by decide)
  have hn : UniqueNames diamond_memory := by
    intro g h hg hh
    simp only [diamond_memory, List.length_cons, List.length_nil] at hg hh
    interval_cases g <;> interval_cases h <;> simp [func_name, diamond_memory]
  have hw : WellFormed diamond_memory diamond_output := by
    constructor
    · intro e he
      simp [program_nodes, program_roots, subterms_list, subterms, diamond_memory,
        diamond_output, Function.stage_exprs, Function.stage_values] at he
      rcases he with h | h | h | h | h | h | h | h | h | h <;> subst h <;>
        simp [Expr.is_halide_call, Expr.call_func, diamond_memory]
    · intro f hf
      simp [diamond_memory] at hf
      rcases hf with h | h | h <;> subst h <;> simp
  ⟨hc, hn, hw, by decide, function_sorter_reachable diamond_memory diamond_output 3 hc hn hw
    (by decide)⟩

/-! ### The pass never touches the function objects of the program

Node builders, the replacer, the inverter and bounds inference leave the list of
function objects as it is. -/

theorem mk_vars_funcs : ∀ (ns : List String) (m : Memory), (mk_vars ns m).2.funcs = m.funcs
  | [], m => rfl
  | n :: ns, m => by
    simp only [mk_vars]
    rw [mk_vars_funcs ns]
    rfl

theorem mk_call_funcs {h : Nat} {args : List Expr} {m : Memory} {r : Expr × Memory}
    (hr : mk_call h args m = .ok r) : r.2.funcs = m.funcs := by
  unfold mk_call at hr
  split at hr
  · cases hr
  · split at hr
    · cases hr
    · cases hr
      rfl

theorem VariableReplacer.mutate_funcs (name : String) (r : Expr) :
    ∀ (k : Nat) (e : Expr) (m : Memory), e.size ≤ k →
      (VariableReplacer.mutate name r e m).2.funcs = m.funcs := by
  intro k
  induction k with
  | zero =>
    intro e m hsz
    have := Expr.size_pos e
    omega
  | succ k ih =>
    intro e m hsz
    have hargs : ∀ (es : List Expr) (m : Memory), Expr.size_list es ≤ k →
        (VariableReplacer.mutate_args name r es m).2.2.funcs = m.funcs := by
      intro es
      induction es with
      | nil => intro m _; rfl
      | cons c es ihl =>
        intro m hes
        simp only [Expr.size_list] at hes
        simp only [VariableReplacer.mutate_args]
        rw [ihl _ (by omega), ih c m (by omega)]
    cases e <;> simp only [Expr.size] at hsz <;> simp only [VariableReplacer.mutate]
    case Variable => split <;> rfl
    case Cast i v =>
      split <;> simp [Memory.fresh, ih v m (by omega)]
    case Select i c t f =>
      split <;>
        simp [mk_select, Memory.fresh, ih c m (by omega), ih t _ (by omega), ih f _ (by omega)]
    case Call i n ct func args =>
      split <;> simp [Memory.fresh, hargs args m (by omega)]
    all_goals
      rename_i i a b
      split <;>
        simp [mk_add, mk_sub, mk_mul, mk_div, mk_min, mk_max, mk_le, mk_ge, mk_let, Memory.fresh,
          ih a m (by omega), ih b _ (by omega)]
theorem inverse_funcs (var : String) :
    ∀ (k : Nat) (e : Expr) (m : Memory) (r : Expr × Memory), e.size ≤ k →
      inverse var e m = .ok r → r.2.funcs = m.funcs := by
  intro k
  induction k with
  | zero =>
    intro e m r hsz
    have := Expr.size_pos e
    omega
  | succ k ih =>
    intro e m r hsz hr
    cases e <;> simp only [Expr.size] at hsz <;> simp only [inverse] at hr
    case Variable =>
      cases hr
      rfl
    case Add i a b =>
      split at hr
      · obtain ⟨x, hx, hr⟩ := except_bind_eq_ok hr
        cases hr
        simp [mk_sub, Memory.fresh, ih a m x (by omega) hx]
      · split at hr
        · obtain ⟨x, hx, hr⟩ := except_bind_eq_ok hr
          cases hr
          simp [mk_sub, Memory.fresh, ih b m x (by omega) hx]
        · cases hr
    case Sub i a b =>
      split at hr
      · obtain ⟨x, hx, hr⟩ := except_bind_eq_ok hr
        cases hr
        simp [mk_add, Memory.fresh, ih a m x (by omega) hx]
      · split at hr
        · obtain ⟨x, hx, hr⟩ := except_bind_eq_ok hr
          cases hr
          simp [mk_sub, Memory.fresh, ih b m x (by omega) hx]
        · cases hr
    case Max i a b =>
      split at hr
      · obtain ⟨x, hx, hr⟩ := except_bind_eq_ok hr
        cases hr
        simp [mk_max, Memory.fresh, ih a m x (by omega) hx]
      · split at hr
        · obtain ⟨x, hx, hr⟩ := except_bind_eq_ok hr
          cases hr
          simp [mk_max, Memory.fresh, ih b m x (by omega) hx]
        · cases hr
    case Min i a b =>
      split at hr
      · obtain ⟨x, hx, hr⟩ := except_bind_eq_ok hr
        cases hr
        simp [mk_min, Memory.fresh, ih a m x (by omega) hx]
      · split at hr
        · obtain ⟨x, hx, hr⟩ := except_bind_eq_ok hr
          cases hr
          simp [mk_min, Memory.fresh, ih b m x (by omega) hx]
        · cases hr
    all_goals cases hr

theorem rdom_var_funcs {rd : RDom} {i : Nat} {m : Memory} {r : Expr × Memory}
    (hr : rdom_var rd i m = .ok r) : r.2.funcs = m.funcs := by
  unfold rdom_var at hr
  obtain ⟨x, _, hr⟩ := except_bind_eq_ok hr
  cases hr
  rfl

theorem ReverseAccumulationVisitor.canonicalize_arg_funcs {x : String} {cb : RDom} {i : Nat}
    {arg adjoint : Expr} {m : Memory} {r : Expr × Memory}
    (hr : ReverseAccumulationVisitor.canonicalize_arg x cb i arg adjoint m = .ok r) :
    r.2.funcs = m.funcs := by
  unfold ReverseAccumulationVisitor.canonicalize_arg at hr
  split at hr
  · obtain ⟨r1, h1, hr⟩ := except_bind_eq_ok hr
    have hr1 : r1.2.funcs = m.funcs := by
      split at h1
      · obtain ⟨rv, hrv, h1⟩ := except_bind_eq_ok h1
        cases h1
        simp only [VariableReplacer.replace]
        rw [VariableReplacer.mutate_funcs _ _ _ _ _ (le_refl _), rdom_var_funcs hrv]
      · cases h1
        rfl
    split at hr
    · cases hr
      simp only [VariableReplacer.replace]
      rw [VariableReplacer.mutate_funcs _ _ _ _ _ (le_refl _)]
      simp [mk_var, Memory.fresh, hr1]
    · cases hr
      exact hr1
  · obtain ⟨inv, hinv, hr⟩ := except_bind_eq_ok hr
    cases hr
    simp only [VariableReplacer.replace]
    rw [VariableReplacer.mutate_funcs _ _ _ _ _ (le_refl _),
      inverse_funcs _ _ _ _ _ (le_refl _) hinv]

theorem ReverseAccumulationVisitor.canonicalize_funcs (func_args : List String) (cb : RDom) :
    ∀ (args : List Expr) (i : Nat) (adjoint : Expr) (m : Memory) (r : Expr × Memory),
      ReverseAccumulationVisitor.canonicalize func_args cb args i adjoint m = .ok r →
      r.2.funcs = m.funcs := by
  intro args
  induction args with
  | nil =>
    intro i adjoint m r hr
    simp only [ReverseAccumulationVisitor.canonicalize] at hr
    cases hr
    rfl
  | cons arg rest ih =>
    intro i adjoint m r hr
    simp only [ReverseAccumulationVisitor.canonicalize] at hr
    split at hr
    · cases hr
    · obtain ⟨r1, h1, hr⟩ := except_bind_eq_ok hr
      rw [ih _ _ _ _ hr, ReverseAccumulationVisitor.canonicalize_arg_funcs h1]
theorem get_min_max_bounds_funcs (ca : List String) (cb : RDom) (index : Nat) :
    ∀ (k : Nat) (e : Expr) (m : Memory) (r : (Expr × Expr) × Memory), e.size ≤ k →
      get_min_max_bounds ca cb index e m = .ok r → r.2.funcs = m.funcs := by
  intro k
  induction k with
  | zero =>
    intro e m r hsz
    have := Expr.size_pos e
    omega
  | succ k ih =>
    intro e m r hsz hr
    cases e <;> simp only [Expr.size] at hsz <;> simp only [get_min_max_bounds] at hr
    case IntImm =>
      cases hr
      rfl
    case Variable i name rd =>
      split at hr
      · obtain ⟨dom, _, hr⟩ := except_bind_eq_ok hr
        split at hr
        · cases hr
        · cases hr
          rfl
      · split at hr
        · obtain ⟨rv, _, hr⟩ := except_bind_eq_ok hr
          cases hr
          rfl
        · cases hr
    case Add i a b =>
      obtain ⟨ra, ha, hr⟩ := except_bind_eq_ok hr
      obtain ⟨rb, hb, hr⟩ := except_bind_eq_ok hr
      cases hr
      simp [mk_add, Memory.fresh, ih b _ rb (by omega) hb, ih a _ ra (by omega) ha]
    case Sub i a b =>
      obtain ⟨ra, ha, hr⟩ := except_bind_eq_ok hr
      obtain ⟨rb, hb, hr⟩ := except_bind_eq_ok hr
      cases hr
      simp [mk_sub, Memory.fresh, ih b _ rb (by omega) hb, ih a _ ra (by omega) ha]
    case Max i a b =>
      obtain ⟨ra, ha, hr⟩ := except_bind_eq_ok hr
      obtain ⟨rb, hb, hr⟩ := except_bind_eq_ok hr
      cases hr
      simp [mk_max, Memory.fresh, ih b _ rb (by omega) hb, ih a _ ra (by omega) ha]
    case Min i a b =>
      obtain ⟨ra, ha, hr⟩ := except_bind_eq_ok hr
      obtain ⟨rb, hb, hr⟩ := except_bind_eq_ok hr
      cases hr
      simp [mk_min, Memory.fresh, ih b _ rb (by omega) hb, ih a _ ra (by omega) ha]
    all_goals cases hr

theorem BoundsInferencer.arg_bounds_funcs (ca : List String) (cb : RDom) :
    ∀ (args : List Expr) (i : Nat) (m : Memory) (r : List (Expr × Expr) × Memory),
      BoundsInferencer.arg_bounds ca cb args i m = .ok r → r.2.funcs = m.funcs := by
  intro args
  induction args with
  | nil =>
    intro i m r hr
    simp only [BoundsInferencer.arg_bounds] at hr
    cases hr
    rfl
  | cons a rest ih =>
    intro i m r hr
    simp only [BoundsInferencer.arg_bounds] at hr
    obtain ⟨mm, hmm, hr⟩ := except_bind_eq_ok hr
    obtain ⟨rs, hrs, hr⟩ := except_bind_eq_ok hr
    cases hr
    simp only
    rw [ih _ _ _ hrs]
    simp [mk_sub, Memory.fresh, get_min_max_bounds_funcs _ _ _ _ _ _ _ (le_refl _) hmm]

theorem BoundsInferencer.merge_args_funcs :
    ∀ (d : List ReductionVariable) (b : List (Expr × Expr)) (m : Memory),
      (BoundsInferencer.merge_args d b m).2.funcs = m.funcs := by
  intro d
  induction d with
  | nil => intro b m; rfl
  | cons x d ih =>
    intro b m
    cases b with
    | nil => rfl
    | cons y b =>
      simp only [BoundsInferencer.merge_args]
      rw [ih]
      simp [merge_bounds, mk_min, mk_max, mk_add, Memory.fresh]

theorem BoundsInferencer.update_bounds_funcs {f : Function} {args : List Expr}
    {s t : BoundsInferencer} (h : BoundsInferencer.update_bounds f args s = .ok t) :
    t.mem.funcs = s.mem.funcs ∧ t.traversed_functions = s.traversed_functions := by
  unfold BoundsInferencer.update_bounds at h
  obtain ⟨ab, hab, h⟩ := except_bind_eq_ok h
  obtain ⟨mg, hmg, h⟩ := except_bind_eq_ok h
  cases h
  refine ⟨?_, rfl⟩
  simp only [mk_rdom]
  have h1 := BoundsInferencer.arg_bounds_funcs _ _ _ _ _ _ hab
  unfold BoundsInferencer.merge_previous at hmg
  split at hmg
  · cases hmg
    exact h1
  · obtain ⟨dom, _, hmg⟩ := except_bind_eq_ok hmg
    split at hmg
    · cases hmg
      rw [BoundsInferencer.merge_args_funcs, h1]
    · cases hmg

theorem BoundsInferencer.bounds_accept_list_nil
    (sf : Nat → BoundsInferencer → Except Err BoundsInferencer) :
    BoundsInferencer.accept_list sf [] = Except.ok := by
  funext s
  simp [BoundsInferencer.accept_list]

theorem BoundsInferencer.bounds_accept_eq_list
    (sf : Nat → BoundsInferencer → Except Err BoundsInferencer)
    (e : Expr) (s : BoundsInferencer) (he : e.is_halide_call = false) :
    BoundsInferencer.accept sf e s = BoundsInferencer.accept_list sf e.operands s := by
  cases e <;>
    simp_all [BoundsInferencer.accept, BoundsInferencer.accept_list, Expr.operands,
      Expr.is_halide_call, except_bind_ok, except_bind_assoc, BoundsInferencer.bounds_accept_list_nil]

theorem BoundsInferencer.accept_funcs
    {sf : Nat → BoundsInferencer → Except Err BoundsInferencer}
    (hsf : ∀ h s t, sf h s = .ok t → t.mem.funcs = s.mem.funcs) :
    ∀ (n : Nat) (e : Expr) (s t : BoundsInferencer), e.size ≤ n →
      BoundsInferencer.accept sf e s = .ok t → t.mem.funcs = s.mem.funcs := by
  intro n
  induction n with
  | zero =>
    intro e s t hsz
    have := Expr.size_pos e
    omega
  | succ n ih =>
    intro e s t hsz hacc
    by_cases hc : e.is_halide_call = true
    · cases e <;> simp [Expr.is_halide_call] at hc
      rename_i i name ct func args
      subst hc
      simp only [BoundsInferencer.accept, if_true] at hacc
      split at hacc
      · cases hacc
      · split at hacc
        · cases hacc
        · obtain ⟨s1, h1, hacc⟩ := except_bind_eq_ok hacc
          have hs1 := (BoundsInferencer.update_bounds_funcs h1).1
          split at hacc
          · cases hacc
            exact hs1
          · split at hacc
            · cases hacc
            · obtain ⟨s2, h2, hacc⟩ := except_bind_eq_ok hacc
              cases hacc
              simp only
              rw [hsf _ _ _ h2]
              exact hs1
    · have hc' : e.is_halide_call = false := by simpa using hc
      rw [BoundsInferencer.bounds_accept_eq_list sf e s hc'] at hacc
      have key : ∀ (es : List Expr) (s t : BoundsInferencer), (∀ c ∈ es, c.size ≤ n) →
          BoundsInferencer.accept_list sf es s = .ok t → t.mem.funcs = s.mem.funcs := by
        intro es
        induction es with
        | nil =>
          intro s t _ h
          simp [BoundsInferencer.accept_list] at h
          subst h
          rfl
        | cons c es ihl =>
          intro s t hes h
          simp only [BoundsInferencer.accept_list] at h
          obtain ⟨s1, h1, h2⟩ := except_bind_eq_ok h
          rw [ihl s1 t (fun d hd => hes d (List.mem_cons_of_mem _ hd)) h2]
          unfold BoundsInferencer.include_with at h1
          split at h1
          · cases h1
            rfl
          · exact ih c { s with visited := c.id :: s.visited } s1
              (hes c (List.mem_cons_self _ _)) h1
      apply key e.operands s t _ hacc
      intro c hcm
      have := Expr.size_operand e c hcm
      omega

theorem BoundsInferencer.inference_func_funcs :
    ∀ (fuel h : Nat) (s t : BoundsInferencer),
      BoundsInferencer.inference_func fuel h s = .ok t → t.mem.funcs = s.mem.funcs := by
  intro fuel
  induction fuel with
  | zero =>
    intro h s t hs
    simp [BoundsInferencer.inference_func] at hs
  | succ fuel ih =>
    intro h s t hs
    simp only [BoundsInferencer.inference_func] at hs
    split at hs
    · cases hs
    · rename_i f hf
      have key : ∀ (l : List (Option Expr)) (s t : BoundsInferencer),
          BoundsInferencer.accept_stages (BoundsInferencer.inference_func fuel) l s = .ok t →
          t.mem.funcs = s.mem.funcs := by
        intro l
        induction l with
        | nil =>
          intro s t h
          simp [BoundsInferencer.accept_stages] at h
          subst h
          rfl
        | cons x l ihl =>
          intro s t h
          cases x with
          | none => simp [BoundsInferencer.accept_stages] at h
          | some e =>
            simp only [BoundsInferencer.accept_stages] at h
            obtain ⟨s1, h1, h2⟩ := except_bind_eq_ok h
            rw [ihl s1 t h2]
            exact BoundsInferencer.accept_funcs ih e.size e s s1 (le_refl _) h1
      exact key _ { s with traversed_functions := f.name :: s.traversed_functions } _ hs

theorem BoundsInferencer.inference_funcs {mem : Memory} {fuel : Nat} {expr : Expr}
    {r : List (String × RDom) × Memory}
    (h : BoundsInferencer.inference mem fuel expr = .ok r) : r.2.funcs = mem.funcs := by
  unfold BoundsInferencer.inference at h
  cases hacc : BoundsInferencer.accept (BoundsInferencer.inference_func fuel) expr
      { visited := [], func_bounds := [], traversed_functions := [], current_args := [],
        current_bounds := none, mem := mem } with
  | error err =>
    rw [hacc] at h
    cases h
  | ok t =>
    rw [hacc] at h
    simp only [Except.map] at h
    cases h
    exact BoundsInferencer.accept_funcs (BoundsInferencer.inference_func_funcs fuel) expr.size expr _ t
      (le_refl _) hacc
/-! ### Association lists -/

theorem map_find_set_self {κ α : Type} [DecidableEq κ] (k : κ) (v : α) :
    ∀ (m : List (κ × α)), map_find k (map_set k v m) = some v
  | [] => by simp [map_set, map_find]
  | (k', v') :: rest => by
    by_cases h : k' = k
    · simp [map_set, map_find, h]
    · simp [map_set, map_find, h, map_find_set_self k v rest]

theorem map_find_set_ne {κ α : Type} [DecidableEq κ] (k k' : κ) (v : α) (hne : k' ≠ k) :
    ∀ (m : List (κ × α)), map_find k' (map_set k v m) = map_find k' m
  | [] => by simp [map_set, map_find, Ne.symm hne]
  | (k'', v'') :: rest => by
    by_cases h : k'' = k
    · subst h
      simp [map_set, map_find, Ne.symm hne]
    · by_cases h2 : k'' = k'
      · subst h2
        simp [map_set, map_find, h]
      · simp [map_set, map_find, h, h2, map_find_set_ne k k' v hne rest]

theorem mem_map_keys_iff {κ α : Type} [DecidableEq κ] (k : κ) :
    ∀ (m : List (κ × α)), k ∈ map_keys m ↔ ∃ v, map_find k m = some v
  | [] => by simp [map_keys, map_find]
  | (k', v') :: rest => by
    have ih := mem_map_keys_iff k rest
    by_cases h : k' = k
    · simp [map_keys, map_find, h]
    · simp only [map_keys, List.map_cons, List.mem_cons, map_find, h, if_false] at ih ⊢
      rw [← ih]
      constructor
      · rintro (h1 | h1)
        · exact absurd h1.symm h
        · exact h1
      · exact Or.inr

theorem mem_map_keys_set {κ α : Type} [DecidableEq κ] (k k' : κ) (v : α) (m : List (κ × α)) :
    k' ∈ map_keys (map_set k v m) ↔ k' = k ∨ k' ∈ map_keys m := by
  rw [mem_map_keys_iff, mem_map_keys_iff]
  by_cases h : k' = k
  · subst h
    simp [map_find_set_self]
  · simp [map_find_set_ne k k' v h, h]

/-! ### Function objects -/

theorem set_func_length (m : Memory) (h : Nat) (f : Function) :
    (m.set_func h f).funcs.length = m.funcs.length := by
  simp [Memory.set_func]

theorem set_func_get_ne (m : Memory) {h g : Nat} (f : Function) (hne : g ≠ h) :
    (m.set_func h f).funcs[g]? = m.funcs[g]? := by
  simp [Memory.set_func, List.getElem?_set_ne (Ne.symm hne)]

theorem set_func_get_self (m : Memory) {h : Nat} (f : Function) (hlt : h < m.funcs.length) :
    (m.set_func h f).funcs[h]? = some f := by
  simp [Memory.set_func, hlt]

theorem define_base_case_spec {t : Nat} {args : List String} {m m1 : Memory}
    (h1 : define_base_case t args m = .ok m1) :
    m1.funcs.length = m.funcs.length ∧
    (∀ g, g ≠ t → m1.funcs[g]? = m.funcs[g]?) ∧
    (∀ F : Function, m.funcs[t]? = some F → ∃ G : Function, m1.funcs[t]? = some G ∧
      G.name = F.name ∧ (F.value.isSome = true → G = F)) := by
  unfold define_base_case at h1
  cases hF : m.funcs[t]? with
  | none =>
    rw [hF] at h1
    cases h1
  | some F =>
    rw [hF] at h1
    dsimp only at h1
    have hlt : t < m.funcs.length := (List.getElem?_eq_some.1 hF).1
    cases hval : F.value with
    | some v =>
      rw [hval] at h1
      cases h1
      exact ⟨rfl, fun g _ => rfl, fun F' hF' => ⟨F', by rw [hF]; exact hF', rfl, fun _ => rfl⟩⟩
    | none =>
      rw [hval] at h1
      cases h1
      refine ⟨set_func_length _ _ _, fun g hg => set_func_get_ne _ _ hg, ?_⟩
      intro F' hF'
      cases hF'
      refine ⟨_, set_func_get_self _ _ hlt, rfl, ?_⟩
      intro hs
      simp [hval] at hs

theorem func_add_update_spec {t : Nat} {args : List String} {e : Expr} {m m' : Memory}
    (h : func_add_update t args e m = .ok m') :
    m'.funcs.length = m.funcs.length ∧
    (∀ g, g ≠ t → m'.funcs[g]? = m.funcs[g]?) ∧
    (∀ F : Function, m.funcs[t]? = some F → ∃ G : Function, m'.funcs[t]? = some G ∧
      G.name = F.name ∧ G.value.isSome = true ∧ (F.value.isSome = true → G.args = F.args)) := by
  unfold func_add_update at h
  obtain ⟨m1, h1, h⟩ := except_bind_eq_ok h
  obtain ⟨c, hc, h⟩ := except_bind_eq_ok h
  have hcf : c.2.funcs = m1.funcs := mk_call_funcs hc
  have hv : (mk_vars args m).2.funcs = m.funcs := mk_vars_funcs args m
  obtain ⟨hb1, hb2, hb3⟩ := define_base_case_spec h1
  rw [hv] at hb1 hb2 hb3
  cases hG : c.2.funcs[t]? with
  | none =>
    rw [hG] at h
    cases h
  | some G1 =>
    rw [hG] at h
    dsimp only at h
    have hlt : t < c.2.funcs.length := (List.getElem?_eq_some.1 hG).1
    have hdef : G1.value.isSome = true := by
      unfold mk_call at hc
      rw [hcf] at hG
      rw [hG] at hc
      dsimp only at hc
      split at hc
      · cases hc
      · rename_i hv1
        simp [hv1]
    split at h
    · cases h
      have hm : (mk_add c.1 e c.2).2.funcs = c.2.funcs := rfl
      refine ⟨?_, ?_, ?_⟩
      · rw [set_func_length, hm, hcf, hb1]
      · intro g hg
        rw [set_func_get_ne _ _ hg, hm, hcf, hb2 g hg]
      · intro F hF
        obtain ⟨G0, hG0, hn0, hd0⟩ := hb3 F hF
        rw [hcf] at hG
        rw [hG] at hG0
        cases hG0
        refine ⟨_, set_func_get_self _ _ (by rw [hm]; exact hlt), hn0, hdef, ?_⟩
        intro hs
        rw [hd0 hs]
    · cases h

/-! ### The reverse walk: function objects and the adjoint map -/

theorem ReverseAccumulationVisitor.Evolves.evolves_refl (s : ReverseAccumulationVisitor) :
    ReverseAccumulationVisitor.Evolves s s :=
  { tmp_eq := rfl
    length_le := le_refl _
    kept := fun _ F hF => ⟨F, hF, rfl, fun hd => ⟨hd, rfl⟩⟩
    untouched := fun _ _ _ _ => rfl
    entries_stay := fun _ _ h => h
    entries_new := fun _ _ h => Or.inl h }

theorem ReverseAccumulationVisitor.Evolves.evolves_trans {s t u : ReverseAccumulationVisitor}
    (h1 : ReverseAccumulationVisitor.Evolves s t) (h2 : ReverseAccumulationVisitor.Evolves t u) :
    ReverseAccumulationVisitor.Evolves s u :=
  { tmp_eq := h2.tmp_eq.trans h1.tmp_eq
    length_le := le_trans h1.length_le h2.length_le
    kept := by
      intro h F hF
      obtain ⟨G, hG, hn, hd⟩ := h1.kept h F hF
      obtain ⟨H, hH, hn2, hd2⟩ := h2.kept h G hG
      refine ⟨H, hH, hn2.trans hn, ?_⟩
      intro hs
      obtain ⟨hgs, hga⟩ := hd hs
      obtain ⟨hhs, hha⟩ := hd2 hgs
      exact ⟨hhs, hha.trans hga⟩
    untouched := by
      intro h htmp hadj hlt
      rw [← h1.untouched h htmp hadj hlt]
      apply h2.untouched h
      · rw [h1.tmp_eq]
        exact htmp
      · intro k hk
        rcases h1.entries_new k h hk with h' | h'
        · exact hadj k h'
        · omega
      · exact lt_of_lt_of_le hlt h1.length_le
    entries_stay := fun k a h => h2.entries_stay k a (h1.entries_stay k a h)
    entries_new := by
      intro k a h
      rcases h2.entries_new k a h with h' | h'
      · exact h1.entries_new k a h'
      · exact Or.inr (le_trans h1.length_le h') }

theorem ReverseAccumulationVisitor.Evolves.of_same {s t : ReverseAccumulationVisitor}
    (hf : t.mem.funcs = s.mem.funcs) (ha : t.adjoint_funcs = s.adjoint_funcs)
    (ht : t.tmp_adjoint_func = s.tmp_adjoint_func) : ReverseAccumulationVisitor.Evolves s t :=
  { tmp_eq := ht
    length_le := by rw [hf]
    kept := fun h F hF => ⟨F, by rw [hf]; exact hF, rfl, fun hd => ⟨hd, rfl⟩⟩
    untouched := fun _ _ _ _ => by rw [hf]
    entries_stay := fun _ _ h => by rw [ha]; exact h
    entries_new := fun _ _ h => Or.inl (by rw [← ha]; exact h) }

theorem ReverseAccumulationVisitor.Frame.frame_of_evolves {mem : Memory}
    {s t : ReverseAccumulationVisitor} (hf : ReverseAccumulationVisitor.Frame mem s)
    (he : ReverseAccumulationVisitor.Evolves s t) : ReverseAccumulationVisitor.Frame mem t :=
  { program_funcs := by
      intro h hlt
      rw [← hf.program_funcs h hlt]
      apply he.untouched h
      · have := hf.tmp_ge
        omega
      · intro k hk
        have := hf.adjoint_ge k h hk
        omega
      · exact lt_of_lt_of_le hlt hf.length_le
    length_le := le_trans hf.length_le he.length_le
    tmp_ge := by rw [he.tmp_eq]; exact hf.tmp_ge
    adjoint_ge := by
      intro k a hk
      rcases he.entries_new k a hk with h' | h'
      · exact hf.adjoint_ge k a h'
      · exact le_trans hf.length_le h' }

theorem ReverseAccumulationVisitor.accumulate_same (stub adjoint : Expr)
    (s : ReverseAccumulationVisitor) :
    (ReverseAccumulationVisitor.accumulate stub adjoint s).mem.funcs = s.mem.funcs ∧
    (ReverseAccumulationVisitor.accumulate stub adjoint s).adjoint_funcs = s.adjoint_funcs ∧
    (ReverseAccumulationVisitor.accumulate stub adjoint s).tmp_adjoint_func =
      s.tmp_adjoint_func := by
  unfold ReverseAccumulationVisitor.accumulate
  split <;> exact ⟨rfl, rfl, rfl⟩

theorem ReverseAccumulationVisitor.accumulate_evolves (stub adjoint : Expr)
    (s : ReverseAccumulationVisitor) :
    ReverseAccumulationVisitor.Evolves s (ReverseAccumulationVisitor.accumulate stub adjoint s) :=
  ReverseAccumulationVisitor.Evolves.of_same
    (ReverseAccumulationVisitor.accumulate_same stub adjoint s).1
    (ReverseAccumulationVisitor.accumulate_same stub adjoint s).2.1
    (ReverseAccumulationVisitor.accumulate_same stub adjoint s).2.2

theorem ReverseAccumulationVisitor.accumulate_exp_same (adjoint : Expr) :
    ∀ (args : List Expr) (s : ReverseAccumulationVisitor),
      (ReverseAccumulationVisitor.accumulate_exp adjoint args s).mem.funcs = s.mem.funcs ∧
      (ReverseAccumulationVisitor.accumulate_exp adjoint args s).adjoint_funcs =
        s.adjoint_funcs ∧
      (ReverseAccumulationVisitor.accumulate_exp adjoint args s).tmp_adjoint_func =
        s.tmp_adjoint_func := by
  intro args
  induction args with
  | nil => intro s; exact ⟨rfl, rfl, rfl⟩
  | cons a rest ih =>
    intro s
    simp only [ReverseAccumulationVisitor.accumulate_exp]
    obtain ⟨h1, h2, h3⟩ := ih (ReverseAccumulationVisitor.accumulate a
      (mk_mul adjoint (mk_exp a s.mem).1 (mk_exp a s.mem).2).1
      { s with mem := (mk_mul adjoint (mk_exp a s.mem).1 (mk_exp a s.mem).2).2 })
    obtain ⟨g1, g2, g3⟩ := ReverseAccumulationVisitor.accumulate_same a
      (mk_mul adjoint (mk_exp a s.mem).1 (mk_exp a s.mem).2).1
      { s with mem := (mk_mul adjoint (mk_exp a s.mem).1 (mk_exp a s.mem).2).2 }
    exact ⟨h1.trans g1, h2.trans g2, h3.trans g3⟩

/-- The access `adjoint_funcs[name]`: the handle is stored under `name` afterwards,
and the only key it can add is `name`. -/
theorem ReverseAccumulationVisitor.adjoint_funcs_at_spec (name : String)
    (s : ReverseAccumulationVisitor) :
    ReverseAccumulationVisitor.Evolves s (ReverseAccumulationVisitor.adjoint_funcs_at name s).2 ∧
    map_find name (ReverseAccumulationVisitor.adjoint_funcs_at name s).2.adjoint_funcs =
      some (ReverseAccumulationVisitor.adjoint_funcs_at name s).1 ∧
    (∀ k ∈ map_keys (ReverseAccumulationVisitor.adjoint_funcs_at name s).2.adjoint_funcs,
      k = name ∨ k ∈ map_keys s.adjoint_funcs) := by
  unfold ReverseAccumulationVisitor.adjoint_funcs_at
  cases hfind : map_find name s.adjoint_funcs with
  | some h =>
    exact ⟨ReverseAccumulationVisitor.Evolves.evolves_refl s, hfind, fun k hk => Or.inr hk⟩
  | none =>
    dsimp only
    refine ⟨?_, map_find_set_self _ _ _, ?_⟩
    · exact
        { tmp_eq := rfl
          length_le := by simp [mk_func_default, mk_func]
          kept := by
            intro h F hF
            refine ⟨F, ?_, rfl, fun hd => ⟨hd, rfl⟩⟩
            have hlt : h < s.mem.funcs.length := (List.getElem?_eq_some.1 hF).1
            simp only [mk_func_default, mk_func]
            rw [List.getElem?_append_left hlt]
            exact hF
          untouched := by
            intro h _ _ hlt
            simp only [mk_func_default, mk_func]
            rw [List.getElem?_append_left hlt]
          entries_stay := by
            intro k a hk
            have hne : k ≠ name := by
              intro hkn
              rw [hkn, hfind] at hk
              cases hk
            simp only
            rw [map_find_set_ne _ _ _ hne]
            exact hk
          entries_new := by
            intro k a hk
            simp only at hk
            by_cases hkn : k = name
            · rw [hkn, map_find_set_self] at hk
              cases hk
              exact Or.inr (by simp [mk_func_default, mk_func])
            · rw [map_find_set_ne _ _ _ hkn] at hk
              exact Or.inl hk }
    · intro k hk
      rw [mem_map_keys_set] at hk
      exact hk
theorem ReverseAccumulationVisitor.accumulate_funcs (stub adjoint : Expr)
    (s : ReverseAccumulationVisitor) :
    (ReverseAccumulationVisitor.accumulate stub adjoint s).mem.funcs = s.mem.funcs :=
  (ReverseAccumulationVisitor.accumulate_same stub adjoint s).1

theorem ReverseAccumulationVisitor.accumulate_adjoint_funcs (stub adjoint : Expr)
    (s : ReverseAccumulationVisitor) :
    (ReverseAccumulationVisitor.accumulate stub adjoint s).adjoint_funcs = s.adjoint_funcs :=
  (ReverseAccumulationVisitor.accumulate_same stub adjoint s).2.1

theorem ReverseAccumulationVisitor.accumulate_tmp (stub adjoint : Expr)
    (s : ReverseAccumulationVisitor) :
    (ReverseAccumulationVisitor.accumulate stub adjoint s).tmp_adjoint_func =
      s.tmp_adjoint_func :=
  (ReverseAccumulationVisitor.accumulate_same stub adjoint s).2.2

/-- Writing an update into `tmp_adjoint_func` or into a stored adjoint is a change
the reverse walk may make. -/
theorem ReverseAccumulationVisitor.Evolves.of_update {u : ReverseAccumulationVisitor}
    {a : Nat} {args : List String} {e : Expr} {m0 m : Memory}
    (ha : a = u.tmp_adjoint_func ∨ ∃ k, map_find k u.adjoint_funcs = some a)
    (h0 : m0.funcs = u.mem.funcs) (hm : func_add_update a args e m0 = .ok m) :
    ReverseAccumulationVisitor.Evolves u { u with mem := m } := by
  obtain ⟨hl, hne, hself⟩ := func_add_update_spec hm
  rw [h0] at hl hne hself
  exact
    { tmp_eq := rfl
      length_le := by simp only; omega
      kept := by
        intro h F hF
        by_cases hha : h = a
        · subst hha
          obtain ⟨G, hG, hn, hd, hargs⟩ := hself F hF
          exact ⟨G, hG, hn, fun hs => ⟨hd, hargs hs⟩⟩
        · exact ⟨F, by simp only; rw [hne h hha]; exact hF, rfl, fun hs => ⟨hs, rfl⟩⟩
      untouched := by
        intro h htmp hadj _
        apply hne
        intro hha
        rcases ha with ha | ⟨k, hk⟩
        · exact htmp (hha.trans ha)
        · exact hadj k (hha ▸ hk)
      entries_stay := fun _ _ h => h
      entries_new := fun _ _ h => Or.inl h }

theorem ReverseAccumulationVisitor.scatter_spec {h : Nat} {args : List Expr} {adjoint : Expr}
    {s t : ReverseAccumulationVisitor}
    (hs : ReverseAccumulationVisitor.scatter h args adjoint s = .ok t) :
    ReverseAccumulationVisitor.Evolves s t ∧
    ∀ k ∈ map_keys t.adjoint_funcs, k ∈ map_keys s.adjoint_funcs ∨ k = func_name s.mem h := by
  unfold ReverseAccumulationVisitor.scatter at hs
  cases hget : s.mem.funcs[h]? with
  | none =>
    rw [hget] at hs
    cases hs
  | some func =>
    rw [hget] at hs
    dsimp only at hs
    have hname : func_name s.mem h = func.name := by
      unfold func_name
      rw [hget]
    by_cases hn : func.name ≠ s.current_func_name
    · rw [if_pos hn] at hs
      obtain ⟨hev, hfind, hkeys⟩ :=
        ReverseAccumulationVisitor.adjoint_funcs_at_spec func.name s
      split at hs
      · cases hs
      · obtain ⟨r, hr, hs⟩ := except_bind_eq_ok hs
        obtain ⟨m, hm, hs⟩ := except_bind_eq_ok hs
        cases hs
        have hev2 := ReverseAccumulationVisitor.Evolves.of_update (Or.inr ⟨_, hfind⟩)
          (ReverseAccumulationVisitor.canonicalize_funcs _ _ _ _ _ _ _ hr) hm
        refine ⟨hev.evolves_trans hev2, ?_⟩
        intro k hk
        rcases hkeys k hk with hk' | hk'
        · exact Or.inr (hk'.trans hname.symm)
        · exact Or.inl hk'
    · rw [if_neg hn] at hs
      dsimp only at hs
      split at hs
      · cases hs
      · obtain ⟨r, hr, hs⟩ := except_bind_eq_ok hs
        obtain ⟨m, hm, hs⟩ := except_bind_eq_ok hs
        cases hs
        exact ⟨ReverseAccumulationVisitor.Evolves.of_update (Or.inl rfl)
          (ReverseAccumulationVisitor.canonicalize_funcs _ _ _ _ _ _ _ hr) hm,
          fun k hk => Or.inl hk⟩

/-- One dispatch of the engine: what it does to function objects and to the keys of
the adjoint map. -/
theorem ReverseAccumulationVisitor.accept_spec :
    ∀ (n : Nat) (e : Expr) (s t : ReverseAccumulationVisitor), e.size ≤ n →
      ReverseAccumulationVisitor.accept e s = .ok t →
      ReverseAccumulationVisitor.Evolves s t ∧
      ∀ (mem : Memory) (names : List String), ReverseAccumulationVisitor.Frame mem s →
        (∀ h ∈ engine_calls e, h < mem.funcs.length ∧ func_name mem h ∈ names) →
        ReverseAccumulationVisitor.KeysIn names s → ReverseAccumulationVisitor.KeysIn names t := by
  intro n
  induction n with
  | zero =>
    intro e s t hsz
    have := Expr.size_pos e
    omega
  | succ n ih =>
    intro e s t hsz h
    have same : ∀ (t : ReverseAccumulationVisitor), t.mem.funcs = s.mem.funcs →
        t.adjoint_funcs = s.adjoint_funcs → t.tmp_adjoint_func = s.tmp_adjoint_func →
        ReverseAccumulationVisitor.Evolves s t ∧
        ∀ (mem : Memory) (names : List String), ReverseAccumulationVisitor.Frame mem s →
          (∀ h ∈ engine_calls e, h < mem.funcs.length ∧ func_name mem h ∈ names) →
          ReverseAccumulationVisitor.KeysIn names s →
          ReverseAccumulationVisitor.KeysIn names t := by
      intro t h1 h2 h3
      refine ⟨ReverseAccumulationVisitor.Evolves.of_same h1 h2 h3, ?_⟩
      intro mem names _ _ hk
      unfold ReverseAccumulationVisitor.KeysIn at hk ⊢
      rw [h2]
      exact hk
    have seq : ∀ (a b : Expr) (s t : ReverseAccumulationVisitor), a.size ≤ n → b.size ≤ n →
        (ReverseAccumulationVisitor.accept a s).bind (ReverseAccumulationVisitor.accept b) = .ok t →
        ReverseAccumulationVisitor.Evolves s t ∧
        ∀ (mem : Memory) (names : List String), ReverseAccumulationVisitor.Frame mem s →
          (∀ h ∈ engine_calls a ++ engine_calls b,
            h < mem.funcs.length ∧ func_name mem h ∈ names) →
          ReverseAccumulationVisitor.KeysIn names s →
          ReverseAccumulationVisitor.KeysIn names t := by
      intro a b s t ha hb h
      obtain ⟨s1, h1, h2⟩ := except_bind_eq_ok h
      obtain ⟨e1, k1⟩ := ih a s s1 ha h1
      obtain ⟨e2, k2⟩ := ih b s1 t hb h2
      refine ⟨e1.evolves_trans e2, ?_⟩
      intro mem names hf hc hk
      exact k2 mem names (hf.frame_of_evolves e1)
        (fun g hg => hc g (List.mem_append_right _ hg))
        (k1 mem names hf (fun g hg => hc g (List.mem_append_left _ hg)) hk)
    cases e <;> simp only [Expr.size] at hsz <;>
      simp only [ReverseAccumulationVisitor.accept] at h
    case IntImm =>
      cases h
      exact same _ rfl rfl rfl
    case FloatImm =>
      cases h
      exact same _ rfl rfl rfl
    case Variable i name rd =>
      obtain ⟨adj, _, h⟩ := except_bind_eq_ok h
      split at h <;> cases h
      · apply same <;>
          simp [ReverseAccumulationVisitor.accumulate_funcs,
            ReverseAccumulationVisitor.accumulate_adjoint_funcs,
            ReverseAccumulationVisitor.accumulate_tmp, mk_let, Memory.fresh]
      · exact same _ rfl rfl rfl
    case LE i a b =>
      exact seq a b s t (by omega) (by omega) h
    case GE i a b =>
      exact seq a b s t (by omega) (by omega) h
    case Select i c a b =>
      obtain ⟨s1, h1, h2⟩ := except_bind_eq_ok h
      obtain ⟨e1, k1⟩ := seq c a s s1 (by omega) (by omega) h1
      obtain ⟨e2, k2⟩ := ih b s1 t (by omega) h2
      refine ⟨e1.evolves_trans e2, ?_⟩
      intro mem names hf hc hk
      simp only [engine_calls] at hc
      exact k2 mem names (hf.frame_of_evolves e1)
        (fun g hg => hc g (by simp [hg]))
        (k1 mem names hf (fun g hg => hc g (by
          simp only [List.mem_append] at hg ⊢
          rcases hg with hg | hg
          · exact Or.inl hg
          · exact Or.inr (Or.inl hg))) hk)
    case Call i name ct func args =>
      obtain ⟨adj, _, h⟩ := except_bind_eq_ok h
      have hs1 : ∀ s1 : ReverseAccumulationVisitor,
          s1 = (if name = "exp_f32" then
            ReverseAccumulationVisitor.accumulate_exp adj args s else s) →
          s1.mem.funcs = s.mem.funcs ∧ s1.adjoint_funcs = s.adjoint_funcs ∧
          s1.tmp_adjoint_func = s.tmp_adjoint_func := by
        intro s1 hs1
        subst hs1
        split
        · exact ReverseAccumulationVisitor.accumulate_exp_same adj args s
        · exact ⟨rfl, rfl, rfl⟩
      obtain ⟨f1, f2, f3⟩ := hs1 _ rfl
      cases func with
      | none =>
        cases h
        exact same _ f1 f2 f3
      | some g =>
        dsimp only at h
        obtain ⟨hev, hkeys⟩ := ReverseAccumulationVisitor.scatter_spec h
        refine ⟨(ReverseAccumulationVisitor.Evolves.of_same f1 f2 f3).evolves_trans hev, ?_⟩
        intro mem names hf hc hk k hkt
        rcases hkeys k hkt with hk' | hk'
        · rw [f2] at hk'
          exact hk k hk'
        · obtain ⟨hlt, hin⟩ := hc g (by simp [engine_calls])
          have : func_name s.mem g = func_name mem g := by
            unfold func_name
            rw [hf.program_funcs g hlt]
          rw [hk']
          unfold func_name at this ⊢
          rw [f1, this]
          exact hin
    all_goals
      obtain ⟨adj, _, h⟩ := except_bind_eq_ok h
      cases h
      apply same <;>
        simp [ReverseAccumulationVisitor.accumulate_funcs,
          ReverseAccumulationVisitor.accumulate_adjoint_funcs,
          ReverseAccumulationVisitor.accumulate_tmp, mk_let, mk_mul, mk_div, mk_neg, mk_sub,
          mk_float, mk_le, mk_ge, mk_select, Memory.fresh]

theorem ReverseAccumulationVisitor.walk_spec :
    ∀ (l : List Expr) (s t : ReverseAccumulationVisitor),
      ReverseAccumulationVisitor.walk l s = .ok t →
      ReverseAccumulationVisitor.Evolves s t ∧
      ∀ (mem : Memory) (names : List String), ReverseAccumulationVisitor.Frame mem s →
        (∀ e ∈ l, ∀ h ∈ engine_calls e, h < mem.funcs.length ∧ func_name mem h ∈ names) →
        ReverseAccumulationVisitor.KeysIn names s → ReverseAccumulationVisitor.KeysIn names t := by
  intro l
  induction l with
  | nil =>
    intro s t h
    simp only [ReverseAccumulationVisitor.walk] at h
    cases h
    exact ⟨ReverseAccumulationVisitor.Evolves.evolves_refl s, fun _ _ _ _ hk => hk⟩
  | cons e rest ih =>
    intro s t h
    simp only [ReverseAccumulationVisitor.walk] at h
    obtain ⟨s1, h1, h2⟩ := except_bind_eq_ok h
    obtain ⟨e1, k1⟩ := ReverseAccumulationVisitor.accept_spec e.size e s s1 (le_refl _) h1
    obtain ⟨e2, k2⟩ := ih s1 t h2
    refine ⟨e1.evolves_trans e2, ?_⟩
    intro mem names hf hc hk
    exact k2 mem names (hf.frame_of_evolves e1)
      (fun x hx => hc x (List.mem_cons_of_mem _ hx))
      (k1 mem names hf (hc e (List.mem_cons_self _ _)) hk)

/-! ### `ExpressionSorter`: the nodes it lists call collected functions only -/

theorem ExpressionSorter.expr_accept_eq_list (e : Expr) (s : ExpressionSorter) :
    ExpressionSorter.accept e s =
      if e.is_func_or_image_call then s else ExpressionSorter.accept_list e.operands s := by
  cases e <;>
    simp [ExpressionSorter.accept, ExpressionSorter.accept_list, Expr.operands,
      Expr.is_func_or_image_call]

theorem Expr.not_halide_of_not_func_or_image (e : Expr) (h : e.is_func_or_image_call = false) :
    e.is_halide_call = false := by
  cases e <;> simp_all [Expr.is_func_or_image_call, Expr.is_halide_call]

theorem subterms_of_operand {c e : Expr} (hc : c ∈ e.operands) {x : Expr} (hx : x ∈ subterms c) :
    x ∈ subterms e := by
  rw [mem_subterms_iff]
  exact Or.inr ⟨c, hc, hx⟩

/-- A handle the engine scatters to at a node is a direct call of the node, when only
calls of array functions carry a handle. -/
theorem engine_calls_direct :
    ∀ (n : Nat) (e : Expr), e.size ≤ n →
      (∀ x ∈ subterms e, ∀ h, x.call_func = some h → x.is_halide_call = true) →
      ∀ h ∈ engine_calls e, h ∈ direct_calls e := by
  intro n
  induction n with
  | zero =>
    intro e hsz
    have := Expr.size_pos e
    omega
  | succ n ih =>
    intro e hsz hyp h hh
    have sub : ∀ c ∈ e.operands, ∀ g ∈ engine_calls c, g ∈ direct_calls c := by
      intro c hc
      have hlt := Expr.size_operand e c hc
      exact ih c (by omega) (fun x hx => hyp x (subterms_of_operand hc hx))
    cases e <;> simp only [engine_calls, List.not_mem_nil] at hh
    case LE i a b =>
      simp only [direct_calls, List.mem_append] at hh ⊢
      rcases hh with hh | hh
      · exact Or.inl (sub a (by simp [Expr.operands]) h hh)
      · exact Or.inr (sub b (by simp [Expr.operands]) h hh)
    case GE i a b =>
      simp only [direct_calls, List.mem_append] at hh ⊢
      rcases hh with hh | hh
      · exact Or.inl (sub a (by simp [Expr.operands]) h hh)
      · exact Or.inr (sub b (by simp [Expr.operands]) h hh)
    case Select i c a b =>
      simp only [direct_calls, List.mem_append] at hh ⊢
      rcases hh with hh | hh | hh
      · exact Or.inl (sub c (by simp [Expr.operands]) h hh)
      · exact Or.inr (Or.inl (sub a (by simp [Expr.operands]) h hh))
      · exact Or.inr (Or.inr (sub b (by simp [Expr.operands]) h hh))
    case Call i name ct func args =>
      have hf : func = some h := by
        cases func <;> simp_all
      have hhal := hyp _ (subterms_self _) h (by simp [Expr.call_func, hf])
      simp only [Expr.is_halide_call, decide_eq_true_eq] at hhal
      simp [direct_calls, hhal, hf]

theorem ExpressionSorter.accept_sound (D : List Nat) :
    ∀ (n : Nat) (e : Expr) (s : ExpressionSorter), e.size ≤ n →
      (∀ x ∈ subterms e, ∀ h, x.call_func = some h → x.is_halide_call = true) →
      (∀ h ∈ direct_calls e, h ∈ D) →
      (∀ x ∈ s.expr_list, ∀ h ∈ engine_calls x, h ∈ D) →
      ∀ x ∈ (ExpressionSorter.accept e s).expr_list, ∀ h ∈ engine_calls x, h ∈ D := by
  intro n
  induction n with
  | zero =>
    intro e s hsz
    have := Expr.size_pos e
    omega
  | succ n ih =>
    intro e s hsz hyp hD hs
    rw [ExpressionSorter.expr_accept_eq_list]
    by_cases hfi : e.is_func_or_image_call = true
    · rw [if_pos hfi]
      exact hs
    · rw [if_neg hfi]
      have hnh : e.is_halide_call = false :=
        Expr.not_halide_of_not_func_or_image e (by simpa using hfi)
      have key : ∀ (l : List Expr) (s : ExpressionSorter), (∀ c ∈ l, c ∈ e.operands) →
          (∀ x ∈ s.expr_list, ∀ h ∈ engine_calls x, h ∈ D) →
          ∀ x ∈ (ExpressionSorter.accept_list l s).expr_list, ∀ h ∈ engine_calls x, h ∈ D := by
        intro l
        induction l with
        | nil =>
          intro s _ hs
          simpa [ExpressionSorter.accept_list] using hs
        | cons c rest ihl =>
          intro s hl hs
          simp only [ExpressionSorter.accept_list]
          apply ihl _ (fun c' hc' => hl c' (List.mem_cons_of_mem _ hc'))
          have hc : c ∈ e.operands := hl c (List.mem_cons_self _ _)
          have hlt := Expr.size_operand e c hc
          have hypc : ∀ x ∈ subterms c, ∀ h, x.call_func = some h → x.is_halide_call = true :=
            fun x hx => hyp x (subterms_of_operand hc hx)
          have hDc : ∀ h ∈ direct_calls c, h ∈ D := by
            intro h hh
            apply hD
            rw [mem_direct_calls_iff, hnh]
            exact ⟨c, hc, hh⟩
          unfold ExpressionSorter.include_with
          split
          · exact hs
          · intro x hx
            simp only [List.mem_append, List.mem_singleton] at hx
            rcases hx with hx | hx
            · exact ih c { s with visited := c.id :: s.visited } (by omega) hypc hDc hs x hx
            · subst hx
              intro h hh
              exact hDc h (engine_calls_direct x.size x (le_refl _) hypc h hh)
      exact key e.operands s (fun _ hc => hc) hs

/-- The nodes that `ExpressionSorter::sort` lists for `e` make the engine scatter to
direct calls of `e` only. -/
theorem ExpressionSorter.sort_sound (e : Expr)
    (hyp : ∀ x ∈ subterms e, ∀ h, x.call_func = some h → x.is_halide_call = true) :
    ∀ x ∈ ExpressionSorter.sort e, ∀ h ∈ engine_calls x, h ∈ direct_calls e := by
  intro x hx
  unfold ExpressionSorter.sort at hx
  simp only [List.mem_append, List.mem_singleton] at hx
  rcases hx with hx | hx
  · exact ExpressionSorter.accept_sound (direct_calls e) e.size e _ (le_refl _) hyp
      (fun _ h => h) (by simp) x hx
  · subst hx
    exact engine_calls_direct x.size x (le_refl _) hyp

/-! ### The stages of the engine: stored adjoints and their arguments -/

theorem ReverseAccumulationVisitor.Stored.stored_of_evolves {s t : ReverseAccumulationVisitor}
    {name : String} {args : List String} (he : ReverseAccumulationVisitor.Evolves s t)
    (hs : ReverseAccumulationVisitor.Stored s name args) :
    ReverseAccumulationVisitor.Stored t name args := by
  obtain ⟨a, F, hfind, hF, hdef, hargs⟩ := hs
  obtain ⟨G, hG, _, hd⟩ := he.kept a F hF
  exact ⟨a, G, he.entries_stay name a hfind, hG, (hd hdef).1, (hd hdef).2.trans hargs⟩

theorem ReverseAccumulationVisitor.TmpDefined.tmp_of_evolves {s t : ReverseAccumulationVisitor}
    {args : List String} (he : ReverseAccumulationVisitor.Evolves s t)
    (hs : ReverseAccumulationVisitor.TmpDefined s args) :
    ReverseAccumulationVisitor.TmpDefined t args := by
  obtain ⟨F, hF, hdef, hargs⟩ := hs
  obtain ⟨G, hG, _, hd⟩ := he.kept _ F hF
  refine ⟨G, ?_, (hd hdef).1, (hd hdef).2.trans hargs⟩
  rw [he.tmp_eq]
  exact hG

theorem ReverseAccumulationVisitor.keys_of_evolves {s t : ReverseAccumulationVisitor}
    (he : ReverseAccumulationVisitor.Evolves s t) :
    ∀ k ∈ map_keys s.adjoint_funcs, k ∈ map_keys t.adjoint_funcs := by
  intro k hk
  rw [mem_map_keys_iff] at hk ⊢
  obtain ⟨a, ha⟩ := hk
  exact ⟨a, he.entries_stay k a ha⟩

theorem ReverseAccumulationVisitor.seed_root_spec {func : Function} {value : Expr}
    {s t : ReverseAccumulationVisitor}
    (h : ReverseAccumulationVisitor.seed_root func value s = .ok t) :
    ReverseAccumulationVisitor.Evolves s t ∧
    ∀ k ∈ map_keys t.adjoint_funcs, k = func.name ∨ k ∈ map_keys s.adjoint_funcs := by
  unfold ReverseAccumulationVisitor.seed_root at h
  obtain ⟨c, hc, h⟩ := except_bind_eq_ok h
  cases h
  obtain ⟨hev, _, hkeys⟩ := ReverseAccumulationVisitor.adjoint_funcs_at_spec func.name
    { s with mem := (mk_vars func.args s.mem).2 }
  have h0 : ReverseAccumulationVisitor.Evolves s
      { s with mem := (mk_vars func.args s.mem).2 } :=
    ReverseAccumulationVisitor.Evolves.of_same (mk_vars_funcs _ _) rfl rfl
  have h2 : ReverseAccumulationVisitor.Evolves
      (ReverseAccumulationVisitor.adjoint_funcs_at func.name
        { s with mem := (mk_vars func.args s.mem).2 }).2
      { (ReverseAccumulationVisitor.adjoint_funcs_at func.name
            { s with mem := (mk_vars func.args s.mem).2 }).2 with
        accumulated_adjoints := map_set value.id c.1 s.accumulated_adjoints,
        mem := c.2 } :=
    ReverseAccumulationVisitor.Evolves.of_same (mk_call_funcs hc) rfl rfl
  exact ⟨(h0.evolves_trans hev).evolves_trans h2, hkeys⟩

theorem ReverseAccumulationVisitor.new_tmp_spec {func : Function}
    {s t : ReverseAccumulationVisitor}
    (h : ReverseAccumulationVisitor.new_tmp func s = .ok t) :
    t.adjoint_funcs = s.adjoint_funcs ∧ t.tmp_adjoint_func = s.mem.funcs.length ∧
    s.mem.funcs.length < t.mem.funcs.length ∧
    (∀ g, g < s.mem.funcs.length → t.mem.funcs[g]? = s.mem.funcs[g]?) ∧
    ReverseAccumulationVisitor.TmpDefined t func.args := by
  unfold ReverseAccumulationVisitor.new_tmp at h
  obtain ⟨m, hm, h⟩ := except_bind_eq_ok h
  cases h
  simp only [func_define, mk_func, mk_float, Memory.fresh, List.getElem?_concat_length] at hm
  cases hm
  refine ⟨rfl, rfl, ?_, ?_, ?_⟩
  · simp [Memory.set_func]
  · intro g hg
    simp only [Memory.set_func]
    rw [List.getElem?_set_ne (by omega), List.getElem?_append_left hg]
  · refine ⟨Function.mk (func.name ++ "_d__") func.args (some (.FloatImm s.mem.next_id 0)) [],
      ?_, rfl, rfl⟩
    simp [Memory.set_func, mk_func]

theorem ReverseAccumulationVisitor.new_tmp_frame {func : Function} {mem : Memory}
    {s t : ReverseAccumulationVisitor}
    (h : ReverseAccumulationVisitor.new_tmp func s = .ok t)
    (hf : ReverseAccumulationVisitor.Frame mem s) : ReverseAccumulationVisitor.Frame mem t := by
  obtain ⟨hadj, htmp, hlen, hget, _⟩ := ReverseAccumulationVisitor.new_tmp_spec h
  exact
    { program_funcs := by
        intro g hg
        rw [hget g (lt_of_lt_of_le hg hf.length_le)]
        exact hf.program_funcs g hg
      length_le := le_trans hf.length_le (le_of_lt hlen)
      tmp_ge := by rw [htmp]; exact hf.length_le
      adjoint_ge := by
        intro k a hk
        rw [hadj] at hk
        exact hf.adjoint_ge k a hk }

theorem ReverseAccumulationVisitor.new_tmp_stored {func : Function}
    {s t : ReverseAccumulationVisitor} {name : String} {args : List String}
    (h : ReverseAccumulationVisitor.new_tmp func s = .ok t)
    (hs : ReverseAccumulationVisitor.Stored s name args) :
    ReverseAccumulationVisitor.Stored t name args := by
  obtain ⟨hadj, _, _, hget, _⟩ := ReverseAccumulationVisitor.new_tmp_spec h
  obtain ⟨a, F, hfind, hF, hdef, hargs⟩ := hs
  refine ⟨a, F, by rw [hadj]; exact hfind, ?_, hdef, hargs⟩
  rw [hget a (List.getElem?_eq_some.1 hF).1]
  exact hF

/-- The statements of lines 450-452 are a change that a reverse walk may make,
followed by the assignment `adjoint_funcs[func.name] = tmp_adjoint_func`. -/
theorem ReverseAccumulationVisitor.add_back_decomp {func : Function}
    {s t : ReverseAccumulationVisitor}
    (h : ReverseAccumulationVisitor.add_back func s = .ok t) :
    ∃ s2 : ReverseAccumulationVisitor, ReverseAccumulationVisitor.Evolves s s2 ∧
      (∀ k ∈ map_keys s2.adjoint_funcs, k = func.name ∨ k ∈ map_keys s.adjoint_funcs) ∧
      t = { s2 with
        adjoint_funcs := map_set func.name s2.tmp_adjoint_func s2.adjoint_funcs } := by
  unfold ReverseAccumulationVisitor.add_back at h
  obtain ⟨hev, _, hkeys⟩ := ReverseAccumulationVisitor.adjoint_funcs_at_spec func.name s
  split at h
  · cases h
  · rename_i adjoint_func _
    obtain ⟨rhs, hrhs, h⟩ := except_bind_eq_ok h
    obtain ⟨m, hm, h⟩ := except_bind_eq_ok h
    cases h
    have h0 : rhs.2.funcs = (ReverseAccumulationVisitor.adjoint_funcs_at func.name s).2.mem.funcs :=
      (mk_call_funcs hrhs).trans (mk_vars_funcs _ _)
    have hev2 := ReverseAccumulationVisitor.Evolves.of_update (Or.inl rfl) h0 hm
    exact ⟨_, hev.evolves_trans hev2, hkeys, rfl⟩

theorem ReverseAccumulationVisitor.rebind_frame {mem : Memory} (name : String)
    {s : ReverseAccumulationVisitor} (hf : ReverseAccumulationVisitor.Frame mem s) :
    ReverseAccumulationVisitor.Frame mem
      { s with adjoint_funcs := map_set name s.tmp_adjoint_func s.adjoint_funcs } :=
  { program_funcs := hf.program_funcs
    length_le := hf.length_le
    tmp_ge := hf.tmp_ge
    adjoint_ge := by
      intro k a hk
      by_cases hkn : k = name
      · subst hkn
        simp only [map_find_set_self] at hk
        cases hk
        exact hf.tmp_ge
      · simp only [map_find_set_ne _ _ _ hkn] at hk
        exact hf.adjoint_ge k a hk }

theorem ReverseAccumulationVisitor.rebind_stored_ne {name k : String} {args : List String}
    {s : ReverseAccumulationVisitor} (hne : k ≠ name)
    (hs : ReverseAccumulationVisitor.Stored s k args) :
    ReverseAccumulationVisitor.Stored
      { s with adjoint_funcs := map_set name s.tmp_adjoint_func s.adjoint_funcs } k args := by
  obtain ⟨a, F, hfind, hF, hdef, hargs⟩ := hs
  exact ⟨a, F, by simp only [map_find_set_ne _ _ _ hne]; exact hfind, hF, hdef, hargs⟩

theorem ReverseAccumulationVisitor.rebind_stored_self (name : String) {args : List String}
    {s : ReverseAccumulationVisitor} (hs : ReverseAccumulationVisitor.TmpDefined s args) :
    ReverseAccumulationVisitor.Stored
      { s with adjoint_funcs := map_set name s.tmp_adjoint_func s.adjoint_funcs } name args := by
  obtain ⟨F, hF, hdef, hargs⟩ := hs
  exact ⟨s.tmp_adjoint_func, F, map_find_set_self _ _ _, hF, hdef, hargs⟩

theorem ReverseAccumulationVisitor.Advances.advances_of_evolves (name : String)
    {s t : ReverseAccumulationVisitor} (he : ReverseAccumulationVisitor.Evolves s t) :
    ReverseAccumulationVisitor.Advances name s t :=
  { frame := fun _ hf => hf.frame_of_evolves he
    keys_stay := ReverseAccumulationVisitor.keys_of_evolves he
    stored_others := fun _ _ _ hs => hs.stored_of_evolves he }

theorem ReverseAccumulationVisitor.Advances.advances_trans {name : String}
    {s t u : ReverseAccumulationVisitor} (h1 : ReverseAccumulationVisitor.Advances name s t)
    (h2 : ReverseAccumulationVisitor.Advances name t u) :
    ReverseAccumulationVisitor.Advances name s u :=
  { frame := fun mem hf => h2.frame mem (h1.frame mem hf)
    keys_stay := fun k hk => h2.keys_stay k (h1.keys_stay k hk)
    stored_others := fun k args hne hs => h2.stored_others k args hne (h1.stored_others k args hne hs) }

theorem ReverseAccumulationVisitor.Advances.of_new_tmp (name : String) {func : Function}
    {s t : ReverseAccumulationVisitor}
    (h : ReverseAccumulationVisitor.new_tmp func s = .ok t) :
    ReverseAccumulationVisitor.Advances name s t :=
  { frame := fun _ hf => ReverseAccumulationVisitor.new_tmp_frame h hf
    keys_stay := by
      intro k hk
      rw [(ReverseAccumulationVisitor.new_tmp_spec h).1]
      exact hk
    stored_others := fun _ _ _ hs => ReverseAccumulationVisitor.new_tmp_stored h hs }

theorem ReverseAccumulationVisitor.Advances.of_rebind (name : String)
    (s : ReverseAccumulationVisitor) :
    ReverseAccumulationVisitor.Advances name s
      { s with adjoint_funcs := map_set name s.tmp_adjoint_func s.adjoint_funcs } :=
  { frame := fun _ hf => ReverseAccumulationVisitor.rebind_frame name hf
    keys_stay := by
      intro k hk
      simp only [mem_map_keys_set]
      exact Or.inr hk
    stored_others := fun _ _ hne hs => ReverseAccumulationVisitor.rebind_stored_ne hne hs }

/-- One stage of `func`: afterwards the adjoint stored for `func` is the staging
function, which has the arguments of `func`; the only key the stage can add besides
the names of the functions it scatters to is the name of `func`. -/
theorem ReverseAccumulationVisitor.propagate_stage_spec {func : Function} {stage : Option Expr}
    {b : Bool} {s t : ReverseAccumulationVisitor}
    (h : ReverseAccumulationVisitor.propagate_stage func stage b s = .ok t) :
    ReverseAccumulationVisitor.Advances func.name s t ∧
    ReverseAccumulationVisitor.Stored t func.name func.args ∧
    ∀ (mem : Memory) (names : List String), ReverseAccumulationVisitor.Frame mem s →
      func.name ∈ names →
      (∀ value, stage = some value → ∀ e ∈ ExpressionSorter.sort value, ∀ g ∈ engine_calls e,
        g < mem.funcs.length ∧ func_name mem g ∈ names) →
      ReverseAccumulationVisitor.KeysIn names s → ReverseAccumulationVisitor.KeysIn names t := by
  unfold ReverseAccumulationVisitor.propagate_stage at h
  cases stage with
  | none => cases h
  | some value =>
    dsimp only at h
    split at h
    · cases h
    · rename_i bounds _
      obtain ⟨s3, h3, h⟩ := except_bind_eq_ok h
      obtain ⟨s1, h1, h2⟩ := except_bind_eq_ok h3
      obtain ⟨s4, h4, h5⟩ := except_bind_eq_ok h
      have e01 : ReverseAccumulationVisitor.Evolves s s1 ∧
          ∀ k ∈ map_keys s1.adjoint_funcs, k = func.name ∨ k ∈ map_keys s.adjoint_funcs := by
        have e0 : ReverseAccumulationVisitor.Evolves s
            { s with current_bounds := bounds, current_args := func.args } :=
          ReverseAccumulationVisitor.Evolves.of_same rfl rfl rfl
        split at h1
        · obtain ⟨he, hk⟩ := ReverseAccumulationVisitor.seed_root_spec h1
          exact ⟨e0.evolves_trans he, hk⟩
        · cases h1
          exact ⟨e0, fun k hk => Or.inr hk⟩
      obtain ⟨he01, hk01⟩ := e01
      obtain ⟨hadj, _, _, _, htmp⟩ := ReverseAccumulationVisitor.new_tmp_spec h2
      obtain ⟨he34, hk34⟩ := ReverseAccumulationVisitor.walk_spec _ _ _ h4
      obtain ⟨s5, he45, hk45, ht⟩ := ReverseAccumulationVisitor.add_back_decomp h5
      subst ht
      have hadv : ReverseAccumulationVisitor.Advances func.name s s5 :=
        ((ReverseAccumulationVisitor.Advances.advances_of_evolves func.name he01).advances_trans
          (ReverseAccumulationVisitor.Advances.of_new_tmp func.name h2)).advances_trans
          (ReverseAccumulationVisitor.Advances.advances_of_evolves func.name (he34.evolves_trans he45))
      refine ⟨hadv.advances_trans (ReverseAccumulationVisitor.Advances.of_rebind func.name s5),
        ReverseAccumulationVisitor.rebind_stored_self func.name
          (htmp.tmp_of_evolves (he34.evolves_trans he45)), ?_⟩
      intro mem names hf hname hcalls hkeys
      have hf3 : ReverseAccumulationVisitor.Frame mem s3 :=
        ReverseAccumulationVisitor.new_tmp_frame h2 (hf.frame_of_evolves he01)
      have hk3 : ReverseAccumulationVisitor.KeysIn names s3 := by
        intro k hk
        rw [hadj] at hk
        rcases hk01 k hk with hk' | hk'
        · rw [hk']
          exact hname
        · exact hkeys k hk'
      have hk4 : ReverseAccumulationVisitor.KeysIn names s4 :=
        hk34 mem names hf3
          (fun e he => hcalls value rfl e (List.mem_reverse.1 he)) hk3
      intro k hk
      simp only [mem_map_keys_set] at hk
      rcases hk with hk | hk
      · rw [hk]
        exact hname
      · rcases hk45 k hk with hk' | hk'
        · rw [hk']
          exact hname
        · exact hk4 k hk'

theorem ReverseAccumulationVisitor.propagate_stages_spec {func : Function} :
    ∀ (l : List (Option Expr)) (b : Bool) (s t : ReverseAccumulationVisitor),
      ReverseAccumulationVisitor.propagate_stages func l b s = .ok t →
      ReverseAccumulationVisitor.Advances func.name s t ∧
      (l ≠ [] ∨ ReverseAccumulationVisitor.Stored s func.name func.args →
        ReverseAccumulationVisitor.Stored t func.name func.args) ∧
      ∀ (mem : Memory) (names : List String), ReverseAccumulationVisitor.Frame mem s →
        func.name ∈ names →
        (∀ value, some value ∈ l → ∀ e ∈ ExpressionSorter.sort value, ∀ g ∈ engine_calls e,
          g < mem.funcs.length ∧ func_name mem g ∈ names) →
        ReverseAccumulationVisitor.KeysIn names s →
        ReverseAccumulationVisitor.KeysIn names t := by
  intro l
  induction l with
  | nil =>
    intro b s t h
    simp only [ReverseAccumulationVisitor.propagate_stages] at h
    cases h
    refine ⟨ReverseAccumulationVisitor.Advances.advances_of_evolves _
      (ReverseAccumulationVisitor.Evolves.evolves_refl s), ?_, fun _ _ _ _ _ hk => hk⟩
    rintro (h | h)
    · exact absurd rfl h
    · exact h
  | cons stage rest ih =>
    intro b s t h
    simp only [ReverseAccumulationVisitor.propagate_stages] at h
    obtain ⟨s1, h1, h2⟩ := except_bind_eq_ok h
    obtain ⟨a1, st1, k1⟩ := ReverseAccumulationVisitor.propagate_stage_spec h1
    obtain ⟨a2, st2, k2⟩ := ih false s1 t h2
    refine ⟨a1.advances_trans a2, fun _ => st2 (Or.inr st1), ?_⟩
    intro mem names hf hname hcalls hkeys
    exact k2 mem names (a1.frame mem hf) hname
      (fun value hv => hcalls value (List.mem_cons_of_mem _ hv))
      (k1 mem names hf hname
        (fun value hv => hcalls value (by rw [hv]; exact List.mem_cons_self _ _)) hkeys)

theorem Function.stage_values_ne_nil (f : Function) : f.stage_values ≠ [] := by
  simp [Function.stage_values]

theorem ReverseAccumulationVisitor.propagate_func_spec {h : Nat}
    {s t : ReverseAccumulationVisitor}
    (hp : ReverseAccumulationVisitor.propagate_func h s = .ok t) :
    ∃ func : Function, s.mem.funcs[h]? = some func ∧
      ReverseAccumulationVisitor.Advances func.name s t ∧
      ReverseAccumulationVisitor.Stored t func.name func.args ∧
      ∀ (mem : Memory) (names : List String), ReverseAccumulationVisitor.Frame mem s →
        func.name ∈ names →
        (∀ value ∈ func.stage_exprs, ∀ e ∈ ExpressionSorter.sort value, ∀ g ∈ engine_calls e,
          g < mem.funcs.length ∧ func_name mem g ∈ names) →
        ReverseAccumulationVisitor.KeysIn names s →
        ReverseAccumulationVisitor.KeysIn names t := by
  unfold ReverseAccumulationVisitor.propagate_func at hp
  split at hp
  · cases hp
  · rename_i func hfunc
    obtain ⟨a, st, k⟩ := ReverseAccumulationVisitor.propagate_stages_spec _ _ _ _ hp
    have e0 : ReverseAccumulationVisitor.Evolves s { s with current_func_name := func.name } :=
      ReverseAccumulationVisitor.Evolves.of_same rfl rfl rfl
    refine ⟨func, hfunc, (ReverseAccumulationVisitor.Advances.advances_of_evolves _ e0).advances_trans a,
      st (Or.inl func.stage_values_ne_nil), ?_⟩
    intro mem names hf hname hcalls hkeys
    exact k mem names (hf.frame_of_evolves e0) hname
      (fun value hv => hcalls value ((mem_stage_exprs func value).2 hv)) hkeys

theorem func_name_of_get {mem : Memory} {h : Nat} {f : Function} (hf : mem.funcs[h]? = some f) :
    func_name mem h = f.name := by
  unfold func_name
  rw [hf]

theorem ReverseAccumulationVisitor.stored_step {mem : Memory} {funcs : List Nat} {h0 : Nat}
    {P0 : Function} {s t : ReverseAccumulationVisitor} (hinj : SameNameSameArgs mem funcs)
    (hh0 : h0 ∈ funcs) (hP0 : mem.funcs[h0]? = some P0)
    (hadv : ReverseAccumulationVisitor.Advances P0.name s t)
    (hst : ReverseAccumulationVisitor.Stored t P0.name P0.args) :
    ∀ h ∈ funcs, ∀ P : Function, mem.funcs[h]? = some P →
      (h = h0 ∨ ReverseAccumulationVisitor.Stored s P.name P.args) →
      ReverseAccumulationVisitor.Stored t P.name P.args := by
  intro h hh P hP hor
  by_cases hn : P.name = P0.name
  · rw [hn, hinj h hh h0 hh0 P P0 hP hP0 hn]
    exact hst
  · rcases hor with hor | hor
    · subst hor
      rw [hP] at hP0
      cases hP0
      exact absurd rfl hn
    · exact hadv.stored_others _ _ hn hor

theorem ReverseAccumulationVisitor.propagate_funcs_spec {mem : Memory} :
    ∀ (l : List Nat) (s t : ReverseAccumulationVisitor),
      ReverseAccumulationVisitor.propagate_funcs l s = .ok t →
      ReverseAccumulationVisitor.Frame mem s → (∀ h ∈ l, h < mem.funcs.length) →
      ReverseAccumulationVisitor.Frame mem t ∧
      (∀ k ∈ map_keys s.adjoint_funcs, k ∈ map_keys t.adjoint_funcs) ∧
      (∀ funcs : List Nat, (∀ h ∈ l, h ∈ funcs) → SameNameSameArgs mem funcs →
        ReverseAccumulationVisitor.StoredAll mem funcs s →
        ReverseAccumulationVisitor.StoredAll mem funcs t) ∧
      (∀ names : List String, (∀ h ∈ l, func_name mem h ∈ names) →
        (∀ h ∈ l, ∀ f : Function, mem.funcs[h]? = some f → ∀ value ∈ f.stage_exprs,
          ∀ e ∈ ExpressionSorter.sort value, ∀ g ∈ engine_calls e,
            g < mem.funcs.length ∧ func_name mem g ∈ names) →
        ReverseAccumulationVisitor.KeysIn names s →
        ReverseAccumulationVisitor.KeysIn names t) := by
  intro l
  induction l with
  | nil =>
    intro s t h hf _
    simp only [ReverseAccumulationVisitor.propagate_funcs] at h
    cases h
    exact ⟨hf, fun _ hk => hk, fun _ _ _ hs => hs, fun _ _ _ hk => hk⟩
  | cons h0 rest ih =>
    intro s t h hf hlt
    simp only [ReverseAccumulationVisitor.propagate_funcs] at h
    obtain ⟨s1, h1, h2⟩ := except_bind_eq_ok h
    obtain ⟨func, hfunc, hadv, hst, hk1⟩ := ReverseAccumulationVisitor.propagate_func_spec h1
    have hlt0 : h0 < mem.funcs.length := hlt h0 (List.mem_cons_self _ _)
    have hP0 : mem.funcs[h0]? = some func := by
      rw [← hf.program_funcs h0 hlt0]
      exact hfunc
    obtain ⟨hf2, hks2, hst2, hk2⟩ := ih s1 t h2 (hadv.frame mem hf)
      (fun h hh => hlt h (List.mem_cons_of_mem _ hh))
    refine ⟨hf2, fun k hk => hks2 k (hadv.keys_stay k hk), ?_, ?_⟩
    · intro funcs hsub hinj hall
      apply hst2 funcs (fun h hh => hsub h (List.mem_cons_of_mem _ hh)) hinj
      intro h hh P hP
      exact ReverseAccumulationVisitor.stored_step hinj (hsub h0 (List.mem_cons_self _ _)) hP0
        hadv hst h hh P hP (Or.inr (hall h hh P hP))
    · intro names hnames hcalls hkeys
      apply hk2 names (fun h hh => hnames h (List.mem_cons_of_mem _ hh))
        (fun h hh => hcalls h (List.mem_cons_of_mem _ hh))
      apply hk1 mem names hf
      · rw [← func_name_of_get hP0]
        exact hnames h0 (List.mem_cons_self _ _)
      · exact hcalls h0 (List.mem_cons_self _ _) func hP0
      · exact hkeys

/-- One turn of the loop of lines 390-394: the stub is stored under the name of the
function and has its arguments. -/
theorem ReverseAccumulationVisitor.create_stub_spec {h : Nat}
    {s t : ReverseAccumulationVisitor}
    (hc : ReverseAccumulationVisitor.create_stub h s = .ok t) :
    ∃ func : Function, s.mem.funcs[h]? = some func ∧
      ReverseAccumulationVisitor.Advances func.name s t ∧
      ReverseAccumulationVisitor.Stored t func.name func.args ∧
      ∀ k, k ∈ map_keys t.adjoint_funcs ↔ k = func.name ∨ k ∈ map_keys s.adjoint_funcs := by
  unfold ReverseAccumulationVisitor.create_stub at hc
  split at hc
  · cases hc
  · rename_i func hfunc
    dsimp only at hc
    obtain ⟨m, hm, hc⟩ := except_bind_eq_ok hc
    cases hc
    simp only [func_define, mk_func, mk_float, Memory.fresh, List.getElem?_concat_length] at hm
    cases hm
    have hget : ∀ g, g < s.mem.funcs.length →
        (Memory.set_func
          { funcs := s.mem.funcs ++ [Function.mk (func.name ++ "_d__") [] none []],
            rdoms := s.mem.rdoms, next_id := s.mem.next_id + 1 }
          s.mem.funcs.length
          (Function.mk (func.name ++ "_d__") func.args
            (some (.FloatImm s.mem.next_id 0)) [])).funcs[g]? = s.mem.funcs[g]? := by
      intro g hg
      simp only [Memory.set_func]
      rw [List.getElem?_set_ne (by omega), List.getElem?_append_left hg]
    refine ⟨func, hfunc, ?_, ?_, ?_⟩
    · exact
        { frame := by
            intro mem hf
            exact
              { program_funcs := by
                  intro g hg
                  have := hget g (lt_of_lt_of_le hg hf.length_le)
                  simp only at this ⊢
                  rw [this]
                  exact hf.program_funcs g hg
                length_le := by
                  have := hf.length_le
                  simp [Memory.set_func]
                  omega
                tmp_ge := hf.tmp_ge
                adjoint_ge := by
                  intro k a hk
                  by_cases hkn : k = func.name
                  · subst hkn
                    simp only [map_find_set_self] at hk
                    cases hk
                    exact hf.length_le
                  · simp only [map_find_set_ne _ _ _ hkn] at hk
                    exact hf.adjoint_ge k a hk }
          keys_stay := by
            intro k hk
            simp only [mem_map_keys_set]
            exact Or.inr hk
          stored_others := by
            intro k args hne hs
            obtain ⟨a, F, hfind, hF, hdef, hargs⟩ := hs
            refine ⟨a, F, by simp only [map_find_set_ne _ _ _ hne]; exact hfind, ?_, hdef, hargs⟩
            have := hget a (List.getElem?_eq_some.1 hF).1
            simp only at this ⊢
            rw [this]
            exact hF }
    · refine ⟨s.mem.funcs.length, Function.mk (func.name ++ "_d__") func.args
        (some (.FloatImm s.mem.next_id 0)) [], map_find_set_self _ _ _, ?_, rfl, rfl⟩
      simp [Memory.set_func]
    · intro k
      simp only [mem_map_keys_set]

theorem ReverseAccumulationVisitor.create_stubs_spec {mem : Memory} :
    ∀ (l : List Nat) (s t : ReverseAccumulationVisitor),
      ReverseAccumulationVisitor.create_stubs l s = .ok t →
      ReverseAccumulationVisitor.Frame mem s → (∀ h ∈ l, h < mem.funcs.length) →
      ReverseAccumulationVisitor.Frame mem t ∧
      (∀ k, k ∈ map_keys t.adjoint_funcs ↔
        k ∈ l.map (func_name mem) ∨ k ∈ map_keys s.adjoint_funcs) ∧
      (∀ funcs : List Nat, (∀ h ∈ l, h ∈ funcs) → SameNameSameArgs mem funcs →
        ∀ h ∈ funcs, ∀ P : Function, mem.funcs[h]? = some P →
          (h ∈ l ∨ ReverseAccumulationVisitor.Stored s P.name P.args) →
          ReverseAccumulationVisitor.Stored t P.name P.args) := by
  intro l
  induction l with
  | nil =>
    intro s t h hf _
    simp only [ReverseAccumulationVisitor.create_stubs] at h
    cases h
    refine ⟨hf, by simp, ?_⟩
    intro funcs _ _ h hh P hP hor
    rcases hor with hor | hor
    · cases hor
    · exact hor
  | cons h0 rest ih =>
    intro s t h hf hlt
    simp only [ReverseAccumulationVisitor.create_stubs] at h
    obtain ⟨s1, h1, h2⟩ := except_bind_eq_ok h
    obtain ⟨func, hfunc, hadv, hst, hk1⟩ := ReverseAccumulationVisitor.create_stub_spec h1
    have hlt0 : h0 < mem.funcs.length := hlt h0 (List.mem_cons_self _ _)
    have hP0 : mem.funcs[h0]? = some func := by
      rw [← hf.program_funcs h0 hlt0]
      exact hfunc
    obtain ⟨hf2, hk2, hst2⟩ := ih s1 t h2 (hadv.frame mem hf)
      (fun h hh => hlt h (List.mem_cons_of_mem _ hh))
    refine ⟨hf2, ?_, ?_⟩
    · intro k
      rw [hk2 k, hk1 k, List.map_cons, List.mem_cons, func_name_of_get hP0]
      tauto
    · intro funcs hsub hinj h hh P hP hor
      apply hst2 funcs (fun h hh => hsub h (List.mem_cons_of_mem _ hh)) hinj h hh P hP
      rcases hor with hor | hor
      · rcases List.mem_cons.1 hor with hor | hor
        · exact Or.inr (ReverseAccumulationVisitor.stored_step hinj
            (hsub h0 (List.mem_cons_self _ _)) hP0 hadv hst h hh P hP (Or.inl hor))
        · exact Or.inl hor
      · exact Or.inr (ReverseAccumulationVisitor.stored_step hinj
          (hsub h0 (List.mem_cons_self _ _)) hP0 hadv hst h hh P hP (Or.inr hor))

theorem ReverseAccumulationVisitor.new_frame {mem : Memory} {bounds : List (String × RDom)}
    {m : Memory} (hm : m.funcs = (ReverseAccumulationVisitor.new mem).mem.funcs) :
    ReverseAccumulationVisitor.Frame mem
      { ReverseAccumulationVisitor.new mem with func_bounds := bounds, mem := m } :=
  { program_funcs := by
      intro h hlt
      simp only [hm, ReverseAccumulationVisitor.new, mk_func_default, mk_func]
      rw [List.getElem?_append_left hlt]
    length_le := by
      simp [hm, ReverseAccumulationVisitor.new, mk_func_default, mk_func]
    tmp_ge := by
      simp [ReverseAccumulationVisitor.new, mk_func_default, mk_func]
    adjoint_ge := by
      intro k a hk
      simp [ReverseAccumulationVisitor.new, map_find] at hk }

/-- The engine on the list `funcs`: the keys of its adjoint map are the names of the
listed functions, and the adjoint stored for a listed function has its arguments. -/
theorem ReverseAccumulationVisitor.engine_spec {mem : Memory} {fuel : Nat}
    {output : Expr} {funcs : List Nat} {t : ReverseAccumulationVisitor}
    (h : ReverseAccumulationVisitor.propagate_adjoints fuel output funcs
      (ReverseAccumulationVisitor.new mem) = .ok t)
    (hlt : ∀ h ∈ funcs, h < mem.funcs.length)
    (hout : ∀ e ∈ ExpressionSorter.sort output, ∀ g ∈ engine_calls e,
      g < mem.funcs.length ∧ func_name mem g ∈ funcs.map (func_name mem))
    (hstage : ∀ h ∈ funcs, ∀ f : Function, mem.funcs[h]? = some f → ∀ value ∈ f.stage_exprs,
      ∀ e ∈ ExpressionSorter.sort value, ∀ g ∈ engine_calls e,
        g < mem.funcs.length ∧ func_name mem g ∈ funcs.map (func_name mem)) :
    (∀ k, k ∈ map_keys t.adjoint_funcs ↔ k ∈ funcs.map (func_name mem)) ∧
    (SameNameSameArgs mem funcs → ReverseAccumulationVisitor.StoredAll mem funcs t) := by
  unfold ReverseAccumulationVisitor.propagate_adjoints at h
  by_cases hl : funcs.length = 0
  · rw [if_pos hl] at h
    cases h
    have hnil : funcs = [] := List.length_eq_zero.1 hl
    subst hnil
    refine ⟨by simp [ReverseAccumulationVisitor.new, map_keys], ?_⟩
    intro _ h hh
    cases hh
  · rw [if_neg hl] at h
    obtain ⟨bounds, hb, h⟩ := except_bind_eq_ok h
    obtain ⟨s1, hs1, h⟩ := except_bind_eq_ok h
    obtain ⟨s2, hwalk, hprop⟩ := except_bind_eq_ok h
    have hf0 : ReverseAccumulationVisitor.Frame mem
        { ReverseAccumulationVisitor.new mem with func_bounds := bounds.1, mem := bounds.2 } :=
      ReverseAccumulationVisitor.new_frame (BoundsInferencer.inference_funcs hb)
    obtain ⟨hf1, hk1, hst1⟩ := ReverseAccumulationVisitor.create_stubs_spec funcs _ s1 hs1 hf0 hlt
    have hkeys1 : ∀ k, k ∈ map_keys s1.adjoint_funcs ↔ k ∈ funcs.map (func_name mem) := by
      intro k
      rw [hk1 k]
      simp [ReverseAccumulationVisitor.new, map_keys]
    have he1 : ReverseAccumulationVisitor.Evolves s1
        (ReverseAccumulationVisitor.accumulate output (mk_float 1 s1.mem).1
          { s1 with mem := (mk_float 1 s1.mem).2 }) :=
      ReverseAccumulationVisitor.Evolves.of_same
        (by rw [ReverseAccumulationVisitor.accumulate_funcs]; rfl)
        (by rw [ReverseAccumulationVisitor.accumulate_adjoint_funcs])
        (by rw [ReverseAccumulationVisitor.accumulate_tmp])
    obtain ⟨he2, hk2⟩ := ReverseAccumulationVisitor.walk_spec _ _ _ hwalk
    have hf2 : ReverseAccumulationVisitor.Frame mem s2 := (hf1.frame_of_evolves he1).frame_of_evolves he2
    obtain ⟨_, hks3, hst3, hk3⟩ :=
      ReverseAccumulationVisitor.propagate_funcs_spec funcs s2 t hprop hf2 hlt
    refine ⟨fun k => ⟨?_, ?_⟩, ?_⟩
    · apply hk3 (funcs.map (func_name mem)) (fun h hh => List.mem_map_of_mem _ hh) hstage
      apply hk2 mem _ (hf1.frame_of_evolves he1) (fun e he => hout e (List.mem_reverse.1 he))
      intro k hk
      rw [ReverseAccumulationVisitor.accumulate_adjoint_funcs] at hk
      exact (hkeys1 k).1 hk
    · intro hk
      exact hks3 k (ReverseAccumulationVisitor.keys_of_evolves (he1.evolves_trans he2) k
        ((hkeys1 k).2 hk))
    · intro hinj
      apply hst3 funcs (fun _ hh => hh) hinj
      intro h hh P hP
      exact (hst1 funcs (fun _ hh => hh) hinj h hh P hP (Or.inl hh)).stored_of_evolves (he1.evolves_trans he2)

/-- The public `propagate_adjoints` on a program whose nodes have addresses of their
own and in which only calls of array functions carry a function: the keys of the
returned map are the names of the list of `FunctionSorter`, and the adjoint stored
for a listed function has its arguments. -/
theorem propagate_adjoints_spec {mem : Memory} {fuel : Nat} {output : Expr}
    {funcs : List Nat} {r : List (String × Nat) × Memory}
    (hcons : Consistent mem output) (hhalide : FuncsOnlyInHalideCalls mem output)
    (hsort : FunctionSorter.sort mem fuel output = .ok funcs)
    (hrun : propagate_adjoints mem fuel output = .ok r) :
    ∃ t : ReverseAccumulationVisitor, r = (t.adjoint_funcs, t.mem) ∧
      (∀ h ∈ funcs, h < mem.funcs.length) ∧ (funcs.map (func_name mem)).Nodup ∧
      (∀ k, k ∈ map_keys t.adjoint_funcs ↔ k ∈ funcs.map (func_name mem)) ∧
      ReverseAccumulationVisitor.StoredAll mem funcs t := by
  unfold propagate_adjoints at hrun
  rw [hsort] at hrun
  simp only [Except.bind] at hrun
  obtain ⟨t, ht, hrun⟩ := except_bind_eq_ok hrun
  cases hrun
  obtain ⟨hnd, hvalid, hdirect, hstages⟩ := FunctionSorter.sort_spec hcons hsort
  have hsub : ∀ root ∈ program_roots mem output, ∀ x ∈ subterms root, ∀ h,
      x.call_func = some h → x.is_halide_call = true := by
    intro root hroot x hx
    apply hhalide x
    unfold program_nodes
    rw [mem_subterms_list]
    exact ⟨root, hroot, hx⟩
  have hroot : output ∈ program_roots mem output := by
    simp [program_roots]
  obtain ⟨hkeys, hstored⟩ := ReverseAccumulationVisitor.engine_spec ht
    (fun h hh => (hvalid h hh).1)
    (fun e he g hg => hdirect g (ExpressionSorter.sort_sound output (hsub output hroot) e he g hg))
    (fun h hh f hf value hv e he g hg => hstages h hh f hf value hv g
      (ExpressionSorter.sort_sound value (hsub value (program_roots_stage hf hv)) e he g hg))
  refine ⟨t, rfl, fun h hh => (hvalid h hh).1, hnd, hkeys, hstored ?_⟩
  intro g hg h hh P Q hP hQ hn
  have : g = h := by
    apply List.inj_on_of_nodup_map hnd hg hh
    rw [func_name_of_get hP, func_name_of_get hQ, hn]
  subst this
  rw [hP] at hQ
  cases hQ
  rfl

/-- A test that decides `FuncsOnlyInHalideCalls` for a given program. -/
theorem funcs_only_in_halide_calls_of_all {mem : Memory} {output : Expr}
    (h : (program_nodes mem output).all
      (fun e => e.call_func.isNone || e.is_halide_call) = true) :
    FuncsOnlyInHalideCalls mem output := by
  intro e he g hg
  have := List.all_eq_true.1 h e he
  simpa [hg] using this

/-- C9: when `propagate_adjoints` completes on a program whose nodes have addresses
of their own and in which only calls of array functions carry a function, the keys
of the returned map are exactly the names of the functions in the list that
`FunctionSorter` produced for the output; and a scatter of the reverse walk adds no
key other than the name of the function it scatters to. -/
theorem returned_keys_are_sorted_names (mem : Memory) (output : Expr) (fuel : Nat)
    (r : List (String × Nat) × Memory)
    (hcons : Consistent mem output) (hhalide : FuncsOnlyInHalideCalls mem output)
    (hrun : propagate_adjoints mem fuel output = .ok r) :
    ∃ funcs, FunctionSorter.sort mem fuel output = .ok funcs ∧
      (∀ k, k ∈ map_keys r.1 ↔ k ∈ funcs.map (func_name mem)) ∧
      ∀ (h : Nat) (args : List Expr) (adjoint : Expr) (s t : ReverseAccumulationVisitor),
        ReverseAccumulationVisitor.scatter h args adjoint s = .ok t →
        ∀ k ∈ map_keys t.adjoint_funcs, k ∈ map_keys s.adjoint_funcs ∨ k = func_name s.mem h := by
  cases hsort : FunctionSorter.sort mem fuel output with
  | error err =>
    unfold propagate_adjoints at hrun
    rw [hsort] at hrun
    cases hrun
  | ok funcs =>
    obtain ⟨t, ht, _, _, hkeys, _⟩ := propagate_adjoints_spec hcons hhalide hsort hrun
    subst ht
    exact ⟨funcs, rfl, hkeys, fun h args adjoint s t hs =>
      (ReverseAccumulationVisitor.scatter_spec hs).2⟩

/-- C10: when `propagate_adjoints` completes on a program whose nodes have addresses
of their own and in which only calls of array functions carry a function, then for
every function of the list passed to the engine the returned map holds under its
name a defined adjoint function with the same ordered argument list, and every
entry of the returned map is the adjoint of a listed function with that function's
argument list.  This holds from the creation of the stub on: `create_stub` stores a
function with the arguments of its primal, and so does every stage of
`propagate_stage` when it replaces the stored adjoint by the staging function. -/
theorem adjoint_args_eq_primal_args (mem : Memory) (output : Expr) (fuel : Nat)
    (r : List (String × Nat) × Memory)
    (hcons : Consistent mem output) (hhalide : FuncsOnlyInHalideCalls mem output)
    (hrun : propagate_adjoints mem fuel output = .ok r) :
    ∃ funcs, FunctionSorter.sort mem fuel output = .ok funcs ∧
      (∀ f ∈ funcs, ∃ (P : Function) (a : Nat) (F : Function), mem.funcs[f]? = some P ∧
        map_find P.name r.1 = some a ∧ r.2.funcs[a]? = some F ∧ F.value.isSome = true ∧
        F.args = P.args) ∧
      (∀ k a, map_find k r.1 = some a → ∃ f ∈ funcs, ∃ P F : Function,
        mem.funcs[f]? = some P ∧ P.name = k ∧ r.2.funcs[a]? = some F ∧ F.args = P.args) ∧
      (∀ (h : Nat) (s t : ReverseAccumulationVisitor),
        ReverseAccumulationVisitor.create_stub h s = .ok t →
        ∃ func : Function, s.mem.funcs[h]? = some func ∧
          ReverseAccumulationVisitor.Stored t func.name func.args) ∧
      ∀ (func : Function) (stage : Option Expr) (b : Bool) (s t : ReverseAccumulationVisitor),
        ReverseAccumulationVisitor.propagate_stage func stage b s = .ok t →
        ReverseAccumulationVisitor.Stored t func.name func.args := by
  cases hsort : FunctionSorter.sort mem fuel output with
  | error err =>
    unfold propagate_adjoints at hrun
    rw [hsort] at hrun
    cases hrun
  | ok funcs =>
    obtain ⟨t, ht, hvalid, _, hkeys, hstored⟩ :=
      propagate_adjoints_spec hcons hhalide hsort hrun
    subst ht
    have hlisted : ∀ f ∈ funcs, ∃ (P : Function) (a : Nat) (F : Function),
        mem.funcs[f]? = some P ∧ map_find P.name t.adjoint_funcs = some a ∧
        t.mem.funcs[a]? = some F ∧ F.value.isSome = true ∧ F.args = P.args := by
      intro f hf
      obtain ⟨P, hP⟩ : ∃ P, mem.funcs[f]? = some P :=
        ⟨_, List.getElem?_eq_getElem (hvalid f hf)⟩
      obtain ⟨a, F, hfind, hF, hdef, hargs⟩ := hstored f hf P hP
      exact ⟨P, a, F, hP, hfind, hF, hdef, hargs⟩
    refine ⟨funcs, rfl, hlisted, ?_, ?_, ?_⟩
    · intro k a hk
      have hmem : k ∈ funcs.map (func_name mem) :=
        (hkeys k).1 ((mem_map_keys_iff k _).2 ⟨a, hk⟩)
      obtain ⟨f, hf, hfk⟩ := List.mem_map.1 hmem
      obtain ⟨P, a', F, hP, hfind, hF, _, hargs⟩ := hlisted f hf
      have hname : P.name = k := by
        rw [← func_name_of_get hP]
        exact hfk
      rw [hname, hk] at hfind
      cases hfind
      exact ⟨f, hf, P, F, hP, hname, hF, hargs⟩
    · intro h s t hs
      obtain ⟨func, hfunc, _, hst, _⟩ := ReverseAccumulationVisitor.create_stub_spec hs
      exact ⟨func, hfunc, hst⟩
    · intro func stage b s t hs
      exact (ReverseAccumulationVisitor.propagate_stage_spec hs).2.1

/-! ### `ExpressionSorter`: the list is the visible nodes, each once, operands first -/

theorem Visible.mem_subterms {root x : Expr} (h : Visible root x) : x ∈ subterms root := by
  induction h with
  | root => exact subterms_self root
  | operand p c _ _ hc ih => exact subterms_operand c root.size p root (le_refl _) hc ih

theorem Visible.size_le {root x : Expr} (h : Visible root x) : x.size ≤ root.size := by
  induction h with
  | root => exact le_refl _
  | operand p c _ _ hc ih =>
    have := Expr.size_operand p c hc
    omega

theorem OperandsFirst.concat {l : List Expr} {c : Expr} (hl : OperandsFirst l)
    (hc : c.is_func_or_image_call = false → ∀ d ∈ c.operands, d ∈ l) :
    OperandsFirst (l ++ [c]) := by
  intro j p hj hp d hd
  rcases Nat.lt_trichotomy j l.length with hlt | heq | hgt
  · rw [List.getElem?_append_left hlt] at hj
    obtain ⟨i, hi, hget⟩ := hl j p hj hp d hd
    exact ⟨i, hi, by rw [List.getElem?_append_left (by omega)]; exact hget⟩
  · subst heq
    rw [List.getElem?_concat_length] at hj
    cases hj
    obtain ⟨i, hget⟩ := List.mem_iff_getElem?.1 (hc hp d hd)
    have hi : i < l.length := (List.getElem?_eq_some.1 hget).1
    exact ⟨i, hi, by rw [List.getElem?_append_left hi]; exact hget⟩
  · rw [List.getElem?_eq_none (by simp; omega)] at hj
    cases hj

theorem ExpressionSorter.grows_refl {root : Expr} {s : ExpressionSorter}
    (hs : ExpressionSorter.Inv root s) : ExpressionSorter.Grows root s s :=
  { extends_list := ⟨[], by simp⟩
    visited_mono := fun _ h => h
    settled := fun _ _ h => Or.inl h
    fresh := fun _ h => Or.inl h
    inv := hs }

theorem ExpressionSorter.grows_trans {root : Expr} {s t u : ExpressionSorter}
    (h1 : ExpressionSorter.Grows root s t) (h2 : ExpressionSorter.Grows root t u) :
    ExpressionSorter.Grows root s u := by
  obtain ⟨a1, ha1⟩ := h1.extends_list
  obtain ⟨a2, ha2⟩ := h2.extends_list
  exact
    { extends_list := ⟨a1 ++ a2, by rw [ha2, ha1, List.append_assoc]⟩
      visited_mono := fun i hi => h2.visited_mono i (h1.visited_mono i hi)
      settled := by
        intro x hx hv
        rcases h2.settled x hx hv with h | h
        · rcases h1.settled x hx h with h' | h'
          · exact Or.inl h'
          · exact Or.inr (by rw [ha2]; exact List.mem_append_left _ h')
        · exact Or.inr h
      fresh := by
        intro x hx
        rcases h2.fresh x hx with h | h
        · exact h1.fresh x h
        · exact Or.inr (fun hv => h (h1.visited_mono _ hv))
      inv := h2.inv }

theorem ExpressionSorter.pending_of_grows {root : Expr} {k : Nat} {s t : ExpressionSorter}
    (hp : ExpressionSorter.Pending root k s) (hg : ExpressionSorter.Grows root s t) :
    ExpressionSorter.Pending root k t := by
  intro x hx hv
  obtain ⟨added, hadd⟩ := hg.extends_list
  rcases hg.settled x hx hv with h | h
  · rcases hp x hx h with h' | h'
    · exact Or.inl (by rw [hadd]; exact List.mem_append_left _ h')
    · exact Or.inr h'
  · exact Or.inl h

/-- The step of `ExpressionSorter::include` on a node that is not visited yet, given
what the dispatch on the node does. -/
theorem ExpressionSorter.include_new {root c : Expr} {s t1 : ExpressionSorter}
    (hids : NodesById root) (hvis : Visible root c) (hlt : c.size < root.size)
    (hs : ExpressionSorter.Inv root s) (hnew : c.id ∉ s.visited)
    (hg : ExpressionSorter.Grows root { s with visited := c.id :: s.visited } t1)
    (hops : c.is_func_or_image_call = false → ∀ d ∈ c.operands, d ∈ t1.expr_list) :
    ExpressionSorter.Grows root s { t1 with expr_list := t1.expr_list ++ [c] } := by
  obtain ⟨added, hadd⟩ := hg.extends_list
  have hc_not : c ∉ t1.expr_list := by
    intro hc
    rcases hg.fresh c hc with h | h
    · exact hnew (hs.listed_visited c h)
    · exact h (List.mem_cons_self _ _)
  exact
    { extends_list := ⟨added ++ [c], by
        show t1.expr_list ++ [c] = s.expr_list ++ (added ++ [c])
        rw [hadd]
        simp⟩
      visited_mono := fun i hi => hg.visited_mono i (List.mem_cons_of_mem _ hi)
      settled := by
        intro x hx hv
        rcases hg.settled x hx hv with h | h
        · rcases List.mem_cons.1 h with h' | h'
          · have : x = c := hids x hx c hvis.mem_subterms h'
            exact Or.inr (by rw [this]; exact List.mem_append_right _ (List.mem_singleton_self c))
          · exact Or.inl h'
        · exact Or.inr (List.mem_append_left _ h)
      fresh := by
        intro x hx
        rcases List.mem_append.1 hx with h | h
        · rcases hg.fresh x h with h' | h'
          · exact Or.inl h'
          · exact Or.inr (fun hv => h' (List.mem_cons_of_mem _ hv))
        · rw [List.mem_singleton.1 h]
          exact Or.inr hnew
      inv :=
        { listed_visited := by
            intro x hx
            rcases List.mem_append.1 hx with h | h
            · exact hg.inv.listed_visited x h
            · rw [List.mem_singleton.1 h]
              exact hg.visited_mono _ (List.mem_cons_self _ _)
          nodup := by
            show (t1.expr_list ++ [c]).Nodup
            rw [List.nodup_append]
            refine ⟨hg.inv.nodup, List.nodup_singleton c, ?_⟩
            intro x hx hx'
            rw [List.mem_singleton.1 hx'] at hx
            exact hc_not hx
          operands_first := hg.inv.operands_first.concat hops
          visible := by
            intro x hx
            rcases List.mem_append.1 hx with h | h
            · exact hg.inv.visible x h
            · rw [List.mem_singleton.1 h]
              exact ⟨hvis, hlt⟩ } }

/-- The dispatch of `ExpressionSorter` on a visible node `p` of `root`: the operands
of `p` are listed afterwards, unless `p` is a call of an array function or of an
image. -/
theorem ExpressionSorter.accept_grows {root : Expr} (hids : NodesById root) :
    ∀ (n : Nat) (p : Expr) (s : ExpressionSorter) (k : Nat), p.size ≤ n →
      Visible root p → p.size ≤ k + 1 → ExpressionSorter.Inv root s →
      ExpressionSorter.Pending root k s →
      ExpressionSorter.Grows root s (ExpressionSorter.accept p s) ∧
      (p.is_func_or_image_call = false →
        ∀ c ∈ p.operands, c ∈ (ExpressionSorter.accept p s).expr_list) := by
  intro n
  induction n with
  | zero =>
    intro p s k hsz
    have := Expr.size_pos p
    omega
  | succ n ih =>
    intro p s k hsz hvis hk hs hpend
    rw [ExpressionSorter.expr_accept_eq_list]
    by_cases hfi : p.is_func_or_image_call = true
    · rw [if_pos hfi]
      refine ⟨ExpressionSorter.grows_refl hs, ?_⟩
      intro h
      rw [hfi] at h
      cases h
    · rw [if_neg hfi]
      have hfi' : p.is_func_or_image_call = false := by simpa using hfi
      have key : ∀ (l : List Expr) (s : ExpressionSorter), (∀ c ∈ l, c ∈ p.operands) →
          ExpressionSorter.Inv root s → ExpressionSorter.Pending root k s →
          ExpressionSorter.Grows root s (ExpressionSorter.accept_list l s) ∧
          ∀ c ∈ l, c ∈ (ExpressionSorter.accept_list l s).expr_list := by
        intro l
        induction l with
        | nil =>
          intro s _ hs _
          simp only [ExpressionSorter.accept_list]
          exact ⟨ExpressionSorter.grows_refl hs, fun _ h => by cases h⟩
        | cons c rest ihl =>
          intro s hl hs hpend
          simp only [ExpressionSorter.accept_list]
          have hc : c ∈ p.operands := hl c (List.mem_cons_self _ _)
          have hclt := Expr.size_operand p c hc
          have hcvis : Visible root c := Visible.operand p c hvis hfi' hc
          have hstep : ExpressionSorter.Grows root s
              (ExpressionSorter.include_with c (ExpressionSorter.accept c) s) ∧
              c ∈ (ExpressionSorter.include_with c (ExpressionSorter.accept c) s).expr_list := by
            unfold ExpressionSorter.include_with
            by_cases hv : c.id ∈ s.visited
            · rw [if_pos hv]
              refine ⟨ExpressionSorter.grows_refl hs, ?_⟩
              rcases hpend c hcvis.mem_subterms hv with h | h
              · exact h
              · omega
            · rw [if_neg hv]
              have hs' : ExpressionSorter.Inv root { s with visited := c.id :: s.visited } :=
                { listed_visited := fun x hx => List.mem_cons_of_mem _ (hs.listed_visited x hx)
                  nodup := hs.nodup
                  operands_first := hs.operands_first
                  visible := hs.visible }
              have hpend' : ExpressionSorter.Pending root (c.size - 1)
                  { s with visited := c.id :: s.visited } := by
                intro x hx hxv
                have hpos := Expr.size_pos c
                rcases List.mem_cons.1 hxv with h | h
                · have : x = c := hids x hx c hcvis.mem_subterms h
                  rw [this]
                  exact Or.inr (by omega)
                · rcases hpend x hx h with h' | h'
                  · exact Or.inl h'
                  · exact Or.inr (by omega)
              obtain ⟨hg, hops⟩ := ih c { s with visited := c.id :: s.visited } (c.size - 1)
                (by omega) hcvis (by omega) hs' hpend'
              have hroot := hvis.size_le
              exact ⟨ExpressionSorter.include_new hids hcvis (by omega) hs hv hg hops,
                List.mem_append_right _ (List.mem_singleton_self c)⟩
          obtain ⟨hg1, hc1⟩ := hstep
          obtain ⟨hg2, hrest⟩ := ihl _ (fun c' hc' => hl c' (List.mem_cons_of_mem _ hc'))
            hg1.inv (ExpressionSorter.pending_of_grows hpend hg1)
          refine ⟨ExpressionSorter.grows_trans hg1 hg2, ?_⟩
          intro c' hc'
          rcases List.mem_cons.1 hc' with h | h
          · obtain ⟨added, hadd⟩ := hg2.extends_list
            rw [h, hadd]
            exact List.mem_append_left _ hc1
          · exact hrest c' h
      obtain ⟨hg, hall⟩ := key p.operands s (fun _ h => h) hs hpend
      exact ⟨hg, fun _ => hall⟩

/-- C11: for an expression `e` whose nodes are identified by their addresses
(sharing allowed), the list of `ExpressionSorter::sort` holds exactly the nodes
reachable from `e` without passing through the arguments of a call of an array
function or of an image, each of them once; every operand of a listed node stands
earlier in the list than the node; and the list ends with `e`. -/
theorem expression_sorter_lists_visible_nodes (e : Expr) (hids : NodesById e) :
    (∀ x, x ∈ ExpressionSorter.sort e ↔ Visible e x) ∧ (ExpressionSorter.sort e).Nodup ∧
    OperandsFirst (ExpressionSorter.sort e) ∧ (ExpressionSorter.sort e).getLast? = some e := by
  have hinv0 : ExpressionSorter.Inv e { visited := [], expr_list := [] } :=
    { listed_visited := fun _ h => by cases h
      nodup := List.nodup_nil
      operands_first := by
        intro j p hj
        simp at hj
      visible := fun _ h => by cases h }
  have hpend0 : ExpressionSorter.Pending e (e.size - 1) { visited := [], expr_list := [] } := by
    intro x _ hv
    cases hv
  have hpos := Expr.size_pos e
  obtain ⟨hg, hops⟩ := ExpressionSorter.accept_grows hids e.size e
    { visited := [], expr_list := [] } (e.size - 1) (le_refl _) Visible.root (by omega)
    hinv0 hpend0
  have hfirst : OperandsFirst (ExpressionSorter.sort e) := hg.inv.operands_first.concat hops
  refine ⟨fun x => ⟨?_, ?_⟩, ?_, hfirst, ?_⟩
  · intro hx
    unfold ExpressionSorter.sort at hx
    rcases List.mem_append.1 hx with h | h
    · exact (hg.inv.visible x h).1
    · rw [List.mem_singleton.1 h]
      exact Visible.root
  · intro hx
    induction hx with
    | root =>
      unfold ExpressionSorter.sort
      exact List.mem_append_right _ (List.mem_singleton_self e)
    | operand p c _ hp hc ih =>
      obtain ⟨j, hj⟩ := List.mem_iff_getElem?.1 ih
      obtain ⟨i, _, hi⟩ := hfirst j p hj hp c hc
      exact List.mem_iff_getElem?.2 ⟨i, hi⟩
  · unfold ExpressionSorter.sort
    rw [List.nodup_append]
    refine ⟨hg.inv.nodup, List.nodup_singleton e, ?_⟩
    intro x hx hx'
    rw [List.mem_singleton.1 hx'] at hx
    have := (hg.inv.visible e hx).2
    omega
  · unfold ExpressionSorter.sort
    simp

/-- Witness of C11: `f(x) + y * y` with the two operands of the product shared. The
list is `f(x)`, `y`, `y * y`, the sum: the argument `x` of the call is not listed. -/
theorem expression_sorter_lists_visible_nodes_witness :
    NodesById shared_operand_expr ∧
    ExpressionSorter.sort shared_operand_expr =
      [.Call 2 "f" .Halide (some 0) [.Variable 3 "x" none], .Variable 5 "y" none,
       .Mul 4 (.Variable 5 "y" none) (.Variable 5 "y" none), shared_operand_expr] ∧
    (∀ x, x ∈ ExpressionSorter.sort shared_operand_expr ↔ Visible shared_operand_expr x) ∧
    (ExpressionSorter.sort shared_operand_expr).Nodup ∧
    OperandsFirst (ExpressionSorter.sort shared_operand_expr) ∧
    (ExpressionSorter.sort shared_operand_expr).getLast? = some shared_operand_expr := by
  have hids : NodesById shared_operand_expr := by
    intro a ha b hb hab
    simp only [shared_operand_expr, subterms, subterms_list, List.mem_cons, List.mem_append,
      List.mem_singleton, List.not_mem_nil, or_false, List.append_nil] at ha hb
    rcases ha with rfl | (rfl | rfl) | rfl | rfl | rfl <;>
      rcases hb with rfl | (rfl | rfl) | rfl | rfl | rfl <;>
      first
        | rfl
        | (simp [Expr.id] at hab)
  refine ⟨hids, ?_, expression_sorter_lists_visible_nodes shared_operand_expr hids⟩
  simp [shared_operand_expr, ExpressionSorter.sort, ExpressionSorter.accept,
    ExpressionSorter.include_with, ExpressionSorter.accept_list, Expr.id]

/-! ### `inverse`: when it fails -/

theorem inverse_ok_or_assert (var : String) :
    ∀ (n : Nat) (e : Expr) (m : Memory), e.size ≤ n →
      (supported_shape var e = true → ∃ r, inverse var e m = .ok r) ∧
      (supported_shape var e = false → inverse var e m = .error .assert_failed) := by
  intro n
  induction n with
  | zero =>
    intro e m hsz
    have := Expr.size_pos e
    omega
  | succ n ih =>
    intro e m hsz
    have binary : ∀ (a b : Expr) (mk : Expr → Memory → Expr × Memory)
        (mk2 : Expr → Memory → Expr × Memory), a.size ≤ n → b.size ≤ n →
        ((((VariableFinder.find a var && !VariableFinder.find b var && supported_shape var a) ||
          (VariableFinder.find b var && !VariableFinder.find a var && supported_shape var b))
            = true) →
          ∃ r, (if (VariableFinder.find a var && !VariableFinder.find b var) = true then
              (inverse var a m).bind fun r => .ok (mk r.1 r.2)
            else if (VariableFinder.find b var && !VariableFinder.find a var) = true then
              (inverse var b m).bind fun r => .ok (mk2 r.1 r.2)
            else .error .assert_failed) = .ok r) ∧
        ((((VariableFinder.find a var && !VariableFinder.find b var && supported_shape var a) ||
          (VariableFinder.find b var && !VariableFinder.find a var && supported_shape var b))
            = false) →
          (if (VariableFinder.find a var && !VariableFinder.find b var) = true then
              (inverse var a m).bind fun r => .ok (mk r.1 r.2)
            else if (VariableFinder.find b var && !VariableFinder.find a var) = true then
              (inverse var b m).bind fun r => .ok (mk2 r.1 r.2)
            else .error .assert_failed) = (.error .assert_failed : Except Err (Expr × Memory))) := by
      intro a b mk mk2 ha hb
      obtain ⟨ha1, ha2⟩ := ih a m ha
      obtain ⟨hb1, hb2⟩ := ih b m hb
      have okbind : ∀ (x : Except Err (Expr × Memory)) (f : Expr → Memory → Expr × Memory),
          (∃ r, x = .ok r) → ∃ r, (x.bind fun r => .ok (f r.1 r.2)) = .ok r := by
        rintro x f ⟨r, rfl⟩
        exact ⟨_, rfl⟩
      have errbind : ∀ (x : Except Err (Expr × Memory)) (f : Expr → Memory → Expr × Memory),
          x = .error .assert_failed →
          (x.bind fun r => .ok (f r.1 r.2)) = .error .assert_failed := by
        rintro x f rfl
        rfl
      cases hfa : VariableFinder.find a var <;> cases hfb : VariableFinder.find b var <;>
        simp only [Bool.true_and, Bool.false_and, Bool.not_true, Bool.not_false, Bool.or_false,
          Bool.false_or, Bool.and_false, Bool.and_true, Bool.false_eq_true, ↓reduceIte]
      · simp
      · exact ⟨fun h => okbind _ _ (hb1 h), fun h => errbind _ _ (hb2 h)⟩
      · exact ⟨fun h => okbind _ _ (ha1 h), fun h => errbind _ _ (ha2 h)⟩
      · simp
    cases e <;> simp only [Expr.size] at hsz
    case Variable i name rd => simp [supported_shape, inverse]
    case Add i a b =>
      simp only [supported_shape, inverse]
      exact binary a b (fun x y => mk_sub x b y) (fun x y => mk_sub x a y) (by omega) (by omega)
    case Sub i a b =>
      simp only [supported_shape, inverse]
      exact binary a b (fun x y => mk_add x b y) (fun x y => mk_sub x a y) (by omega) (by omega)
    case Min i a b =>
      simp only [supported_shape, inverse]
      exact binary a b (fun x y => mk_min x b y) (fun x y => mk_min a x y) (by omega) (by omega)
    case Max i a b =>
      simp only [supported_shape, inverse]
      exact binary a b (fun x y => mk_max x b y) (fun x y => mk_max a x y) (by omega) (by omega)
    all_goals simp [supported_shape, inverse]

/-- C18 as stated fails: for a variable `y` other than `x`, a node in which `x` does
not occur, `inverse(x, y)` does not reach the assertion; it returns `y`. -/
theorem inverse_of_other_variable :
    VariableFinder.find (.Variable 1 "y" none) "x" = false ∧
    inverse "x" (.Variable 1 "y" none) two_slots_memory =
      .ok (.Variable 1 "y" none, two_slots_memory) := by
  constructor
  · simp [VariableFinder.find, VariableFinder.accept]
  · simp [inverse]

/-- C18 amended: `inverse(x, e)` fails, and then in the assertion branch, exactly when
`e` is outside the supported shapes.  It succeeds for every `e` that is a variable
node (the branch for `Variable` returns the node without comparing its name with
`x`) or an add, sub, min or max with `x` in exactly one operand whose operand
containing `x` is itself supported; it fails if the recursion reaches an add, sub,
min or max in which `x` occurs in both operands or in neither, or a node of any
other kind that is not a variable.  A variable node in which `x` occurs is `x`, so
below the root the recursion reaches no other variable. -/
theorem inverse_fails_iff_unsupported (var : String) (e : Expr) (m : Memory) :
    ((∃ r, inverse var e m = .ok r) ↔ supported_shape var e = true) ∧
    (inverse var e m = .error .assert_failed ↔ supported_shape var e = false) ∧
    (∀ (err : Err), inverse var e m = .error err → err = .assert_failed) ∧
    (∀ (i : Nat) (name : String) (rd : Option Nat),
      VariableFinder.find (.Variable i name rd) var = true ↔ name = var) := by
  obtain ⟨h1, h2⟩ := inverse_ok_or_assert var e.size e m (le_refl _)
  refine ⟨⟨?_, h1⟩, ⟨?_, h2⟩, ?_, ?_⟩
  · rintro ⟨r, hr⟩
    cases hs : supported_shape var e
    · rw [h2 hs] at hr
      cases hr
    · rfl
  · intro herr
    cases hs : supported_shape var e
    · rfl
    · obtain ⟨r, hr⟩ := h1 hs
      rw [hr] at herr
      cases herr
  · intro err herr
    cases hs : supported_shape var e
    · rw [h2 hs] at herr
      cases herr
      rfl
    · obtain ⟨r, hr⟩ := h1 hs
      rw [hr] at herr
      cases herr
  · intro i name rd
    simp only [VariableFinder.find, VariableFinder.accept]
    by_cases hn : name = var
    · simp [hn]
    · simp [hn]

/-! ### `BoundsInferencer`: every reachable function gets an entry in `func_bounds` -/

theorem BoundsInferencer.covered_mono {mem : Memory} {s t : BoundsInferencer} {e : Expr}
    (h : BoundsInferencer.Covered mem s e) (hv : ∀ i ∈ s.visited, i ∈ t.visited)
    (ht : ∀ n ∈ s.traversed_functions, n ∈ t.traversed_functions)
    (hk : ∀ k ∈ map_keys s.func_bounds, k ∈ map_keys t.func_bounds) :
    BoundsInferencer.Covered mem t e := by
  unfold BoundsInferencer.Covered at h ⊢
  split
  · rename_i hc
    rw [if_pos hc] at h
    intro g hg
    exact ⟨(h g hg).1, ht _ (h g hg).2.1, hk _ (h g hg).2.2⟩
  · rename_i hc
    rw [if_neg hc] at h
    intro c hcm
    exact hv _ (h c hcm)

theorem BoundsInferencer.progress_refl (mem : Memory) (output : Expr) (s : BoundsInferencer) :
    BoundsInferencer.Progress mem output s s :=
  { funcs_eq := rfl
    visited_mono := fun _ h => h
    traversed_mono := fun _ h => h
    keys_mono := fun _ h => h
    new_visited := fun _ _ h h' => absurd h h'
    new_traversed := fun _ h h' => absurd h h' }

theorem BoundsInferencer.progress_trans {mem : Memory} {output : Expr}
    {s t u : BoundsInferencer} (h1 : BoundsInferencer.Progress mem output s t)
    (h2 : BoundsInferencer.Progress mem output t u) :
    BoundsInferencer.Progress mem output s u :=
  { funcs_eq := h2.funcs_eq.trans h1.funcs_eq
    visited_mono := fun i h => h2.visited_mono i (h1.visited_mono i h)
    traversed_mono := fun n h => h2.traversed_mono n (h1.traversed_mono n h)
    keys_mono := fun k h => h2.keys_mono k (h1.keys_mono k h)
    new_visited := by
      intro e he hu hs
      by_cases ht : e.id ∈ t.visited
      · exact BoundsInferencer.covered_mono (h1.new_visited e he ht hs) h2.visited_mono
          h2.traversed_mono h2.keys_mono
      · exact h2.new_visited e he hu ht
    new_traversed := by
      intro n hu hs
      by_cases ht : n ∈ t.traversed_functions
      · obtain ⟨g, hg, hn, hf⟩ := h1.new_traversed n ht hs
        exact ⟨g, hg, hn, fun f hgf => ⟨(hf f hgf).1, fun e he =>
          BoundsInferencer.covered_mono ((hf f hgf).2 e he)
            h2.visited_mono h2.traversed_mono h2.keys_mono⟩⟩
      · exact h2.new_traversed n hu ht }

/-- Recording the address of a node of the program is progress once the node is
covered. -/
theorem BoundsInferencer.progress_visit {mem : Memory} {output : Expr}
    {s t : BoundsInferencer} {c : Expr} (hcons : Consistent mem output)
    (hc : c ∈ program_nodes mem output)
    (h : BoundsInferencer.Progress mem output { s with visited := c.id :: s.visited } t)
    (hs : BoundsInferencer.Covered mem t c) : BoundsInferencer.Progress mem output s t :=
  { funcs_eq := h.funcs_eq
    visited_mono := fun i hi => h.visited_mono i (List.mem_cons_of_mem _ hi)
    traversed_mono := h.traversed_mono
    keys_mono := h.keys_mono
    new_visited := by
      intro e he ht hns
      by_cases hid : e.id = c.id
      · have := hcons e he c hc hid
        subst this
        exact hs
      · exact h.new_visited e he ht (by simp [hid, hns])
    new_traversed := h.new_traversed }

/-- The update of `func_bounds` at a call of `f`: the name of `f` is a key
afterwards, nothing else of the traversal changes. -/
theorem BoundsInferencer.update_bounds_progress {mem : Memory} {output : Expr} {f : Function}
    {args : List Expr} {s t : BoundsInferencer}
    (h : BoundsInferencer.update_bounds f args s = .ok t) :
    BoundsInferencer.Progress mem output s t ∧ f.name ∈ map_keys t.func_bounds ∧
    t.traversed_functions = s.traversed_functions := by
  obtain ⟨hfuncs, htr⟩ := BoundsInferencer.update_bounds_funcs h
  unfold BoundsInferencer.update_bounds at h
  obtain ⟨ab, _, h⟩ := except_bind_eq_ok h
  obtain ⟨mg, _, h⟩ := except_bind_eq_ok h
  cases h
  refine ⟨?_, ?_, rfl⟩
  · exact
      { funcs_eq := hfuncs
        visited_mono := fun _ h => h
        traversed_mono := fun _ h => h
        keys_mono := by
          intro k hk
          simp only [mem_map_keys_set]
          exact Or.inr hk
        new_visited := fun _ _ h h' => absurd h h'
        new_traversed := fun _ h h' => absurd h h' }
  · simp [mem_map_keys_set]

theorem BoundsInferencer.accept_progress {mem : Memory} {output : Expr}
    {inf : Nat → BoundsInferencer → Except Err BoundsInferencer}
    (hcons : Consistent mem output)
    (hinf : BoundsInferencer.InferenceFuncSpec mem output inf) :
    ∀ (n : Nat) (e : Expr) (s t : BoundsInferencer), e.size ≤ n →
      e ∈ program_nodes mem output → s.mem.funcs = mem.funcs →
      BoundsInferencer.accept inf e s = .ok t →
      BoundsInferencer.Progress mem output s t ∧ BoundsInferencer.Covered mem t e := by
  intro n
  induction n with
  | zero =>
    intro e s t hsz
    have := Expr.size_pos e
    omega
  | succ n ih =>
    intro e s t hsz he hmem hacc
    by_cases hc : e.is_halide_call = true
    · cases e <;> simp [Expr.is_halide_call] at hc
      rename_i i name ct func args
      subst hc
      simp only [BoundsInferencer.accept, if_true] at hacc
      cases func with
      | none => simp at hacc
      | some h =>
        simp only at hacc
        rw [hmem] at hacc
        cases hget : mem.funcs[h]? with
        | none =>
          rw [hget] at hacc
          cases hacc
        | some f =>
          rw [hget] at hacc
          dsimp only at hacc
          have hlen : h < mem.funcs.length := (List.getElem?_eq_some.1 hget).1
          have hname : func_name mem h = f.name := func_name_of_get hget
          obtain ⟨s1, h1, hacc⟩ := except_bind_eq_ok hacc
          obtain ⟨hp1, hkey1, htr1⟩ := @BoundsInferencer.update_bounds_progress mem output
            _ _ _ _ h1
          have hcov : ∀ u : BoundsInferencer, func_name mem h ∈ u.traversed_functions →
              func_name mem h ∈ map_keys u.func_bounds →
              BoundsInferencer.Covered mem u (.Call i name .Halide (some h) args) := by
            intro u hu hk
            simp only [BoundsInferencer.Covered, Expr.is_halide_call, Expr.call_func,
              decide_True, if_true]
            intro g hg
            cases hg
            exact ⟨hlen, hu, hk⟩
          by_cases htr : f.name ∈ s1.traversed_functions
          · rw [if_pos htr] at hacc
            cases hacc
            exact ⟨hp1, hcov _ (hname ▸ htr) (hname ▸ hkey1)⟩
          · rw [if_neg htr] at hacc
            split at hacc
            · cases hacc
            · rename_i rd _
              obtain ⟨s2, h2, hacc⟩ := except_bind_eq_ok hacc
              cases hacc
              have hmem1 : s1.mem.funcs = mem.funcs := hp1.funcs_eq.trans hmem
              obtain ⟨hp2, hin⟩ := hinf h { s1 with current_bounds := rd, current_args := f.args }
                s2 hmem1 hlen h2
              have hp12 : BoundsInferencer.Progress mem output s1 s2 :=
                { funcs_eq := hp2.funcs_eq
                  visited_mono := hp2.visited_mono
                  traversed_mono := hp2.traversed_mono
                  keys_mono := hp2.keys_mono
                  new_visited := hp2.new_visited
                  new_traversed := hp2.new_traversed }
              have hfin : BoundsInferencer.Progress mem output s2
                  { s2 with current_args := s1.current_args,
                            current_bounds := s1.current_bounds } :=
                { funcs_eq := rfl
                  visited_mono := fun _ h => h
                  traversed_mono := fun _ h => h
                  keys_mono := fun _ h => h
                  new_visited := fun _ _ h h' => absurd h h'
                  new_traversed := fun _ h h' => absurd h h' }
              refine ⟨BoundsInferencer.progress_trans hp1
                (BoundsInferencer.progress_trans hp12 hfin), hcov _ hin ?_⟩
              exact hp2.keys_mono _ (hname ▸ hkey1)
    · have hc' : e.is_halide_call = false := by simpa using hc
      rw [BoundsInferencer.bounds_accept_eq_list inf e s hc'] at hacc
      have key : ∀ (es : List Expr) (s t : BoundsInferencer),
          (∀ c ∈ es, c.size ≤ n ∧ c ∈ program_nodes mem output) →
          s.mem.funcs = mem.funcs →
          BoundsInferencer.accept_list inf es s = .ok t →
          BoundsInferencer.Progress mem output s t ∧ ∀ c ∈ es, c.id ∈ t.visited := by
        intro es
        induction es with
        | nil =>
          intro s t _ _ h
          simp [BoundsInferencer.accept_list] at h
          subst h
          exact ⟨BoundsInferencer.progress_refl _ _ _, by simp⟩
        | cons c es ihl =>
          intro s t hes hmem h
          simp only [BoundsInferencer.accept_list] at h
          obtain ⟨s1, h1, h2⟩ := except_bind_eq_ok h
          obtain ⟨hcsz, hcp⟩ := hes c (List.mem_cons_self _ _)
          have hstep1 : BoundsInferencer.Progress mem output s s1 ∧ c.id ∈ s1.visited := by
            unfold BoundsInferencer.include_with at h1
            by_cases hv : c.id ∈ s.visited
            · rw [if_pos hv] at h1
              cases h1
              exact ⟨BoundsInferencer.progress_refl _ _ _, hv⟩
            · rw [if_neg hv] at h1
              obtain ⟨hst, hse⟩ := ih c { s with visited := c.id :: s.visited } s1 hcsz hcp
                hmem h1
              exact ⟨BoundsInferencer.progress_visit hcons hcp hst hse,
                hst.visited_mono _ (List.mem_cons_self _ _)⟩
          obtain ⟨hst2, hv2⟩ := ihl s1 t (fun d hd => hes d (List.mem_cons_of_mem _ hd))
            (hstep1.1.funcs_eq.trans hmem) h2
          refine ⟨BoundsInferencer.progress_trans hstep1.1 hst2, ?_⟩
          intro d hd
          simp only [List.mem_cons] at hd
          rcases hd with hd | hd
          · subst hd
            exact hst2.visited_mono _ hstep1.2
          · exact hv2 d hd
      have hops : ∀ c ∈ e.operands, c.size ≤ n ∧ c ∈ program_nodes mem output := by
        intro c hcm
        have := Expr.size_operand e c hcm
        exact ⟨by omega, program_nodes_operand he hcm⟩
      obtain ⟨hst, hv⟩ := key e.operands s t hops hmem hacc
      refine ⟨hst, ?_⟩
      unfold BoundsInferencer.Covered
      rw [if_neg hc]
      exact hv

theorem BoundsInferencer.accept_stages_progress {mem : Memory} {output : Expr}
    {inf : Nat → BoundsInferencer → Except Err BoundsInferencer}
    (hcons : Consistent mem output)
    (hinf : BoundsInferencer.InferenceFuncSpec mem output inf) :
    ∀ (l : List (Option Expr)) (s t : BoundsInferencer),
      (∀ e, some e ∈ l → e ∈ program_nodes mem output) → s.mem.funcs = mem.funcs →
      BoundsInferencer.accept_stages inf l s = .ok t →
      BoundsInferencer.Progress mem output s t ∧
        ∀ e, some e ∈ l → BoundsInferencer.Covered mem t e := by
  intro l
  induction l with
  | nil =>
    intro s t _ _ h
    simp [BoundsInferencer.accept_stages] at h
    subst h
    exact ⟨BoundsInferencer.progress_refl _ _ _, by simp⟩
  | cons x l ih =>
    intro s t hl hmem h
    cases x with
    | none => simp [BoundsInferencer.accept_stages] at h
    | some e =>
      simp only [BoundsInferencer.accept_stages] at h
      obtain ⟨s1, h1, h2⟩ := except_bind_eq_ok h
      have hp := hl e (List.mem_cons_self _ _)
      obtain ⟨hst1, hse1⟩ := BoundsInferencer.accept_progress hcons hinf e.size e s s1
        (le_refl _) hp hmem h1
      obtain ⟨hst2, hse2⟩ := ih s1 t (fun d hd => hl d (List.mem_cons_of_mem _ hd))
        (hst1.funcs_eq.trans hmem) h2
      refine ⟨BoundsInferencer.progress_trans hst1 hst2, ?_⟩
      intro d hd
      simp only [List.mem_cons] at hd
      rcases hd with hd | hd
      · cases hd
        exact BoundsInferencer.covered_mono hse1 hst2.visited_mono hst2.traversed_mono
          hst2.keys_mono
      · exact hse2 d hd

theorem BoundsInferencer.accept_stages_no_undefined
    (inf : Nat → BoundsInferencer → Except Err BoundsInferencer) :
    ∀ (l : List (Option Expr)) (s t : BoundsInferencer),
      BoundsInferencer.accept_stages inf l s = .ok t → none ∉ l := by
  intro l
  induction l with
  | nil => intro s t _ h; cases h
  | cons x l ih =>
    intro s t h hmem
    cases x with
    | none => simp [BoundsInferencer.accept_stages] at h
    | some e =>
      simp only [BoundsInferencer.accept_stages] at h
      obtain ⟨s1, _, h2⟩ := except_bind_eq_ok h
      rcases List.mem_cons.1 hmem with h' | h'
      · cases h'
      · exact ih s1 t h2 h'

theorem BoundsInferencer.inference_func_progress {mem : Memory} {output : Expr}
    (hcons : Consistent mem output) :
    ∀ fuel, BoundsInferencer.InferenceFuncSpec mem output
      (BoundsInferencer.inference_func fuel) := by
  intro fuel
  induction fuel with
  | zero =>
    intro h s t _ _ hs
    simp [BoundsInferencer.inference_func] at hs
  | succ fuel ih =>
    intro h s t hmem hlen hs
    simp only [BoundsInferencer.inference_func] at hs
    rw [hmem] at hs
    cases hget : mem.funcs[h]? with
    | none =>
      rw [hget] at hs
      cases hs
    | some f =>
      rw [hget] at hs
      dsimp only at hs
      have hname : func_name mem h = f.name := func_name_of_get hget
      have hstages : ∀ e, some e ∈ f.stage_values → e ∈ program_nodes mem output := by
        intro e he
        exact program_nodes_root (program_roots_stage hget ((mem_stage_exprs f e).2 he))
      obtain ⟨hst, hse⟩ := BoundsInferencer.accept_stages_progress hcons ih f.stage_values
        { s with traversed_functions := f.name :: s.traversed_functions } t hstages hmem hs
      have hin : func_name mem h ∈ t.traversed_functions :=
        hst.traversed_mono _ (by simp [hname])
      refine ⟨?_, hin⟩
      exact
        { funcs_eq := hst.funcs_eq
          visited_mono := fun i hi => hst.visited_mono i hi
          traversed_mono := fun n hn => hst.traversed_mono n (List.mem_cons_of_mem _ hn)
          keys_mono := hst.keys_mono
          new_visited := fun e he ht hs' => hst.new_visited e he ht hs'
          new_traversed := by
            intro n hn hns
            by_cases hnf : n = f.name
            · refine ⟨h, hlen, hname.trans hnf.symm, ?_⟩
              intro f' hf'
              rw [hget] at hf'
              cases hf'
              refine ⟨?_, fun e he => hse e ((mem_stage_exprs f e).1 he)⟩
              cases hval : f.value with
              | some v => rfl
              | none =>
                exfalso
                exact BoundsInferencer.accept_stages_no_undefined _ _ _ _ hs
                  (by simp [Function.stage_values, hval])
            · exact hst.new_traversed n hn (by simp [hns, hnf]) }

theorem stage_exprs_of_undefined {f : Function} (hv : f.value = none) (hu : f.updates = []) :
    f.stage_exprs = [] := by
  simp [Function.stage_exprs, Function.stage_values, hv, hu]

/-- Function objects without a definition add no node to a program. -/
theorem program_nodes_extend {mem m1 : Memory} (output : Expr) (extra : List Function)
    (hext : m1.funcs = mem.funcs ++ extra)
    (hundef : ∀ f ∈ extra, f.value = none ∧ f.updates = []) :
    program_nodes m1 output = program_nodes mem output := by
  have h0 : extra.flatMap Function.stage_exprs = [] := by
    rw [List.flatMap_eq_nil_iff]
    intro f hf
    exact stage_exprs_of_undefined (hundef f hf).1 (hundef f hf).2
  unfold program_nodes program_roots
  rw [hext, List.flatMap_append, h0, List.append_nil]

/-- A completed run of `BoundsInferencer::inference` on a memory that holds the
program `mem` and, behind it, function objects without a definition: every function
of the program that is reachable from the output has an entry in the table. -/
theorem BoundsInferencer.inference_covers {mem m1 : Memory} {output : Expr} {fuel : Nat}
    {r : List (String × RDom) × Memory}
    (hcons : Consistent mem output) (hnames : UniqueNames mem)
    (extra : List Function) (hext : m1.funcs = mem.funcs ++ extra)
    (hundef : ∀ f ∈ extra, f.value = none ∧ f.updates = [])
    (hinf : BoundsInferencer.inference m1 fuel output = .ok r) :
    ∀ g, Reachable mem output g → g < mem.funcs.length →
      func_name mem g ∈ map_keys r.1 := by
  have hnodes := @program_nodes_extend mem m1 output extra hext hundef
  have hcons1 : Consistent m1 output := by
    unfold Consistent
    rw [hnodes]
    exact hcons
  have hget : ∀ g, g < mem.funcs.length → m1.funcs[g]? = mem.funcs[g]? := by
    intro g hg
    rw [hext, List.getElem?_append_left hg]
  have hname : ∀ g, g < mem.funcs.length → func_name m1 g = func_name mem g := by
    intro g hg
    unfold func_name
    rw [hget g hg]
  unfold BoundsInferencer.inference at hinf
  cases hacc : BoundsInferencer.accept (BoundsInferencer.inference_func fuel) output
      { visited := [], func_bounds := [], traversed_functions := [], current_args := [],
        current_bounds := none, mem := m1 } with
  | error err =>
    rw [hacc] at hinf
    cases hinf
  | ok t =>
    rw [hacc] at hinf
    simp only [Except.map] at hinf
    cases hinf
    have hout : output ∈ program_nodes m1 output :=
      program_nodes_root (by simp [program_roots])
    obtain ⟨hp, hcov⟩ := BoundsInferencer.accept_progress hcons1
      (BoundsInferencer.inference_func_progress hcons1 fuel) output.size output _ t (le_refl _)
      hout rfl hacc
    have key : ∀ (n : Nat) (e : Expr), e.size ≤ n → e ∈ program_nodes m1 output →
        BoundsInferencer.Covered m1 t e → ∀ h ∈ direct_calls e,
        func_name m1 h ∈ t.traversed_functions ∧ func_name m1 h ∈ map_keys t.func_bounds := by
      intro n
      induction n with
      | zero =>
        intro e hsz
        have := Expr.size_pos e
        omega
      | succ n ih =>
        intro e hsz he hset h hh
        rw [mem_direct_calls_iff] at hh
        unfold BoundsInferencer.Covered at hset
        by_cases hc : e.is_halide_call = true
        · rw [if_pos hc] at hh hset
          exact (hset h hh).2
        · rw [if_neg hc] at hh hset
          obtain ⟨c, hcm, hhc⟩ := hh
          have hlt := Expr.size_operand e c hcm
          have hcp := program_nodes_operand he hcm
          exact ih c (by omega) hcp (hp.new_visited c hcp (hset c hcm) (by simp)) h hhc
    have main : ∀ g, Reachable mem output g → g < mem.funcs.length →
        func_name mem g ∈ t.traversed_functions ∧ func_name mem g ∈ map_keys t.func_bounds := by
      intro g hg
      induction hg with
      | root h hh =>
        intro hlt
        rw [← hname h hlt]
        exact key output.size output (le_refl _) hout hcov h hh
      | step g h f e _ hf he hh ih =>
        intro hlt
        have hglt : g < mem.funcs.length := (List.getElem?_eq_some.1 hf).1
        obtain ⟨htr, _⟩ := ih hglt
        obtain ⟨g', hg', hn', hall⟩ := hp.new_traversed _ htr (by simp)
        obtain ⟨F, hF⟩ : ∃ F, m1.funcs[g']? = some F := ⟨_, List.getElem?_eq_getElem hg'⟩
        have hdef := (hall F hF).1
        have hg'lt : g' < mem.funcs.length := by
          by_contra hge
          have hge' : mem.funcs.length ≤ g' := Nat.le_of_not_lt hge
          rw [hext, List.getElem?_append_right hge'] at hF
          have hmem := List.getElem?_mem hF
          rw [(hundef F hmem).1] at hdef
          cases hdef
        have hgg : g' = g := by
          apply hnames g' g hg'lt hglt
          rw [← hname g' hg'lt]
          exact hn'
        subst hgg
        rw [hget g' hglt, hf] at hF
        cases hF
        have hecov := (hall f (by rw [hget g' hglt]; exact hf)).2 e he
        have hep : e ∈ program_nodes m1 output := by
          rw [hnodes]
          exact program_nodes_root (program_roots_stage hf he)
        rw [← hname h hlt]
        exact key e.size e (le_refl _) hep hecov h hh
    intro g hg hlt
    exact (main g hg hlt).2

/-- C24: when `FunctionSorter` returns the list `funcs` for an output of a program
whose nodes have addresses of their own and whose functions have names of their
own, then after every completed run of `BoundsInferencer::inference` on that output,
on the program memory as well as on the memory of a new engine (the way the public
`propagate_adjoints` runs it), every function of the list has an entry in the bounds
table; and so has every function the engine scatters to in the reverse walk of the
output or of a stage of a listed function, when only calls of array functions carry
a function.  The lookups `func_bounds.find(func.name())` behind the two assertions
therefore succeed. -/
theorem bounds_cover_sorted_functions (mem : Memory) (output : Expr) (fuel : Nat)
    (funcs : List Nat) (hcons : Consistent mem output) (hnames : UniqueNames mem)
    (hsort : FunctionSorter.sort mem fuel output = .ok funcs) :
    ∀ (fuel' : Nat) (r : List (String × RDom) × Memory),
      (BoundsInferencer.inference mem fuel' output = .ok r ∨
        BoundsInferencer.inference (ReverseAccumulationVisitor.new mem).mem fuel' output =
          .ok r) →
      (∀ f ∈ funcs, ∃ rd, map_find (func_name mem f) r.1 = some rd) ∧
      (FuncsOnlyInHalideCalls mem output →
        ∀ root, (root = output ∨
            ∃ g ∈ funcs, ∃ F : Function, mem.funcs[g]? = some F ∧ root ∈ F.stage_exprs) →
          ∀ x ∈ ExpressionSorter.sort root, ∀ h ∈ engine_calls x,
            ∃ rd, map_find (func_name mem h) r.1 = some rd) := by
  intro fuel' r hr
  obtain ⟨_, hvalid, hdirect, hstages⟩ := FunctionSorter.sort_spec hcons hsort
  have hcover : ∀ g, Reachable mem output g → g < mem.funcs.length →
      func_name mem g ∈ map_keys r.1 := by
    rcases hr with hr | hr
    · exact BoundsInferencer.inference_covers hcons hnames [] (by simp) (by simp) hr
    · exact BoundsInferencer.inference_covers hcons hnames
        [{ name := "f" ++ toString mem.funcs.length, args := [], value := none, updates := [] }]
        (by simp [ReverseAccumulationVisitor.new, mk_func_default, mk_func]) (by simp) hr
  have hlisted : ∀ f ∈ funcs, ∃ rd, map_find (func_name mem f) r.1 = some rd := by
    intro f hf
    exact (mem_map_keys_iff _ _).1 (hcover f (hvalid f hf).2 (hvalid f hf).1)
  refine ⟨hlisted, ?_⟩
  intro hhalide root hroot x hx h hh
  have hsub : ∀ root ∈ program_roots mem output, ∀ x ∈ subterms root, ∀ h,
      x.call_func = some h → x.is_halide_call = true := by
    intro root hroot x hx
    apply hhalide x
    unfold program_nodes
    rw [mem_subterms_list]
    exact ⟨root, hroot, hx⟩
  have hin : func_name mem h ∈ funcs.map (func_name mem) := by
    rcases hroot with hroot | ⟨g, hg, F, hF, hroot⟩
    · subst hroot
      exact (hdirect h (ExpressionSorter.sort_sound root
        (hsub root (by simp [program_roots])) x hx h hh)).2
    · exact (hstages g hg F hF root hroot h (ExpressionSorter.sort_sound root
        (hsub root (program_roots_stage hF hroot)) x hx h hh)).2
  obtain ⟨f, hf, hfn⟩ := List.mem_map.1 hin
  rw [← hfn]
  exact hlisted f hf

/-! ### The per-node adjoint of a node is the sum of the contributions of its parents -/

theorem ReverseAccumulationVisitor.accumulate_find (stub adjoint : Expr)
    (s : ReverseAccumulationVisitor) (k : Nat) :
    map_find k (ReverseAccumulationVisitor.accumulate stub adjoint s).accumulated_adjoints =
      if k = stub.id then
        some (match map_find stub.id s.accumulated_adjoints with
          | none => adjoint
          | some old => .Add s.mem.next_id old adjoint)
      else map_find k s.accumulated_adjoints := by
  unfold ReverseAccumulationVisitor.accumulate
  by_cases hk : k = stub.id
  · subst hk
    rw [if_pos rfl]
    cases h : map_find stub.id s.accumulated_adjoints <;> simp [map_find_set_self, mk_add]
  · rw [if_neg hk]
    cases h : map_find stub.id s.accumulated_adjoints <;> simp [map_find_set_ne _ _ _ hk]

theorem ReverseAccumulationVisitor.accumulate_let (stub adjoint : Expr)
    (s : ReverseAccumulationVisitor) :
    (ReverseAccumulationVisitor.accumulate stub adjoint s).let_var_mapping =
      s.let_var_mapping := by
  unfold ReverseAccumulationVisitor.accumulate
  split <;> rfl

theorem accumulate_all_append (slot : Option Expr) (l1 l2 : List Expr) :
    accumulate_all slot (l1 ++ l2) = accumulate_all (accumulate_all slot l1) l2 := by
  simp [accumulate_all, List.foldl_append]

theorem accumulate_all_some (x : Expr) (cs : List Expr) :
    ∃ y, accumulate_all (some x) cs = some y := by
  induction cs generalizing x with
  | nil => exact ⟨x, rfl⟩
  | cons d ds ih =>
    simp only [accumulate_all, List.foldl_cons]
    exact ih (.Add 0 x d)

theorem accumulate_all_cons_some (slot : Option Expr) (c : Expr) (cs : List Expr) :
    ∃ x, accumulate_all slot (c :: cs) = some x := by
  cases slot with
  | none => exact accumulate_all_some c cs
  | some x => exact accumulate_all_some (.Add 0 x c) cs

/-- One accumulation, up to addresses. -/
theorem ReverseAccumulationVisitor.accumulate_erased (stub adjoint : Expr)
    (s : ReverseAccumulationVisitor) (k : Nat) :
    (map_find k (ReverseAccumulationVisitor.accumulate stub adjoint s).accumulated_adjoints).map
        Expr.erase =
      accumulate_all ((map_find k s.accumulated_adjoints).map Expr.erase)
        (if stub.id = k then [adjoint.erase] else []) := by
  rw [ReverseAccumulationVisitor.accumulate_find]
  by_cases hk : k = stub.id
  · subst hk
    rw [if_pos rfl, if_pos rfl]
    cases h : map_find stub.id s.accumulated_adjoints <;> simp [accumulate_all, Expr.erase]
  · rw [if_neg hk, if_neg (Ne.symm hk)]
    simp [accumulate_all]

/-- The visit of a node of an arithmetic expression whose adjoint is `a`: the slot of
every address receives the contributions of the node, in the order of its rule, and
the slots of other addresses than those of the operands are not written. -/
theorem ReverseAccumulationVisitor.accept_arith (n : Expr) (s : ReverseAccumulationVisitor)
    (a : Expr) (harith : n.arith = true)
    (hadj : map_find n.id s.accumulated_adjoints = some a) (hlet : s.let_var_mapping = []) :
    ∃ t, ReverseAccumulationVisitor.accept n s = .ok t ∧ t.let_var_mapping = [] ∧
      (∀ k, (map_find k t.accumulated_adjoints).map Expr.erase =
        accumulate_all ((map_find k s.accumulated_adjoints).map Expr.erase)
          (contributions_into k s n)) ∧
      (∀ k, (∀ c ∈ n.operands, c.id ≠ k) →
        map_find k t.accumulated_adjoints = map_find k s.accumulated_adjoints) := by
  have hc : ∀ k, contributions_into k s n =
      ((rule_contributions n a).filter fun c => decide (c.1.id = k)).map
        fun c => c.2.erase := by
    intro k
    unfold contributions_into
    rw [hadj]
  cases n <;> simp only [Expr.arith, Bool.false_eq_true] at harith <;>
    simp only [Expr.id] at hadj
  case IntImm i v =>
    refine ⟨s, rfl, hlet, ?_, fun _ _ => rfl⟩
    intro k
    simp [hc, rule_contributions, accumulate_all]
  case FloatImm i v =>
    refine ⟨s, rfl, hlet, ?_, fun _ _ => rfl⟩
    intro k
    simp [hc, rule_contributions, accumulate_all]
  case Variable i name rd =>
    refine ⟨s, ?_, hlet, ?_, fun _ _ => rfl⟩
    · simp [ReverseAccumulationVisitor.accept, ReverseAccumulationVisitor.adjoint_of, hadj,
        hlet, map_find, Except.bind]
    · intro k
      simp [hc, rule_contributions, accumulate_all]
  case Cast i v =>
    refine ⟨_, by simp only [ReverseAccumulationVisitor.accept,
      ReverseAccumulationVisitor.adjoint_of, hadj, Except.bind]; exact rfl, ?_, ?_, ?_⟩
    · simp [ReverseAccumulationVisitor.accumulate_let, hlet]
    · intro k
      rw [ReverseAccumulationVisitor.accumulate_erased]
      by_cases h1 : v.id = k <;>
        simp [hc, rule_contributions, h1]
    · intro k hk
      rw [ReverseAccumulationVisitor.accumulate_find,
        if_neg (Ne.symm (hk v (by simp [Expr.operands])))]
  all_goals
    rename_i i x y
    refine ⟨_, by simp only [ReverseAccumulationVisitor.accept,
      ReverseAccumulationVisitor.adjoint_of, hadj, Except.bind]; exact rfl, ?_, ?_, ?_⟩
    · simp [ReverseAccumulationVisitor.accumulate_let, hlet]
    · intro k
      rw [ReverseAccumulationVisitor.accumulate_erased,
        ReverseAccumulationVisitor.accumulate_erased, ← accumulate_all_append]
      by_cases h1 : x.id = k <;> by_cases h2 : y.id = k <;>
        simp [hc, rule_contributions, h1, h2, Expr.erase,
          mk_mul, mk_div, mk_neg, mk_sub, mk_float, mk_le, mk_ge, mk_select, Memory.fresh]
    · intro k hk
      rw [ReverseAccumulationVisitor.accumulate_find,
        if_neg (Ne.symm (hk y (by simp [Expr.operands]))),
        ReverseAccumulationVisitor.accumulate_find,
        if_neg (Ne.symm (hk x (by simp [Expr.operands])))]

/-- The list of `ExpressionSorter::sort`: membership, no repetition, order, last
element. -/
theorem ExpressionSorter.sort_facts (e : Expr) (hids : NodesById e) :
    (∀ x, x ∈ ExpressionSorter.sort e ↔ Visible e x) ∧ (ExpressionSorter.sort e).Nodup ∧
    OperandsFirst (ExpressionSorter.sort e) ∧ (ExpressionSorter.sort e).getLast? = some e := by
  have hinv0 : ExpressionSorter.Inv e { visited := [], expr_list := [] } :=
    { listed_visited := fun _ h => by cases h
      nodup := List.nodup_nil
      operands_first := by
        intro j p hj
        simp at hj
      visible := fun _ h => by cases h }
  have hpend0 : ExpressionSorter.Pending e (e.size - 1) { visited := [], expr_list := [] } := by
    intro x _ hv
    cases hv
  have hpos := Expr.size_pos e
  obtain ⟨hg, hops⟩ := ExpressionSorter.accept_grows hids e.size e
    { visited := [], expr_list := [] } (e.size - 1) (le_refl _) Visible.root (by omega)
    hinv0 hpend0
  have hfirst : OperandsFirst (ExpressionSorter.sort e) := hg.inv.operands_first.concat hops
  refine ⟨fun x => ⟨?_, ?_⟩, ?_, hfirst, ?_⟩
  · intro hx
    unfold ExpressionSorter.sort at hx
    rcases List.mem_append.1 hx with h | h
    · exact (hg.inv.visible x h).1
    · rw [List.mem_singleton.1 h]
      exact Visible.root
  · intro hx
    induction hx with
    | root =>
      unfold ExpressionSorter.sort
      exact List.mem_append_right _ (List.mem_singleton_self e)
    | operand p c _ hp hc ih =>
      obtain ⟨j, hj⟩ := List.mem_iff_getElem?.1 ih
      obtain ⟨i, _, hi⟩ := hfirst j p hj hp c hc
      exact List.mem_iff_getElem?.2 ⟨i, hi⟩
  · unfold ExpressionSorter.sort
    rw [List.nodup_append]
    refine ⟨hg.inv.nodup, List.nodup_singleton e, ?_⟩
    intro x hx hx'
    rw [List.mem_singleton.1 hx'] at hx
    have := (hg.inv.visible e hx).2
    omega
  · unfold ExpressionSorter.sort
    simp

theorem Expr.arith_not_hidden (p : Expr) (h : p.arith = true) :
    p.is_func_or_image_call = false := by
  cases p <;> simp_all [Expr.arith, Expr.is_func_or_image_call]

theorem Expr.arith_operand (p c : Expr) (h : p.arith = true) (hc : c ∈ p.operands) :
    c.arith = true := by
  cases p <;> simp_all [Expr.arith, Expr.operands]
  all_goals
    rcases hc with hc | hc <;> subst hc <;> simp [h]

/-- The nodes of an arithmetic expression are arithmetic and visible. -/
theorem Expr.arith_subterms (root : Expr) :
    ∀ (n : Nat) (p : Expr), p.size ≤ n → Visible root p → p.arith = true →
      ∀ x ∈ subterms p, Visible root x ∧ x.arith = true := by
  intro n
  induction n with
  | zero =>
    intro p hsz
    have := Expr.size_pos p
    omega
  | succ n ih =>
    intro p hsz hvis har x hx
    rw [mem_subterms_iff] at hx
    rcases hx with hx | ⟨c, hc, hx⟩
    · subst hx
      exact ⟨hvis, har⟩
    · have hlt := Expr.size_operand p c hc
      exact ih c (by omega) (Visible.operand p c hvis (Expr.arith_not_hidden p har) hc)
        (Expr.arith_operand p c har hc) x hx

theorem ReverseAccumulationVisitor.walk_append :
    ∀ (l1 l2 : List Expr) (s : ReverseAccumulationVisitor),
      ReverseAccumulationVisitor.walk (l1 ++ l2) s =
        (ReverseAccumulationVisitor.walk l1 s).bind (ReverseAccumulationVisitor.walk l2) := by
  intro l1
  induction l1 with
  | nil => intro l2 s; rfl
  | cons x l1 ih =>
    intro l2 s
    simp only [List.cons_append, ReverseAccumulationVisitor.walk]
    cases h : ReverseAccumulationVisitor.accept x s with
    | error err => rfl
    | ok t => exact ih l2 t

/-- In the reversed list of the sorter the operands of a node stand behind the node. -/
theorem OperandsFirst.operands_later {l pre post : List Expr} {n : Expr}
    (hl : OperandsFirst l) (hsplit : l.reverse = pre ++ n :: post)
    (hn : n.is_func_or_image_call = false) : ∀ c ∈ n.operands, c ∈ post := by
  intro c hc
  have hrev : l = post.reverse ++ n :: pre.reverse := by
    have := congrArg List.reverse hsplit
    simpa using this
  have hj : l[post.reverse.length]? = some n := by
    rw [hrev, List.getElem?_append_right (le_refl _)]
    simp
  obtain ⟨i, hi, hget⟩ := hl _ n hj hn c hc
  rw [hrev, List.getElem?_append_left hi] at hget
  exact List.mem_reverse.1 (List.getElem?_mem hget)

/-- The reversed list of the sorter for an arithmetic expression: its elements are
nodes of the expression, without repetition, each before its operands and behind its
parents. -/
theorem ExpressionSorter.reverse_facts (e : Expr) (harith : e.arith = true)
    (hids : NodesById e) :
    (ExpressionSorter.sort e).reverse.Nodup ∧
    (∀ x ∈ (ExpressionSorter.sort e).reverse, x ∈ subterms e ∧ x.arith = true) ∧
    (∀ pre n post, (ExpressionSorter.sort e).reverse = pre ++ n :: post →
      (∀ c ∈ n.operands, c ∈ post) ∧
      (∀ p ∈ subterms e, n ∈ p.operands → p ∈ pre) ∧
      (∀ p ∈ pre ++ [n], ∀ c ∈ n.operands, c.id ≠ p.id) ∧
      (n ≠ e → ∃ p ∈ pre, n ∈ p.operands)) := by
  obtain ⟨hmem, hnd, hfirst, _⟩ := ExpressionSorter.sort_facts e hids
  have hall := Expr.arith_subterms e e.size e (le_refl _) Visible.root harith
  have hnd' : (ExpressionSorter.sort e).reverse.Nodup := List.nodup_reverse.2 hnd
  have hin : ∀ x ∈ (ExpressionSorter.sort e).reverse, x ∈ subterms e ∧ x.arith = true := by
    intro x hx
    have hv : Visible e x := (hmem x).1 (List.mem_reverse.1 hx)
    exact ⟨hv.mem_subterms, (hall x hv.mem_subterms).2⟩
  have hlater : ∀ pre n post, (ExpressionSorter.sort e).reverse = pre ++ n :: post →
      ∀ c ∈ n.operands, c ∈ post := by
    intro pre n post hsplit
    have hn : n ∈ (ExpressionSorter.sort e).reverse := by
      rw [hsplit]
      simp
    exact hfirst.operands_later hsplit (Expr.arith_not_hidden n (hin n hn).2)
  have hbefore : ∀ pre n post, (ExpressionSorter.sort e).reverse = pre ++ n :: post →
      ∀ p ∈ (ExpressionSorter.sort e).reverse, n ∈ p.operands → p ∈ pre := by
    intro pre n post hsplit p hp hnp
    have hp' := hp
    rw [hsplit] at hp'
    rcases List.mem_append.1 hp' with h | h
    · exact h
    · exfalso
      rcases List.mem_cons.1 h with h | h
      · subst h
        have := Expr.size_operand p p hnp
        omega
      · obtain ⟨q1, q2, hq⟩ := List.append_of_mem h
        have hsplit2 : (ExpressionSorter.sort e).reverse = (pre ++ n :: q1) ++ p :: q2 := by
          rw [hsplit, hq]
          simp
        have hn2 : n ∈ q2 := hlater _ p _ hsplit2 n hnp
        rw [hsplit2] at hnd'
        have hdis := (List.nodup_append.1 hnd').2.2
        exact hdis (a := n) (by simp) (List.mem_cons_of_mem _ hn2)
  refine ⟨hnd', hin, ?_⟩
  intro pre n post hsplit
  have hn : n ∈ (ExpressionSorter.sort e).reverse := by
    rw [hsplit]
    simp
  refine ⟨hlater pre n post hsplit, ?_, ?_, ?_⟩
  · intro p hp hnp
    apply hbefore pre n post hsplit p _ hnp
    exact List.mem_reverse.2 ((hmem p).2 (hall p hp).1)
  · intro p hp c hc hid
    have hcpost : c ∈ post := hlater pre n post hsplit c hc
    have hpin : p ∈ (ExpressionSorter.sort e).reverse := by
      rw [hsplit]
      rcases List.mem_append.1 hp with h | h
      · exact List.mem_append_left _ h
      · rw [List.mem_singleton.1 h]
        simp
    have hcin : c ∈ (ExpressionSorter.sort e).reverse := by
      rw [hsplit]
      exact List.mem_append_right _ (List.mem_cons_of_mem _ hcpost)
    have hcp : c = p := hids c (hin c hcin).1 p (hin p hpin).1 hid
    subst hcp
    have hsplit' : (ExpressionSorter.sort e).reverse = (pre ++ [n]) ++ post := by
      rw [hsplit]
      simp
    rw [hsplit'] at hnd'
    exact (List.nodup_append.1 hnd').2.2 hp hcpost
  · intro hne
    have hv : Visible e n := (hmem n).1 (List.mem_reverse.1 hn)
    cases hv with
    | root => exact absurd rfl hne
    | operand p _ hp _ hc =>
      exact ⟨p, hbefore pre n post hsplit p
        (List.mem_reverse.2 ((hmem p).2 hp)) hc, hc⟩

theorem rule_contributions_operand (p a : Expr) (hp : p.arith = true) :
    ∀ c ∈ p.operands, ∃ x, (c, x) ∈ rule_contributions p a := by
  intro c hc
  cases p <;> simp_all [Expr.arith, Expr.operands, rule_contributions]
  all_goals
    rcases hc with hc | hc <;> subst hc <;> simp

theorem rule_contributions_mem (p a : Expr) :
    ∀ c ∈ rule_contributions p a, c.1 ∈ p.operands := by
  intro c hc
  cases p <;> simp_all [Expr.operands, rule_contributions]
  all_goals
    rcases hc with hc | hc <;> subst hc <;> simp

theorem contributions_into_ne_nil {k : Nat} {s : ReverseAccumulationVisitor} {p c a : Expr}
    (hp : p.arith = true) (hc : c ∈ p.operands) (hk : c.id = k)
    (ha : map_find p.id s.accumulated_adjoints = some a) : contributions_into k s p ≠ [] := by
  obtain ⟨x, hx⟩ := rule_contributions_operand p a hp c hc
  unfold contributions_into
  rw [ha]
  intro hnil
  have hmem : x.erase ∈ ((rule_contributions p a).filter fun c => decide (c.1.id = k)).map
      fun c => c.2.erase :=
    List.mem_map.2 ⟨(c, x), List.mem_filter.2 ⟨hx, by simp [hk]⟩, rfl⟩
  have hnil' : ((rule_contributions p a).filter fun c => decide (c.1.id = k)).map
      (fun c => c.2.erase) = [] := hnil
  rw [hnil'] at hmem
  cases hmem

theorem contributions_into_congr {k : Nat} {s t : ReverseAccumulationVisitor} {p : Expr}
    (h : map_find p.id t.accumulated_adjoints = map_find p.id s.accumulated_adjoints) :
    contributions_into k t p = contributions_into k s p := by
  unfold contributions_into
  rw [h]

/-- The invariant of the reverse walk of an arithmetic expression `e`, after the
nodes `pre` have been visited. -/
theorem ReverseAccumulationVisitor.walk_arith (e : Expr) (s0 : ReverseAccumulationVisitor)
    (seed : Expr) (harith : e.arith = true) (hids : NodesById e)
    (hseed : map_find e.id s0.accumulated_adjoints = some seed)
    (hlet : s0.let_var_mapping = []) :
    ∀ (pre post : List Expr), (ExpressionSorter.sort e).reverse = pre ++ post →
      ∃ s, ReverseAccumulationVisitor.walk pre s0 = .ok s ∧ s.let_var_mapping = [] ∧
        (∀ k, (map_find k s.accumulated_adjoints).map Expr.erase =
          accumulate_all ((map_find k s0.accumulated_adjoints).map Expr.erase)
            (pre.flatMap (contributions_into k s))) ∧
        (∀ p ∈ pre, ∃ a, map_find p.id s.accumulated_adjoints = some a) ∧
        (∀ pre1 p pre2, pre = pre1 ++ p :: pre2 →
          ∃ s1, ReverseAccumulationVisitor.walk pre1 s0 = .ok s1 ∧
            map_find p.id s1.accumulated_adjoints = map_find p.id s.accumulated_adjoints) := by
  obtain ⟨_, hin, hsplitfacts⟩ := ExpressionSorter.reverse_facts e harith hids
  intro pre
  induction pre using List.reverseRecOn with
  | nil =>
    intro post _
    refine ⟨s0, rfl, hlet, ?_, ?_, ?_⟩
    · intro k
      simp [accumulate_all]
    · intro p hp
      cases hp
    · intro pre1 p pre2 h
      simp at h
  | append_singleton pre n ih =>
    intro post hsplit
    have hsplit' : (ExpressionSorter.sort e).reverse = pre ++ n :: post := by
      rw [hsplit]
      simp
    obtain ⟨s, hwalk, hslet, hsum, hentries, hfrozen⟩ := ih (n :: post) hsplit'
    obtain ⟨_, _, hdistinct, hparent⟩ := hsplitfacts pre n post hsplit'
    have hn : n ∈ (ExpressionSorter.sort e).reverse := by
      rw [hsplit']
      simp
    -- the adjoint of `n` is there
    have hentry : ∃ a, map_find n.id s.accumulated_adjoints = some a := by
      have hk := hsum n.id
      suffices h : ∃ x, accumulate_all ((map_find n.id s0.accumulated_adjoints).map Expr.erase)
          (pre.flatMap (contributions_into n.id s)) = some x by
        obtain ⟨x, hx⟩ := h
        rw [hx] at hk
        cases hfind : map_find n.id s.accumulated_adjoints with
        | none =>
          rw [hfind] at hk
          cases hk
        | some a => exact ⟨a, rfl⟩
      cases h0 : map_find n.id s0.accumulated_adjoints with
      | some x0 => exact accumulate_all_some _ _
      | none =>
        have hne : n ≠ e := by
          intro h
          rw [h, hseed] at h0
          cases h0
        obtain ⟨p, hp, hnp⟩ := hparent hne
        obtain ⟨a, ha⟩ := hentries p hp
        have hparith : p.arith = true := by
          apply (hin p _).2
          rw [hsplit']
          exact List.mem_append_left _ hp
        have hnonempty : pre.flatMap (contributions_into n.id s) ≠ [] := by
          intro hnil
          rw [List.flatMap_eq_nil_iff] at hnil
          exact contributions_into_ne_nil hparith hnp rfl ha (hnil p hp)
        cases hl : pre.flatMap (contributions_into n.id s) with
        | nil => exact absurd hl hnonempty
        | cons c cs => exact accumulate_all_cons_some _ c cs
    obtain ⟨a, ha⟩ := hentry
    obtain ⟨t, hacc, htlet, hteff, htfrozen⟩ :=
      ReverseAccumulationVisitor.accept_arith n s a (hin n hn).2 ha hslet
    have hkeep : ∀ p ∈ pre ++ [n],
        map_find p.id t.accumulated_adjoints = map_find p.id s.accumulated_adjoints := by
      intro p hp
      exact htfrozen p.id (fun c hc => hdistinct p hp c hc)
    have hwalk' : ReverseAccumulationVisitor.walk (pre ++ [n]) s0 = .ok t := by
      rw [ReverseAccumulationVisitor.walk_append, hwalk]
      simp only [Except.bind, ReverseAccumulationVisitor.walk, hacc]
    refine ⟨t, hwalk', htlet, ?_, ?_, ?_⟩
    · intro k
      rw [hteff k, hsum k, ← accumulate_all_append, List.flatMap_append]
      congr 1
      have h1 : (pre.flatMap (contributions_into k t)) = pre.flatMap (contributions_into k s) := by
        apply List.flatMap_congr
        intro p hp
        exact contributions_into_congr (hkeep p (List.mem_append_left _ hp))
      have h2 : contributions_into k t n = contributions_into k s n :=
        contributions_into_congr (hkeep n (by simp))
      rw [h1]
      simp [h2]
    · intro p hp
      rw [hkeep p hp]
      rcases List.mem_append.1 hp with h | h
      · exact hentries p h
      · rw [List.mem_singleton.1 h]
        exact ⟨a, ha⟩
    · intro pre1 p pre2 hsp
      rcases List.eq_nil_or_concat pre2 with h2 | ⟨q, d, h2⟩
      · subst h2
        obtain ⟨h3, h4⟩ := List.append_inj' hsp rfl
        cases h4
        subst h3
        exact ⟨s, hwalk, (hkeep n (by simp)).symm⟩
      · subst h2
        have hsp' : pre ++ [n] = (pre1 ++ p :: q) ++ [d] := by
          rw [hsp]
          simp
        obtain ⟨h3, h4⟩ := List.append_inj' hsp' rfl
        obtain ⟨s1, hs1, heq⟩ := hfrozen pre1 p q h3
        refine ⟨s1, hs1, heq.trans (hkeep p ?_).symm⟩
        rw [h3]
        simp

theorem contributions_into_non_parent (e : Expr) (hids : NodesById e)
    (s : ReverseAccumulationVisitor) (p n : Expr) (hp : p ∈ subterms e) (hn : n ∈ subterms e)
    (hnot : n ∉ p.operands) : contributions_into n.id s p = [] := by
  unfold contributions_into
  cases map_find p.id s.accumulated_adjoints with
  | none => rfl
  | some a =>
    have hnone : (rule_contributions p a).filter (fun c => decide (c.1.id = n.id)) = [] := by
      rw [List.filter_eq_nil_iff]
      intro c hc hdec
      have hop := rule_contributions_mem p a c hc
      have hsub : c.1 ∈ subterms e := subterms_operand c.1 e.size p e (le_refl _) hop hp
      have heq : c.1 = n := hids c.1 hsub n hn (by simpa using hdec)
      rw [heq] at hop
      exact hnot hop
    show List.map _ (List.filter _ (rule_contributions p a)) = []
    rw [hnone]
    rfl

/-- The walk of an expression that no earlier walk has written to: in the reverse
walk of the sorted list of an expression built from cast, add, sub, mul, div, min and
max over constants and variables, sharing allowed, started in a state that holds an
adjoint for the root and for no other node of the expression, and an empty let map,
the walk completes, and at the moment a node `n` other than the root is visited its
slot holds the sum, in the order of the walk, of the contributions that the rules of
the nodes visited before assign to operands at the address of `n` (an operand used
twice by one parent gives two contributions); every parent of `n` has been visited
before, each contribution is computed from the adjoint the parent had at its own
visit, and the nodes that are no parents of `n` contribute nothing.  Equality of
adjoints is up to the addresses of the nodes built by the rules.  The engine does not
establish the premise on the slots: it never clears `accumulated_adjoints`. -/
theorem adjoint_is_sum_of_parent_contributions (e : Expr) (s0 : ReverseAccumulationVisitor)
    (seed : Expr) (harith : e.arith = true) (hids : NodesById e)
    (hseed : map_find e.id s0.accumulated_adjoints = some seed)
    (hfresh : ∀ x ∈ subterms e, x ≠ e → map_find x.id s0.accumulated_adjoints = none)
    (hlet : s0.let_var_mapping = []) :
    (∃ t, ReverseAccumulationVisitor.walk (ExpressionSorter.sort e).reverse s0 = .ok t) ∧
    ∀ (pre : List Expr) (n : Expr) (post : List Expr),
      (ExpressionSorter.sort e).reverse = pre ++ n :: post → n ≠ e →
      ∃ s adj, ReverseAccumulationVisitor.walk pre s0 = .ok s ∧
        map_find n.id s.accumulated_adjoints = some adj ∧
        some adj.erase = accumulate_all none (pre.flatMap (contributions_into n.id s)) ∧
        (∀ p ∈ subterms e, n ∈ p.operands → p ∈ pre) ∧
        (∀ pre1 p pre2, pre = pre1 ++ p :: pre2 →
          ∃ s1, ReverseAccumulationVisitor.walk pre1 s0 = .ok s1 ∧
            map_find p.id s1.accumulated_adjoints = map_find p.id s.accumulated_adjoints) ∧
        (∀ p ∈ pre, n ∉ p.operands → contributions_into n.id s p = []) := by
  obtain ⟨_, hin, hsplitfacts⟩ := ExpressionSorter.reverse_facts e harith hids
  have hw := ReverseAccumulationVisitor.walk_arith e s0 seed harith hids hseed hlet
  constructor
  · obtain ⟨t, ht, _⟩ := hw (ExpressionSorter.sort e).reverse [] (by simp)
    exact ⟨t, ht⟩
  · intro pre n post hsplit hne
    obtain ⟨s, hwalk, _, hsum, _, hfrozen⟩ := hw pre (n :: post) hsplit
    obtain ⟨t, _, _, _, hentries, hfrozen'⟩ := hw (pre ++ [n]) post (by rw [hsplit]; simp)
    obtain ⟨_, hparents, _, _⟩ := hsplitfacts pre n post hsplit
    have hmem : ∀ p ∈ pre ++ [n], p ∈ subterms e := by
      intro p hp
      apply (hin p _).1
      rw [hsplit]
      rcases List.mem_append.1 hp with h | h
      · exact List.mem_append_left _ h
      · rw [List.mem_singleton.1 h]
        simp
    have hn : n ∈ subterms e := hmem n (by simp)
    obtain ⟨adj, hadj⟩ := hentries n (by simp)
    obtain ⟨s1, hs1, heq⟩ := hfrozen' pre n [] rfl
    rw [hwalk] at hs1
    cases hs1
    rw [hadj] at heq
    have hk := hsum n.id
    rw [hfresh n hn hne, heq] at hk
    refine ⟨s, adj, hwalk, heq, hk, hparents, hfrozen, ?_⟩
    intro p hp hnot
    exact contributions_into_non_parent e hids s p n (hmem p (List.mem_append_left _ hp)) hn hnot

/-! ### End-to-end scenarios -/

set_option maxHeartbeats 40000000 in
set_option maxRecDepth 100000 in
/-- C1, the code at the failing input: for the program `out(x) = k` and the output
`out(c)`, the adjoint that `propagate_adjoints` returns for `out` has the value `1`
at every index `i`, also at an index `i ≠ c` where the derivative of `out(c)` with
respect to `out(i)` is `0`. -/
theorem constant_adjoint_one_everywhere (k : ℚ) (c : ℤ) (i : ℚ) (n m : ℕ) :
    adjoint_value (propagate_adjoints (constant_memory k) (n + 1) (constant_output c)) (m + 2)
      "out" [i] = some 1 := by
  simp [Expr.id, Expr.same_as, map_find, map_set, map_keys, Memory.fresh, mk_add, mk_sub, mk_mul,
        mk_div, mk_min, mk_max, mk_le, mk_ge, mk_select, mk_let, mk_float, mk_var, mk_vars,
        mk_neg, mk_exp, mk_call, VariableFinder.include_with, VariableFinder.accept,
        VariableFinder.accept_list, VariableFinder.find, VariableReplacer.mutate,
        VariableReplacer.mutate_args, VariableReplacer.replace, inverse, rvar_name, rdom_slots,
        mk_rdom, rdom_domain, rdom_at, rdom_var, find_arg, get_min_max_bounds, merge_bounds,
        Function.stage_values, FunctionSorter.include_with, FunctionSorter.accept,
        FunctionSorter.accept_list, FunctionSorter.accept_stages, FunctionSorter.sort_func,
        FunctionSorter.sort, ExpressionSorter.include_with, ExpressionSorter.accept,
        ExpressionSorter.accept_list, ExpressionSorter.sort, BoundsInferencer.include_with,
        BoundsInferencer.arg_bounds, BoundsInferencer.merge_args, BoundsInferencer.merge_previous,
        BoundsInferencer.update_bounds, BoundsInferencer.accept, BoundsInferencer.accept_list,
        BoundsInferencer.accept_stages, BoundsInferencer.inference_func,
        BoundsInferencer.inference, Memory.set_func, mk_func, mk_func_default, func_define,
        define_base_case, func_add_update, ReverseAccumulationVisitor.new,
        ReverseAccumulationVisitor.accumulate, ReverseAccumulationVisitor.adjoint_of,
        ReverseAccumulationVisitor.adjoint_funcs_at, ReverseAccumulationVisitor.canonicalize_arg,
        ReverseAccumulationVisitor.canonicalize, ReverseAccumulationVisitor.scatter,
        ReverseAccumulationVisitor.accumulate_exp, ReverseAccumulationVisitor.accept,
        ReverseAccumulationVisitor.walk, ReverseAccumulationVisitor.create_stub,
        ReverseAccumulationVisitor.create_stubs, ReverseAccumulationVisitor.seed_root,
        ReverseAccumulationVisitor.new_tmp, ReverseAccumulationVisitor.add_back,
        ReverseAccumulationVisitor.propagate_stage, ReverseAccumulationVisitor.propagate_stages,
        ReverseAccumulationVisitor.propagate_func, ReverseAccumulationVisitor.propagate_funcs,
        ReverseAccumulationVisitor.propagate_adjoints, propagate_adjoints, eval_expr, eval_args,
        find_rdom, find_rdom_list, rdom_points, lhs_is_pure, eval_update_points, eval_update,
        eval_updates, eval_func, adjoint_value, constant_memory, constant_output, multiply_memory,
        call_out_zero, shift_memory, reduction_memory, two_inputs_memory, let_output,
        divide_output, diamond_memory, diamond_output, Expr.operands, Expr.is_halide_call,
        Expr.call_func, Expr.size, Expr.size_list, subterms, subterms_list, direct_calls,
        direct_calls_list, all_calls, all_calls_list, Function.stage_exprs, program_roots,
        program_nodes, Consistent, func_name, UniqueNames, nested_memory, nested_output,
        FunctionSorter.Settled, FunctionSorter.Good, FunctionSorter.SortFuncSpec, WellFormed,
        untraversed, Expr.is_func_or_image_call, engine_calls, FuncsOnlyInHalideCalls,
        ReverseAccumulationVisitor.KeysIn, ReverseAccumulationVisitor.Stored,
        ReverseAccumulationVisitor.TmpDefined, ReverseAccumulationVisitor.StoredAll,
        SameNameSameArgs, NodesById, OperandsFirst, ExpressionSorter.Pending, shared_operand_expr,
        five_minus_x, two_sites_memory, two_sites_output, eval_pair, inferred_bounds,
        bounds_values, two_slots_memory, max_output, min_output, staged_memory, call_f_zero,
        shared_body_memory, supported_shape, renamed_args_memory, call_g_zero, tie_memory,
        tie_max_output, tie_min_output, unused_let_output, BoundsInferencer.Covered,
        BoundsInferencer.InferenceFuncSpec, Expr.erase, Expr.erase_list, Expr.arith,
        rule_contributions, accumulate_all, contributions_into, shared_leaf_expr, seeded_engine,
        ReverseAccumulationVisitor.stage_start, shared_body_expr, shared_body_b,
        shared_body_walk_start, Except.bind, Except.map, bind, pure, Except.pure]

set_option maxHeartbeats 40000000 in
set_option maxRecDepth 100000 in
/-- C2: for `f(x) = p`, `g(x) = q`, `out(x) = f(x) * g(x)` and the output `out(0)`,
the returned adjoints satisfy `Adjoint[f](0) = q` and `Adjoint[g](0) = p`. -/
theorem multiply_adjoints (p q : ℚ) (n m : ℕ) :
    adjoint_value (propagate_adjoints (multiply_memory p q) (n + 2) (call_out_zero 2)) (m + 3)
      "f" [0] = some q ∧
    adjoint_value (propagate_adjoints (multiply_memory p q) (n + 2) (call_out_zero 2)) (m + 3)
      "g" [0] = some p := by
  constructor
  · simp [Expr.id, Expr.same_as, map_find, map_set, map_keys, Memory.fresh, mk_add, mk_sub,
          mk_mul, mk_div, mk_min, mk_max, mk_le, mk_ge, mk_select, mk_let, mk_float, mk_var,
          mk_vars, mk_neg, mk_exp, mk_call, VariableFinder.include_with, VariableFinder.accept,
          VariableFinder.accept_list, VariableFinder.find, VariableReplacer.mutate,
          VariableReplacer.mutate_args, VariableReplacer.replace, inverse, rvar_name, rdom_slots,
          mk_rdom, rdom_domain, rdom_at, rdom_var, find_arg, get_min_max_bounds, merge_bounds,
          Function.stage_values, FunctionSorter.include_with, FunctionSorter.accept,
          FunctionSorter.accept_list, FunctionSorter.accept_stages, FunctionSorter.sort_func,
          FunctionSorter.sort, ExpressionSorter.include_with, ExpressionSorter.accept,
          ExpressionSorter.accept_list, ExpressionSorter.sort, BoundsInferencer.include_with,
          BoundsInferencer.arg_bounds, BoundsInferencer.merge_args,
          BoundsInferencer.merge_previous, BoundsInferencer.update_bounds,
          BoundsInferencer.accept, BoundsInferencer.accept_list, BoundsInferencer.accept_stages,
          BoundsInferencer.inference_func, BoundsInferencer.inference, Memory.set_func, mk_func,
          mk_func_default, func_define, define_base_case, func_add_update,
          ReverseAccumulationVisitor.new, ReverseAccumulationVisitor.accumulate,
          ReverseAccumulationVisitor.adjoint_of, ReverseAccumulationVisitor.adjoint_funcs_at,
          ReverseAccumulationVisitor.canonicalize_arg, ReverseAccumulationVisitor.canonicalize,
          ReverseAccumulationVisitor.scatter, ReverseAccumulationVisitor.accumulate_exp,
          ReverseAccumulationVisitor.accept, ReverseAccumulationVisitor.walk,
          ReverseAccumulationVisitor.create_stub, ReverseAccumulationVisitor.create_stubs,
          ReverseAccumulationVisitor.seed_root, ReverseAccumulationVisitor.new_tmp,
          ReverseAccumulationVisitor.add_back, ReverseAccumulationVisitor.propagate_stage,
          ReverseAccumulationVisitor.propagate_stages, ReverseAccumulationVisitor.propagate_func,
          ReverseAccumulationVisitor.propagate_funcs,
          ReverseAccumulationVisitor.propagate_adjoints, propagate_adjoints, eval_expr, eval_args,
          find_rdom, find_rdom_list, rdom_points, lhs_is_pure, eval_update_points, eval_update,
          eval_updates, eval_func, adjoint_value, constant_memory, constant_output,
          multiply_memory, call_out_zero, shift_memory, reduction_memory, two_inputs_memory,
          let_output, divide_output, diamond_memory, diamond_output, Expr.operands,
          Expr.is_halide_call, Expr.call_func, Expr.size, Expr.size_list, subterms, subterms_list,
          direct_calls, direct_calls_list, all_calls, all_calls_list, Function.stage_exprs,
          program_roots, program_nodes, Consistent, func_name, UniqueNames, nested_memory,
          nested_output, FunctionSorter.Settled, FunctionSorter.Good, FunctionSorter.SortFuncSpec,
          WellFormed, untraversed, Expr.is_func_or_image_call, engine_calls,
          FuncsOnlyInHalideCalls, ReverseAccumulationVisitor.KeysIn,
          ReverseAccumulationVisitor.Stored, ReverseAccumulationVisitor.TmpDefined,
          ReverseAccumulationVisitor.StoredAll, SameNameSameArgs, NodesById, OperandsFirst,
          ExpressionSorter.Pending, shared_operand_expr, five_minus_x, two_sites_memory,
          two_sites_output, eval_pair, inferred_bounds, bounds_values, two_slots_memory,
          max_output, min_output, staged_memory, call_f_zero, shared_body_memory, supported_shape,
          renamed_args_memory, call_g_zero, tie_memory, tie_max_output, tie_min_output,
          unused_let_output, BoundsInferencer.Covered, BoundsInferencer.InferenceFuncSpec,
          Expr.erase, Expr.erase_list, Expr.arith, rule_contributions, accumulate_all,
          contributions_into, shared_leaf_expr, seeded_engine,
          ReverseAccumulationVisitor.stage_start, shared_body_expr, shared_body_b,
          shared_body_walk_start, Except.bind, Except.map, bind, pure, Except.pure]
  · simp [Expr.id, Expr.same_as, map_find, map_set, map_keys, Memory.fresh, mk_add, mk_sub,
          mk_mul, mk_div, mk_min, mk_max, mk_le, mk_ge, mk_select, mk_let, mk_float, mk_var,
          mk_vars, mk_neg, mk_exp, mk_call, VariableFinder.include_with, VariableFinder.accept,
          VariableFinder.accept_list, VariableFinder.find, VariableReplacer.mutate,
          VariableReplacer.mutate_args, VariableReplacer.replace, inverse, rvar_name, rdom_slots,
          mk_rdom, rdom_domain, rdom_at, rdom_var, find_arg, get_min_max_bounds, merge_bounds,
          Function.stage_values, FunctionSorter.include_with, FunctionSorter.accept,
          FunctionSorter.accept_list, FunctionSorter.accept_stages, FunctionSorter.sort_func,
          FunctionSorter.sort, ExpressionSorter.include_with, ExpressionSorter.accept,
          ExpressionSorter.accept_list, ExpressionSorter.sort, BoundsInferencer.include_with,
          BoundsInferencer.arg_bounds, BoundsInferencer.merge_args,
          BoundsInferencer.merge_previous, BoundsInferencer.update_bounds,
          BoundsInferencer.accept, BoundsInferencer.accept_list, BoundsInferencer.accept_stages,
          BoundsInferencer.inference_func, BoundsInferencer.inference, Memory.set_func, mk_func,
          mk_func_default, func_define, define_base_case, func_add_update,
          ReverseAccumulationVisitor.new, ReverseAccumulationVisitor.accumulate,
          ReverseAccumulationVisitor.adjoint_of, ReverseAccumulationVisitor.adjoint_funcs_at,
          ReverseAccumulationVisitor.canonicalize_arg, ReverseAccumulationVisitor.canonicalize,
          ReverseAccumulationVisitor.scatter, ReverseAccumulationVisitor.accumulate_exp,
          ReverseAccumulationVisitor.accept, ReverseAccumulationVisitor.walk,
          ReverseAccumulationVisitor.create_stub, ReverseAccumulationVisitor.create_stubs,
          ReverseAccumulationVisitor.seed_root, ReverseAccumulationVisitor.new_tmp,
          ReverseAccumulationVisitor.add_back, ReverseAccumulationVisitor.propagate_stage,
          ReverseAccumulationVisitor.propagate_stages, ReverseAccumulationVisitor.propagate_func,
          ReverseAccumulationVisitor.propagate_funcs,
          ReverseAccumulationVisitor.propagate_adjoints, propagate_adjoints, eval_expr, eval_args,
          find_rdom, find_rdom_list, rdom_points, lhs_is_pure, eval_update_points, eval_update,
          eval_updates, eval_func, adjoint_value, constant_memory, constant_output,
          multiply_memory, call_out_zero, shift_memory, reduction_memory, two_inputs_memory,
          let_output, divide_output, diamond_memory, diamond_output, Expr.operands,
          Expr.is_halide_call, Expr.call_func, Expr.size, Expr.size_list, subterms, subterms_list,
          direct_calls, direct_calls_list, all_calls, all_calls_list, Function.stage_exprs,
          program_roots, program_nodes, Consistent, func_name, UniqueNames, nested_memory,
          nested_output, FunctionSorter.Settled, FunctionSorter.Good, FunctionSorter.SortFuncSpec,
          WellFormed, untraversed, Expr.is_func_or_image_call, engine_calls,
          FuncsOnlyInHalideCalls, ReverseAccumulationVisitor.KeysIn,
          ReverseAccumulationVisitor.Stored, ReverseAccumulationVisitor.TmpDefined,
          ReverseAccumulationVisitor.StoredAll, SameNameSameArgs, NodesById, OperandsFirst,
          ExpressionSorter.Pending, shared_operand_expr, five_minus_x, two_sites_memory,
          two_sites_output, eval_pair, inferred_bounds, bounds_values, two_slots_memory,
          max_output, min_output, staged_memory, call_f_zero, shared_body_memory, supported_shape,
          renamed_args_memory, call_g_zero, tie_memory, tie_max_output, tie_min_output,
          unused_let_output, BoundsInferencer.Covered, BoundsInferencer.InferenceFuncSpec,
          Expr.erase, Expr.erase_list, Expr.arith, rule_contributions, accumulate_all,
          contributions_into, shared_leaf_expr, seeded_engine,
          ReverseAccumulationVisitor.stage_start, shared_body_expr, shared_body_b,
          shared_body_walk_start, Except.bind, Except.map, bind, pure, Except.pure]

set_option maxHeartbeats 40000000 in
set_option maxRecDepth 100000 in
/-- C3: for `f(x) = x`, `out(x) = f(x + c)` and the output `out(0)`, the update that
the call `f(x + c)` adds to the adjoint stub of `f` (handle `4`) is written at the
canonical index `x` and reads the incoming adjoint `out_d__` at the inverted index
`x - c`; the adjoint returned for `f` (handle `6`) adds that stub to zero, and its
value at index `c` is `1`. -/
theorem shift_adjoint (c : ℤ) (n m : ℕ) :
    (propagate_adjoints (shift_memory c) (n + 2) (call_out_zero 1)).map
        (fun r => (r.1, r.2.funcs[4]?,
          (r.2.funcs[6]?).map fun f => f.updates.map fun d => d.value)) =
      .ok ([("out", 5), ("f", 6)],
        some { name := "f_d__", args := ["x"], value := some (.FloatImm 105 0),
               updates :=
                 [{ args := [.Variable 115 "x" none],
                    value := .Add 117 (.Call 116 "f_d__" .Halide (some 4) [.Variable 115 "x" none])
                      (.Call 114 "out_d__" .Halide (some 3)
                        [.Sub 113 (.Variable 22 "x" none) (.IntImm 23 c)]) }] },
        some [.Add 130 (.Call 129 "f_d__" .Halide (some 6) [.Variable 128 "x" none])
                (.Call 127 "f_d__" .Halide (some 4) [.Variable 126 "x" none])]) ∧
    adjoint_value (propagate_adjoints (shift_memory c) (n + 2) (call_out_zero 1)) (m + 3)
      "f" [(c : ℚ)] = some 1 := by
  constructor
  · simp [Expr.id, Expr.same_as, map_find, map_set, map_keys, Memory.fresh, mk_add, mk_sub,
          mk_mul, mk_div, mk_min, mk_max, mk_le, mk_ge, mk_select, mk_let, mk_float, mk_var,
          mk_vars, mk_neg, mk_exp, mk_call, VariableFinder.include_with, VariableFinder.accept,
          VariableFinder.accept_list, VariableFinder.find, VariableReplacer.mutate,
          VariableReplacer.mutate_args, VariableReplacer.replace, inverse, rvar_name, rdom_slots,
          mk_rdom, rdom_domain, rdom_at, rdom_var, find_arg, get_min_max_bounds, merge_bounds,
          Function.stage_values, FunctionSorter.include_with, FunctionSorter.accept,
          FunctionSorter.accept_list, FunctionSorter.accept_stages, FunctionSorter.sort_func,
          FunctionSorter.sort, ExpressionSorter.include_with, ExpressionSorter.accept,
          ExpressionSorter.accept_list, ExpressionSorter.sort, BoundsInferencer.include_with,
          BoundsInferencer.arg_bounds, BoundsInferencer.merge_args,
          BoundsInferencer.merge_previous, BoundsInferencer.update_bounds,
          BoundsInferencer.accept, BoundsInferencer.accept_list, BoundsInferencer.accept_stages,
          BoundsInferencer.inference_func, BoundsInferencer.inference, Memory.set_func, mk_func,
          mk_func_default, func_define, define_base_case, func_add_update,
          ReverseAccumulationVisitor.new, ReverseAccumulationVisitor.accumulate,
          ReverseAccumulationVisitor.adjoint_of, ReverseAccumulationVisitor.adjoint_funcs_at,
          ReverseAccumulationVisitor.canonicalize_arg, ReverseAccumulationVisitor.canonicalize,
          ReverseAccumulationVisitor.scatter, ReverseAccumulationVisitor.accumulate_exp,
          ReverseAccumulationVisitor.accept, ReverseAccumulationVisitor.walk,
          ReverseAccumulationVisitor.create_stub, ReverseAccumulationVisitor.create_stubs,
          ReverseAccumulationVisitor.seed_root, ReverseAccumulationVisitor.new_tmp,
          ReverseAccumulationVisitor.add_back, ReverseAccumulationVisitor.propagate_stage,
          ReverseAccumulationVisitor.propagate_stages, ReverseAccumulationVisitor.propagate_func,
          ReverseAccumulationVisitor.propagate_funcs,
          ReverseAccumulationVisitor.propagate_adjoints, propagate_adjoints, eval_expr, eval_args,
          find_rdom, find_rdom_list, rdom_points, lhs_is_pure, eval_update_points, eval_update,
          eval_updates, eval_func, adjoint_value, constant_memory, constant_output,
          multiply_memory, call_out_zero, shift_memory, reduction_memory, two_inputs_memory,
          let_output, divide_output, diamond_memory, diamond_output, Expr.operands,
          Expr.is_halide_call, Expr.call_func, Expr.size, Expr.size_list, subterms, subterms_list,
          direct_calls, direct_calls_list, all_calls, all_calls_list, Function.stage_exprs,
          program_roots, program_nodes, Consistent, func_name, UniqueNames, nested_memory,
          nested_output, FunctionSorter.Settled, FunctionSorter.Good, FunctionSorter.SortFuncSpec,
          WellFormed, untraversed, Expr.is_func_or_image_call, engine_calls,
          FuncsOnlyInHalideCalls, ReverseAccumulationVisitor.KeysIn,
          ReverseAccumulationVisitor.Stored, ReverseAccumulationVisitor.TmpDefined,
          ReverseAccumulationVisitor.StoredAll, SameNameSameArgs, NodesById, OperandsFirst,
          ExpressionSorter.Pending, shared_operand_expr, five_minus_x, two_sites_memory,
          two_sites_output, eval_pair, inferred_bounds, bounds_values, two_slots_memory,
          max_output, min_output, staged_memory, call_f_zero, shared_body_memory, supported_shape,
          renamed_args_memory, call_g_zero, tie_memory, tie_max_output, tie_min_output,
          unused_let_output, BoundsInferencer.Covered, BoundsInferencer.InferenceFuncSpec,
          Expr.erase, Expr.erase_list, Expr.arith, rule_contributions, accumulate_all,
          contributions_into, shared_leaf_expr, seeded_engine,
          ReverseAccumulationVisitor.stage_start, shared_body_expr, shared_body_b,
          shared_body_walk_start, Except.bind, Except.map, bind, pure, Except.pure]
  · simp [Expr.id, Expr.same_as, map_find, map_set, map_keys, Memory.fresh, mk_add, mk_sub,
          mk_mul, mk_div, mk_min, mk_max, mk_le, mk_ge, mk_select, mk_let, mk_float, mk_var,
          mk_vars, mk_neg, mk_exp, mk_call, VariableFinder.include_with, VariableFinder.accept,
          VariableFinder.accept_list, VariableFinder.find, VariableReplacer.mutate,
          VariableReplacer.mutate_args, VariableReplacer.replace, inverse, rvar_name, rdom_slots,
          mk_rdom, rdom_domain, rdom_at, rdom_var, find_arg, get_min_max_bounds, merge_bounds,
          Function.stage_values, FunctionSorter.include_with, FunctionSorter.accept,
          FunctionSorter.accept_list, FunctionSorter.accept_stages, FunctionSorter.sort_func,
          FunctionSorter.sort, ExpressionSorter.include_with, ExpressionSorter.accept,
          ExpressionSorter.accept_list, ExpressionSorter.sort, BoundsInferencer.include_with,
          BoundsInferencer.arg_bounds, BoundsInferencer.merge_args,
          BoundsInferencer.merge_previous, BoundsInferencer.update_bounds,
          BoundsInferencer.accept, BoundsInferencer.accept_list, BoundsInferencer.accept_stages,
          BoundsInferencer.inference_func, BoundsInferencer.inference, Memory.set_func, mk_func,
          mk_func_default, func_define, define_base_case, func_add_update,
          ReverseAccumulationVisitor.new, ReverseAccumulationVisitor.accumulate,
          ReverseAccumulationVisitor.adjoint_of, ReverseAccumulationVisitor.adjoint_funcs_at,
          ReverseAccumulationVisitor.canonicalize_arg, ReverseAccumulationVisitor.canonicalize,
          ReverseAccumulationVisitor.scatter, ReverseAccumulationVisitor.accumulate_exp,
          ReverseAccumulationVisitor.accept, ReverseAccumulationVisitor.walk,
          ReverseAccumulationVisitor.create_stub, ReverseAccumulationVisitor.create_stubs,
          ReverseAccumulationVisitor.seed_root, ReverseAccumulationVisitor.new_tmp,
          ReverseAccumulationVisitor.add_back, ReverseAccumulationVisitor.propagate_stage,
          ReverseAccumulationVisitor.propagate_stages, ReverseAccumulationVisitor.propagate_func,
          ReverseAccumulationVisitor.propagate_funcs,
          ReverseAccumulationVisitor.propagate_adjoints, propagate_adjoints, eval_expr, eval_args,
          find_rdom, find_rdom_list, rdom_points, lhs_is_pure, eval_update_points, eval_update,
          eval_updates, eval_func, adjoint_value, constant_memory, constant_output,
          multiply_memory, call_out_zero, shift_memory, reduction_memory, two_inputs_memory,
          let_output, divide_output, diamond_memory, diamond_output, Expr.operands,
          Expr.is_halide_call, Expr.call_func, Expr.size, Expr.size_list, subterms, subterms_list,
          direct_calls, direct_calls_list, all_calls, all_calls_list, Function.stage_exprs,
          program_roots, program_nodes, Consistent, func_name, UniqueNames, nested_memory,
          nested_output, FunctionSorter.Settled, FunctionSorter.Good, FunctionSorter.SortFuncSpec,
          WellFormed, untraversed, Expr.is_func_or_image_call, engine_calls,
          FuncsOnlyInHalideCalls, ReverseAccumulationVisitor.KeysIn,
          ReverseAccumulationVisitor.Stored, ReverseAccumulationVisitor.TmpDefined,
          ReverseAccumulationVisitor.StoredAll, SameNameSameArgs, NodesById, OperandsFirst,
          ExpressionSorter.Pending, shared_operand_expr, five_minus_x, two_sites_memory,
          two_sites_output, eval_pair, inferred_bounds, bounds_values, two_slots_memory,
          max_output, min_output, staged_memory, call_f_zero, shared_body_memory, supported_shape,
          renamed_args_memory, call_g_zero, tie_memory, tie_max_output, tie_min_output,
          unused_let_output, BoundsInferencer.Covered, BoundsInferencer.InferenceFuncSpec,
          Expr.erase, Expr.erase_list, Expr.arith, rule_contributions, accumulate_all,
          contributions_into, shared_leaf_expr, seeded_engine,
          ReverseAccumulationVisitor.stage_start, shared_body_expr, shared_body_b,
          shared_body_walk_start, Except.bind, Except.map, bind, pure, Except.pure]

set_option maxHeartbeats 40000000 in
set_option maxRecDepth 100000 in
/-- C4, the code at the failing input: for `f(x, y) = 1`, `out(x) = 0`,
`out(x) += f(x, r)` with `r` over `[0, 4)` and the output `out(0)`, the run of
`propagate_adjoints` stops in bounds inference with an out-of-range lookup: the
one-dimensional domain of `r` is indexed with `1`, the position of `r` in the call. -/
theorem reduction_out_of_range (n : ℕ) :
    propagate_adjoints reduction_memory (n + 2) (call_out_zero 1) = .error .out_of_range := by
  simp [Expr.id, Expr.same_as, map_find, map_set, map_keys, Memory.fresh, mk_add, mk_sub, mk_mul,
        mk_div, mk_min, mk_max, mk_le, mk_ge, mk_select, mk_let, mk_float, mk_var, mk_vars,
        mk_neg, mk_exp, mk_call, VariableFinder.include_with, VariableFinder.accept,
        VariableFinder.accept_list, VariableFinder.find, VariableReplacer.mutate,
        VariableReplacer.mutate_args, VariableReplacer.replace, inverse, rvar_name, rdom_slots,
        mk_rdom, rdom_domain, rdom_at, rdom_var, find_arg, get_min_max_bounds, merge_bounds,
        Function.stage_values, FunctionSorter.include_with, FunctionSorter.accept,
        FunctionSorter.accept_list, FunctionSorter.accept_stages, FunctionSorter.sort_func,
        FunctionSorter.sort, ExpressionSorter.include_with, ExpressionSorter.accept,
        ExpressionSorter.accept_list, ExpressionSorter.sort, BoundsInferencer.include_with,
        BoundsInferencer.arg_bounds, BoundsInferencer.merge_args, BoundsInferencer.merge_previous,
        BoundsInferencer.update_bounds, BoundsInferencer.accept, BoundsInferencer.accept_list,
        BoundsInferencer.accept_stages, BoundsInferencer.inference_func,
        BoundsInferencer.inference, Memory.set_func, mk_func, mk_func_default, func_define,
        define_base_case, func_add_update, ReverseAccumulationVisitor.new,
        ReverseAccumulationVisitor.accumulate, ReverseAccumulationVisitor.adjoint_of,
        ReverseAccumulationVisitor.adjoint_funcs_at, ReverseAccumulationVisitor.canonicalize_arg,
        ReverseAccumulationVisitor.canonicalize, ReverseAccumulationVisitor.scatter,
        ReverseAccumulationVisitor.accumulate_exp, ReverseAccumulationVisitor.accept,
        ReverseAccumulationVisitor.walk, ReverseAccumulationVisitor.create_stub,
        ReverseAccumulationVisitor.create_stubs, ReverseAccumulationVisitor.seed_root,
        ReverseAccumulationVisitor.new_tmp, ReverseAccumulationVisitor.add_back,
        ReverseAccumulationVisitor.propagate_stage, ReverseAccumulationVisitor.propagate_stages,
        ReverseAccumulationVisitor.propagate_func, ReverseAccumulationVisitor.propagate_funcs,
        ReverseAccumulationVisitor.propagate_adjoints, propagate_adjoints, eval_expr, eval_args,
        find_rdom, find_rdom_list, rdom_points, lhs_is_pure, eval_update_points, eval_update,
        eval_updates, eval_func, adjoint_value, constant_memory, constant_output, multiply_memory,
        call_out_zero, shift_memory, reduction_memory, two_inputs_memory, let_output,
        divide_output, diamond_memory, diamond_output, Expr.operands, Expr.is_halide_call,
        Expr.call_func, Expr.size, Expr.size_list, subterms, subterms_list, direct_calls,
        direct_calls_list, all_calls, all_calls_list, Function.stage_exprs, program_roots,
        program_nodes, Consistent, func_name, UniqueNames, nested_memory, nested_output,
        FunctionSorter.Settled, FunctionSorter.Good, FunctionSorter.SortFuncSpec, WellFormed,
        untraversed, Expr.is_func_or_image_call, engine_calls, FuncsOnlyInHalideCalls,
        ReverseAccumulationVisitor.KeysIn, ReverseAccumulationVisitor.Stored,
        ReverseAccumulationVisitor.TmpDefined, ReverseAccumulationVisitor.StoredAll,
        SameNameSameArgs, NodesById, OperandsFirst, ExpressionSorter.Pending, shared_operand_expr,
        five_minus_x, two_sites_memory, two_sites_output, eval_pair, inferred_bounds,
        bounds_values, two_slots_memory, max_output, min_output, staged_memory, call_f_zero,
        shared_body_memory, supported_shape, renamed_args_memory, call_g_zero, tie_memory,
        tie_max_output, tie_min_output, unused_let_output, BoundsInferencer.Covered,
        BoundsInferencer.InferenceFuncSpec, Expr.erase, Expr.erase_list, Expr.arith,
        rule_contributions, accumulate_all, contributions_into, shared_leaf_expr, seeded_engine,
        ReverseAccumulationVisitor.stage_start, shared_body_expr, shared_body_b,
        shared_body_walk_start, Except.bind, Except.map, bind, pure, Except.pure]

set_option maxHeartbeats 40000000 in
set_option maxRecDepth 100000 in
/-- C5: for `a(x) = p` and the output `let t = a(0) in t * t` (both operands one
node), the update scattered into the adjoint stub of `a` (handle `3`) is
`let t = a(0) in 1 * t + 1 * t`, the adjoint returned for `a` (handle `4`) adds that
stub to zero, and its value at index `0` is `2 * p`; the value is the same when the
two operands of the product are different nodes. -/
theorem let_adjoint (p q : ℚ) (n m : ℕ) :
    (propagate_adjoints (two_inputs_memory p q) (n + 1) (let_output 5)).map
        (fun r => (r.1, (r.2.funcs[3]?).map fun f => f.updates.map fun d => d.value,
          (r.2.funcs[4]?).map fun f => f.updates.map fun d => d.value)) =
      .ok ([("a", 4)],
        some [.Add 109 (.Call 108 "a_d__" .Halide (some 3) [.Variable 107 "x" none])
          (.Let 106 "t" (.Call 2 "a" .Halide (some 0) [.IntImm 3 0])
            (.Add 105 (.Mul 103 (.FloatImm 102 1) (.Variable 5 "t" none))
              (.Mul 104 (.FloatImm 102 1) (.Variable 5 "t" none))))],
        some [.Add 117 (.Call 116 "a_d__" .Halide (some 4) [.Variable 115 "x" none])
          (.Call 114 "a_d__" .Halide (some 3) [.Variable 113 "x" none])]) ∧
    adjoint_value (propagate_adjoints (two_inputs_memory p q) (n + 1) (let_output 5)) (m + 3)
      "a" [0] = some (2 * p) ∧
    adjoint_value (propagate_adjoints (two_inputs_memory p q) (n + 1) (let_output 6)) (m + 3)
      "a" [0] = some (2 * p) := by
  refine ⟨?_, ?_, ?_⟩
  · simp [Expr.id, Expr.same_as, map_find, map_set, map_keys, Memory.fresh, mk_add, mk_sub,
          mk_mul, mk_div, mk_min, mk_max, mk_le, mk_ge, mk_select, mk_let, mk_float, mk_var,
          mk_vars, mk_neg, mk_exp, mk_call, VariableFinder.include_with, VariableFinder.accept,
          VariableFinder.accept_list, VariableFinder.find, VariableReplacer.mutate,
          VariableReplacer.mutate_args, VariableReplacer.replace, inverse, rvar_name, rdom_slots,
          mk_rdom, rdom_domain, rdom_at, rdom_var, find_arg, get_min_max_bounds, merge_bounds,
          Function.stage_values, FunctionSorter.include_with, FunctionSorter.accept,
          FunctionSorter.accept_list, FunctionSorter.accept_stages, FunctionSorter.sort_func,
          FunctionSorter.sort, ExpressionSorter.include_with, ExpressionSorter.accept,
          ExpressionSorter.accept_list, ExpressionSorter.sort, BoundsInferencer.include_with,
          BoundsInferencer.arg_bounds, BoundsInferencer.merge_args,
          BoundsInferencer.merge_previous, BoundsInferencer.update_bounds,
          BoundsInferencer.accept, BoundsInferencer.accept_list, BoundsInferencer.accept_stages,
          BoundsInferencer.inference_func, BoundsInferencer.inference, Memory.set_func, mk_func,
          mk_func_default, func_define, define_base_case, func_add_update,
          ReverseAccumulationVisitor.new, ReverseAccumulationVisitor.accumulate,
          ReverseAccumulationVisitor.adjoint_of, ReverseAccumulationVisitor.adjoint_funcs_at,
          ReverseAccumulationVisitor.canonicalize_arg, ReverseAccumulationVisitor.canonicalize,
          ReverseAccumulationVisitor.scatter, ReverseAccumulationVisitor.accumulate_exp,
          ReverseAccumulationVisitor.accept, ReverseAccumulationVisitor.walk,
          ReverseAccumulationVisitor.create_stub, ReverseAccumulationVisitor.create_stubs,
          ReverseAccumulationVisitor.seed_root, ReverseAccumulationVisitor.new_tmp,
          ReverseAccumulationVisitor.add_back, ReverseAccumulationVisitor.propagate_stage,
          ReverseAccumulationVisitor.propagate_stages, ReverseAccumulationVisitor.propagate_func,
          ReverseAccumulationVisitor.propagate_funcs,
          ReverseAccumulationVisitor.propagate_adjoints, propagate_adjoints, eval_expr, eval_args,
          find_rdom, find_rdom_list, rdom_points, lhs_is_pure, eval_update_points, eval_update,
          eval_updates, eval_func, adjoint_value, constant_memory, constant_output,
          multiply_memory, call_out_zero, shift_memory, reduction_memory, two_inputs_memory,
          let_output, divide_output, diamond_memory, diamond_output, Expr.operands,
          Expr.is_halide_call, Expr.call_func, Expr.size, Expr.size_list, subterms, subterms_list,
          direct_calls, direct_calls_list, all_calls, all_calls_list, Function.stage_exprs,
          program_roots, program_nodes, Consistent, func_name, UniqueNames, nested_memory,
          nested_output, FunctionSorter.Settled, FunctionSorter.Good, FunctionSorter.SortFuncSpec,
          WellFormed, untraversed, Expr.is_func_or_image_call, engine_calls,
          FuncsOnlyInHalideCalls, ReverseAccumulationVisitor.KeysIn,
          ReverseAccumulationVisitor.Stored, ReverseAccumulationVisitor.TmpDefined,
          ReverseAccumulationVisitor.StoredAll, SameNameSameArgs, NodesById, OperandsFirst,
          ExpressionSorter.Pending, shared_operand_expr, five_minus_x, two_sites_memory,
          two_sites_output, eval_pair, inferred_bounds, bounds_values, two_slots_memory,
          max_output, min_output, staged_memory, call_f_zero, shared_body_memory, supported_shape,
          renamed_args_memory, call_g_zero, tie_memory, tie_max_output, tie_min_output,
          unused_let_output, BoundsInferencer.Covered, BoundsInferencer.InferenceFuncSpec,
          Expr.erase, Expr.erase_list, Expr.arith, rule_contributions, accumulate_all,
          contributions_into, shared_leaf_expr, seeded_engine,
          ReverseAccumulationVisitor.stage_start, shared_body_expr, shared_body_b,
          shared_body_walk_start, Except.bind, Except.map, bind, pure, Except.pure]
  · simp [Expr.id, Expr.same_as, map_find, map_set, map_keys, Memory.fresh, mk_add, mk_sub,
          mk_mul, mk_div, mk_min, mk_max, mk_le, mk_ge, mk_select, mk_let, mk_float, mk_var,
          mk_vars, mk_neg, mk_exp, mk_call, VariableFinder.include_with, VariableFinder.accept,
          VariableFinder.accept_list, VariableFinder.find, VariableReplacer.mutate,
          VariableReplacer.mutate_args, VariableReplacer.replace, inverse, rvar_name, rdom_slots,
          mk_rdom, rdom_domain, rdom_at, rdom_var, find_arg, get_min_max_bounds, merge_bounds,
          Function.stage_values, FunctionSorter.include_with, FunctionSorter.accept,
          FunctionSorter.accept_list, FunctionSorter.accept_stages, FunctionSorter.sort_func,
          FunctionSorter.sort, ExpressionSorter.include_with, ExpressionSorter.accept,
          ExpressionSorter.accept_list, ExpressionSorter.sort, BoundsInferencer.include_with,
          BoundsInferencer.arg_bounds, BoundsInferencer.merge_args,
          BoundsInferencer.merge_previous, BoundsInferencer.update_bounds,
          BoundsInferencer.accept, BoundsInferencer.accept_list, BoundsInferencer.accept_stages,
          BoundsInferencer.inference_func, BoundsInferencer.inference, Memory.set_func, mk_func,
          mk_func_default, func_define, define_base_case, func_add_update,
          ReverseAccumulationVisitor.new, ReverseAccumulationVisitor.accumulate,
          ReverseAccumulationVisitor.adjoint_of, ReverseAccumulationVisitor.adjoint_funcs_at,
          ReverseAccumulationVisitor.canonicalize_arg, ReverseAccumulationVisitor.canonicalize,
          ReverseAccumulationVisitor.scatter, ReverseAccumulationVisitor.accumulate_exp,
          ReverseAccumulationVisitor.accept, ReverseAccumulationVisitor.walk,
          ReverseAccumulationVisitor.create_stub, ReverseAccumulationVisitor.create_stubs,
          ReverseAccumulationVisitor.seed_root, ReverseAccumulationVisitor.new_tmp,
          ReverseAccumulationVisitor.add_back, ReverseAccumulationVisitor.propagate_stage,
          ReverseAccumulationVisitor.propagate_stages, ReverseAccumulationVisitor.propagate_func,
          ReverseAccumulationVisitor.propagate_funcs,
          ReverseAccumulationVisitor.propagate_adjoints, propagate_adjoints, eval_expr, eval_args,
          find_rdom, find_rdom_list, rdom_points, lhs_is_pure, eval_update_points, eval_update,
          eval_updates, eval_func, adjoint_value, constant_memory, constant_output,
          multiply_memory, call_out_zero, shift_memory, reduction_memory, two_inputs_memory,
          let_output, divide_output, diamond_memory, diamond_output, Expr.operands,
          Expr.is_halide_call, Expr.call_func, Expr.size, Expr.size_list, subterms, subterms_list,
          direct_calls, direct_calls_list, all_calls, all_calls_list, Function.stage_exprs,
          program_roots, program_nodes, Consistent, func_name, UniqueNames, nested_memory,
          nested_output, FunctionSorter.Settled, FunctionSorter.Good, FunctionSorter.SortFuncSpec,
          WellFormed, untraversed, Expr.is_func_or_image_call, engine_calls,
          FuncsOnlyInHalideCalls, ReverseAccumulationVisitor.KeysIn,
          ReverseAccumulationVisitor.Stored, ReverseAccumulationVisitor.TmpDefined,
          ReverseAccumulationVisitor.StoredAll, SameNameSameArgs, NodesById, OperandsFirst,
          ExpressionSorter.Pending, shared_operand_expr, five_minus_x, two_sites_memory,
          two_sites_output, eval_pair, inferred_bounds, bounds_values, two_slots_memory,
          max_output, min_output, staged_memory, call_f_zero, shared_body_memory, supported_shape,
          renamed_args_memory, call_g_zero, tie_memory, tie_max_output, tie_min_output,
          unused_let_output, BoundsInferencer.Covered, BoundsInferencer.InferenceFuncSpec,
          Expr.erase, Expr.erase_list, Expr.arith, rule_contributions, accumulate_all,
          contributions_into, shared_leaf_expr, seeded_engine,
          ReverseAccumulationVisitor.stage_start, shared_body_expr, shared_body_b,
          shared_body_walk_start, Except.bind, Except.map, bind, pure, Except.pure]
    ring
  · simp [Expr.id, Expr.same_as, map_find, map_set, map_keys, Memory.fresh, mk_add, mk_sub,
          mk_mul, mk_div, mk_min, mk_max, mk_le, mk_ge, mk_select, mk_let, mk_float, mk_var,
          mk_vars, mk_neg, mk_exp, mk_call, VariableFinder.include_with, VariableFinder.accept,
          VariableFinder.accept_list, VariableFinder.find, VariableReplacer.mutate,
          VariableReplacer.mutate_args, VariableReplacer.replace, inverse, rvar_name, rdom_slots,
          mk_rdom, rdom_domain, rdom_at, rdom_var, find_arg, get_min_max_bounds, merge_bounds,
          Function.stage_values, FunctionSorter.include_with, FunctionSorter.accept,
          FunctionSorter.accept_list, FunctionSorter.accept_stages, FunctionSorter.sort_func,
          FunctionSorter.sort, ExpressionSorter.include_with, ExpressionSorter.accept,
          ExpressionSorter.accept_list, ExpressionSorter.sort, BoundsInferencer.include_with,
          BoundsInferencer.arg_bounds, BoundsInferencer.merge_args,
          BoundsInferencer.merge_previous, BoundsInferencer.update_bounds,
          BoundsInferencer.accept, BoundsInferencer.accept_list, BoundsInferencer.accept_stages,
          BoundsInferencer.inference_func, BoundsInferencer.inference, Memory.set_func, mk_func,
          mk_func_default, func_define, define_base_case, func_add_update,
          ReverseAccumulationVisitor.new, ReverseAccumulationVisitor.accumulate,
          ReverseAccumulationVisitor.adjoint_of, ReverseAccumulationVisitor.adjoint_funcs_at,
          ReverseAccumulationVisitor.canonicalize_arg, ReverseAccumulationVisitor.canonicalize,
          ReverseAccumulationVisitor.scatter, ReverseAccumulationVisitor.accumulate_exp,
          ReverseAccumulationVisitor.accept, ReverseAccumulationVisitor.walk,
          ReverseAccumulationVisitor.create_stub, ReverseAccumulationVisitor.create_stubs,
          ReverseAccumulationVisitor.seed_root, ReverseAccumulationVisitor.new_tmp,
          ReverseAccumulationVisitor.add_back, ReverseAccumulationVisitor.propagate_stage,
          ReverseAccumulationVisitor.propagate_stages, ReverseAccumulationVisitor.propagate_func,
          ReverseAccumulationVisitor.propagate_funcs,
          ReverseAccumulationVisitor.propagate_adjoints, propagate_adjoints, eval_expr, eval_args,
          find_rdom, find_rdom_list, rdom_points, lhs_is_pure, eval_update_points, eval_update,
          eval_updates, eval_func, adjoint_value, constant_memory, constant_output,
          multiply_memory, call_out_zero, shift_memory, reduction_memory, two_inputs_memory,
          let_output, divide_output, diamond_memory, diamond_output, Expr.operands,
          Expr.is_halide_call, Expr.call_func, Expr.size, Expr.size_list, subterms, subterms_list,
          direct_calls, direct_calls_list, all_calls, all_calls_list, Function.stage_exprs,
          program_roots, program_nodes, Consistent, func_name, UniqueNames, nested_memory,
          nested_output, FunctionSorter.Settled, FunctionSorter.Good, FunctionSorter.SortFuncSpec,
          WellFormed, untraversed, Expr.is_func_or_image_call, engine_calls,
          FuncsOnlyInHalideCalls, ReverseAccumulationVisitor.KeysIn,
          ReverseAccumulationVisitor.Stored, ReverseAccumulationVisitor.TmpDefined,
          ReverseAccumulationVisitor.StoredAll, SameNameSameArgs, NodesById, OperandsFirst,
          ExpressionSorter.Pending, shared_operand_expr, five_minus_x, two_sites_memory,
          two_sites_output, eval_pair, inferred_bounds, bounds_values, two_slots_memory,
          max_output, min_output, staged_memory, call_f_zero, shared_body_memory, supported_shape,
          renamed_args_memory, call_g_zero, tie_memory, tie_max_output, tie_min_output,
          unused_let_output, BoundsInferencer.Covered, BoundsInferencer.InferenceFuncSpec,
          Expr.erase, Expr.erase_list, Expr.arith, rule_contributions, accumulate_all,
          contributions_into, shared_leaf_expr, seeded_engine,
          ReverseAccumulationVisitor.stage_start, shared_body_expr, shared_body_b,
          shared_body_walk_start, Except.bind, Except.map, bind, pure, Except.pure]
    ring

set_option maxHeartbeats 40000000 in
set_option maxRecDepth 100000 in
/-- C6: for `a(x) = p`, `b(x) = q` with `q ≠ 0` and the output `a(0) / b(0)`, the
returned adjoints satisfy `Adjoint[a](0) = 1 / q` and `Adjoint[b](0) = -p / (q * q)`
in exact rational arithmetic. -/
theorem divide_adjoints (p q : ℚ) (hq : q ≠ 0) (n m : ℕ) :
    adjoint_value (propagate_adjoints (two_inputs_memory p q) (n + 1) divide_output) (m + 3)
      "a" [0] = some (1 / q) ∧
    adjoint_value (propagate_adjoints (two_inputs_memory p q) (n + 1) divide_output) (m + 3)
      "b" [0] = some (-p / (q * q)) := by
  constructor
  · simp [Expr.id, Expr.same_as, map_find, map_set, map_keys, Memory.fresh, mk_add, mk_sub,
          mk_mul, mk_div, mk_min, mk_max, mk_le, mk_ge, mk_select, mk_let, mk_float, mk_var,
          mk_vars, mk_neg, mk_exp, mk_call, VariableFinder.include_with, VariableFinder.accept,
          VariableFinder.accept_list, VariableFinder.find, VariableReplacer.mutate,
          VariableReplacer.mutate_args, VariableReplacer.replace, inverse, rvar_name, rdom_slots,
          mk_rdom, rdom_domain, rdom_at, rdom_var, find_arg, get_min_max_bounds, merge_bounds,
          Function.stage_values, FunctionSorter.include_with, FunctionSorter.accept,
          FunctionSorter.accept_list, FunctionSorter.accept_stages, FunctionSorter.sort_func,
          FunctionSorter.sort, ExpressionSorter.include_with, ExpressionSorter.accept,
          ExpressionSorter.accept_list, ExpressionSorter.sort, BoundsInferencer.include_with,
          BoundsInferencer.arg_bounds, BoundsInferencer.merge_args,
          BoundsInferencer.merge_previous, BoundsInferencer.update_bounds,
          BoundsInferencer.accept, BoundsInferencer.accept_list, BoundsInferencer.accept_stages,
          BoundsInferencer.inference_func, BoundsInferencer.inference, Memory.set_func, mk_func,
          mk_func_default, func_define, define_base_case, func_add_update,
          ReverseAccumulationVisitor.new, ReverseAccumulationVisitor.accumulate,
          ReverseAccumulationVisitor.adjoint_of, ReverseAccumulationVisitor.adjoint_funcs_at,
          ReverseAccumulationVisitor.canonicalize_arg, ReverseAccumulationVisitor.canonicalize,
          ReverseAccumulationVisitor.scatter, ReverseAccumulationVisitor.accumulate_exp,
          ReverseAccumulationVisitor.accept, ReverseAccumulationVisitor.walk,
          ReverseAccumulationVisitor.create_stub, ReverseAccumulationVisitor.create_stubs,
          ReverseAccumulationVisitor.seed_root, ReverseAccumulationVisitor.new_tmp,
          ReverseAccumulationVisitor.add_back, ReverseAccumulationVisitor.propagate_stage,
          ReverseAccumulationVisitor.propagate_stages, ReverseAccumulationVisitor.propagate_func,
          ReverseAccumulationVisitor.propagate_funcs,
          ReverseAccumulationVisitor.propagate_adjoints, propagate_adjoints, eval_expr, eval_args,
          find_rdom, find_rdom_list, rdom_points, lhs_is_pure, eval_update_points, eval_update,
          eval_updates, eval_func, adjoint_value, constant_memory, constant_output,
          multiply_memory, call_out_zero, shift_memory, reduction_memory, two_inputs_memory,
          let_output, divide_output, diamond_memory, diamond_output, Expr.operands,
          Expr.is_halide_call, Expr.call_func, Expr.size, Expr.size_list, subterms, subterms_list,
          direct_calls, direct_calls_list, all_calls, all_calls_list, Function.stage_exprs,
          program_roots, program_nodes, Consistent, func_name, UniqueNames, nested_memory,
          nested_output, FunctionSorter.Settled, FunctionSorter.Good, FunctionSorter.SortFuncSpec,
          WellFormed, untraversed, Expr.is_func_or_image_call, engine_calls,
          FuncsOnlyInHalideCalls, ReverseAccumulationVisitor.KeysIn,
          ReverseAccumulationVisitor.Stored, ReverseAccumulationVisitor.TmpDefined,
          ReverseAccumulationVisitor.StoredAll, SameNameSameArgs, NodesById, OperandsFirst,
          ExpressionSorter.Pending, shared_operand_expr, five_minus_x, two_sites_memory,
          two_sites_output, eval_pair, inferred_bounds, bounds_values, two_slots_memory,
          max_output, min_output, staged_memory, call_f_zero, shared_body_memory, supported_shape,
          renamed_args_memory, call_g_zero, tie_memory, tie_max_output, tie_min_output,
          unused_let_output, BoundsInferencer.Covered, BoundsInferencer.InferenceFuncSpec,
          Expr.erase, Expr.erase_list, Expr.arith, rule_contributions, accumulate_all,
          contributions_into, shared_leaf_expr, seeded_engine,
          ReverseAccumulationVisitor.stage_start, shared_body_expr, shared_body_b,
          shared_body_walk_start, Except.bind, Except.map, bind, pure, Except.pure, hq]
  · simp [Expr.id, Expr.same_as, map_find, map_set, map_keys, Memory.fresh, mk_add, mk_sub,
          mk_mul, mk_div, mk_min, mk_max, mk_le, mk_ge, mk_select, mk_let, mk_float, mk_var,
          mk_vars, mk_neg, mk_exp, mk_call, VariableFinder.include_with, VariableFinder.accept,
          VariableFinder.accept_list, VariableFinder.find, VariableReplacer.mutate,
          VariableReplacer.mutate_args, VariableReplacer.replace, inverse, rvar_name, rdom_slots,
          mk_rdom, rdom_domain, rdom_at, rdom_var, find_arg, get_min_max_bounds, merge_bounds,
          Function.stage_values, FunctionSorter.include_with, FunctionSorter.accept,
          FunctionSorter.accept_list, FunctionSorter.accept_stages, FunctionSorter.sort_func,
          FunctionSorter.sort, ExpressionSorter.include_with, ExpressionSorter.accept,
          ExpressionSorter.accept_list, ExpressionSorter.sort, BoundsInferencer.include_with,
          BoundsInferencer.arg_bounds, BoundsInferencer.merge_args,
          BoundsInferencer.merge_previous, BoundsInferencer.update_bounds,
          BoundsInferencer.accept, BoundsInferencer.accept_list, BoundsInferencer.accept_stages,
          BoundsInferencer.inference_func, BoundsInferencer.inference, Memory.set_func, mk_func,
          mk_func_default, func_define, define_base_case, func_add_update,
          ReverseAccumulationVisitor.new, ReverseAccumulationVisitor.accumulate,
          ReverseAccumulationVisitor.adjoint_of, ReverseAccumulationVisitor.adjoint_funcs_at,
          ReverseAccumulationVisitor.canonicalize_arg, ReverseAccumulationVisitor.canonicalize,
          ReverseAccumulationVisitor.scatter, ReverseAccumulationVisitor.accumulate_exp,
          ReverseAccumulationVisitor.accept, ReverseAccumulationVisitor.walk,
          ReverseAccumulationVisitor.create_stub, ReverseAccumulationVisitor.create_stubs,
          ReverseAccumulationVisitor.seed_root, ReverseAccumulationVisitor.new_tmp,
          ReverseAccumulationVisitor.add_back, ReverseAccumulationVisitor.propagate_stage,
          ReverseAccumulationVisitor.propagate_stages, ReverseAccumulationVisitor.propagate_func,
          ReverseAccumulationVisitor.propagate_funcs,
          ReverseAccumulationVisitor.propagate_adjoints, propagate_adjoints, eval_expr, eval_args,
          find_rdom, find_rdom_list, rdom_points, lhs_is_pure, eval_update_points, eval_update,
          eval_updates, eval_func, adjoint_value, constant_memory, constant_output,
          multiply_memory, call_out_zero, shift_memory, reduction_memory, two_inputs_memory,
          let_output, divide_output, diamond_memory, diamond_output, Expr.operands,
          Expr.is_halide_call, Expr.call_func, Expr.size, Expr.size_list, subterms, subterms_list,
          direct_calls, direct_calls_list, all_calls, all_calls_list, Function.stage_exprs,
          program_roots, program_nodes, Consistent, func_name, UniqueNames, nested_memory,
          nested_output, FunctionSorter.Settled, FunctionSorter.Good, FunctionSorter.SortFuncSpec,
          WellFormed, untraversed, Expr.is_func_or_image_call, engine_calls,
          FuncsOnlyInHalideCalls, ReverseAccumulationVisitor.KeysIn,
          ReverseAccumulationVisitor.Stored, ReverseAccumulationVisitor.TmpDefined,
          ReverseAccumulationVisitor.StoredAll, SameNameSameArgs, NodesById, OperandsFirst,
          ExpressionSorter.Pending, shared_operand_expr, five_minus_x, two_sites_memory,
          two_sites_output, eval_pair, inferred_bounds, bounds_values, two_slots_memory,
          max_output, min_output, staged_memory, call_f_zero, shared_body_memory, supported_shape,
          renamed_args_memory, call_g_zero, tie_memory, tie_max_output, tie_min_output,
          unused_let_output, BoundsInferencer.Covered, BoundsInferencer.InferenceFuncSpec,
          Expr.erase, Expr.erase_list, Expr.arith, rule_contributions, accumulate_all,
          contributions_into, shared_leaf_expr, seeded_engine,
          ReverseAccumulationVisitor.stage_start, shared_body_expr, shared_body_b,
          shared_body_walk_start, Except.bind, Except.map, bind, pure, Except.pure, hq]

/-- Witness of C6 at the instance of the specification, `p = 6` and `q = 3`. -/
theorem divide_adjoints_witness :
    (3 : ℚ) ≠ 0 ∧
    adjoint_value (propagate_adjoints (two_inputs_memory 6 3) (0 + 1) divide_output) (0 + 3)
      "a" [0] = some (1 / 3) ∧
    adjoint_value (propagate_adjoints (two_inputs_memory 6 3) (0 + 1) divide_output) (0 + 3)
      "b" [0] = some (-6 / (3 * 3)) :=
  ⟨by norm_num, divide_adjoints 6 3 (by norm_num) 0 0⟩

set_option maxHeartbeats 40000000 in
set_option maxRecDepth 100000 in
/-- C7, the code at the failing input: for the diamond `output = a(0) + b(0)`,
`a(x) = c(x)`, `b(x) = c(x)` the list of `FunctionSorter` is `a, c, b` (handles
`0, 2, 1`): `c` stands before its caller `b`. -/
theorem diamond_order (n : ℕ) :
    FunctionSorter.sort diamond_memory (n + 2) diamond_output = .ok [0, 2, 1] := by
  simp [Expr.id, Expr.same_as, map_find, map_set, map_keys, Memory.fresh, mk_add, mk_sub, mk_mul,
        mk_div, mk_min, mk_max, mk_le, mk_ge, mk_select, mk_let, mk_float, mk_var, mk_vars,
        mk_neg, mk_exp, mk_call, VariableFinder.include_with, VariableFinder.accept,
        VariableFinder.accept_list, VariableFinder.find, VariableReplacer.mutate,
        VariableReplacer.mutate_args, VariableReplacer.replace, inverse, rvar_name, rdom_slots,
        mk_rdom, rdom_domain, rdom_at, rdom_var, find_arg, get_min_max_bounds, merge_bounds,
        Function.stage_values, FunctionSorter.include_with, FunctionSorter.accept,
        FunctionSorter.accept_list, FunctionSorter.accept_stages, FunctionSorter.sort_func,
        FunctionSorter.sort, ExpressionSorter.include_with, ExpressionSorter.accept,
        ExpressionSorter.accept_list, ExpressionSorter.sort, BoundsInferencer.include_with,
        BoundsInferencer.arg_bounds, BoundsInferencer.merge_args, BoundsInferencer.merge_previous,
        BoundsInferencer.update_bounds, BoundsInferencer.accept, BoundsInferencer.accept_list,
        BoundsInferencer.accept_stages, BoundsInferencer.inference_func,
        BoundsInferencer.inference, Memory.set_func, mk_func, mk_func_default, func_define,
        define_base_case, func_add_update, ReverseAccumulationVisitor.new,
        ReverseAccumulationVisitor.accumulate, ReverseAccumulationVisitor.adjoint_of,
        ReverseAccumulationVisitor.adjoint_funcs_at, ReverseAccumulationVisitor.canonicalize_arg,
        ReverseAccumulationVisitor.canonicalize, ReverseAccumulationVisitor.scatter,
        ReverseAccumulationVisitor.accumulate_exp, ReverseAccumulationVisitor.accept,
        ReverseAccumulationVisitor.walk, ReverseAccumulationVisitor.create_stub,
        ReverseAccumulationVisitor.create_stubs, ReverseAccumulationVisitor.seed_root,
        ReverseAccumulationVisitor.new_tmp, ReverseAccumulationVisitor.add_back,
        ReverseAccumulationVisitor.propagate_stage, ReverseAccumulationVisitor.propagate_stages,
        ReverseAccumulationVisitor.propagate_func, ReverseAccumulationVisitor.propagate_funcs,
        ReverseAccumulationVisitor.propagate_adjoints, propagate_adjoints, eval_expr, eval_args,
        find_rdom, find_rdom_list, rdom_points, lhs_is_pure, eval_update_points, eval_update,
        eval_updates, eval_func, adjoint_value, constant_memory, constant_output, multiply_memory,
        call_out_zero, shift_memory, reduction_memory, two_inputs_memory, let_output,
        divide_output, diamond_memory, diamond_output, Expr.operands, Expr.is_halide_call,
        Expr.call_func, Expr.size, Expr.size_list, subterms, subterms_list, direct_calls,
        direct_calls_list, all_calls, all_calls_list, Function.stage_exprs, program_roots,
        program_nodes, Consistent, func_name, UniqueNames, nested_memory, nested_output,
        FunctionSorter.Settled, FunctionSorter.Good, FunctionSorter.SortFuncSpec, WellFormed,
        untraversed, Expr.is_func_or_image_call, engine_calls, FuncsOnlyInHalideCalls,
        ReverseAccumulationVisitor.KeysIn, ReverseAccumulationVisitor.Stored,
        ReverseAccumulationVisitor.TmpDefined, ReverseAccumulationVisitor.StoredAll,
        SameNameSameArgs, NodesById, OperandsFirst, ExpressionSorter.Pending, shared_operand_expr,
        five_minus_x, two_sites_memory, two_sites_output, eval_pair, inferred_bounds,
        bounds_values, two_slots_memory, max_output, min_output, staged_memory, call_f_zero,
        shared_body_memory, supported_shape, renamed_args_memory, call_g_zero, tie_memory,
        tie_max_output, tie_min_output, unused_let_output, BoundsInferencer.Covered,
        BoundsInferencer.InferenceFuncSpec, Expr.erase, Expr.erase_list, Expr.arith,
        rule_contributions, accumulate_all, contributions_into, shared_leaf_expr, seeded_engine,
        ReverseAccumulationVisitor.stage_start, shared_body_expr, shared_body_b,
        shared_body_walk_start, Except.bind, Except.map, bind, pure, Except.pure]

set_option maxHeartbeats 40000000 in
set_option maxRecDepth 100000 in
/-- C8 as stated fails: for the output `f(g(0))` the function `g` is called inside
the index argument of the call of `f`, and the list of `FunctionSorter` is `f` alone. -/
theorem nested_call_not_collected :
    FunctionSorter.sort nested_memory 2 nested_output = .ok [0] ∧
    ReachableThroughArgs nested_memory nested_output 1 ∧ 1 ∉ [0] := by
  refine ⟨?_, ?_, by decide⟩
  · simp [Expr.id, Expr.same_as, map_find, map_set, map_keys, Memory.fresh, mk_add, mk_sub,
          mk_mul, mk_div, mk_min, mk_max, mk_le, mk_ge, mk_select, mk_let, mk_float, mk_var,
          mk_vars, mk_neg, mk_exp, mk_call, VariableFinder.include_with, VariableFinder.accept,
          VariableFinder.accept_list, VariableFinder.find, VariableReplacer.mutate,
          VariableReplacer.mutate_args, VariableReplacer.replace, inverse, rvar_name, rdom_slots,
          mk_rdom, rdom_domain, rdom_at, rdom_var, find_arg, get_min_max_bounds, merge_bounds,
          Function.stage_values, FunctionSorter.include_with, FunctionSorter.accept,
          FunctionSorter.accept_list, FunctionSorter.accept_stages, FunctionSorter.sort_func,
          FunctionSorter.sort, ExpressionSorter.include_with, ExpressionSorter.accept,
          ExpressionSorter.accept_list, ExpressionSorter.sort, BoundsInferencer.include_with,
          BoundsInferencer.arg_bounds, BoundsInferencer.merge_args,
          BoundsInferencer.merge_previous, BoundsInferencer.update_bounds,
          BoundsInferencer.accept, BoundsInferencer.accept_list, BoundsInferencer.accept_stages,
          BoundsInferencer.inference_func, BoundsInferencer.inference, Memory.set_func, mk_func,
          mk_func_default, func_define, define_base_case, func_add_update,
          ReverseAccumulationVisitor.new, ReverseAccumulationVisitor.accumulate,
          ReverseAccumulationVisitor.adjoint_of, ReverseAccumulationVisitor.adjoint_funcs_at,
          ReverseAccumulationVisitor.canonicalize_arg, ReverseAccumulationVisitor.canonicalize,
          ReverseAccumulationVisitor.scatter, ReverseAccumulationVisitor.accumulate_exp,
          ReverseAccumulationVisitor.accept, ReverseAccumulationVisitor.walk,
          ReverseAccumulationVisitor.create_stub, ReverseAccumulationVisitor.create_stubs,
          ReverseAccumulationVisitor.seed_root, ReverseAccumulationVisitor.new_tmp,
          ReverseAccumulationVisitor.add_back, ReverseAccumulationVisitor.propagate_stage,
          ReverseAccumulationVisitor.propagate_stages, ReverseAccumulationVisitor.propagate_func,
          ReverseAccumulationVisitor.propagate_funcs,
          ReverseAccumulationVisitor.propagate_adjoints, propagate_adjoints, eval_expr, eval_args,
          find_rdom, find_rdom_list, rdom_points, lhs_is_pure, eval_update_points, eval_update,
          eval_updates, eval_func, adjoint_value, constant_memory, constant_output,
          multiply_memory, call_out_zero, shift_memory, reduction_memory, two_inputs_memory,
          let_output, divide_output, diamond_memory, diamond_output, Expr.operands,
          Expr.is_halide_call, Expr.call_func, Expr.size, Expr.size_list, subterms, subterms_list,
          direct_calls, direct_calls_list, all_calls, all_calls_list, Function.stage_exprs,
          program_roots, program_nodes, Consistent, func_name, UniqueNames, nested_memory,
          nested_output, FunctionSorter.Settled, FunctionSorter.Good, FunctionSorter.SortFuncSpec,
          WellFormed, untraversed, Expr.is_func_or_image_call, engine_calls,
          FuncsOnlyInHalideCalls, ReverseAccumulationVisitor.KeysIn,
          ReverseAccumulationVisitor.Stored, ReverseAccumulationVisitor.TmpDefined,
          ReverseAccumulationVisitor.StoredAll, SameNameSameArgs, NodesById, OperandsFirst,
          ExpressionSorter.Pending, shared_operand_expr, five_minus_x, two_sites_memory,
          two_sites_output, eval_pair, inferred_bounds, bounds_values, two_slots_memory,
          max_output, min_output, staged_memory, call_f_zero, shared_body_memory, supported_shape,
          renamed_args_memory, call_g_zero, tie_memory, tie_max_output, tie_min_output,
          unused_let_output, BoundsInferencer.Covered, BoundsInferencer.InferenceFuncSpec,
          Expr.erase, Expr.erase_list, Expr.arith, rule_contributions, accumulate_all,
          contributions_into, shared_leaf_expr, seeded_engine,
          ReverseAccumulationVisitor.stage_start, shared_body_expr, shared_body_b,
          shared_body_walk_start, Except.bind, Except.map, bind, pure, Except.pure]
  · exact ReachableThroughArgs.root 1 (by simp [all_calls, all_calls_list, nested_output])

set_option maxHeartbeats 40000000 in
set_option maxRecDepth 100000 in
/-- Witness of C9: the program `f(x) = 2; g(x) = 3; out(x) = f(x) * g(x)` with the
output `out(0)`, on which the pass completes. -/
theorem returned_keys_are_sorted_names_witness :
    Consistent (multiply_memory 2 3) (call_out_zero 2) ∧
    FuncsOnlyInHalideCalls (multiply_memory 2 3) (call_out_zero 2) ∧
    ∃ r, propagate_adjoints (multiply_memory 2 3) 3 (call_out_zero 2) = .ok r ∧
      ∃ funcs, FunctionSorter.sort (multiply_memory 2 3) 3 (call_out_zero 2) = .ok funcs ∧
        (∀ k, k ∈ map_keys r.1 ↔ k ∈ funcs.map (func_name (multiply_memory 2 3))) ∧
        ∀ (h : Nat) (args : List Expr) (adjoint : Expr) (s t : ReverseAccumulationVisitor),
          ReverseAccumulationVisitor.scatter h args adjoint s = .ok t →
          ∀ k ∈ map_keys t.adjoint_funcs,
            k ∈ map_keys s.adjoint_funcs ∨ k = func_name s.mem h := by
  have hc : Consistent (multiply_memory 2 3) (call_out_zero 2) :=
    consistent_of_nodup_ids (by decide)
  have hh : FuncsOnlyInHalideCalls (multiply_memory 2 3) (call_out_zero 2) :=
    funcs_only_in_halide_calls_of_all (by decide)
  have hr : ∃ r, propagate_adjoints (multiply_memory 2 3) 3 (call_out_zero 2) = .ok r := by
    simp [Expr.id, Expr.same_as, map_find, map_set, map_keys, Memory.fresh, mk_add, mk_sub,
          mk_mul, mk_div, mk_min, mk_max, mk_le, mk_ge, mk_select, mk_let, mk_float, mk_var,
          mk_vars, mk_neg, mk_exp, mk_call, VariableFinder.include_with, VariableFinder.accept,
          VariableFinder.accept_list, VariableFinder.find, VariableReplacer.mutate,
          VariableReplacer.mutate_args, VariableReplacer.replace, inverse, rvar_name, rdom_slots,
          mk_rdom, rdom_domain, rdom_at, rdom_var, find_arg, get_min_max_bounds, merge_bounds,
          Function.stage_values, FunctionSorter.include_with, FunctionSorter.accept,
          FunctionSorter.accept_list, FunctionSorter.accept_stages, FunctionSorter.sort_func,
          FunctionSorter.sort, ExpressionSorter.include_with, ExpressionSorter.accept,
          ExpressionSorter.accept_list, ExpressionSorter.sort, BoundsInferencer.include_with,
          BoundsInferencer.arg_bounds, BoundsInferencer.merge_args,
          BoundsInferencer.merge_previous, BoundsInferencer.update_bounds,
          BoundsInferencer.accept, BoundsInferencer.accept_list, BoundsInferencer.accept_stages,
          BoundsInferencer.inference_func, BoundsInferencer.inference, Memory.set_func, mk_func,
          mk_func_default, func_define, define_base_case, func_add_update,
          ReverseAccumulationVisitor.new, ReverseAccumulationVisitor.accumulate,
          ReverseAccumulationVisitor.adjoint_of, ReverseAccumulationVisitor.adjoint_funcs_at,
          ReverseAccumulationVisitor.canonicalize_arg, ReverseAccumulationVisitor.canonicalize,
          ReverseAccumulationVisitor.scatter, ReverseAccumulationVisitor.accumulate_exp,
          ReverseAccumulationVisitor.accept, ReverseAccumulationVisitor.walk,
          ReverseAccumulationVisitor.create_stub, ReverseAccumulationVisitor.create_stubs,
          ReverseAccumulationVisitor.seed_root, ReverseAccumulationVisitor.new_tmp,
          ReverseAccumulationVisitor.add_back, ReverseAccumulationVisitor.propagate_stage,
          ReverseAccumulationVisitor.propagate_stages, ReverseAccumulationVisitor.propagate_func,
          ReverseAccumulationVisitor.propagate_funcs,
          ReverseAccumulationVisitor.propagate_adjoints, propagate_adjoints, eval_expr, eval_args,
          find_rdom, find_rdom_list, rdom_points, lhs_is_pure, eval_update_points, eval_update,
          eval_updates, eval_func, adjoint_value, constant_memory, constant_output,
          multiply_memory, call_out_zero, shift_memory, reduction_memory, two_inputs_memory,
          let_output, divide_output, diamond_memory, diamond_output, Expr.operands,
          Expr.is_halide_call, Expr.call_func, Expr.size, Expr.size_list, subterms, subterms_list,
          direct_calls, direct_calls_list, all_calls, all_calls_list, Function.stage_exprs,
          program_roots, program_nodes, Consistent, func_name, UniqueNames, nested_memory,
          nested_output, FunctionSorter.Settled, FunctionSorter.Good, FunctionSorter.SortFuncSpec,
          WellFormed, untraversed, Expr.is_func_or_image_call, engine_calls,
          FuncsOnlyInHalideCalls, ReverseAccumulationVisitor.KeysIn,
          ReverseAccumulationVisitor.Stored, ReverseAccumulationVisitor.TmpDefined,
          ReverseAccumulationVisitor.StoredAll, SameNameSameArgs, NodesById, OperandsFirst,
          ExpressionSorter.Pending, shared_operand_expr, five_minus_x, two_sites_memory,
          two_sites_output, eval_pair, inferred_bounds, bounds_values, two_slots_memory,
          max_output, min_output, staged_memory, call_f_zero, shared_body_memory, supported_shape,
          renamed_args_memory, call_g_zero, tie_memory, tie_max_output, tie_min_output,
          unused_let_output, BoundsInferencer.Covered, BoundsInferencer.InferenceFuncSpec,
          Expr.erase, Expr.erase_list, Expr.arith, rule_contributions, accumulate_all,
          contributions_into, shared_leaf_expr, seeded_engine,
          ReverseAccumulationVisitor.stage_start, shared_body_expr, shared_body_b,
          shared_body_walk_start, Except.bind, Except.map, bind, pure, Except.pure]
  obtain ⟨r, hr⟩ := hr
  exact ⟨hc, hh, r, hr, returned_keys_are_sorted_names _ _ _ r hc hh hr⟩

set_option maxHeartbeats 40000000 in
set_option maxRecDepth 100000 in
/-- Witness of C10: the program `f(x) = x; out(x) = f(x + 1)` with the output
`out(0)`, on which the pass completes. -/
theorem adjoint_args_eq_primal_args_witness :
    Consistent (shift_memory 1) (call_out_zero 1) ∧
    FuncsOnlyInHalideCalls (shift_memory 1) (call_out_zero 1) ∧
    ∃ r, propagate_adjoints (shift_memory 1) 2 (call_out_zero 1) = .ok r ∧
      ∃ funcs, FunctionSorter.sort (shift_memory 1) 2 (call_out_zero 1) = .ok funcs ∧
        (∀ f ∈ funcs, ∃ (P : Function) (a : Nat) (F : Function),
          (shift_memory 1).funcs[f]? = some P ∧
          map_find P.name r.1 = some a ∧ r.2.funcs[a]? = some F ∧ F.value.isSome = true ∧
          F.args = P.args) ∧
        (∀ k a, map_find k r.1 = some a → ∃ f ∈ funcs, ∃ P F : Function,
          (shift_memory 1).funcs[f]? = some P ∧ P.name = k ∧ r.2.funcs[a]? = some F ∧
          F.args = P.args) ∧
        (∀ (h : Nat) (s t : ReverseAccumulationVisitor),
          ReverseAccumulationVisitor.create_stub h s = .ok t →
          ∃ func : Function, s.mem.funcs[h]? = some func ∧
            ReverseAccumulationVisitor.Stored t func.name func.args) ∧
        ∀ (func : Function) (stage : Option Expr) (b : Bool)
          (s t : ReverseAccumulationVisitor),
          ReverseAccumulationVisitor.propagate_stage func stage b s = .ok t →
          ReverseAccumulationVisitor.Stored t func.name func.args := by
  have hc : Consistent (shift_memory 1) (call_out_zero 1) :=
    consistent_of_nodup_ids (by decide)
  have hh : FuncsOnlyInHalideCalls (shift_memory 1) (call_out_zero 1) :=
    funcs_only_in_halide_calls_of_all (by decide)
  have hr : ∃ r, propagate_adjoints (shift_memory 1) 2 (call_out_zero 1) = .ok r := by
    simp [Expr.id, Expr.same_as, map_find, map_set, map_keys, Memory.fresh, mk_add, mk_sub,
          mk_mul, mk_div, mk_min, mk_max, mk_le, mk_ge, mk_select, mk_let, mk_float, mk_var,
          mk_vars, mk_neg, mk_exp, mk_call, VariableFinder.include_with, VariableFinder.accept,
          VariableFinder.accept_list, VariableFinder.find, VariableReplacer.mutate,
          VariableReplacer.mutate_args, VariableReplacer.replace, inverse, rvar_name, rdom_slots,
          mk_rdom, rdom_domain, rdom_at, rdom_var, find_arg, get_min_max_bounds, merge_bounds,
          Function.stage_values, FunctionSorter.include_with, FunctionSorter.accept,
          FunctionSorter.accept_list, FunctionSorter.accept_stages, FunctionSorter.sort_func,
          FunctionSorter.sort, ExpressionSorter.include_with, ExpressionSorter.accept,
          ExpressionSorter.accept_list, ExpressionSorter.sort, BoundsInferencer.include_with,
          BoundsInferencer.arg_bounds, BoundsInferencer.merge_args,
          BoundsInferencer.merge_previous, BoundsInferencer.update_bounds,
          BoundsInferencer.accept, BoundsInferencer.accept_list, BoundsInferencer.accept_stages,
          BoundsInferencer.inference_func, BoundsInferencer.inference, Memory.set_func, mk_func,
          mk_func_default, func_define, define_base_case, func_add_update,
          ReverseAccumulationVisitor.new, ReverseAccumulationVisitor.accumulate,
          ReverseAccumulationVisitor.adjoint_of, ReverseAccumulationVisitor.adjoint_funcs_at,
          ReverseAccumulationVisitor.canonicalize_arg, ReverseAccumulationVisitor.canonicalize,
          ReverseAccumulationVisitor.scatter, ReverseAccumulationVisitor.accumulate_exp,
          ReverseAccumulationVisitor.accept, ReverseAccumulationVisitor.walk,
          ReverseAccumulationVisitor.create_stub, ReverseAccumulationVisitor.create_stubs,
          ReverseAccumulationVisitor.seed_root, ReverseAccumulationVisitor.new_tmp,
          ReverseAccumulationVisitor.add_back, ReverseAccumulationVisitor.propagate_stage,
          ReverseAccumulationVisitor.propagate_stages, ReverseAccumulationVisitor.propagate_func,
          ReverseAccumulationVisitor.propagate_funcs,
          ReverseAccumulationVisitor.propagate_adjoints, propagate_adjoints, eval_expr, eval_args,
          find_rdom, find_rdom_list, rdom_points, lhs_is_pure, eval_update_points, eval_update,
          eval_updates, eval_func, adjoint_value, constant_memory, constant_output,
          multiply_memory, call_out_zero, shift_memory, reduction_memory, two_inputs_memory,
          let_output, divide_output, diamond_memory, diamond_output, Expr.operands,
          Expr.is_halide_call, Expr.call_func, Expr.size, Expr.size_list, subterms, subterms_list,
          direct_calls, direct_calls_list, all_calls, all_calls_list, Function.stage_exprs,
          program_roots, program_nodes, Consistent, func_name, UniqueNames, nested_memory,
          nested_output, FunctionSorter.Settled, FunctionSorter.Good, FunctionSorter.SortFuncSpec,
          WellFormed, untraversed, Expr.is_func_or_image_call, engine_calls,
          FuncsOnlyInHalideCalls, ReverseAccumulationVisitor.KeysIn,
          ReverseAccumulationVisitor.Stored, ReverseAccumulationVisitor.TmpDefined,
          ReverseAccumulationVisitor.StoredAll, SameNameSameArgs, NodesById, OperandsFirst,
          ExpressionSorter.Pending, shared_operand_expr, five_minus_x, two_sites_memory,
          two_sites_output, eval_pair, inferred_bounds, bounds_values, two_slots_memory,
          max_output, min_output, staged_memory, call_f_zero, shared_body_memory, supported_shape,
          renamed_args_memory, call_g_zero, tie_memory, tie_max_output, tie_min_output,
          unused_let_output, BoundsInferencer.Covered, BoundsInferencer.InferenceFuncSpec,
          Expr.erase, Expr.erase_list, Expr.arith, rule_contributions, accumulate_all,
          contributions_into, shared_leaf_expr, seeded_engine,
          ReverseAccumulationVisitor.stage_start, shared_body_expr, shared_body_b,
          shared_body_walk_start, Except.bind, Except.map, bind, pure, Except.pure]
  obtain ⟨r, hr⟩ := hr
  exact ⟨hc, hh, r, hr, adjoint_args_eq_primal_args _ _ _ r hc hh hr⟩

set_option maxHeartbeats 40000000 in
set_option maxRecDepth 100000 in
/-- C12, the code at the failing input: for `e = 5 - x`, where `x` lies in the
second operand of the difference, `inverse(x, e)` is `x - 5`; with `e` substituted
for `x` its value is `-v` when `x` has the value `v`, not `v`. -/
theorem inverse_of_five_minus_x (m : Memory) (v : ℤ) :
    (inverse "x" five_minus_x m).map
      (fun r => eval_expr (fun _ _ => none) [("x", (v : ℚ))]
        (VariableReplacer.replace r.1 "x" five_minus_x r.2).1) = .ok (some (-(v : ℚ))) := by
  simp [Expr.id, Expr.same_as, map_find, map_set, map_keys, Memory.fresh, mk_add, mk_sub, mk_mul,
        mk_div, mk_min, mk_max, mk_le, mk_ge, mk_select, mk_let, mk_float, mk_var, mk_vars,
        mk_neg, mk_exp, mk_call, VariableFinder.include_with, VariableFinder.accept,
        VariableFinder.accept_list, VariableFinder.find, VariableReplacer.mutate,
        VariableReplacer.mutate_args, VariableReplacer.replace, inverse, rvar_name, rdom_slots,
        mk_rdom, rdom_domain, rdom_at, rdom_var, find_arg, get_min_max_bounds, merge_bounds,
        Function.stage_values, FunctionSorter.include_with, FunctionSorter.accept,
        FunctionSorter.accept_list, FunctionSorter.accept_stages, FunctionSorter.sort_func,
        FunctionSorter.sort, ExpressionSorter.include_with, ExpressionSorter.accept,
        ExpressionSorter.accept_list, ExpressionSorter.sort, BoundsInferencer.include_with,
        BoundsInferencer.arg_bounds, BoundsInferencer.merge_args, BoundsInferencer.merge_previous,
        BoundsInferencer.update_bounds, BoundsInferencer.accept, BoundsInferencer.accept_list,
        BoundsInferencer.accept_stages, BoundsInferencer.inference_func,
        BoundsInferencer.inference, Memory.set_func, mk_func, mk_func_default, func_define,
        define_base_case, func_add_update, ReverseAccumulationVisitor.new,
        ReverseAccumulationVisitor.accumulate, ReverseAccumulationVisitor.adjoint_of,
        ReverseAccumulationVisitor.adjoint_funcs_at, ReverseAccumulationVisitor.canonicalize_arg,
        ReverseAccumulationVisitor.canonicalize, ReverseAccumulationVisitor.scatter,
        ReverseAccumulationVisitor.accumulate_exp, ReverseAccumulationVisitor.accept,
        ReverseAccumulationVisitor.walk, ReverseAccumulationVisitor.create_stub,
        ReverseAccumulationVisitor.create_stubs, ReverseAccumulationVisitor.seed_root,
        ReverseAccumulationVisitor.new_tmp, ReverseAccumulationVisitor.add_back,
        ReverseAccumulationVisitor.propagate_stage, ReverseAccumulationVisitor.propagate_stages,
        ReverseAccumulationVisitor.propagate_func, ReverseAccumulationVisitor.propagate_funcs,
        ReverseAccumulationVisitor.propagate_adjoints, propagate_adjoints, eval_expr, eval_args,
        find_rdom, find_rdom_list, rdom_points, lhs_is_pure, eval_update_points, eval_update,
        eval_updates, eval_func, adjoint_value, constant_memory, constant_output, multiply_memory,
        call_out_zero, shift_memory, reduction_memory, two_inputs_memory, let_output,
        divide_output, diamond_memory, diamond_output, Expr.operands, Expr.is_halide_call,
        Expr.call_func, Expr.size, Expr.size_list, subterms, subterms_list, direct_calls,
        direct_calls_list, all_calls, all_calls_list, Function.stage_exprs, program_roots,
        program_nodes, Consistent, func_name, UniqueNames, nested_memory, nested_output,
        FunctionSorter.Settled, FunctionSorter.Good, FunctionSorter.SortFuncSpec, WellFormed,
        untraversed, Expr.is_func_or_image_call, engine_calls, FuncsOnlyInHalideCalls,
        ReverseAccumulationVisitor.KeysIn, ReverseAccumulationVisitor.Stored,
        ReverseAccumulationVisitor.TmpDefined, ReverseAccumulationVisitor.StoredAll,
        SameNameSameArgs, NodesById, OperandsFirst, ExpressionSorter.Pending, shared_operand_expr,
        five_minus_x, two_sites_memory, two_sites_output, eval_pair, inferred_bounds,
        bounds_values, two_slots_memory, max_output, min_output, staged_memory, call_f_zero,
        shared_body_memory, supported_shape, renamed_args_memory, call_g_zero, tie_memory,
        tie_max_output, tie_min_output, unused_let_output, BoundsInferencer.Covered,
        BoundsInferencer.InferenceFuncSpec, Expr.erase, Expr.erase_list, Expr.arith,
        rule_contributions, accumulate_all, contributions_into, shared_leaf_expr, seeded_engine,
        ReverseAccumulationVisitor.stage_start, shared_body_expr, shared_body_b,
        shared_body_walk_start, Except.bind, Except.map, bind, pure, Except.pure]

set_option maxHeartbeats 40000000 in
set_option maxRecDepth 100000 in
/-- C13, the code at the failing input: for `f(x) = 1` and the output `f(r) + f(r)`
with `r` over `[5, 8)`, the pair stored for `f` after `BoundsInferencer::inference`
is `min = 5`, `extent = 8`: the second call site merges the pair `(min, max)` of the
stored domain with the pair `(min, extent)` of the call. -/
theorem two_call_sites_extent (n : ℕ) :
    inferred_bounds (BoundsInferencer.inference two_sites_memory (n + 1) two_sites_output)
      "f" 0 = some (5, 8) := by
  simp [Expr.id, Expr.same_as, map_find, map_set, map_keys, Memory.fresh, mk_add, mk_sub, mk_mul,
        mk_div, mk_min, mk_max, mk_le, mk_ge, mk_select, mk_let, mk_float, mk_var, mk_vars,
        mk_neg, mk_exp, mk_call, VariableFinder.include_with, VariableFinder.accept,
        VariableFinder.accept_list, VariableFinder.find, VariableReplacer.mutate,
        VariableReplacer.mutate_args, VariableReplacer.replace, inverse, rvar_name, rdom_slots,
        mk_rdom, rdom_domain, rdom_at, rdom_var, find_arg, get_min_max_bounds, merge_bounds,
        Function.stage_values, FunctionSorter.include_with, FunctionSorter.accept,
        FunctionSorter.accept_list, FunctionSorter.accept_stages, FunctionSorter.sort_func,
        FunctionSorter.sort, ExpressionSorter.include_with, ExpressionSorter.accept,
        ExpressionSorter.accept_list, ExpressionSorter.sort, BoundsInferencer.include_with,
        BoundsInferencer.arg_bounds, BoundsInferencer.merge_args, BoundsInferencer.merge_previous,
        BoundsInferencer.update_bounds, BoundsInferencer.accept, BoundsInferencer.accept_list,
        BoundsInferencer.accept_stages, BoundsInferencer.inference_func,
        BoundsInferencer.inference, Memory.set_func, mk_func, mk_func_default, func_define,
        define_base_case, func_add_update, ReverseAccumulationVisitor.new,
        ReverseAccumulationVisitor.accumulate, ReverseAccumulationVisitor.adjoint_of,
        ReverseAccumulationVisitor.adjoint_funcs_at, ReverseAccumulationVisitor.canonicalize_arg,
        ReverseAccumulationVisitor.canonicalize, ReverseAccumulationVisitor.scatter,
        ReverseAccumulationVisitor.accumulate_exp, ReverseAccumulationVisitor.accept,
        ReverseAccumulationVisitor.walk, ReverseAccumulationVisitor.create_stub,
        ReverseAccumulationVisitor.create_stubs, ReverseAccumulationVisitor.seed_root,
        ReverseAccumulationVisitor.new_tmp, ReverseAccumulationVisitor.add_back,
        ReverseAccumulationVisitor.propagate_stage, ReverseAccumulationVisitor.propagate_stages,
        ReverseAccumulationVisitor.propagate_func, ReverseAccumulationVisitor.propagate_funcs,
        ReverseAccumulationVisitor.propagate_adjoints, propagate_adjoints, eval_expr, eval_args,
        find_rdom, find_rdom_list, rdom_points, lhs_is_pure, eval_update_points, eval_update,
        eval_updates, eval_func, adjoint_value, constant_memory, constant_output, multiply_memory,
        call_out_zero, shift_memory, reduction_memory, two_inputs_memory, let_output,
        divide_output, diamond_memory, diamond_output, Expr.operands, Expr.is_halide_call,
        Expr.call_func, Expr.size, Expr.size_list, subterms, subterms_list, direct_calls,
        direct_calls_list, all_calls, all_calls_list, Function.stage_exprs, program_roots,
        program_nodes, Consistent, func_name, UniqueNames, nested_memory, nested_output,
        FunctionSorter.Settled, FunctionSorter.Good, FunctionSorter.SortFuncSpec, WellFormed,
        untraversed, Expr.is_func_or_image_call, engine_calls, FuncsOnlyInHalideCalls,
        ReverseAccumulationVisitor.KeysIn, ReverseAccumulationVisitor.Stored,
        ReverseAccumulationVisitor.TmpDefined, ReverseAccumulationVisitor.StoredAll,
        SameNameSameArgs, NodesById, OperandsFirst, ExpressionSorter.Pending, shared_operand_expr,
        five_minus_x, two_sites_memory, two_sites_output, eval_pair, inferred_bounds,
        bounds_values, two_slots_memory, max_output, min_output, staged_memory, call_f_zero,
        shared_body_memory, supported_shape, renamed_args_memory, call_g_zero, tie_memory,
        tie_max_output, tie_min_output, unused_let_output, BoundsInferencer.Covered,
        BoundsInferencer.InferenceFuncSpec, Expr.erase, Expr.erase_list, Expr.arith,
        rule_contributions, accumulate_all, contributions_into, shared_leaf_expr, seeded_engine,
        ReverseAccumulationVisitor.stage_start, shared_body_expr, shared_body_b,
        shared_body_walk_start, Except.bind, Except.map, bind, pure, Except.pure]
  norm_num

set_option maxHeartbeats 40000000 in
set_option maxRecDepth 100000 in
/-- C14: for `a(x) = p`, `b(x) = q` with `p ≠ q`, the adjoints returned for the output
`max(a(0), b(0))` give `1` at index `0` to the function with the larger value and `0`
to the other, and for the output `min(a(0), b(0))` they give `1` to the function with
the smaller value and `0` to the other. -/
theorem max_min_adjoints (p q : ℚ) (hpq : p ≠ q) (n m : ℕ) :
    adjoint_value (propagate_adjoints (two_inputs_memory p q) (n + 1) max_output) (m + 3)
      "a" [0] = some (if q < p then 1 else 0) ∧
    adjoint_value (propagate_adjoints (two_inputs_memory p q) (n + 1) max_output) (m + 3)
      "b" [0] = some (if p < q then 1 else 0) ∧
    adjoint_value (propagate_adjoints (two_inputs_memory p q) (n + 1) min_output) (m + 3)
      "a" [0] = some (if p < q then 1 else 0) ∧
    adjoint_value (propagate_adjoints (two_inputs_memory p q) (n + 1) min_output) (m + 3)
      "b" [0] = some (if q < p then 1 else 0) := by
  rcases lt_or_gt_of_ne hpq with h | h
  · refine ⟨?_, ?_, ?_, ?_⟩
    · simp [Expr.id, Expr.same_as, map_find, map_set, map_keys, Memory.fresh, mk_add, mk_sub,
            mk_mul, mk_div, mk_min, mk_max, mk_le, mk_ge, mk_select, mk_let, mk_float, mk_var,
            mk_vars, mk_neg, mk_exp, mk_call, VariableFinder.include_with, VariableFinder.accept,
            VariableFinder.accept_list, VariableFinder.find, VariableReplacer.mutate,
            VariableReplacer.mutate_args, VariableReplacer.replace, inverse, rvar_name,
            rdom_slots, mk_rdom, rdom_domain, rdom_at, rdom_var, find_arg, get_min_max_bounds,
            merge_bounds, Function.stage_values, FunctionSorter.include_with,
            FunctionSorter.accept, FunctionSorter.accept_list, FunctionSorter.accept_stages,
            FunctionSorter.sort_func, FunctionSorter.sort, ExpressionSorter.include_with,
            ExpressionSorter.accept, ExpressionSorter.accept_list, ExpressionSorter.sort,
            BoundsInferencer.include_with, BoundsInferencer.arg_bounds,
            BoundsInferencer.merge_args, BoundsInferencer.merge_previous,
            BoundsInferencer.update_bounds, BoundsInferencer.accept, BoundsInferencer.accept_list,
            BoundsInferencer.accept_stages, BoundsInferencer.inference_func,
            BoundsInferencer.inference, Memory.set_func, mk_func, mk_func_default, func_define,
            define_base_case, func_add_update, ReverseAccumulationVisitor.new,
            ReverseAccumulationVisitor.accumulate, ReverseAccumulationVisitor.adjoint_of,
            ReverseAccumulationVisitor.adjoint_funcs_at,
            ReverseAccumulationVisitor.canonicalize_arg, ReverseAccumulationVisitor.canonicalize,
            ReverseAccumulationVisitor.scatter, ReverseAccumulationVisitor.accumulate_exp,
            ReverseAccumulationVisitor.accept, ReverseAccumulationVisitor.walk,
            ReverseAccumulationVisitor.create_stub, ReverseAccumulationVisitor.create_stubs,
            ReverseAccumulationVisitor.seed_root, ReverseAccumulationVisitor.new_tmp,
            ReverseAccumulationVisitor.add_back, ReverseAccumulationVisitor.propagate_stage,
            ReverseAccumulationVisitor.propagate_stages,
            ReverseAccumulationVisitor.propagate_func, ReverseAccumulationVisitor.propagate_funcs,
            ReverseAccumulationVisitor.propagate_adjoints, propagate_adjoints, eval_expr,
            eval_args, find_rdom, find_rdom_list, rdom_points, lhs_is_pure, eval_update_points,
            eval_update, eval_updates, eval_func, adjoint_value, constant_memory, constant_output,
            multiply_memory, call_out_zero, shift_memory, reduction_memory, two_inputs_memory,
            let_output, divide_output, diamond_memory, diamond_output, Expr.operands,
            Expr.is_halide_call, Expr.call_func, Expr.size, Expr.size_list, subterms,
            subterms_list, direct_calls, direct_calls_list, all_calls, all_calls_list,
            Function.stage_exprs, program_roots, program_nodes, Consistent, func_name,
            UniqueNames, nested_memory, nested_output, FunctionSorter.Settled,
            FunctionSorter.Good, FunctionSorter.SortFuncSpec, WellFormed, untraversed,
            Expr.is_func_or_image_call, engine_calls, FuncsOnlyInHalideCalls,
            ReverseAccumulationVisitor.KeysIn, ReverseAccumulationVisitor.Stored,
            ReverseAccumulationVisitor.TmpDefined, ReverseAccumulationVisitor.StoredAll,
            SameNameSameArgs, NodesById, OperandsFirst, ExpressionSorter.Pending,
            shared_operand_expr, five_minus_x, two_sites_memory, two_sites_output, eval_pair,
            inferred_bounds, bounds_values, two_slots_memory, max_output, min_output,
            staged_memory, call_f_zero, shared_body_memory, supported_shape, renamed_args_memory,
            call_g_zero, tie_memory, tie_max_output, tie_min_output, unused_let_output,
            BoundsInferencer.Covered, BoundsInferencer.InferenceFuncSpec, Expr.erase,
            Expr.erase_list, Expr.arith, rule_contributions, accumulate_all, contributions_into,
            shared_leaf_expr, seeded_engine, ReverseAccumulationVisitor.stage_start,
            shared_body_expr, shared_body_b, shared_body_walk_start, Except.bind, Except.map,
            bind, pure, Except.pure, h, h.le, not_le.2 h, not_lt.2 h.le]
    · simp [Expr.id, Expr.same_as, map_find, map_set, map_keys, Memory.fresh, mk_add, mk_sub,
            mk_mul, mk_div, mk_min, mk_max, mk_le, mk_ge, mk_select, mk_let, mk_float, mk_var,
            mk_vars, mk_neg, mk_exp, mk_call, VariableFinder.include_with, VariableFinder.accept,
            VariableFinder.accept_list, VariableFinder.find, VariableReplacer.mutate,
            VariableReplacer.mutate_args, VariableReplacer.replace, inverse, rvar_name,
            rdom_slots, mk_rdom, rdom_domain, rdom_at, rdom_var, find_arg, get_min_max_bounds,
            merge_bounds, Function.stage_values, FunctionSorter.include_with,
            FunctionSorter.accept, FunctionSorter.accept_list, FunctionSorter.accept_stages,
            FunctionSorter.sort_func, FunctionSorter.sort, ExpressionSorter.include_with,
            ExpressionSorter.accept, ExpressionSorter.accept_list, ExpressionSorter.sort,
            BoundsInferencer.include_with, BoundsInferencer.arg_bounds,
            BoundsInferencer.merge_args, BoundsInferencer.merge_previous,
            BoundsInferencer.update_bounds, BoundsInferencer.accept, BoundsInferencer.accept_list,
            BoundsInferencer.accept_stages, BoundsInferencer.inference_func,
            BoundsInferencer.inference, Memory.set_func, mk_func, mk_func_default, func_define,
            define_base_case, func_add_update, ReverseAccumulationVisitor.new,
            ReverseAccumulationVisitor.accumulate, ReverseAccumulationVisitor.adjoint_of,
            ReverseAccumulationVisitor.adjoint_funcs_at,
            ReverseAccumulationVisitor.canonicalize_arg, ReverseAccumulationVisitor.canonicalize,
            ReverseAccumulationVisitor.scatter, ReverseAccumulationVisitor.accumulate_exp,
            ReverseAccumulationVisitor.accept, ReverseAccumulationVisitor.walk,
            ReverseAccumulationVisitor.create_stub, ReverseAccumulationVisitor.create_stubs,
            ReverseAccumulationVisitor.seed_root, ReverseAccumulationVisitor.new_tmp,
            ReverseAccumulationVisitor.add_back, ReverseAccumulationVisitor.propagate_stage,
            ReverseAccumulationVisitor.propagate_stages,
            ReverseAccumulationVisitor.propagate_func, ReverseAccumulationVisitor.propagate_funcs,
            ReverseAccumulationVisitor.propagate_adjoints, propagate_adjoints, eval_expr,
            eval_args, find_rdom, find_rdom_list, rdom_points, lhs_is_pure, eval_update_points,
            eval_update, eval_updates, eval_func, adjoint_value, constant_memory, constant_output,
            multiply_memory, call_out_zero, shift_memory, reduction_memory, two_inputs_memory,
            let_output, divide_output, diamond_memory, diamond_output, Expr.operands,
            Expr.is_halide_call, Expr.call_func, Expr.size, Expr.size_list, subterms,
            subterms_list, direct_calls, direct_calls_list, all_calls, all_calls_list,
            Function.stage_exprs, program_roots, program_nodes, Consistent, func_name,
            UniqueNames, nested_memory, nested_output, FunctionSorter.Settled,
            FunctionSorter.Good, FunctionSorter.SortFuncSpec, WellFormed, untraversed,
            Expr.is_func_or_image_call, engine_calls, FuncsOnlyInHalideCalls,
            ReverseAccumulationVisitor.KeysIn, ReverseAccumulationVisitor.Stored,
            ReverseAccumulationVisitor.TmpDefined, ReverseAccumulationVisitor.StoredAll,
            SameNameSameArgs, NodesById, OperandsFirst, ExpressionSorter.Pending,
            shared_operand_expr, five_minus_x, two_sites_memory, two_sites_output, eval_pair,
            inferred_bounds, bounds_values, two_slots_memory, max_output, min_output,
            staged_memory, call_f_zero, shared_body_memory, supported_shape, renamed_args_memory,
            call_g_zero, tie_memory, tie_max_output, tie_min_output, unused_let_output,
            BoundsInferencer.Covered, BoundsInferencer.InferenceFuncSpec, Expr.erase,
            Expr.erase_list, Expr.arith, rule_contributions, accumulate_all, contributions_into,
            shared_leaf_expr, seeded_engine, ReverseAccumulationVisitor.stage_start,
            shared_body_expr, shared_body_b, shared_body_walk_start, Except.bind, Except.map,
            bind, pure, Except.pure, h, h.le, not_le.2 h, not_lt.2 h.le]
    · simp [Expr.id, Expr.same_as, map_find, map_set, map_keys, Memory.fresh, mk_add, mk_sub,
            mk_mul, mk_div, mk_min, mk_max, mk_le, mk_ge, mk_select, mk_let, mk_float, mk_var,
            mk_vars, mk_neg, mk_exp, mk_call, VariableFinder.include_with, VariableFinder.accept,
            VariableFinder.accept_list, VariableFinder.find, VariableReplacer.mutate,
            VariableReplacer.mutate_args, VariableReplacer.replace, inverse, rvar_name,
            rdom_slots, mk_rdom, rdom_domain, rdom_at, rdom_var, find_arg, get_min_max_bounds,
            merge_bounds, Function.stage_values, FunctionSorter.include_with,
            FunctionSorter.accept, FunctionSorter.accept_list, FunctionSorter.accept_stages,
            FunctionSorter.sort_func, FunctionSorter.sort, ExpressionSorter.include_with,
            ExpressionSorter.accept, ExpressionSorter.accept_list, ExpressionSorter.sort,
            BoundsInferencer.include_with, BoundsInferencer.arg_bounds,
            BoundsInferencer.merge_args, BoundsInferencer.merge_previous,
            BoundsInferencer.update_bounds, BoundsInferencer.accept, BoundsInferencer.accept_list,
            BoundsInferencer.accept_stages, BoundsInferencer.inference_func,
            BoundsInferencer.inference, Memory.set_func, mk_func, mk_func_default, func_define,
            define_base_case, func_add_update, ReverseAccumulationVisitor.new,
            ReverseAccumulationVisitor.accumulate, ReverseAccumulationVisitor.adjoint_of,
            ReverseAccumulationVisitor.adjoint_funcs_at,
            ReverseAccumulationVisitor.canonicalize_arg, ReverseAccumulationVisitor.canonicalize,
            ReverseAccumulationVisitor.scatter, ReverseAccumulationVisitor.accumulate_exp,
            ReverseAccumulationVisitor.accept, ReverseAccumulationVisitor.walk,
            ReverseAccumulationVisitor.create_stub, ReverseAccumulationVisitor.create_stubs,
            ReverseAccumulationVisitor.seed_root, ReverseAccumulationVisitor.new_tmp,
            ReverseAccumulationVisitor.add_back, ReverseAccumulationVisitor.propagate_stage,
            ReverseAccumulationVisitor.propagate_stages,
            ReverseAccumulationVisitor.propagate_func, ReverseAccumulationVisitor.propagate_funcs,
            ReverseAccumulationVisitor.propagate_adjoints, propagate_adjoints, eval_expr,
            eval_args, find_rdom, find_rdom_list, rdom_points, lhs_is_pure, eval_update_points,
            eval_update, eval_updates, eval_func, adjoint_value, constant_memory, constant_output,
            multiply_memory, call_out_zero, shift_memory, reduction_memory, two_inputs_memory,
            let_output, divide_output, diamond_memory, diamond_output, Expr.operands,
            Expr.is_halide_call, Expr.call_func, Expr.size, Expr.size_list, subterms,
            subterms_list, direct_calls, direct_calls_list, all_calls, all_calls_list,
            Function.stage_exprs, program_roots, program_nodes, Consistent, func_name,
            UniqueNames, nested_memory, nested_output, FunctionSorter.Settled,
            FunctionSorter.Good, FunctionSorter.SortFuncSpec, WellFormed, untraversed,
            Expr.is_func_or_image_call, engine_calls, FuncsOnlyInHalideCalls,
            ReverseAccumulationVisitor.KeysIn, ReverseAccumulationVisitor.Stored,
            ReverseAccumulationVisitor.TmpDefined, ReverseAccumulationVisitor.StoredAll,
            SameNameSameArgs, NodesById, OperandsFirst, ExpressionSorter.Pending,
            shared_operand_expr, five_minus_x, two_sites_memory, two_sites_output, eval_pair,
            inferred_bounds, bounds_values, two_slots_memory, max_output, min_output,
            staged_memory, call_f_zero, shared_body_memory, supported_shape, renamed_args_memory,
            call_g_zero, tie_memory, tie_max_output, tie_min_output, unused_let_output,
            BoundsInferencer.Covered, BoundsInferencer.InferenceFuncSpec, Expr.erase,
            Expr.erase_list, Expr.arith, rule_contributions, accumulate_all, contributions_into,
            shared_leaf_expr, seeded_engine, ReverseAccumulationVisitor.stage_start,
            shared_body_expr, shared_body_b, shared_body_walk_start, Except.bind, Except.map,
            bind, pure, Except.pure, h, h.le, not_le.2 h, not_lt.2 h.le]
    · simp [Expr.id, Expr.same_as, map_find, map_set, map_keys, Memory.fresh, mk_add, mk_sub,
            mk_mul, mk_div, mk_min, mk_max, mk_le, mk_ge, mk_select, mk_let, mk_float, mk_var,
            mk_vars, mk_neg, mk_exp, mk_call, VariableFinder.include_with, VariableFinder.accept,
            VariableFinder.accept_list, VariableFinder.find, VariableReplacer.mutate,
            VariableReplacer.mutate_args, VariableReplacer.replace, inverse, rvar_name,
            rdom_slots, mk_rdom, rdom_domain, rdom_at, rdom_var, find_arg, get_min_max_bounds,
            merge_bounds, Function.stage_values, FunctionSorter.include_with,
            FunctionSorter.accept, FunctionSorter.accept_list, FunctionSorter.accept_stages,
            FunctionSorter.sort_func, FunctionSorter.sort, ExpressionSorter.include_with,
            ExpressionSorter.accept, ExpressionSorter.accept_list, ExpressionSorter.sort,
            BoundsInferencer.include_with, BoundsInferencer.arg_bounds,
            BoundsInferencer.merge_args, BoundsInferencer.merge_previous,
            BoundsInferencer.update_bounds, BoundsInferencer.accept, BoundsInferencer.accept_list,
            BoundsInferencer.accept_stages, BoundsInferencer.inference_func,
            BoundsInferencer.inference, Memory.set_func, mk_func, mk_func_default, func_define,
            define_base_case, func_add_update, ReverseAccumulationVisitor.new,
            ReverseAccumulationVisitor.accumulate, ReverseAccumulationVisitor.adjoint_of,
            ReverseAccumulationVisitor.adjoint_funcs_at,
            ReverseAccumulationVisitor.canonicalize_arg, ReverseAccumulationVisitor.canonicalize,
            ReverseAccumulationVisitor.scatter, ReverseAccumulationVisitor.accumulate_exp,
            ReverseAccumulationVisitor.accept, ReverseAccumulationVisitor.walk,
            ReverseAccumulationVisitor.create_stub, ReverseAccumulationVisitor.create_stubs,
            ReverseAccumulationVisitor.seed_root, ReverseAccumulationVisitor.new_tmp,
            ReverseAccumulationVisitor.add_back, ReverseAccumulationVisitor.propagate_stage,
            ReverseAccumulationVisitor.propagate_stages,
            ReverseAccumulationVisitor.propagate_func, ReverseAccumulationVisitor.propagate_funcs,
            ReverseAccumulationVisitor.propagate_adjoints, propagate_adjoints, eval_expr,
            eval_args, find_rdom, find_rdom_list, rdom_points, lhs_is_pure, eval_update_points,
            eval_update, eval_updates, eval_func, adjoint_value, constant_memory, constant_output,
            multiply_memory, call_out_zero, shift_memory, reduction_memory, two_inputs_memory,
            let_output, divide_output, diamond_memory, diamond_output, Expr.operands,
            Expr.is_halide_call, Expr.call_func, Expr.size, Expr.size_list, subterms,
            subterms_list, direct_calls, direct_calls_list, all_calls, all_calls_list,
            Function.stage_exprs, program_roots, program_nodes, Consistent, func_name,
            UniqueNames, nested_memory, nested_output, FunctionSorter.Settled,
            FunctionSorter.Good, FunctionSorter.SortFuncSpec, WellFormed, untraversed,
            Expr.is_func_or_image_call, engine_calls, FuncsOnlyInHalideCalls,
            ReverseAccumulationVisitor.KeysIn, ReverseAccumulationVisitor.Stored,
            ReverseAccumulationVisitor.TmpDefined, ReverseAccumulationVisitor.StoredAll,
            SameNameSameArgs, NodesById, OperandsFirst, ExpressionSorter.Pending,
            shared_operand_expr, five_minus_x, two_sites_memory, two_sites_output, eval_pair,
            inferred_bounds, bounds_values, two_slots_memory, max_output, min_output,
            staged_memory, call_f_zero, shared_body_memory, supported_shape, renamed_args_memory,
            call_g_zero, tie_memory, tie_max_output, tie_min_output, unused_let_output,
            BoundsInferencer.Covered, BoundsInferencer.InferenceFuncSpec, Expr.erase,
            Expr.erase_list, Expr.arith, rule_contributions, accumulate_all, contributions_into,
            shared_leaf_expr, seeded_engine, ReverseAccumulationVisitor.stage_start,
            shared_body_expr, shared_body_b, shared_body_walk_start, Except.bind, Except.map,
            bind, pure, Except.pure, h, h.le, not_le.2 h, not_lt.2 h.le]
  · refine ⟨?_, ?_, ?_, ?_⟩
    · simp [Expr.id, Expr.same_as, map_find, map_set, map_keys, Memory.fresh, mk_add, mk_sub,
            mk_mul, mk_div, mk_min, mk_max, mk_le, mk_ge, mk_select, mk_let, mk_float, mk_var,
            mk_vars, mk_neg, mk_exp, mk_call, VariableFinder.include_with, VariableFinder.accept,
            VariableFinder.accept_list, VariableFinder.find, VariableReplacer.mutate,
            VariableReplacer.mutate_args, VariableReplacer.replace, inverse, rvar_name,
            rdom_slots, mk_rdom, rdom_domain, rdom_at, rdom_var, find_arg, get_min_max_bounds,
            merge_bounds, Function.stage_values, FunctionSorter.include_with,
            FunctionSorter.accept, FunctionSorter.accept_list, FunctionSorter.accept_stages,
            FunctionSorter.sort_func, FunctionSorter.sort, ExpressionSorter.include_with,
            ExpressionSorter.accept, ExpressionSorter.accept_list, ExpressionSorter.sort,
            BoundsInferencer.include_with, BoundsInferencer.arg_bounds,
            BoundsInferencer.merge_args, BoundsInferencer.merge_previous,
            BoundsInferencer.update_bounds, BoundsInferencer.accept, BoundsInferencer.accept_list,
            BoundsInferencer.accept_stages, BoundsInferencer.inference_func,
            BoundsInferencer.inference, Memory.set_func, mk_func, mk_func_default, func_define,
            define_base_case, func_add_update, ReverseAccumulationVisitor.new,
            ReverseAccumulationVisitor.accumulate, ReverseAccumulationVisitor.adjoint_of,
            ReverseAccumulationVisitor.adjoint_funcs_at,
            ReverseAccumulationVisitor.canonicalize_arg, ReverseAccumulationVisitor.canonicalize,
            ReverseAccumulationVisitor.scatter, ReverseAccumulationVisitor.accumulate_exp,
            ReverseAccumulationVisitor.accept, ReverseAccumulationVisitor.walk,
            ReverseAccumulationVisitor.create_stub, ReverseAccumulationVisitor.create_stubs,
            ReverseAccumulationVisitor.seed_root, ReverseAccumulationVisitor.new_tmp,
            ReverseAccumulationVisitor.add_back, ReverseAccumulationVisitor.propagate_stage,
            ReverseAccumulationVisitor.propagate_stages,
            ReverseAccumulationVisitor.propagate_func, ReverseAccumulationVisitor.propagate_funcs,
            ReverseAccumulationVisitor.propagate_adjoints, propagate_adjoints, eval_expr,
            eval_args, find_rdom, find_rdom_list, rdom_points, lhs_is_pure, eval_update_points,
            eval_update, eval_updates, eval_func, adjoint_value, constant_memory, constant_output,
            multiply_memory, call_out_zero, shift_memory, reduction_memory, two_inputs_memory,
            let_output, divide_output, diamond_memory, diamond_output, Expr.operands,
            Expr.is_halide_call, Expr.call_func, Expr.size, Expr.size_list, subterms,
            subterms_list, direct_calls, direct_calls_list, all_calls, all_calls_list,
            Function.stage_exprs, program_roots, program_nodes, Consistent, func_name,
            UniqueNames, nested_memory, nested_output, FunctionSorter.Settled,
            FunctionSorter.Good, FunctionSorter.SortFuncSpec, WellFormed, untraversed,
            Expr.is_func_or_image_call, engine_calls, FuncsOnlyInHalideCalls,
            ReverseAccumulationVisitor.KeysIn, ReverseAccumulationVisitor.Stored,
            ReverseAccumulationVisitor.TmpDefined, ReverseAccumulationVisitor.StoredAll,
            SameNameSameArgs, NodesById, OperandsFirst, ExpressionSorter.Pending,
            shared_operand_expr, five_minus_x, two_sites_memory, two_sites_output, eval_pair,
            inferred_bounds, bounds_values, two_slots_memory, max_output, min_output,
            staged_memory, call_f_zero, shared_body_memory, supported_shape, renamed_args_memory,
            call_g_zero, tie_memory, tie_max_output, tie_min_output, unused_let_output,
            BoundsInferencer.Covered, BoundsInferencer.InferenceFuncSpec, Expr.erase,
            Expr.erase_list, Expr.arith, rule_contributions, accumulate_all, contributions_into,
            shared_leaf_expr, seeded_engine, ReverseAccumulationVisitor.stage_start,
            shared_body_expr, shared_body_b, shared_body_walk_start, Except.bind, Except.map,
            bind, pure, Except.pure, h, h.le, not_le.2 h, not_lt.2 h.le]
    · simp [Expr.id, Expr.same_as, map_find, map_set, map_keys, Memory.fresh, mk_add, mk_sub,
            mk_mul, mk_div, mk_min, mk_max, mk_le, mk_ge, mk_select, mk_let, mk_float, mk_var,
            mk_vars, mk_neg, mk_exp, mk_call, VariableFinder.include_with, VariableFinder.accept,
            VariableFinder.accept_list, VariableFinder.find, VariableReplacer.mutate,
            VariableReplacer.mutate_args, VariableReplacer.replace, inverse, rvar_name,
            rdom_slots, mk_rdom, rdom_domain, rdom_at, rdom_var, find_arg, get_min_max_bounds,
            merge_bounds, Function.stage_values, FunctionSorter.include_with,
            FunctionSorter.accept, FunctionSorter.accept_list, FunctionSorter.accept_stages,
            FunctionSorter.sort_func, FunctionSorter.sort, ExpressionSorter.include_with,
            ExpressionSorter.accept, ExpressionSorter.accept_list, ExpressionSorter.sort,
            BoundsInferencer.include_with, BoundsInferencer.arg_bounds,
            BoundsInferencer.merge_args, BoundsInferencer.merge_previous,
            BoundsInferencer.update_bounds, BoundsInferencer.accept, BoundsInferencer.accept_list,
            BoundsInferencer.accept_stages, BoundsInferencer.inference_func,
            BoundsInferencer.inference, Memory.set_func, mk_func, mk_func_default, func_define,
            define_base_case, func_add_update, ReverseAccumulationVisitor.new,
            ReverseAccumulationVisitor.accumulate, ReverseAccumulationVisitor.adjoint_of,
            ReverseAccumulationVisitor.adjoint_funcs_at,
            ReverseAccumulationVisitor.canonicalize_arg, ReverseAccumulationVisitor.canonicalize,
            ReverseAccumulationVisitor.scatter, ReverseAccumulationVisitor.accumulate_exp,
            ReverseAccumulationVisitor.accept, ReverseAccumulationVisitor.walk,
            ReverseAccumulationVisitor.create_stub, ReverseAccumulationVisitor.create_stubs,
            ReverseAccumulationVisitor.seed_root, ReverseAccumulationVisitor.new_tmp,
            ReverseAccumulationVisitor.add_back, ReverseAccumulationVisitor.propagate_stage,
            ReverseAccumulationVisitor.propagate_stages,
            ReverseAccumulationVisitor.propagate_func, ReverseAccumulationVisitor.propagate_funcs,
            ReverseAccumulationVisitor.propagate_adjoints, propagate_adjoints, eval_expr,
            eval_args, find_rdom, find_rdom_list, rdom_points, lhs_is_pure, eval_update_points,
            eval_update, eval_updates, eval_func, adjoint_value, constant_memory, constant_output,
            multiply_memory, call_out_zero, shift_memory, reduction_memory, two_inputs_memory,
            let_output, divide_output, diamond_memory, diamond_output, Expr.operands,
            Expr.is_halide_call, Expr.call_func, Expr.size, Expr.size_list, subterms,
            subterms_list, direct_calls, direct_calls_list, all_calls, all_calls_list,
            Function.stage_exprs, program_roots, program_nodes, Consistent, func_name,
            UniqueNames, nested_memory, nested_output, FunctionSorter.Settled,
            FunctionSorter.Good, FunctionSorter.SortFuncSpec, WellFormed, untraversed,
            Expr.is_func_or_image_call, engine_calls, FuncsOnlyInHalideCalls,
            ReverseAccumulationVisitor.KeysIn, ReverseAccumulationVisitor.Stored,
            ReverseAccumulationVisitor.TmpDefined, ReverseAccumulationVisitor.StoredAll,
            SameNameSameArgs, NodesById, OperandsFirst, ExpressionSorter.Pending,
            shared_operand_expr, five_minus_x, two_sites_memory, two_sites_output, eval_pair,
            inferred_bounds, bounds_values, two_slots_memory, max_output, min_output,
            staged_memory, call_f_zero, shared_body_memory, supported_shape, renamed_args_memory,
            call_g_zero, tie_memory, tie_max_output, tie_min_output, unused_let_output,
            BoundsInferencer.Covered, BoundsInferencer.InferenceFuncSpec, Expr.erase,
            Expr.erase_list, Expr.arith, rule_contributions, accumulate_all, contributions_into,
            shared_leaf_expr, seeded_engine, ReverseAccumulationVisitor.stage_start,
            shared_body_expr, shared_body_b, shared_body_walk_start, Except.bind, Except.map,
            bind, pure, Except.pure, h, h.le, not_le.2 h, not_lt.2 h.le]
    · simp [Expr.id, Expr.same_as, map_find, map_set, map_keys, Memory.fresh, mk_add, mk_sub,
            mk_mul, mk_div, mk_min, mk_max, mk_le, mk_ge, mk_select, mk_let, mk_float, mk_var,
            mk_vars, mk_neg, mk_exp, mk_call, VariableFinder.include_with, VariableFinder.accept,
            VariableFinder.accept_list, VariableFinder.find, VariableReplacer.mutate,
            VariableReplacer.mutate_args, VariableReplacer.replace, inverse, rvar_name,
            rdom_slots, mk_rdom, rdom_domain, rdom_at, rdom_var, find_arg, get_min_max_bounds,
            merge_bounds, Function.stage_values, FunctionSorter.include_with,
            FunctionSorter.accept, FunctionSorter.accept_list, FunctionSorter.accept_stages,
            FunctionSorter.sort_func, FunctionSorter.sort, ExpressionSorter.include_with,
            ExpressionSorter.accept, ExpressionSorter.accept_list, ExpressionSorter.sort,
            BoundsInferencer.include_with, BoundsInferencer.arg_bounds,
            BoundsInferencer.merge_args, BoundsInferencer.merge_previous,
            BoundsInferencer.update_bounds, BoundsInferencer.accept, BoundsInferencer.accept_list,
            BoundsInferencer.accept_stages, BoundsInferencer.inference_func,
            BoundsInferencer.inference, Memory.set_func, mk_func, mk_func_default, func_define,
            define_base_case, func_add_update, ReverseAccumulationVisitor.new,
            ReverseAccumulationVisitor.accumulate, ReverseAccumulationVisitor.adjoint_of,
            ReverseAccumulationVisitor.adjoint_funcs_at,
            ReverseAccumulationVisitor.canonicalize_arg, ReverseAccumulationVisitor.canonicalize,
            ReverseAccumulationVisitor.scatter, ReverseAccumulationVisitor.accumulate_exp,
            ReverseAccumulationVisitor.accept, ReverseAccumulationVisitor.walk,
            ReverseAccumulationVisitor.create_stub, ReverseAccumulationVisitor.create_stubs,
            ReverseAccumulationVisitor.seed_root, ReverseAccumulationVisitor.new_tmp,
            ReverseAccumulationVisitor.add_back, ReverseAccumulationVisitor.propagate_stage,
            ReverseAccumulationVisitor.propagate_stages,
            ReverseAccumulationVisitor.propagate_func, ReverseAccumulationVisitor.propagate_funcs,
            ReverseAccumulationVisitor.propagate_adjoints, propagate_adjoints, eval_expr,
            eval_args, find_rdom, find_rdom_list, rdom_points, lhs_is_pure, eval_update_points,
            eval_update, eval_updates, eval_func, adjoint_value, constant_memory, constant_output,
            multiply_memory, call_out_zero, shift_memory, reduction_memory, two_inputs_memory,
            let_output, divide_output, diamond_memory, diamond_output, Expr.operands,
            Expr.is_halide_call, Expr.call_func, Expr.size, Expr.size_list, subterms,
            subterms_list, direct_calls, direct_calls_list, all_calls, all_calls_list,
            Function.stage_exprs, program_roots, program_nodes, Consistent, func_name,
            UniqueNames, nested_memory, nested_output, FunctionSorter.Settled,
            FunctionSorter.Good, FunctionSorter.SortFuncSpec, WellFormed, untraversed,
            Expr.is_func_or_image_call, engine_calls, FuncsOnlyInHalideCalls,
            ReverseAccumulationVisitor.KeysIn, ReverseAccumulationVisitor.Stored,
            ReverseAccumulationVisitor.TmpDefined, ReverseAccumulationVisitor.StoredAll,
            SameNameSameArgs, NodesById, OperandsFirst, ExpressionSorter.Pending,
            shared_operand_expr, five_minus_x, two_sites_memory, two_sites_output, eval_pair,
            inferred_bounds, bounds_values, two_slots_memory, max_output, min_output,
            staged_memory, call_f_zero, shared_body_memory, supported_shape, renamed_args_memory,
            call_g_zero, tie_memory, tie_max_output, tie_min_output, unused_let_output,
            BoundsInferencer.Covered, BoundsInferencer.InferenceFuncSpec, Expr.erase,
            Expr.erase_list, Expr.arith, rule_contributions, accumulate_all, contributions_into,
            shared_leaf_expr, seeded_engine, ReverseAccumulationVisitor.stage_start,
            shared_body_expr, shared_body_b, shared_body_walk_start, Except.bind, Except.map,
            bind, pure, Except.pure, h, h.le, not_le.2 h, not_lt.2 h.le]
    · simp [Expr.id, Expr.same_as, map_find, map_set, map_keys, Memory.fresh, mk_add, mk_sub,
            mk_mul, mk_div, mk_min, mk_max, mk_le, mk_ge, mk_select, mk_let, mk_float, mk_var,
            mk_vars, mk_neg, mk_exp, mk_call, VariableFinder.include_with, VariableFinder.accept,
            VariableFinder.accept_list, VariableFinder.find, VariableReplacer.mutate,
            VariableReplacer.mutate_args, VariableReplacer.replace, inverse, rvar_name,
            rdom_slots, mk_rdom, rdom_domain, rdom_at, rdom_var, find_arg, get_min_max_bounds,
            merge_bounds, Function.stage_values, FunctionSorter.include_with,
            FunctionSorter.accept, FunctionSorter.accept_list, FunctionSorter.accept_stages,
            FunctionSorter.sort_func, FunctionSorter.sort, ExpressionSorter.include_with,
            ExpressionSorter.accept, ExpressionSorter.accept_list, ExpressionSorter.sort,
            BoundsInferencer.include_with, BoundsInferencer.arg_bounds,
            BoundsInferencer.merge_args, BoundsInferencer.merge_previous,
            BoundsInferencer.update_bounds, BoundsInferencer.accept, BoundsInferencer.accept_list,
            BoundsInferencer.accept_stages, BoundsInferencer.inference_func,
            BoundsInferencer.inference, Memory.set_func, mk_func, mk_func_default, func_define,
            define_base_case, func_add_update, ReverseAccumulationVisitor.new,
            ReverseAccumulationVisitor.accumulate, ReverseAccumulationVisitor.adjoint_of,
            ReverseAccumulationVisitor.adjoint_funcs_at,
            ReverseAccumulationVisitor.canonicalize_arg, ReverseAccumulationVisitor.canonicalize,
            ReverseAccumulationVisitor.scatter, ReverseAccumulationVisitor.accumulate_exp,
            ReverseAccumulationVisitor.accept, ReverseAccumulationVisitor.walk,
            ReverseAccumulationVisitor.create_stub, ReverseAccumulationVisitor.create_stubs,
            ReverseAccumulationVisitor.seed_root, ReverseAccumulationVisitor.new_tmp,
            ReverseAccumulationVisitor.add_back, ReverseAccumulationVisitor.propagate_stage,
            ReverseAccumulationVisitor.propagate_stages,
            ReverseAccumulationVisitor.propagate_func, ReverseAccumulationVisitor.propagate_funcs,
            ReverseAccumulationVisitor.propagate_adjoints, propagate_adjoints, eval_expr,
            eval_args, find_rdom, find_rdom_list, rdom_points, lhs_is_pure, eval_update_points,
            eval_update, eval_updates, eval_func, adjoint_value, constant_memory, constant_output,
            multiply_memory, call_out_zero, shift_memory, reduction_memory, two_inputs_memory,
            let_output, divide_output, diamond_memory, diamond_output, Expr.operands,
            Expr.is_halide_call, Expr.call_func, Expr.size, Expr.size_list, subterms,
            subterms_list, direct_calls, direct_calls_list, all_calls, all_calls_list,
            Function.stage_exprs, program_roots, program_nodes, Consistent, func_name,
            UniqueNames, nested_memory, nested_output, FunctionSorter.Settled,
            FunctionSorter.Good, FunctionSorter.SortFuncSpec, WellFormed, untraversed,
            Expr.is_func_or_image_call, engine_calls, FuncsOnlyInHalideCalls,
            ReverseAccumulationVisitor.KeysIn, ReverseAccumulationVisitor.Stored,
            ReverseAccumulationVisitor.TmpDefined, ReverseAccumulationVisitor.StoredAll,
            SameNameSameArgs, NodesById, OperandsFirst, ExpressionSorter.Pending,
            shared_operand_expr, five_minus_x, two_sites_memory, two_sites_output, eval_pair,
            inferred_bounds, bounds_values, two_slots_memory, max_output, min_output,
            staged_memory, call_f_zero, shared_body_memory, supported_shape, renamed_args_memory,
            call_g_zero, tie_memory, tie_max_output, tie_min_output, unused_let_output,
            BoundsInferencer.Covered, BoundsInferencer.InferenceFuncSpec, Expr.erase,
            Expr.erase_list, Expr.arith, rule_contributions, accumulate_all, contributions_into,
            shared_leaf_expr, seeded_engine, ReverseAccumulationVisitor.stage_start,
            shared_body_expr, shared_body_b, shared_body_walk_start, Except.bind, Except.map,
            bind, pure, Except.pure, h, h.le, not_le.2 h, not_lt.2 h.le]

/-- Witness of C14 at the instance of the specification, `p = 1` and `q = 2`. -/
theorem max_min_adjoints_witness :
    (1 : ℚ) ≠ 2 ∧
    adjoint_value (propagate_adjoints (two_inputs_memory 1 2) (0 + 1) max_output) (0 + 3)
      "a" [0] = some (if (2 : ℚ) < 1 then 1 else 0) ∧
    adjoint_value (propagate_adjoints (two_inputs_memory 1 2) (0 + 1) max_output) (0 + 3)
      "b" [0] = some (if (1 : ℚ) < 2 then 1 else 0) ∧
    adjoint_value (propagate_adjoints (two_inputs_memory 1 2) (0 + 1) min_output) (0 + 3)
      "a" [0] = some (if (1 : ℚ) < 2 then 1 else 0) ∧
    adjoint_value (propagate_adjoints (two_inputs_memory 1 2) (0 + 1) min_output) (0 + 3)
      "b" [0] = some (if (2 : ℚ) < 1 then 1 else 0) :=
  ⟨by norm_num, max_min_adjoints 1 2 (by norm_num) 0 0⟩

set_option maxHeartbeats 40000000 in
set_option maxRecDepth 100000 in
/-- C15, the code at the failing input: for the free argument `x` of the current
function, whose bounds are `min = 5`, `extent = 3`, `get_min_max_bounds` returns the
pair `(5, 3)`, the `(min, extent)` pair, whereas `x` ranges over `[5, 8)`. -/
theorem free_argument_bounds_are_min_extent :
    bounds_values
      (get_min_max_bounds ["x"] (some 0) 0 (.Variable 1 "x" none) two_sites_memory) =
      some (5, 3) := by
  simp [Expr.id, Expr.same_as, map_find, map_set, map_keys, Memory.fresh, mk_add, mk_sub, mk_mul,
        mk_div, mk_min, mk_max, mk_le, mk_ge, mk_select, mk_let, mk_float, mk_var, mk_vars,
        mk_neg, mk_exp, mk_call, VariableFinder.include_with, VariableFinder.accept,
        VariableFinder.accept_list, VariableFinder.find, VariableReplacer.mutate,
        VariableReplacer.mutate_args, VariableReplacer.replace, inverse, rvar_name, rdom_slots,
        mk_rdom, rdom_domain, rdom_at, rdom_var, find_arg, get_min_max_bounds, merge_bounds,
        Function.stage_values, FunctionSorter.include_with, FunctionSorter.accept,
        FunctionSorter.accept_list, FunctionSorter.accept_stages, FunctionSorter.sort_func,
        FunctionSorter.sort, ExpressionSorter.include_with, ExpressionSorter.accept,
        ExpressionSorter.accept_list, ExpressionSorter.sort, BoundsInferencer.include_with,
        BoundsInferencer.arg_bounds, BoundsInferencer.merge_args, BoundsInferencer.merge_previous,
        BoundsInferencer.update_bounds, BoundsInferencer.accept, BoundsInferencer.accept_list,
        BoundsInferencer.accept_stages, BoundsInferencer.inference_func,
        BoundsInferencer.inference, Memory.set_func, mk_func, mk_func_default, func_define,
        define_base_case, func_add_update, ReverseAccumulationVisitor.new,
        ReverseAccumulationVisitor.accumulate, ReverseAccumulationVisitor.adjoint_of,
        ReverseAccumulationVisitor.adjoint_funcs_at, ReverseAccumulationVisitor.canonicalize_arg,
        ReverseAccumulationVisitor.canonicalize, ReverseAccumulationVisitor.scatter,
        ReverseAccumulationVisitor.accumulate_exp, ReverseAccumulationVisitor.accept,
        ReverseAccumulationVisitor.walk, ReverseAccumulationVisitor.create_stub,
        ReverseAccumulationVisitor.create_stubs, ReverseAccumulationVisitor.seed_root,
        ReverseAccumulationVisitor.new_tmp, ReverseAccumulationVisitor.add_back,
        ReverseAccumulationVisitor.propagate_stage, ReverseAccumulationVisitor.propagate_stages,
        ReverseAccumulationVisitor.propagate_func, ReverseAccumulationVisitor.propagate_funcs,
        ReverseAccumulationVisitor.propagate_adjoints, propagate_adjoints, eval_expr, eval_args,
        find_rdom, find_rdom_list, rdom_points, lhs_is_pure, eval_update_points, eval_update,
        eval_updates, eval_func, adjoint_value, constant_memory, constant_output, multiply_memory,
        call_out_zero, shift_memory, reduction_memory, two_inputs_memory, let_output,
        divide_output, diamond_memory, diamond_output, Expr.operands, Expr.is_halide_call,
        Expr.call_func, Expr.size, Expr.size_list, subterms, subterms_list, direct_calls,
        direct_calls_list, all_calls, all_calls_list, Function.stage_exprs, program_roots,
        program_nodes, Consistent, func_name, UniqueNames, nested_memory, nested_output,
        FunctionSorter.Settled, FunctionSorter.Good, FunctionSorter.SortFuncSpec, WellFormed,
        untraversed, Expr.is_func_or_image_call, engine_calls, FuncsOnlyInHalideCalls,
        ReverseAccumulationVisitor.KeysIn, ReverseAccumulationVisitor.Stored,
        ReverseAccumulationVisitor.TmpDefined, ReverseAccumulationVisitor.StoredAll,
        SameNameSameArgs, NodesById, OperandsFirst, ExpressionSorter.Pending, shared_operand_expr,
        five_minus_x, two_sites_memory, two_sites_output, eval_pair, inferred_bounds,
        bounds_values, two_slots_memory, max_output, min_output, staged_memory, call_f_zero,
        shared_body_memory, supported_shape, renamed_args_memory, call_g_zero, tie_memory,
        tie_max_output, tie_min_output, unused_let_output, BoundsInferencer.Covered,
        BoundsInferencer.InferenceFuncSpec, Expr.erase, Expr.erase_list, Expr.arith,
        rule_contributions, accumulate_all, contributions_into, shared_leaf_expr, seeded_engine,
        ReverseAccumulationVisitor.stage_start, shared_body_expr, shared_body_b,
        shared_body_walk_start, Except.bind, Except.map, bind, pure, Except.pure]

set_option maxHeartbeats 40000000 in
set_option maxRecDepth 100000 in
/-- C16, the code at the failing input: with `r.x` over `[0, 4)` and `r.y` over
`[10, 30)`, for the arguments of `f(r.y, r.x)` the estimator returns the bounds
`(0, 4)` of `r.x` for `r.y` at position `0` and the bounds `(10, 30)` of `r.y` for
`r.x` at position `1`. -/
theorem reduction_variable_bounds_by_position :
    bounds_values
      (get_min_max_bounds [] none 0 (.Variable 1 "r$y" (some 0)) two_slots_memory) =
      some (0, 4) ∧
    bounds_values
      (get_min_max_bounds [] none 1 (.Variable 2 "r$x" (some 0)) two_slots_memory) =
      some (10, 30) := by
  constructor
  · simp [Expr.id, Expr.same_as, map_find, map_set, map_keys, Memory.fresh, mk_add, mk_sub,
          mk_mul, mk_div, mk_min, mk_max, mk_le, mk_ge, mk_select, mk_let, mk_float, mk_var,
          mk_vars, mk_neg, mk_exp, mk_call, VariableFinder.include_with, VariableFinder.accept,
          VariableFinder.accept_list, VariableFinder.find, VariableReplacer.mutate,
          VariableReplacer.mutate_args, VariableReplacer.replace, inverse, rvar_name, rdom_slots,
          mk_rdom, rdom_domain, rdom_at, rdom_var, find_arg, get_min_max_bounds, merge_bounds,
          Function.stage_values, FunctionSorter.include_with, FunctionSorter.accept,
          FunctionSorter.accept_list, FunctionSorter.accept_stages, FunctionSorter.sort_func,
          FunctionSorter.sort, ExpressionSorter.include_with, ExpressionSorter.accept,
          ExpressionSorter.accept_list, ExpressionSorter.sort, BoundsInferencer.include_with,
          BoundsInferencer.arg_bounds, BoundsInferencer.merge_args,
          BoundsInferencer.merge_previous, BoundsInferencer.update_bounds,
          BoundsInferencer.accept, BoundsInferencer.accept_list, BoundsInferencer.accept_stages,
          BoundsInferencer.inference_func, BoundsInferencer.inference, Memory.set_func, mk_func,
          mk_func_default, func_define, define_base_case, func_add_update,
          ReverseAccumulationVisitor.new, ReverseAccumulationVisitor.accumulate,
          ReverseAccumulationVisitor.adjoint_of, ReverseAccumulationVisitor.adjoint_funcs_at,
          ReverseAccumulationVisitor.canonicalize_arg, ReverseAccumulationVisitor.canonicalize,
          ReverseAccumulationVisitor.scatter, ReverseAccumulationVisitor.accumulate_exp,
          ReverseAccumulationVisitor.accept, ReverseAccumulationVisitor.walk,
          ReverseAccumulationVisitor.create_stub, ReverseAccumulationVisitor.create_stubs,
          ReverseAccumulationVisitor.seed_root, ReverseAccumulationVisitor.new_tmp,
          ReverseAccumulationVisitor.add_back, ReverseAccumulationVisitor.propagate_stage,
          ReverseAccumulationVisitor.propagate_stages, ReverseAccumulationVisitor.propagate_func,
          ReverseAccumulationVisitor.propagate_funcs,
          ReverseAccumulationVisitor.propagate_adjoints, propagate_adjoints, eval_expr, eval_args,
          find_rdom, find_rdom_list, rdom_points, lhs_is_pure, eval_update_points, eval_update,
          eval_updates, eval_func, adjoint_value, constant_memory, constant_output,
          multiply_memory, call_out_zero, shift_memory, reduction_memory, two_inputs_memory,
          let_output, divide_output, diamond_memory, diamond_output, Expr.operands,
          Expr.is_halide_call, Expr.call_func, Expr.size, Expr.size_list, subterms, subterms_list,
          direct_calls, direct_calls_list, all_calls, all_calls_list, Function.stage_exprs,
          program_roots, program_nodes, Consistent, func_name, UniqueNames, nested_memory,
          nested_output, FunctionSorter.Settled, FunctionSorter.Good, FunctionSorter.SortFuncSpec,
          WellFormed, untraversed, Expr.is_func_or_image_call, engine_calls,
          FuncsOnlyInHalideCalls, ReverseAccumulationVisitor.KeysIn,
          ReverseAccumulationVisitor.Stored, ReverseAccumulationVisitor.TmpDefined,
          ReverseAccumulationVisitor.StoredAll, SameNameSameArgs, NodesById, OperandsFirst,
          ExpressionSorter.Pending, shared_operand_expr, five_minus_x, two_sites_memory,
          two_sites_output, eval_pair, inferred_bounds, bounds_values, two_slots_memory,
          max_output, min_output, staged_memory, call_f_zero, shared_body_memory, supported_shape,
          renamed_args_memory, call_g_zero, tie_memory, tie_max_output, tie_min_output,
          unused_let_output, BoundsInferencer.Covered, BoundsInferencer.InferenceFuncSpec,
          Expr.erase, Expr.erase_list, Expr.arith, rule_contributions, accumulate_all,
          contributions_into, shared_leaf_expr, seeded_engine,
          ReverseAccumulationVisitor.stage_start, shared_body_expr, shared_body_b,
          shared_body_walk_start, Except.bind, Except.map, bind, pure, Except.pure]
  · simp [Expr.id, Expr.same_as, map_find, map_set, map_keys, Memory.fresh, mk_add, mk_sub,
          mk_mul, mk_div, mk_min, mk_max, mk_le, mk_ge, mk_select, mk_let, mk_float, mk_var,
          mk_vars, mk_neg, mk_exp, mk_call, VariableFinder.include_with, VariableFinder.accept,
          VariableFinder.accept_list, VariableFinder.find, VariableReplacer.mutate,
          VariableReplacer.mutate_args, VariableReplacer.replace, inverse, rvar_name, rdom_slots,
          mk_rdom, rdom_domain, rdom_at, rdom_var, find_arg, get_min_max_bounds, merge_bounds,
          Function.stage_values, FunctionSorter.include_with, FunctionSorter.accept,
          FunctionSorter.accept_list, FunctionSorter.accept_stages, FunctionSorter.sort_func,
          FunctionSorter.sort, ExpressionSorter.include_with, ExpressionSorter.accept,
          ExpressionSorter.accept_list, ExpressionSorter.sort, BoundsInferencer.include_with,
          BoundsInferencer.arg_bounds, BoundsInferencer.merge_args,
          BoundsInferencer.merge_previous, BoundsInferencer.update_bounds,
          BoundsInferencer.accept, BoundsInferencer.accept_list, BoundsInferencer.accept_stages,
          BoundsInferencer.inference_func, BoundsInferencer.inference, Memory.set_func, mk_func,
          mk_func_default, func_define, define_base_case, func_add_update,
          ReverseAccumulationVisitor.new, ReverseAccumulationVisitor.accumulate,
          ReverseAccumulationVisitor.adjoint_of, ReverseAccumulationVisitor.adjoint_funcs_at,
          ReverseAccumulationVisitor.canonicalize_arg, ReverseAccumulationVisitor.canonicalize,
          ReverseAccumulationVisitor.scatter, ReverseAccumulationVisitor.accumulate_exp,
          ReverseAccumulationVisitor.accept, ReverseAccumulationVisitor.walk,
          ReverseAccumulationVisitor.create_stub, ReverseAccumulationVisitor.create_stubs,
          ReverseAccumulationVisitor.seed_root, ReverseAccumulationVisitor.new_tmp,
          ReverseAccumulationVisitor.add_back, ReverseAccumulationVisitor.propagate_stage,
          ReverseAccumulationVisitor.propagate_stages, ReverseAccumulationVisitor.propagate_func,
          ReverseAccumulationVisitor.propagate_funcs,
          ReverseAccumulationVisitor.propagate_adjoints, propagate_adjoints, eval_expr, eval_args,
          find_rdom, find_rdom_list, rdom_points, lhs_is_pure, eval_update_points, eval_update,
          eval_updates, eval_func, adjoint_value, constant_memory, constant_output,
          multiply_memory, call_out_zero, shift_memory, reduction_memory, two_inputs_memory,
          let_output, divide_output, diamond_memory, diamond_output, Expr.operands,
          Expr.is_halide_call, Expr.call_func, Expr.size, Expr.size_list, subterms, subterms_list,
          direct_calls, direct_calls_list, all_calls, all_calls_list, Function.stage_exprs,
          program_roots, program_nodes, Consistent, func_name, UniqueNames, nested_memory,
          nested_output, FunctionSorter.Settled, FunctionSorter.Good, FunctionSorter.SortFuncSpec,
          WellFormed, untraversed, Expr.is_func_or_image_call, engine_calls,
          FuncsOnlyInHalideCalls, ReverseAccumulationVisitor.KeysIn,
          ReverseAccumulationVisitor.Stored, ReverseAccumulationVisitor.TmpDefined,
          ReverseAccumulationVisitor.StoredAll, SameNameSameArgs, NodesById, OperandsFirst,
          ExpressionSorter.Pending, shared_operand_expr, five_minus_x, two_sites_memory,
          two_sites_output, eval_pair, inferred_bounds, bounds_values, two_slots_memory,
          max_output, min_output, staged_memory, call_f_zero, shared_body_memory, supported_shape,
          renamed_args_memory, call_g_zero, tie_memory, tie_max_output, tie_min_output,
          unused_let_output, BoundsInferencer.Covered, BoundsInferencer.InferenceFuncSpec,
          Expr.erase, Expr.erase_list, Expr.arith, rule_contributions, accumulate_all,
          contributions_into, shared_leaf_expr, seeded_engine,
          ReverseAccumulationVisitor.stage_start, shared_body_expr, shared_body_b,
          shared_body_walk_start, Except.bind, Except.map, bind, pure, Except.pure]
    norm_num

set_option maxHeartbeats 40000000 in
set_option maxRecDepth 100000 in
/-- C17, the code at the failing input: for `sub(a, b)` with `a = 5` and `b = x`,
`inverse(x, sub(a, b))` is the node `x - 5`, that is `inverse(x, b) - a`, not
`a - inverse(x, b)`. -/
theorem inverse_sub_second_operand (m : Memory) :
    inverse "x" five_minus_x m =
      .ok (.Sub m.next_id (.Variable 3 "x" none) (.IntImm 2 5), m.fresh.2) := by
  simp [Expr.id, Expr.same_as, map_find, map_set, map_keys, Memory.fresh, mk_add, mk_sub, mk_mul,
        mk_div, mk_min, mk_max, mk_le, mk_ge, mk_select, mk_let, mk_float, mk_var, mk_vars,
        mk_neg, mk_exp, mk_call, VariableFinder.include_with, VariableFinder.accept,
        VariableFinder.accept_list, VariableFinder.find, VariableReplacer.mutate,
        VariableReplacer.mutate_args, VariableReplacer.replace, inverse, rvar_name, rdom_slots,
        mk_rdom, rdom_domain, rdom_at, rdom_var, find_arg, get_min_max_bounds, merge_bounds,
        Function.stage_values, FunctionSorter.include_with, FunctionSorter.accept,
        FunctionSorter.accept_list, FunctionSorter.accept_stages, FunctionSorter.sort_func,
        FunctionSorter.sort, ExpressionSorter.include_with, ExpressionSorter.accept,
        ExpressionSorter.accept_list, ExpressionSorter.sort, BoundsInferencer.include_with,
        BoundsInferencer.arg_bounds, BoundsInferencer.merge_args, BoundsInferencer.merge_previous,
        BoundsInferencer.update_bounds, BoundsInferencer.accept, BoundsInferencer.accept_list,
        BoundsInferencer.accept_stages, BoundsInferencer.inference_func,
        BoundsInferencer.inference, Memory.set_func, mk_func, mk_func_default, func_define,
        define_base_case, func_add_update, ReverseAccumulationVisitor.new,
        ReverseAccumulationVisitor.accumulate, ReverseAccumulationVisitor.adjoint_of,
        ReverseAccumulationVisitor.adjoint_funcs_at, ReverseAccumulationVisitor.canonicalize_arg,
        ReverseAccumulationVisitor.canonicalize, ReverseAccumulationVisitor.scatter,
        ReverseAccumulationVisitor.accumulate_exp, ReverseAccumulationVisitor.accept,
        ReverseAccumulationVisitor.walk, ReverseAccumulationVisitor.create_stub,
        ReverseAccumulationVisitor.create_stubs, ReverseAccumulationVisitor.seed_root,
        ReverseAccumulationVisitor.new_tmp, ReverseAccumulationVisitor.add_back,
        ReverseAccumulationVisitor.propagate_stage, ReverseAccumulationVisitor.propagate_stages,
        ReverseAccumulationVisitor.propagate_func, ReverseAccumulationVisitor.propagate_funcs,
        ReverseAccumulationVisitor.propagate_adjoints, propagate_adjoints, eval_expr, eval_args,
        find_rdom, find_rdom_list, rdom_points, lhs_is_pure, eval_update_points, eval_update,
        eval_updates, eval_func, adjoint_value, constant_memory, constant_output, multiply_memory,
        call_out_zero, shift_memory, reduction_memory, two_inputs_memory, let_output,
        divide_output, diamond_memory, diamond_output, Expr.operands, Expr.is_halide_call,
        Expr.call_func, Expr.size, Expr.size_list, subterms, subterms_list, direct_calls,
        direct_calls_list, all_calls, all_calls_list, Function.stage_exprs, program_roots,
        program_nodes, Consistent, func_name, UniqueNames, nested_memory, nested_output,
        FunctionSorter.Settled, FunctionSorter.Good, FunctionSorter.SortFuncSpec, WellFormed,
        untraversed, Expr.is_func_or_image_call, engine_calls, FuncsOnlyInHalideCalls,
        ReverseAccumulationVisitor.KeysIn, ReverseAccumulationVisitor.Stored,
        ReverseAccumulationVisitor.TmpDefined, ReverseAccumulationVisitor.StoredAll,
        SameNameSameArgs, NodesById, OperandsFirst, ExpressionSorter.Pending, shared_operand_expr,
        five_minus_x, two_sites_memory, two_sites_output, eval_pair, inferred_bounds,
        bounds_values, two_slots_memory, max_output, min_output, staged_memory, call_f_zero,
        shared_body_memory, supported_shape, renamed_args_memory, call_g_zero, tie_memory,
        tie_max_output, tie_min_output, unused_let_output, BoundsInferencer.Covered,
        BoundsInferencer.InferenceFuncSpec, Expr.erase, Expr.erase_list, Expr.arith,
        rule_contributions, accumulate_all, contributions_into, shared_leaf_expr, seeded_engine,
        ReverseAccumulationVisitor.stage_start, shared_body_expr, shared_body_b,
        shared_body_walk_start, Except.bind, Except.map, bind, pure, Except.pure]

set_option maxHeartbeats 40000000 in
set_option maxRecDepth 100000 in
/-- C19, the code at the failing input: for `g(x) = 1`, `f(x) = g(x)`, `f(x) += 1`
and the output `f(0)`, the root `g(x)` of the pure definition of `f` has no adjoint
when its reverse walk begins, and the run stops at the assertion of
`visit(const Call *)`. -/
theorem pure_stage_not_seeded (n : ℕ) :
    propagate_adjoints staged_memory (n + 2) call_f_zero = .error .assert_failed := by
  simp [Expr.id, Expr.same_as, map_find, map_set, map_keys, Memory.fresh, mk_add, mk_sub, mk_mul,
        mk_div, mk_min, mk_max, mk_le, mk_ge, mk_select, mk_let, mk_float, mk_var, mk_vars,
        mk_neg, mk_exp, mk_call, VariableFinder.include_with, VariableFinder.accept,
        VariableFinder.accept_list, VariableFinder.find, VariableReplacer.mutate,
        VariableReplacer.mutate_args, VariableReplacer.replace, inverse, rvar_name, rdom_slots,
        mk_rdom, rdom_domain, rdom_at, rdom_var, find_arg, get_min_max_bounds, merge_bounds,
        Function.stage_values, FunctionSorter.include_with, FunctionSorter.accept,
        FunctionSorter.accept_list, FunctionSorter.accept_stages, FunctionSorter.sort_func,
        FunctionSorter.sort, ExpressionSorter.include_with, ExpressionSorter.accept,
        ExpressionSorter.accept_list, ExpressionSorter.sort, BoundsInferencer.include_with,
        BoundsInferencer.arg_bounds, BoundsInferencer.merge_args, BoundsInferencer.merge_previous,
        BoundsInferencer.update_bounds, BoundsInferencer.accept, BoundsInferencer.accept_list,
        BoundsInferencer.accept_stages, BoundsInferencer.inference_func,
        BoundsInferencer.inference, Memory.set_func, mk_func, mk_func_default, func_define,
        define_base_case, func_add_update, ReverseAccumulationVisitor.new,
        ReverseAccumulationVisitor.accumulate, ReverseAccumulationVisitor.adjoint_of,
        ReverseAccumulationVisitor.adjoint_funcs_at, ReverseAccumulationVisitor.canonicalize_arg,
        ReverseAccumulationVisitor.canonicalize, ReverseAccumulationVisitor.scatter,
        ReverseAccumulationVisitor.accumulate_exp, ReverseAccumulationVisitor.accept,
        ReverseAccumulationVisitor.walk, ReverseAccumulationVisitor.create_stub,
        ReverseAccumulationVisitor.create_stubs, ReverseAccumulationVisitor.seed_root,
        ReverseAccumulationVisitor.new_tmp, ReverseAccumulationVisitor.add_back,
        ReverseAccumulationVisitor.propagate_stage, ReverseAccumulationVisitor.propagate_stages,
        ReverseAccumulationVisitor.propagate_func, ReverseAccumulationVisitor.propagate_funcs,
        ReverseAccumulationVisitor.propagate_adjoints, propagate_adjoints, eval_expr, eval_args,
        find_rdom, find_rdom_list, rdom_points, lhs_is_pure, eval_update_points, eval_update,
        eval_updates, eval_func, adjoint_value, constant_memory, constant_output, multiply_memory,
        call_out_zero, shift_memory, reduction_memory, two_inputs_memory, let_output,
        divide_output, diamond_memory, diamond_output, Expr.operands, Expr.is_halide_call,
        Expr.call_func, Expr.size, Expr.size_list, subterms, subterms_list, direct_calls,
        direct_calls_list, all_calls, all_calls_list, Function.stage_exprs, program_roots,
        program_nodes, Consistent, func_name, UniqueNames, nested_memory, nested_output,
        FunctionSorter.Settled, FunctionSorter.Good, FunctionSorter.SortFuncSpec, WellFormed,
        untraversed, Expr.is_func_or_image_call, engine_calls, FuncsOnlyInHalideCalls,
        ReverseAccumulationVisitor.KeysIn, ReverseAccumulationVisitor.Stored,
        ReverseAccumulationVisitor.TmpDefined, ReverseAccumulationVisitor.StoredAll,
        SameNameSameArgs, NodesById, OperandsFirst, ExpressionSorter.Pending, shared_operand_expr,
        five_minus_x, two_sites_memory, two_sites_output, eval_pair, inferred_bounds,
        bounds_values, two_slots_memory, max_output, min_output, staged_memory, call_f_zero,
        shared_body_memory, supported_shape, renamed_args_memory, call_g_zero, tie_memory,
        tie_max_output, tie_min_output, unused_let_output, BoundsInferencer.Covered,
        BoundsInferencer.InferenceFuncSpec, Expr.erase, Expr.erase_list, Expr.arith,
        rule_contributions, accumulate_all, contributions_into, shared_leaf_expr, seeded_engine,
        ReverseAccumulationVisitor.stage_start, shared_body_expr, shared_body_b,
        shared_body_walk_start, Except.bind, Except.map, bind, pure, Except.pure]

set_option maxHeartbeats 40000000 in
set_option maxRecDepth 100000 in
/-- C20, the code at the failing input: for `a(x) = e`, `b(x) = e` with the one node
`e = c(x) * 2`, `c(x) = 1` and the output `a(0) + b(0)`, the adjoint returned for `c`
is `6` at index `0`: the walk of the definition of `b` starts with the adjoint that
the walk of the definition of `a` left at the node `c(x)`. -/
theorem shared_node_keeps_adjoint (n m : ℕ) :
    adjoint_value (propagate_adjoints shared_body_memory (n + 2) diamond_output) (m + 3)
      "c" [0] = some 6 := by
  simp [Expr.id, Expr.same_as, map_find, map_set, map_keys, Memory.fresh, mk_add, mk_sub, mk_mul,
        mk_div, mk_min, mk_max, mk_le, mk_ge, mk_select, mk_let, mk_float, mk_var, mk_vars,
        mk_neg, mk_exp, mk_call, VariableFinder.include_with, VariableFinder.accept,
        VariableFinder.accept_list, VariableFinder.find, VariableReplacer.mutate,
        VariableReplacer.mutate_args, VariableReplacer.replace, inverse, rvar_name, rdom_slots,
        mk_rdom, rdom_domain, rdom_at, rdom_var, find_arg, get_min_max_bounds, merge_bounds,
        Function.stage_values, FunctionSorter.include_with, FunctionSorter.accept,
        FunctionSorter.accept_list, FunctionSorter.accept_stages, FunctionSorter.sort_func,
        FunctionSorter.sort, ExpressionSorter.include_with, ExpressionSorter.accept,
        ExpressionSorter.accept_list, ExpressionSorter.sort, BoundsInferencer.include_with,
        BoundsInferencer.arg_bounds, BoundsInferencer.merge_args, BoundsInferencer.merge_previous,
        BoundsInferencer.update_bounds, BoundsInferencer.accept, BoundsInferencer.accept_list,
        BoundsInferencer.accept_stages, BoundsInferencer.inference_func,
        BoundsInferencer.inference, Memory.set_func, mk_func, mk_func_default, func_define,
        define_base_case, func_add_update, ReverseAccumulationVisitor.new,
        ReverseAccumulationVisitor.accumulate, ReverseAccumulationVisitor.adjoint_of,
        ReverseAccumulationVisitor.adjoint_funcs_at, ReverseAccumulationVisitor.canonicalize_arg,
        ReverseAccumulationVisitor.canonicalize, ReverseAccumulationVisitor.scatter,
        ReverseAccumulationVisitor.accumulate_exp, ReverseAccumulationVisitor.accept,
        ReverseAccumulationVisitor.walk, ReverseAccumulationVisitor.create_stub,
        ReverseAccumulationVisitor.create_stubs, ReverseAccumulationVisitor.seed_root,
        ReverseAccumulationVisitor.new_tmp, ReverseAccumulationVisitor.add_back,
        ReverseAccumulationVisitor.propagate_stage, ReverseAccumulationVisitor.propagate_stages,
        ReverseAccumulationVisitor.propagate_func, ReverseAccumulationVisitor.propagate_funcs,
        ReverseAccumulationVisitor.propagate_adjoints, propagate_adjoints, eval_expr, eval_args,
        find_rdom, find_rdom_list, rdom_points, lhs_is_pure, eval_update_points, eval_update,
        eval_updates, eval_func, adjoint_value, constant_memory, constant_output, multiply_memory,
        call_out_zero, shift_memory, reduction_memory, two_inputs_memory, let_output,
        divide_output, diamond_memory, diamond_output, Expr.operands, Expr.is_halide_call,
        Expr.call_func, Expr.size, Expr.size_list, subterms, subterms_list, direct_calls,
        direct_calls_list, all_calls, all_calls_list, Function.stage_exprs, program_roots,
        program_nodes, Consistent, func_name, UniqueNames, nested_memory, nested_output,
        FunctionSorter.Settled, FunctionSorter.Good, FunctionSorter.SortFuncSpec, WellFormed,
        untraversed, Expr.is_func_or_image_call, engine_calls, FuncsOnlyInHalideCalls,
        ReverseAccumulationVisitor.KeysIn, ReverseAccumulationVisitor.Stored,
        ReverseAccumulationVisitor.TmpDefined, ReverseAccumulationVisitor.StoredAll,
        SameNameSameArgs, NodesById, OperandsFirst, ExpressionSorter.Pending, shared_operand_expr,
        five_minus_x, two_sites_memory, two_sites_output, eval_pair, inferred_bounds,
        bounds_values, two_slots_memory, max_output, min_output, staged_memory, call_f_zero,
        shared_body_memory, supported_shape, renamed_args_memory, call_g_zero, tie_memory,
        tie_max_output, tie_min_output, unused_let_output, BoundsInferencer.Covered,
        BoundsInferencer.InferenceFuncSpec, Expr.erase, Expr.erase_list, Expr.arith,
        rule_contributions, accumulate_all, contributions_into, shared_leaf_expr, seeded_engine,
        ReverseAccumulationVisitor.stage_start, shared_body_expr, shared_body_b,
        shared_body_walk_start, Except.bind, Except.map, bind, pure, Except.pure]
  norm_num

set_option maxHeartbeats 40000000 in
set_option maxRecDepth 100000 in
/-- C21, the code at the failing input: for `f(x) = 1`, `h(x) = 2`,
`g(u) = f(3) * h(u)` and the output `g(0)`, the update that the call `f(3)` adds to
the adjoint stub of `f` (handle `5`) is `f_d__(x) += g_d__(u) * h(u)`: the argument
`3` does not mention `x`, the adjoint mentions the free argument `u` of `g`, and `u`
is not replaced, because the adjoint is searched for the name `x` of the argument of
`f`. -/
theorem renamed_argument_not_replaced (n : ℕ) :
    (propagate_adjoints renamed_args_memory (n + 2) call_g_zero).map
        (fun r => (r.2.funcs[5]?).map fun (f : Function) =>
          (f.name, f.args, f.updates.map fun (d : Definition) => d.value)) =
      .ok (some ("f_d__", ["x"],
        [.Add 120 (.Call 119 "f_d__" .Halide (some 5) [.Variable 118 "x" none])
          (.Mul 113 (.Call 111 "g_d__" .Halide (some 4) [.Variable 110 "u" none])
            (.Call 33 "h" .Halide (some 1) [.Variable 34 "u" none]))])) ∧
    VariableFinder.find
      (.Mul 113 (.Call 111 "g_d__" .Halide (some 4) [.Variable 110 "u" none])
        (.Call 33 "h" .Halide (some 1) [.Variable 34 "u" none])) "u" = true := by
  constructor
  · simp [Expr.id, Expr.same_as, map_find, map_set, map_keys, Memory.fresh, mk_add, mk_sub,
          mk_mul, mk_div, mk_min, mk_max, mk_le, mk_ge, mk_select, mk_let, mk_float, mk_var,
          mk_vars, mk_neg, mk_exp, mk_call, VariableFinder.include_with, VariableFinder.accept,
          VariableFinder.accept_list, VariableFinder.find, VariableReplacer.mutate,
          VariableReplacer.mutate_args, VariableReplacer.replace, inverse, rvar_name, rdom_slots,
          mk_rdom, rdom_domain, rdom_at, rdom_var, find_arg, get_min_max_bounds, merge_bounds,
          Function.stage_values, FunctionSorter.include_with, FunctionSorter.accept,
          FunctionSorter.accept_list, FunctionSorter.accept_stages, FunctionSorter.sort_func,
          FunctionSorter.sort, ExpressionSorter.include_with, ExpressionSorter.accept,
          ExpressionSorter.accept_list, ExpressionSorter.sort, BoundsInferencer.include_with,
          BoundsInferencer.arg_bounds, BoundsInferencer.merge_args,
          BoundsInferencer.merge_previous, BoundsInferencer.update_bounds,
          BoundsInferencer.accept, BoundsInferencer.accept_list, BoundsInferencer.accept_stages,
          BoundsInferencer.inference_func, BoundsInferencer.inference, Memory.set_func, mk_func,
          mk_func_default, func_define, define_base_case, func_add_update,
          ReverseAccumulationVisitor.new, ReverseAccumulationVisitor.accumulate,
          ReverseAccumulationVisitor.adjoint_of, ReverseAccumulationVisitor.adjoint_funcs_at,
          ReverseAccumulationVisitor.canonicalize_arg, ReverseAccumulationVisitor.canonicalize,
          ReverseAccumulationVisitor.scatter, ReverseAccumulationVisitor.accumulate_exp,
          ReverseAccumulationVisitor.accept, ReverseAccumulationVisitor.walk,
          ReverseAccumulationVisitor.create_stub, ReverseAccumulationVisitor.create_stubs,
          ReverseAccumulationVisitor.seed_root, ReverseAccumulationVisitor.new_tmp,
          ReverseAccumulationVisitor.add_back, ReverseAccumulationVisitor.propagate_stage,
          ReverseAccumulationVisitor.propagate_stages, ReverseAccumulationVisitor.propagate_func,
          ReverseAccumulationVisitor.propagate_funcs,
          ReverseAccumulationVisitor.propagate_adjoints, propagate_adjoints, eval_expr, eval_args,
          find_rdom, find_rdom_list, rdom_points, lhs_is_pure, eval_update_points, eval_update,
          eval_updates, eval_func, adjoint_value, constant_memory, constant_output,
          multiply_memory, call_out_zero, shift_memory, reduction_memory, two_inputs_memory,
          let_output, divide_output, diamond_memory, diamond_output, Expr.operands,
          Expr.is_halide_call, Expr.call_func, Expr.size, Expr.size_list, subterms, subterms_list,
          direct_calls, direct_calls_list, all_calls, all_calls_list, Function.stage_exprs,
          program_roots, program_nodes, Consistent, func_name, UniqueNames, nested_memory,
          nested_output, FunctionSorter.Settled, FunctionSorter.Good, FunctionSorter.SortFuncSpec,
          WellFormed, untraversed, Expr.is_func_or_image_call, engine_calls,
          FuncsOnlyInHalideCalls, ReverseAccumulationVisitor.KeysIn,
          ReverseAccumulationVisitor.Stored, ReverseAccumulationVisitor.TmpDefined,
          ReverseAccumulationVisitor.StoredAll, SameNameSameArgs, NodesById, OperandsFirst,
          ExpressionSorter.Pending, shared_operand_expr, five_minus_x, two_sites_memory,
          two_sites_output, eval_pair, inferred_bounds, bounds_values, two_slots_memory,
          max_output, min_output, staged_memory, call_f_zero, shared_body_memory, supported_shape,
          renamed_args_memory, call_g_zero, tie_memory, tie_max_output, tie_min_output,
          unused_let_output, BoundsInferencer.Covered, BoundsInferencer.InferenceFuncSpec,
          Expr.erase, Expr.erase_list, Expr.arith, rule_contributions, accumulate_all,
          contributions_into, shared_leaf_expr, seeded_engine,
          ReverseAccumulationVisitor.stage_start, shared_body_expr, shared_body_b,
          shared_body_walk_start, Except.bind, Except.map, bind, pure, Except.pure]
  · simp [Expr.id, Expr.same_as, map_find, map_set, map_keys, Memory.fresh, mk_add, mk_sub,
          mk_mul, mk_div, mk_min, mk_max, mk_le, mk_ge, mk_select, mk_let, mk_float, mk_var,
          mk_vars, mk_neg, mk_exp, mk_call, VariableFinder.include_with, VariableFinder.accept,
          VariableFinder.accept_list, VariableFinder.find, VariableReplacer.mutate,
          VariableReplacer.mutate_args, VariableReplacer.replace, inverse, rvar_name, rdom_slots,
          mk_rdom, rdom_domain, rdom_at, rdom_var, find_arg, get_min_max_bounds, merge_bounds,
          Function.stage_values, FunctionSorter.include_with, FunctionSorter.accept,
          FunctionSorter.accept_list, FunctionSorter.accept_stages, FunctionSorter.sort_func,
          FunctionSorter.sort, ExpressionSorter.include_with, ExpressionSorter.accept,
          ExpressionSorter.accept_list, ExpressionSorter.sort, BoundsInferencer.include_with,
          BoundsInferencer.arg_bounds, BoundsInferencer.merge_args,
          BoundsInferencer.merge_previous, BoundsInferencer.update_bounds,
          BoundsInferencer.accept, BoundsInferencer.accept_list, BoundsInferencer.accept_stages,
          BoundsInferencer.inference_func, BoundsInferencer.inference, Memory.set_func, mk_func,
          mk_func_default, func_define, define_base_case, func_add_update,
          ReverseAccumulationVisitor.new, ReverseAccumulationVisitor.accumulate,
          ReverseAccumulationVisitor.adjoint_of, ReverseAccumulationVisitor.adjoint_funcs_at,
          ReverseAccumulationVisitor.canonicalize_arg, ReverseAccumulationVisitor.canonicalize,
          ReverseAccumulationVisitor.scatter, ReverseAccumulationVisitor.accumulate_exp,
          ReverseAccumulationVisitor.accept, ReverseAccumulationVisitor.walk,
          ReverseAccumulationVisitor.create_stub, ReverseAccumulationVisitor.create_stubs,
          ReverseAccumulationVisitor.seed_root, ReverseAccumulationVisitor.new_tmp,
          ReverseAccumulationVisitor.add_back, ReverseAccumulationVisitor.propagate_stage,
          ReverseAccumulationVisitor.propagate_stages, ReverseAccumulationVisitor.propagate_func,
          ReverseAccumulationVisitor.propagate_funcs,
          ReverseAccumulationVisitor.propagate_adjoints, propagate_adjoints, eval_expr, eval_args,
          find_rdom, find_rdom_list, rdom_points, lhs_is_pure, eval_update_points, eval_update,
          eval_updates, eval_func, adjoint_value, constant_memory, constant_output,
          multiply_memory, call_out_zero, shift_memory, reduction_memory, two_inputs_memory,
          let_output, divide_output, diamond_memory, diamond_output, Expr.operands,
          Expr.is_halide_call, Expr.call_func, Expr.size, Expr.size_list, subterms, subterms_list,
          direct_calls, direct_calls_list, all_calls, all_calls_list, Function.stage_exprs,
          program_roots, program_nodes, Consistent, func_name, UniqueNames, nested_memory,
          nested_output, FunctionSorter.Settled, FunctionSorter.Good, FunctionSorter.SortFuncSpec,
          WellFormed, untraversed, Expr.is_func_or_image_call, engine_calls,
          FuncsOnlyInHalideCalls, ReverseAccumulationVisitor.KeysIn,
          ReverseAccumulationVisitor.Stored, ReverseAccumulationVisitor.TmpDefined,
          ReverseAccumulationVisitor.StoredAll, SameNameSameArgs, NodesById, OperandsFirst,
          ExpressionSorter.Pending, shared_operand_expr, five_minus_x, two_sites_memory,
          two_sites_output, eval_pair, inferred_bounds, bounds_values, two_slots_memory,
          max_output, min_output, staged_memory, call_f_zero, shared_body_memory, supported_shape,
          renamed_args_memory, call_g_zero, tie_memory, tie_max_output, tie_min_output,
          unused_let_output, BoundsInferencer.Covered, BoundsInferencer.InferenceFuncSpec,
          Expr.erase, Expr.erase_list, Expr.arith, rule_contributions, accumulate_all,
          contributions_into, shared_leaf_expr, seeded_engine,
          ReverseAccumulationVisitor.stage_start, shared_body_expr, shared_body_b,
          shared_body_walk_start, Except.bind, Except.map, bind, pure, Except.pure]

set_option maxHeartbeats 40000000 in
set_option maxRecDepth 100000 in
/-- C23 as stated fails: for `a(x) = 2`, `b(x) = 2` and the output `max(a(0), b(0))`,
where the incoming adjoint is `1`, both operands receive `1`, and the pair `(1, 1)`
is not `(t * 1, (1 - t) * 1)` for any `t`. -/
theorem tie_pair_is_no_subgradient :
    adjoint_value (propagate_adjoints (two_inputs_memory 2 2) 1 max_output) 3 "a" [0] =
      some 1 ∧
    adjoint_value (propagate_adjoints (two_inputs_memory 2 2) 1 max_output) 3 "b" [0] =
      some 1 ∧
    ¬ ∃ t : ℚ, 0 ≤ t ∧ t ≤ 1 ∧ (1 : ℚ) = t * 1 ∧ (1 : ℚ) = (1 - t) * 1 := by
  refine ⟨?_, ?_, ?_⟩
  · simp [Expr.id, Expr.same_as, map_find, map_set, map_keys, Memory.fresh, mk_add, mk_sub,
          mk_mul, mk_div, mk_min, mk_max, mk_le, mk_ge, mk_select, mk_let, mk_float, mk_var,
          mk_vars, mk_neg, mk_exp, mk_call, VariableFinder.include_with, VariableFinder.accept,
          VariableFinder.accept_list, VariableFinder.find, VariableReplacer.mutate,
          VariableReplacer.mutate_args, VariableReplacer.replace, inverse, rvar_name, rdom_slots,
          mk_rdom, rdom_domain, rdom_at, rdom_var, find_arg, get_min_max_bounds, merge_bounds,
          Function.stage_values, FunctionSorter.include_with, FunctionSorter.accept,
          FunctionSorter.accept_list, FunctionSorter.accept_stages, FunctionSorter.sort_func,
          FunctionSorter.sort, ExpressionSorter.include_with, ExpressionSorter.accept,
          ExpressionSorter.accept_list, ExpressionSorter.sort, BoundsInferencer.include_with,
          BoundsInferencer.arg_bounds, BoundsInferencer.merge_args,
          BoundsInferencer.merge_previous, BoundsInferencer.update_bounds,
          BoundsInferencer.accept, BoundsInferencer.accept_list, BoundsInferencer.accept_stages,
          BoundsInferencer.inference_func, BoundsInferencer.inference, Memory.set_func, mk_func,
          mk_func_default, func_define, define_base_case, func_add_update,
          ReverseAccumulationVisitor.new, ReverseAccumulationVisitor.accumulate,
          ReverseAccumulationVisitor.adjoint_of, ReverseAccumulationVisitor.adjoint_funcs_at,
          ReverseAccumulationVisitor.canonicalize_arg, ReverseAccumulationVisitor.canonicalize,
          ReverseAccumulationVisitor.scatter, ReverseAccumulationVisitor.accumulate_exp,
          ReverseAccumulationVisitor.accept, ReverseAccumulationVisitor.walk,
          ReverseAccumulationVisitor.create_stub, ReverseAccumulationVisitor.create_stubs,
          ReverseAccumulationVisitor.seed_root, ReverseAccumulationVisitor.new_tmp,
          ReverseAccumulationVisitor.add_back, ReverseAccumulationVisitor.propagate_stage,
          ReverseAccumulationVisitor.propagate_stages, ReverseAccumulationVisitor.propagate_func,
          ReverseAccumulationVisitor.propagate_funcs,
          ReverseAccumulationVisitor.propagate_adjoints, propagate_adjoints, eval_expr, eval_args,
          find_rdom, find_rdom_list, rdom_points, lhs_is_pure, eval_update_points, eval_update,
          eval_updates, eval_func, adjoint_value, constant_memory, constant_output,
          multiply_memory, call_out_zero, shift_memory, reduction_memory, two_inputs_memory,
          let_output, divide_output, diamond_memory, diamond_output, Expr.operands,
          Expr.is_halide_call, Expr.call_func, Expr.size, Expr.size_list, subterms, subterms_list,
          direct_calls, direct_calls_list, all_calls, all_calls_list, Function.stage_exprs,
          program_roots, program_nodes, Consistent, func_name, UniqueNames, nested_memory,
          nested_output, FunctionSorter.Settled, FunctionSorter.Good, FunctionSorter.SortFuncSpec,
          WellFormed, untraversed, Expr.is_func_or_image_call, engine_calls,
          FuncsOnlyInHalideCalls, ReverseAccumulationVisitor.KeysIn,
          ReverseAccumulationVisitor.Stored, ReverseAccumulationVisitor.TmpDefined,
          ReverseAccumulationVisitor.StoredAll, SameNameSameArgs, NodesById, OperandsFirst,
          ExpressionSorter.Pending, shared_operand_expr, five_minus_x, two_sites_memory,
          two_sites_output, eval_pair, inferred_bounds, bounds_values, two_slots_memory,
          max_output, min_output, staged_memory, call_f_zero, shared_body_memory, supported_shape,
          renamed_args_memory, call_g_zero, tie_memory, tie_max_output, tie_min_output,
          unused_let_output, BoundsInferencer.Covered, BoundsInferencer.InferenceFuncSpec,
          Expr.erase, Expr.erase_list, Expr.arith, rule_contributions, accumulate_all,
          contributions_into, shared_leaf_expr, seeded_engine,
          ReverseAccumulationVisitor.stage_start, shared_body_expr, shared_body_b,
          shared_body_walk_start, Except.bind, Except.map, bind, pure, Except.pure]
  · simp [Expr.id, Expr.same_as, map_find, map_set, map_keys, Memory.fresh, mk_add, mk_sub,
          mk_mul, mk_div, mk_min, mk_max, mk_le, mk_ge, mk_select, mk_let, mk_float, mk_var,
          mk_vars, mk_neg, mk_exp, mk_call, VariableFinder.include_with, VariableFinder.accept,
          VariableFinder.accept_list, VariableFinder.find, VariableReplacer.mutate,
          VariableReplacer.mutate_args, VariableReplacer.replace, inverse, rvar_name, rdom_slots,
          mk_rdom, rdom_domain, rdom_at, rdom_var, find_arg, get_min_max_bounds, merge_bounds,
          Function.stage_values, FunctionSorter.include_with, FunctionSorter.accept,
          FunctionSorter.accept_list, FunctionSorter.accept_stages, FunctionSorter.sort_func,
          FunctionSorter.sort, ExpressionSorter.include_with, ExpressionSorter.accept,
          ExpressionSorter.accept_list, ExpressionSorter.sort, BoundsInferencer.include_with,
          BoundsInferencer.arg_bounds, BoundsInferencer.merge_args,
          BoundsInferencer.merge_previous, BoundsInferencer.update_bounds,
          BoundsInferencer.accept, BoundsInferencer.accept_list, BoundsInferencer.accept_stages,
          BoundsInferencer.inference_func, BoundsInferencer.inference, Memory.set_func, mk_func,
          mk_func_default, func_define, define_base_case, func_add_update,
          ReverseAccumulationVisitor.new, ReverseAccumulationVisitor.accumulate,
          ReverseAccumulationVisitor.adjoint_of, ReverseAccumulationVisitor.adjoint_funcs_at,
          ReverseAccumulationVisitor.canonicalize_arg, ReverseAccumulationVisitor.canonicalize,
          ReverseAccumulationVisitor.scatter, ReverseAccumulationVisitor.accumulate_exp,
          ReverseAccumulationVisitor.accept, ReverseAccumulationVisitor.walk,
          ReverseAccumulationVisitor.create_stub, ReverseAccumulationVisitor.create_stubs,
          ReverseAccumulationVisitor.seed_root, ReverseAccumulationVisitor.new_tmp,
          ReverseAccumulationVisitor.add_back, ReverseAccumulationVisitor.propagate_stage,
          ReverseAccumulationVisitor.propagate_stages, ReverseAccumulationVisitor.propagate_func,
          ReverseAccumulationVisitor.propagate_funcs,
          ReverseAccumulationVisitor.propagate_adjoints, propagate_adjoints, eval_expr, eval_args,
          find_rdom, find_rdom_list, rdom_points, lhs_is_pure, eval_update_points, eval_update,
          eval_updates, eval_func, adjoint_value, constant_memory, constant_output,
          multiply_memory, call_out_zero, shift_memory, reduction_memory, two_inputs_memory,
          let_output, divide_output, diamond_memory, diamond_output, Expr.operands,
          Expr.is_halide_call, Expr.call_func, Expr.size, Expr.size_list, subterms, subterms_list,
          direct_calls, direct_calls_list, all_calls, all_calls_list, Function.stage_exprs,
          program_roots, program_nodes, Consistent, func_name, UniqueNames, nested_memory,
          nested_output, FunctionSorter.Settled, FunctionSorter.Good, FunctionSorter.SortFuncSpec,
          WellFormed, untraversed, Expr.is_func_or_image_call, engine_calls,
          FuncsOnlyInHalideCalls, ReverseAccumulationVisitor.KeysIn,
          ReverseAccumulationVisitor.Stored, ReverseAccumulationVisitor.TmpDefined,
          ReverseAccumulationVisitor.StoredAll, SameNameSameArgs, NodesById, OperandsFirst,
          ExpressionSorter.Pending, shared_operand_expr, five_minus_x, two_sites_memory,
          two_sites_output, eval_pair, inferred_bounds, bounds_values, two_slots_memory,
          max_output, min_output, staged_memory, call_f_zero, shared_body_memory, supported_shape,
          renamed_args_memory, call_g_zero, tie_memory, tie_max_output, tie_min_output,
          unused_let_output, BoundsInferencer.Covered, BoundsInferencer.InferenceFuncSpec,
          Expr.erase, Expr.erase_list, Expr.arith, rule_contributions, accumulate_all,
          contributions_into, shared_leaf_expr, seeded_engine,
          ReverseAccumulationVisitor.stage_start, shared_body_expr, shared_body_b,
          shared_body_walk_start, Except.bind, Except.map, bind, pure, Except.pure]
  · rintro ⟨t, _, _, h1, h2⟩
    linarith

set_option maxHeartbeats 40000000 in
set_option maxRecDepth 100000 in
/-- C23 amended: for `a(x) = p`, `b(x) = p`, `c(x) = y` and the outputs
`c(0) * max(a(0), b(0))` and `c(0) * min(a(0), b(0))`, where the operands of `max`
and `min` have equal values and the incoming adjoint is `y`, both operands receive
the full contribution `y`; the pair `(y, y)` is of the form `(t * y, (1 - t) * y)`
with `0 ≤ t ≤ 1` exactly when `y = 0`. -/
theorem tie_adjoints (p y : ℚ) (n m : ℕ) :
    adjoint_value (propagate_adjoints (tie_memory p y) (n + 1) tie_max_output) (m + 3)
      "a" [0] = some y ∧
    adjoint_value (propagate_adjoints (tie_memory p y) (n + 1) tie_max_output) (m + 3)
      "b" [0] = some y ∧
    adjoint_value (propagate_adjoints (tie_memory p y) (n + 1) tie_min_output) (m + 3)
      "a" [0] = some y ∧
    adjoint_value (propagate_adjoints (tie_memory p y) (n + 1) tie_min_output) (m + 3)
      "b" [0] = some y ∧
    ((∃ t : ℚ, 0 ≤ t ∧ t ≤ 1 ∧ y = t * y ∧ y = (1 - t) * y) ↔ y = 0) := by
  refine ⟨?_, ?_, ?_, ?_, ?_⟩
  · simp [Expr.id, Expr.same_as, map_find, map_set, map_keys, Memory.fresh, mk_add, mk_sub,
          mk_mul, mk_div, mk_min, mk_max, mk_le, mk_ge, mk_select, mk_let, mk_float, mk_var,
          mk_vars, mk_neg, mk_exp, mk_call, VariableFinder.include_with, VariableFinder.accept,
          VariableFinder.accept_list, VariableFinder.find, VariableReplacer.mutate,
          VariableReplacer.mutate_args, VariableReplacer.replace, inverse, rvar_name, rdom_slots,
          mk_rdom, rdom_domain, rdom_at, rdom_var, find_arg, get_min_max_bounds, merge_bounds,
          Function.stage_values, FunctionSorter.include_with, FunctionSorter.accept,
          FunctionSorter.accept_list, FunctionSorter.accept_stages, FunctionSorter.sort_func,
          FunctionSorter.sort, ExpressionSorter.include_with, ExpressionSorter.accept,
          ExpressionSorter.accept_list, ExpressionSorter.sort, BoundsInferencer.include_with,
          BoundsInferencer.arg_bounds, BoundsInferencer.merge_args,
          BoundsInferencer.merge_previous, BoundsInferencer.update_bounds,
          BoundsInferencer.accept, BoundsInferencer.accept_list, BoundsInferencer.accept_stages,
          BoundsInferencer.inference_func, BoundsInferencer.inference, Memory.set_func, mk_func,
          mk_func_default, func_define, define_base_case, func_add_update,
          ReverseAccumulationVisitor.new, ReverseAccumulationVisitor.accumulate,
          ReverseAccumulationVisitor.adjoint_of, ReverseAccumulationVisitor.adjoint_funcs_at,
          ReverseAccumulationVisitor.canonicalize_arg, ReverseAccumulationVisitor.canonicalize,
          ReverseAccumulationVisitor.scatter, ReverseAccumulationVisitor.accumulate_exp,
          ReverseAccumulationVisitor.accept, ReverseAccumulationVisitor.walk,
          ReverseAccumulationVisitor.create_stub, ReverseAccumulationVisitor.create_stubs,
          ReverseAccumulationVisitor.seed_root, ReverseAccumulationVisitor.new_tmp,
          ReverseAccumulationVisitor.add_back, ReverseAccumulationVisitor.propagate_stage,
          ReverseAccumulationVisitor.propagate_stages, ReverseAccumulationVisitor.propagate_func,
          ReverseAccumulationVisitor.propagate_funcs,
          ReverseAccumulationVisitor.propagate_adjoints, propagate_adjoints, eval_expr, eval_args,
          find_rdom, find_rdom_list, rdom_points, lhs_is_pure, eval_update_points, eval_update,
          eval_updates, eval_func, adjoint_value, constant_memory, constant_output,
          multiply_memory, call_out_zero, shift_memory, reduction_memory, two_inputs_memory,
          let_output, divide_output, diamond_memory, diamond_output, Expr.operands,
          Expr.is_halide_call, Expr.call_func, Expr.size, Expr.size_list, subterms, subterms_list,
          direct_calls, direct_calls_list, all_calls, all_calls_list, Function.stage_exprs,
          program_roots, program_nodes, Consistent, func_name, UniqueNames, nested_memory,
          nested_output, FunctionSorter.Settled, FunctionSorter.Good, FunctionSorter.SortFuncSpec,
          WellFormed, untraversed, Expr.is_func_or_image_call, engine_calls,
          FuncsOnlyInHalideCalls, ReverseAccumulationVisitor.KeysIn,
          ReverseAccumulationVisitor.Stored, ReverseAccumulationVisitor.TmpDefined,
          ReverseAccumulationVisitor.StoredAll, SameNameSameArgs, NodesById, OperandsFirst,
          ExpressionSorter.Pending, shared_operand_expr, five_minus_x, two_sites_memory,
          two_sites_output, eval_pair, inferred_bounds, bounds_values, two_slots_memory,
          max_output, min_output, staged_memory, call_f_zero, shared_body_memory, supported_shape,
          renamed_args_memory, call_g_zero, tie_memory, tie_max_output, tie_min_output,
          unused_let_output, BoundsInferencer.Covered, BoundsInferencer.InferenceFuncSpec,
          Expr.erase, Expr.erase_list, Expr.arith, rule_contributions, accumulate_all,
          contributions_into, shared_leaf_expr, seeded_engine,
          ReverseAccumulationVisitor.stage_start, shared_body_expr, shared_body_b,
          shared_body_walk_start, Except.bind, Except.map, bind, pure, Except.pure]
  · simp [Expr.id, Expr.same_as, map_find, map_set, map_keys, Memory.fresh, mk_add, mk_sub,
          mk_mul, mk_div, mk_min, mk_max, mk_le, mk_ge, mk_select, mk_let, mk_float, mk_var,
          mk_vars, mk_neg, mk_exp, mk_call, VariableFinder.include_with, VariableFinder.accept,
          VariableFinder.accept_list, VariableFinder.find, VariableReplacer.mutate,
          VariableReplacer.mutate_args, VariableReplacer.replace, inverse, rvar_name, rdom_slots,
          mk_rdom, rdom_domain, rdom_at, rdom_var, find_arg, get_min_max_bounds, merge_bounds,
          Function.stage_values, FunctionSorter.include_with, FunctionSorter.accept,
          FunctionSorter.accept_list, FunctionSorter.accept_stages, FunctionSorter.sort_func,
          FunctionSorter.sort, ExpressionSorter.include_with, ExpressionSorter.accept,
          ExpressionSorter.accept_list, ExpressionSorter.sort, BoundsInferencer.include_with,
          BoundsInferencer.arg_bounds, BoundsInferencer.merge_args,
          BoundsInferencer.merge_previous, BoundsInferencer.update_bounds,
          BoundsInferencer.accept, BoundsInferencer.accept_list, BoundsInferencer.accept_stages,
          BoundsInferencer.inference_func, BoundsInferencer.inference, Memory.set_func, mk_func,
          mk_func_default, func_define, define_base_case, func_add_update,
          ReverseAccumulationVisitor.new, ReverseAccumulationVisitor.accumulate,
          ReverseAccumulationVisitor.adjoint_of, ReverseAccumulationVisitor.adjoint_funcs_at,
          ReverseAccumulationVisitor.canonicalize_arg, ReverseAccumulationVisitor.canonicalize,
          ReverseAccumulationVisitor.scatter, ReverseAccumulationVisitor.accumulate_exp,
          ReverseAccumulationVisitor.accept, ReverseAccumulationVisitor.walk,
          ReverseAccumulationVisitor.create_stub, ReverseAccumulationVisitor.create_stubs,
          ReverseAccumulationVisitor.seed_root, ReverseAccumulationVisitor.new_tmp,
          ReverseAccumulationVisitor.add_back, ReverseAccumulationVisitor.propagate_stage,
          ReverseAccumulationVisitor.propagate_stages, ReverseAccumulationVisitor.propagate_func,
          ReverseAccumulationVisitor.propagate_funcs,
          ReverseAccumulationVisitor.propagate_adjoints, propagate_adjoints, eval_expr, eval_args,
          find_rdom, find_rdom_list, rdom_points, lhs_is_pure, eval_update_points, eval_update,
          eval_updates, eval_func, adjoint_value, constant_memory, constant_output,
          multiply_memory, call_out_zero, shift_memory, reduction_memory, two_inputs_memory,
          let_output, divide_output, diamond_memory, diamond_output, Expr.operands,
          Expr.is_halide_call, Expr.call_func, Expr.size, Expr.size_list, subterms, subterms_list,
          direct_calls, direct_calls_list, all_calls, all_calls_list, Function.stage_exprs,
          program_roots, program_nodes, Consistent, func_name, UniqueNames, nested_memory,
          nested_output, FunctionSorter.Settled, FunctionSorter.Good, FunctionSorter.SortFuncSpec,
          WellFormed, untraversed, Expr.is_func_or_image_call, engine_calls,
          FuncsOnlyInHalideCalls, ReverseAccumulationVisitor.KeysIn,
          ReverseAccumulationVisitor.Stored, ReverseAccumulationVisitor.TmpDefined,
          ReverseAccumulationVisitor.StoredAll, SameNameSameArgs, NodesById, OperandsFirst,
          ExpressionSorter.Pending, shared_operand_expr, five_minus_x, two_sites_memory,
          two_sites_output, eval_pair, inferred_bounds, bounds_values, two_slots_memory,
          max_output, min_output, staged_memory, call_f_zero, shared_body_memory, supported_shape,
          renamed_args_memory, call_g_zero, tie_memory, tie_max_output, tie_min_output,
          unused_let_output, BoundsInferencer.Covered, BoundsInferencer.InferenceFuncSpec,
          Expr.erase, Expr.erase_list, Expr.arith, rule_contributions, accumulate_all,
          contributions_into, shared_leaf_expr, seeded_engine,
          ReverseAccumulationVisitor.stage_start, shared_body_expr, shared_body_b,
          shared_body_walk_start, Except.bind, Except.map, bind, pure, Except.pure]
  · simp [Expr.id, Expr.same_as, map_find, map_set, map_keys, Memory.fresh, mk_add, mk_sub,
          mk_mul, mk_div, mk_min, mk_max, mk_le, mk_ge, mk_select, mk_let, mk_float, mk_var,
          mk_vars, mk_neg, mk_exp, mk_call, VariableFinder.include_with, VariableFinder.accept,
          VariableFinder.accept_list, VariableFinder.find, VariableReplacer.mutate,
          VariableReplacer.mutate_args, VariableReplacer.replace, inverse, rvar_name, rdom_slots,
          mk_rdom, rdom_domain, rdom_at, rdom_var, find_arg, get_min_max_bounds, merge_bounds,
          Function.stage_values, FunctionSorter.include_with, FunctionSorter.accept,
          FunctionSorter.accept_list, FunctionSorter.accept_stages, FunctionSorter.sort_func,
          FunctionSorter.sort, ExpressionSorter.include_with, ExpressionSorter.accept,
          ExpressionSorter.accept_list, ExpressionSorter.sort, BoundsInferencer.include_with,
          BoundsInferencer.arg_bounds, BoundsInferencer.merge_args,
          BoundsInferencer.merge_previous, BoundsInferencer.update_bounds,
          BoundsInferencer.accept, BoundsInferencer.accept_list, BoundsInferencer.accept_stages,
          BoundsInferencer.inference_func, BoundsInferencer.inference, Memory.set_func, mk_func,
          mk_func_default, func_define, define_base_case, func_add_update,
          ReverseAccumulationVisitor.new, ReverseAccumulationVisitor.accumulate,
          ReverseAccumulationVisitor.adjoint_of, ReverseAccumulationVisitor.adjoint_funcs_at,
          ReverseAccumulationVisitor.canonicalize_arg, ReverseAccumulationVisitor.canonicalize,
          ReverseAccumulationVisitor.scatter, ReverseAccumulationVisitor.accumulate_exp,
          ReverseAccumulationVisitor.accept, ReverseAccumulationVisitor.walk,
          ReverseAccumulationVisitor.create_stub, ReverseAccumulationVisitor.create_stubs,
          ReverseAccumulationVisitor.seed_root, ReverseAccumulationVisitor.new_tmp,
          ReverseAccumulationVisitor.add_back, ReverseAccumulationVisitor.propagate_stage,
          ReverseAccumulationVisitor.propagate_stages, ReverseAccumulationVisitor.propagate_func,
          ReverseAccumulationVisitor.propagate_funcs,
          ReverseAccumulationVisitor.propagate_adjoints, propagate_adjoints, eval_expr, eval_args,
          find_rdom, find_rdom_list, rdom_points, lhs_is_pure, eval_update_points, eval_update,
          eval_updates, eval_func, adjoint_value, constant_memory, constant_output,
          multiply_memory, call_out_zero, shift_memory, reduction_memory, two_inputs_memory,
          let_output, divide_output, diamond_memory, diamond_output, Expr.operands,
          Expr.is_halide_call, Expr.call_func, Expr.size, Expr.size_list, subterms, subterms_list,
          direct_calls, direct_calls_list, all_calls, all_calls_list, Function.stage_exprs,
          program_roots, program_nodes, Consistent, func_name, UniqueNames, nested_memory,
          nested_output, FunctionSorter.Settled, FunctionSorter.Good, FunctionSorter.SortFuncSpec,
          WellFormed, untraversed, Expr.is_func_or_image_call, engine_calls,
          FuncsOnlyInHalideCalls, ReverseAccumulationVisitor.KeysIn,
          ReverseAccumulationVisitor.Stored, ReverseAccumulationVisitor.TmpDefined,
          ReverseAccumulationVisitor.StoredAll, SameNameSameArgs, NodesById, OperandsFirst,
          ExpressionSorter.Pending, shared_operand_expr, five_minus_x, two_sites_memory,
          two_sites_output, eval_pair, inferred_bounds, bounds_values, two_slots_memory,
          max_output, min_output, staged_memory, call_f_zero, shared_body_memory, supported_shape,
          renamed_args_memory, call_g_zero, tie_memory, tie_max_output, tie_min_output,
          unused_let_output, BoundsInferencer.Covered, BoundsInferencer.InferenceFuncSpec,
          Expr.erase, Expr.erase_list, Expr.arith, rule_contributions, accumulate_all,
          contributions_into, shared_leaf_expr, seeded_engine,
          ReverseAccumulationVisitor.stage_start, shared_body_expr, shared_body_b,
          shared_body_walk_start, Except.bind, Except.map, bind, pure, Except.pure]
  · simp [Expr.id, Expr.same_as, map_find, map_set, map_keys, Memory.fresh, mk_add, mk_sub,
          mk_mul, mk_div, mk_min, mk_max, mk_le, mk_ge, mk_select, mk_let, mk_float, mk_var,
          mk_vars, mk_neg, mk_exp, mk_call, VariableFinder.include_with, VariableFinder.accept,
          VariableFinder.accept_list, VariableFinder.find, VariableReplacer.mutate,
          VariableReplacer.mutate_args, VariableReplacer.replace, inverse, rvar_name, rdom_slots,
          mk_rdom, rdom_domain, rdom_at, rdom_var, find_arg, get_min_max_bounds, merge_bounds,
          Function.stage_values, FunctionSorter.include_with, FunctionSorter.accept,
          FunctionSorter.accept_list, FunctionSorter.accept_stages, FunctionSorter.sort_func,
          FunctionSorter.sort, ExpressionSorter.include_with, ExpressionSorter.accept,
          ExpressionSorter.accept_list, ExpressionSorter.sort, BoundsInferencer.include_with,
          BoundsInferencer.arg_bounds, BoundsInferencer.merge_args,
          BoundsInferencer.merge_previous, BoundsInferencer.update_bounds,
          BoundsInferencer.accept, BoundsInferencer.accept_list, BoundsInferencer.accept_stages,
          BoundsInferencer.inference_func, BoundsInferencer.inference, Memory.set_func, mk_func,
          mk_func_default, func_define, define_base_case, func_add_update,
          ReverseAccumulationVisitor.new, ReverseAccumulationVisitor.accumulate,
          ReverseAccumulationVisitor.adjoint_of, ReverseAccumulationVisitor.adjoint_funcs_at,
          ReverseAccumulationVisitor.canonicalize_arg, ReverseAccumulationVisitor.canonicalize,
          ReverseAccumulationVisitor.scatter, ReverseAccumulationVisitor.accumulate_exp,
          ReverseAccumulationVisitor.accept, ReverseAccumulationVisitor.walk,
          ReverseAccumulationVisitor.create_stub, ReverseAccumulationVisitor.create_stubs,
          ReverseAccumulationVisitor.seed_root, ReverseAccumulationVisitor.new_tmp,
          ReverseAccumulationVisitor.add_back, ReverseAccumulationVisitor.propagate_stage,
          ReverseAccumulationVisitor.propagate_stages, ReverseAccumulationVisitor.propagate_func,
          ReverseAccumulationVisitor.propagate_funcs,
          ReverseAccumulationVisitor.propagate_adjoints, propagate_adjoints, eval_expr, eval_args,
          find_rdom, find_rdom_list, rdom_points, lhs_is_pure, eval_update_points, eval_update,
          eval_updates, eval_func, adjoint_value, constant_memory, constant_output,
          multiply_memory, call_out_zero, shift_memory, reduction_memory, two_inputs_memory,
          let_output, divide_output, diamond_memory, diamond_output, Expr.operands,
          Expr.is_halide_call, Expr.call_func, Expr.size, Expr.size_list, subterms, subterms_list,
          direct_calls, direct_calls_list, all_calls, all_calls_list, Function.stage_exprs,
          program_roots, program_nodes, Consistent, func_name, UniqueNames, nested_memory,
          nested_output, FunctionSorter.Settled, FunctionSorter.Good, FunctionSorter.SortFuncSpec,
          WellFormed, untraversed, Expr.is_func_or_image_call, engine_calls,
          FuncsOnlyInHalideCalls, ReverseAccumulationVisitor.KeysIn,
          ReverseAccumulationVisitor.Stored, ReverseAccumulationVisitor.TmpDefined,
          ReverseAccumulationVisitor.StoredAll, SameNameSameArgs, NodesById, OperandsFirst,
          ExpressionSorter.Pending, shared_operand_expr, five_minus_x, two_sites_memory,
          two_sites_output, eval_pair, inferred_bounds, bounds_values, two_slots_memory,
          max_output, min_output, staged_memory, call_f_zero, shared_body_memory, supported_shape,
          renamed_args_memory, call_g_zero, tie_memory, tie_max_output, tie_min_output,
          unused_let_output, BoundsInferencer.Covered, BoundsInferencer.InferenceFuncSpec,
          Expr.erase, Expr.erase_list, Expr.arith, rule_contributions, accumulate_all,
          contributions_into, shared_leaf_expr, seeded_engine,
          ReverseAccumulationVisitor.stage_start, shared_body_expr, shared_body_b,
          shared_body_walk_start, Except.bind, Except.map, bind, pure, Except.pure]
  · constructor
    · rintro ⟨t, _, _, h1, h2⟩
      linarith
    · intro h
      exact ⟨0, le_refl _, zero_le_one, by rw [h]; ring, by rw [h]; ring⟩

set_option maxHeartbeats 40000000 in
set_option maxRecDepth 100000 in
/-- C25, the code at the failing input: for `a(x) = p`, `b(x) = q` and the output
`let t = a(0) in b(0)`, whose bound variable does not occur in the body, the value
`a(0)` of the `let` is visited without an entry in the per-node adjoint map, and the
run stops at the assertion of `visit(const Call *)`. -/
theorem unused_let_value_has_no_adjoint (p q : ℚ) (n : ℕ) :
    propagate_adjoints (two_inputs_memory p q) (n + 1) unused_let_output =
      .error .assert_failed := by
  simp [Expr.id, Expr.same_as, map_find, map_set, map_keys, Memory.fresh, mk_add, mk_sub, mk_mul,
        mk_div, mk_min, mk_max, mk_le, mk_ge, mk_select, mk_let, mk_float, mk_var, mk_vars,
        mk_neg, mk_exp, mk_call, VariableFinder.include_with, VariableFinder.accept,
        VariableFinder.accept_list, VariableFinder.find, VariableReplacer.mutate,
        VariableReplacer.mutate_args, VariableReplacer.replace, inverse, rvar_name, rdom_slots,
        mk_rdom, rdom_domain, rdom_at, rdom_var, find_arg, get_min_max_bounds, merge_bounds,
        Function.stage_values, FunctionSorter.include_with, FunctionSorter.accept,
        FunctionSorter.accept_list, FunctionSorter.accept_stages, FunctionSorter.sort_func,
        FunctionSorter.sort, ExpressionSorter.include_with, ExpressionSorter.accept,
        ExpressionSorter.accept_list, ExpressionSorter.sort, BoundsInferencer.include_with,
        BoundsInferencer.arg_bounds, BoundsInferencer.merge_args, BoundsInferencer.merge_previous,
        BoundsInferencer.update_bounds, BoundsInferencer.accept, BoundsInferencer.accept_list,
        BoundsInferencer.accept_stages, BoundsInferencer.inference_func,
        BoundsInferencer.inference, Memory.set_func, mk_func, mk_func_default, func_define,
        define_base_case, func_add_update, ReverseAccumulationVisitor.new,
        ReverseAccumulationVisitor.accumulate, ReverseAccumulationVisitor.adjoint_of,
        ReverseAccumulationVisitor.adjoint_funcs_at, ReverseAccumulationVisitor.canonicalize_arg,
        ReverseAccumulationVisitor.canonicalize, ReverseAccumulationVisitor.scatter,
        ReverseAccumulationVisitor.accumulate_exp, ReverseAccumulationVisitor.accept,
        ReverseAccumulationVisitor.walk, ReverseAccumulationVisitor.create_stub,
        ReverseAccumulationVisitor.create_stubs, ReverseAccumulationVisitor.seed_root,
        ReverseAccumulationVisitor.new_tmp, ReverseAccumulationVisitor.add_back,
        ReverseAccumulationVisitor.propagate_stage, ReverseAccumulationVisitor.propagate_stages,
        ReverseAccumulationVisitor.propagate_func, ReverseAccumulationVisitor.propagate_funcs,
        ReverseAccumulationVisitor.propagate_adjoints, propagate_adjoints, eval_expr, eval_args,
        find_rdom, find_rdom_list, rdom_points, lhs_is_pure, eval_update_points, eval_update,
        eval_updates, eval_func, adjoint_value, constant_memory, constant_output, multiply_memory,
        call_out_zero, shift_memory, reduction_memory, two_inputs_memory, let_output,
        divide_output, diamond_memory, diamond_output, Expr.operands, Expr.is_halide_call,
        Expr.call_func, Expr.size, Expr.size_list, subterms, subterms_list, direct_calls,
        direct_calls_list, all_calls, all_calls_list, Function.stage_exprs, program_roots,
        program_nodes, Consistent, func_name, UniqueNames, nested_memory, nested_output,
        FunctionSorter.Settled, FunctionSorter.Good, FunctionSorter.SortFuncSpec, WellFormed,
        untraversed, Expr.is_func_or_image_call, engine_calls, FuncsOnlyInHalideCalls,
        ReverseAccumulationVisitor.KeysIn, ReverseAccumulationVisitor.Stored,
        ReverseAccumulationVisitor.TmpDefined, ReverseAccumulationVisitor.StoredAll,
        SameNameSameArgs, NodesById, OperandsFirst, ExpressionSorter.Pending, shared_operand_expr,
        five_minus_x, two_sites_memory, two_sites_output, eval_pair, inferred_bounds,
        bounds_values, two_slots_memory, max_output, min_output, staged_memory, call_f_zero,
        shared_body_memory, supported_shape, renamed_args_memory, call_g_zero, tie_memory,
        tie_max_output, tie_min_output, unused_let_output, BoundsInferencer.Covered,
        BoundsInferencer.InferenceFuncSpec, Expr.erase, Expr.erase_list, Expr.arith,
        rule_contributions, accumulate_all, contributions_into, shared_leaf_expr, seeded_engine,
        ReverseAccumulationVisitor.stage_start, shared_body_expr, shared_body_b,
        shared_body_walk_start, Except.bind, Except.map, bind, pure, Except.pure]

set_option maxHeartbeats 40000000 in
set_option maxRecDepth 100000 in
/-- Witness of C24: the diamond `a(0) + b(0)`, `a(x) = c(x)`, `b(x) = c(x)`,
`c(x) = 1`, on which the sorter returns `a, c, b` and bounds inference completes on
the memory of a new engine. -/
theorem bounds_cover_sorted_functions_witness :
    Consistent diamond_memory diamond_output ∧ UniqueNames diamond_memory ∧
    FunctionSorter.sort diamond_memory 3 diamond_output = .ok [0, 2, 1] ∧
    ∃ r, BoundsInferencer.inference (ReverseAccumulationVisitor.new diamond_memory).mem 3
        diamond_output = .ok r ∧
      (∀ f ∈ [0, 2, 1], ∃ rd, map_find (func_name diamond_memory f) r.1 = some rd) ∧
      (FuncsOnlyInHalideCalls diamond_memory diamond_output →
        ∀ root, (root = diamond_output ∨
            ∃ g ∈ [0, 2, 1], ∃ F : Function, diamond_memory.funcs[g]? = some F ∧
              root ∈ F.stage_exprs) →
          ∀ x ∈ ExpressionSorter.sort root, ∀ h ∈ engine_calls x,
            ∃ rd, map_find (func_name diamond_memory h) r.1 = some rd) := by
  have hc : Consistent diamond_memory diamond_output :=
    consistent_of_nodup_ids (by decide)
  have hn : UniqueNames diamond_memory := by
    intro g h hg hh
    simp only [diamond_memory, List.length_cons, List.length_nil] at hg hh
    interval_cases g <;> interval_cases h <;> simp [func_name, diamond_memory]
  have hs : FunctionSorter.sort diamond_memory 3 diamond_output = .ok [0, 2, 1] := by
    simp [Expr.id, Expr.same_as, map_find, map_set, map_keys, Memory.fresh, mk_add, mk_sub,
          mk_mul, mk_div, mk_min, mk_max, mk_le, mk_ge, mk_select, mk_let, mk_float, mk_var,
          mk_vars, mk_neg, mk_exp, mk_call, VariableFinder.include_with, VariableFinder.accept,
          VariableFinder.accept_list, VariableFinder.find, VariableReplacer.mutate,
          VariableReplacer.mutate_args, VariableReplacer.replace, inverse, rvar_name, rdom_slots,
          mk_rdom, rdom_domain, rdom_at, rdom_var, find_arg, get_min_max_bounds, merge_bounds,
          Function.stage_values, FunctionSorter.include_with, FunctionSorter.accept,
          FunctionSorter.accept_list, FunctionSorter.accept_stages, FunctionSorter.sort_func,
          FunctionSorter.sort, ExpressionSorter.include_with, ExpressionSorter.accept,
          ExpressionSorter.accept_list, ExpressionSorter.sort, BoundsInferencer.include_with,
          BoundsInferencer.arg_bounds, BoundsInferencer.merge_args,
          BoundsInferencer.merge_previous, BoundsInferencer.update_bounds,
          BoundsInferencer.accept, BoundsInferencer.accept_list, BoundsInferencer.accept_stages,
          BoundsInferencer.inference_func, BoundsInferencer.inference, Memory.set_func, mk_func,
          mk_func_default, func_define, define_base_case, func_add_update,
          ReverseAccumulationVisitor.new, ReverseAccumulationVisitor.accumulate,
          ReverseAccumulationVisitor.adjoint_of, ReverseAccumulationVisitor.adjoint_funcs_at,
          ReverseAccumulationVisitor.canonicalize_arg, ReverseAccumulationVisitor.canonicalize,
          ReverseAccumulationVisitor.scatter, ReverseAccumulationVisitor.accumulate_exp,
          ReverseAccumulationVisitor.accept, ReverseAccumulationVisitor.walk,
          ReverseAccumulationVisitor.create_stub, ReverseAccumulationVisitor.create_stubs,
          ReverseAccumulationVisitor.seed_root, ReverseAccumulationVisitor.new_tmp,
          ReverseAccumulationVisitor.add_back, ReverseAccumulationVisitor.propagate_stage,
          ReverseAccumulationVisitor.propagate_stages, ReverseAccumulationVisitor.propagate_func,
          ReverseAccumulationVisitor.propagate_funcs,
          ReverseAccumulationVisitor.propagate_adjoints, propagate_adjoints, eval_expr, eval_args,
          find_rdom, find_rdom_list, rdom_points, lhs_is_pure, eval_update_points, eval_update,
          eval_updates, eval_func, adjoint_value, constant_memory, constant_output,
          multiply_memory, call_out_zero, shift_memory, reduction_memory, two_inputs_memory,
          let_output, divide_output, diamond_memory, diamond_output, Expr.operands,
          Expr.is_halide_call, Expr.call_func, Expr.size, Expr.size_list, subterms, subterms_list,
          direct_calls, direct_calls_list, all_calls, all_calls_list, Function.stage_exprs,
          program_roots, program_nodes, Consistent, func_name, UniqueNames, nested_memory,
          nested_output, FunctionSorter.Settled, FunctionSorter.Good, FunctionSorter.SortFuncSpec,
          WellFormed, untraversed, Expr.is_func_or_image_call, engine_calls,
          FuncsOnlyInHalideCalls, ReverseAccumulationVisitor.KeysIn,
          ReverseAccumulationVisitor.Stored, ReverseAccumulationVisitor.TmpDefined,
          ReverseAccumulationVisitor.StoredAll, SameNameSameArgs, NodesById, OperandsFirst,
          ExpressionSorter.Pending, shared_operand_expr, five_minus_x, two_sites_memory,
          two_sites_output, eval_pair, inferred_bounds, bounds_values, two_slots_memory,
          max_output, min_output, staged_memory, call_f_zero, shared_body_memory, supported_shape,
          renamed_args_memory, call_g_zero, tie_memory, tie_max_output, tie_min_output,
          unused_let_output, BoundsInferencer.Covered, BoundsInferencer.InferenceFuncSpec,
          Expr.erase, Expr.erase_list, Expr.arith, rule_contributions, accumulate_all,
          contributions_into, shared_leaf_expr, seeded_engine,
          ReverseAccumulationVisitor.stage_start, shared_body_expr, shared_body_b,
          shared_body_walk_start, Except.bind, Except.map, bind, pure, Except.pure]
  have hr : ∃ r, BoundsInferencer.inference (ReverseAccumulationVisitor.new diamond_memory).mem
      3 diamond_output = .ok r := by
    simp [Expr.id, Expr.same_as, map_find, map_set, map_keys, Memory.fresh, mk_add, mk_sub,
          mk_mul, mk_div, mk_min, mk_max, mk_le, mk_ge, mk_select, mk_let, mk_float, mk_var,
          mk_vars, mk_neg, mk_exp, mk_call, VariableFinder.include_with, VariableFinder.accept,
          VariableFinder.accept_list, VariableFinder.find, VariableReplacer.mutate,
          VariableReplacer.mutate_args, VariableReplacer.replace, inverse, rvar_name, rdom_slots,
          mk_rdom, rdom_domain, rdom_at, rdom_var, find_arg, get_min_max_bounds, merge_bounds,
          Function.stage_values, FunctionSorter.include_with, FunctionSorter.accept,
          FunctionSorter.accept_list, FunctionSorter.accept_stages, FunctionSorter.sort_func,
          FunctionSorter.sort, ExpressionSorter.include_with, ExpressionSorter.accept,
          ExpressionSorter.accept_list, ExpressionSorter.sort, BoundsInferencer.include_with,
          BoundsInferencer.arg_bounds, BoundsInferencer.merge_args,
          BoundsInferencer.merge_previous, BoundsInferencer.update_bounds,
          BoundsInferencer.accept, BoundsInferencer.accept_list, BoundsInferencer.accept_stages,
          BoundsInferencer.inference_func, BoundsInferencer.inference, Memory.set_func, mk_func,
          mk_func_default, func_define, define_base_case, func_add_update,
          ReverseAccumulationVisitor.new, ReverseAccumulationVisitor.accumulate,
          ReverseAccumulationVisitor.adjoint_of, ReverseAccumulationVisitor.adjoint_funcs_at,
          ReverseAccumulationVisitor.canonicalize_arg, ReverseAccumulationVisitor.canonicalize,
          ReverseAccumulationVisitor.scatter, ReverseAccumulationVisitor.accumulate_exp,
          ReverseAccumulationVisitor.accept, ReverseAccumulationVisitor.walk,
          ReverseAccumulationVisitor.create_stub, ReverseAccumulationVisitor.create_stubs,
          ReverseAccumulationVisitor.seed_root, ReverseAccumulationVisitor.new_tmp,
          ReverseAccumulationVisitor.add_back, ReverseAccumulationVisitor.propagate_stage,
          ReverseAccumulationVisitor.propagate_stages, ReverseAccumulationVisitor.propagate_func,
          ReverseAccumulationVisitor.propagate_funcs,
          ReverseAccumulationVisitor.propagate_adjoints, propagate_adjoints, eval_expr, eval_args,
          find_rdom, find_rdom_list, rdom_points, lhs_is_pure, eval_update_points, eval_update,
          eval_updates, eval_func, adjoint_value, constant_memory, constant_output,
          multiply_memory, call_out_zero, shift_memory, reduction_memory, two_inputs_memory,
          let_output, divide_output, diamond_memory, diamond_output, Expr.operands,
          Expr.is_halide_call, Expr.call_func, Expr.size, Expr.size_list, subterms, subterms_list,
          direct_calls, direct_calls_list, all_calls, all_calls_list, Function.stage_exprs,
          program_roots, program_nodes, Consistent, func_name, UniqueNames, nested_memory,
          nested_output, FunctionSorter.Settled, FunctionSorter.Good, FunctionSorter.SortFuncSpec,
          WellFormed, untraversed, Expr.is_func_or_image_call, engine_calls,
          FuncsOnlyInHalideCalls, ReverseAccumulationVisitor.KeysIn,
          ReverseAccumulationVisitor.Stored, ReverseAccumulationVisitor.TmpDefined,
          ReverseAccumulationVisitor.StoredAll, SameNameSameArgs, NodesById, OperandsFirst,
          ExpressionSorter.Pending, shared_operand_expr, five_minus_x, two_sites_memory,
          two_sites_output, eval_pair, inferred_bounds, bounds_values, two_slots_memory,
          max_output, min_output, staged_memory, call_f_zero, shared_body_memory, supported_shape,
          renamed_args_memory, call_g_zero, tie_memory, tie_max_output, tie_min_output,
          unused_let_output, BoundsInferencer.Covered, BoundsInferencer.InferenceFuncSpec,
          Expr.erase, Expr.erase_list, Expr.arith, rule_contributions, accumulate_all,
          contributions_into, shared_leaf_expr, seeded_engine,
          ReverseAccumulationVisitor.stage_start, shared_body_expr, shared_body_b,
          shared_body_walk_start, Except.bind, Except.map, bind, pure, Except.pure]
  obtain ⟨r, hr⟩ := hr
  exact ⟨hc, hn, hs, r, hr,
    bounds_cover_sorted_functions diamond_memory diamond_output 3 [0, 2, 1] hc hn hs 3 r
      (Or.inr hr)⟩

/-- An instance of the walk from a state that holds the adjoint of the root only:
`y + y * y` with the three uses of `y` one node; when `y` is visited, after the sum
and the product, its slot holds the sum of three contributions. -/
theorem adjoint_is_sum_of_parent_contributions_witness :
    shared_leaf_expr.arith = true ∧ NodesById shared_leaf_expr ∧
    (ExpressionSorter.sort shared_leaf_expr).reverse =
      [shared_leaf_expr, .Mul 3 (.Variable 2 "y" none) (.Variable 2 "y" none)] ++
        .Variable 2 "y" none :: [] ∧
    ∃ s adj, ReverseAccumulationVisitor.walk
        [shared_leaf_expr, .Mul 3 (.Variable 2 "y" none) (.Variable 2 "y" none)]
        seeded_engine = .ok s ∧
      map_find 2 s.accumulated_adjoints = some adj ∧
      some adj.erase = accumulate_all none
        ([shared_leaf_expr, .Mul 3 (.Variable 2 "y" none) (.Variable 2 "y" none)].flatMap
          (contributions_into 2 s)) ∧
      (∀ p ∈ subterms shared_leaf_expr, Expr.Variable 2 "y" none ∈ p.operands →
        p ∈ [shared_leaf_expr, .Mul 3 (.Variable 2 "y" none) (.Variable 2 "y" none)]) := by
  have harith : shared_leaf_expr.arith = true := by
    simp [shared_leaf_expr, Expr.arith]
  have hids : NodesById shared_leaf_expr := by
    intro a ha b hb hab
    simp only [shared_leaf_expr, subterms, subterms_list, List.mem_cons, List.mem_append,
      List.mem_singleton, List.not_mem_nil, or_false, List.append_nil] at ha hb
    rcases ha with rfl | rfl | rfl | rfl | rfl <;>
      rcases hb with rfl | rfl | rfl | rfl | rfl <;>
      first
        | rfl
        | (simp [Expr.id] at hab)
  have hsort : (ExpressionSorter.sort shared_leaf_expr).reverse =
      [shared_leaf_expr, .Mul 3 (.Variable 2 "y" none) (.Variable 2 "y" none)] ++
        .Variable 2 "y" none :: [] := by
    simp [shared_leaf_expr, ExpressionSorter.sort, ExpressionSorter.accept,
      ExpressionSorter.include_with, ExpressionSorter.accept_list, Expr.id]
  obtain ⟨s, adj, hwalk, hadj, hsum, hparents, _⟩ :=
    (adjoint_is_sum_of_parent_contributions shared_leaf_expr seeded_engine (.FloatImm 0 1)
      harith hids (by simp [seeded_engine, shared_leaf_expr, Expr.id, map_find])
      (by
        intro x hx hne
        simp only [shared_leaf_expr, subterms, subterms_list, List.mem_cons, List.mem_append,
          List.mem_singleton, List.not_mem_nil, or_false, List.append_nil] at hx
        rcases hx with rfl | rfl | rfl | rfl | rfl <;>
          first
            | exact absurd rfl hne
            | simp [seeded_engine, Expr.id, map_find])
      (by simp [seeded_engine, ReverseAccumulationVisitor.new])).2 _ _ _ hsort
      (by simp [shared_leaf_expr])
  exact ⟨harith, hids, hsort, s, adj, hwalk, hadj, hsum, hparents⟩


set_option maxHeartbeats 40000000 in
set_option maxRecDepth 100000 in
/-- C22, the code at the failing input: for `a(x) = e`, `b(x) = e` with the one node
`e = c(x) * 2`, `c(x) = 1` and the output `a(0) + b(0)`, the run of the pass is the
run up to the start of the walk of the definition of `b`, this walk, and the
statements after it.  The walk visits `e`, `2`, `c(x)` in this order and `e` is the
only parent of `c(x)`.  When the walk begins, the slot of `c(x)` still holds
`a_d__(x) * 2` from the walk of the definition of `a`; at the moment `c(x)` is
visited its slot is `a_d__(x) * 2 + b_d__(x) * 2`, whereas the sum of the
contributions of its parent edges is `b_d__(x) * 2`. -/
theorem stale_adjoint_at_visit (n : ℕ) :
    propagate_adjoints shared_body_memory (n + 2) diamond_output =
      (((shared_body_walk_start (n + 2)).bind fun s =>
        (ReverseAccumulationVisitor.walk (ExpressionSorter.sort shared_body_expr).reverse s).bind
          (ReverseAccumulationVisitor.add_back shared_body_b)).bind fun v =>
        .ok (v.adjoint_funcs, v.mem)) ∧
    (ExpressionSorter.sort shared_body_expr).reverse =
      [shared_body_expr, .FloatImm 13 2] ++
        .Call 11 "c" .Halide (some 2) [.Variable 12 "x" none] :: [] ∧
    (∀ p ∈ subterms shared_body_expr,
      Expr.Call 11 "c" .Halide (some 2) [.Variable 12 "x" none] ∈ p.operands →
        p = shared_body_expr) ∧
    ((shared_body_walk_start (n + 2)).map fun s => map_find 11 s.accumulated_adjoints) =
      .ok (some (.Mul 116 (.Call 114 "a_d__" .Halide (some 4) [.Variable 113 "x" none])
        (.FloatImm 13 2))) ∧
    (((shared_body_walk_start (n + 2)).bind
        (ReverseAccumulationVisitor.walk [shared_body_expr, .FloatImm 13 2])).map fun s =>
      (map_find 11 s.accumulated_adjoints,
       (map_find 11 s.accumulated_adjoints).map Expr.erase,
       accumulate_all none
        ([shared_body_expr, .FloatImm 13 2].flatMap (contributions_into 11 s)))) =
      .ok (some (.Add 140
          (.Mul 116 (.Call 114 "a_d__" .Halide (some 4) [.Variable 113 "x" none])
            (.FloatImm 13 2))
          (.Mul 139 (.Call 137 "b_d__" .Halide (some 6) [.Variable 136 "x" none])
            (.FloatImm 13 2))),
        some (.Add 0
          (.Mul 0 (.Call 0 "a_d__" .Halide (some 4) [.Variable 0 "x" none]) (.FloatImm 0 2))
          (.Mul 0 (.Call 0 "b_d__" .Halide (some 6) [.Variable 0 "x" none]) (.FloatImm 0 2))),
        some (.Mul 0 (.Call 0 "b_d__" .Halide (some 6) [.Variable 0 "x" none])
          (.FloatImm 0 2))) := by
  refine ⟨?_, ?_, ?_, ?_, ?_⟩
  · simp [Expr.id, Expr.same_as, map_find, map_set, map_keys, Memory.fresh, mk_add, mk_sub,
          mk_mul, mk_div, mk_min, mk_max, mk_le, mk_ge, mk_select, mk_let, mk_float, mk_var,
          mk_vars, mk_neg, mk_exp, mk_call, VariableFinder.include_with, VariableFinder.accept,
          VariableFinder.accept_list, VariableFinder.find, VariableReplacer.mutate,
          VariableReplacer.mutate_args, VariableReplacer.replace, inverse, rvar_name, rdom_slots,
          mk_rdom, rdom_domain, rdom_at, rdom_var, find_arg, get_min_max_bounds, merge_bounds,
          Function.stage_values, FunctionSorter.include_with, FunctionSorter.accept,
          FunctionSorter.accept_list, FunctionSorter.accept_stages, FunctionSorter.sort_func,
          FunctionSorter.sort, ExpressionSorter.include_with, ExpressionSorter.accept,
          ExpressionSorter.accept_list, ExpressionSorter.sort, BoundsInferencer.include_with,
          BoundsInferencer.arg_bounds, BoundsInferencer.merge_args,
          BoundsInferencer.merge_previous, BoundsInferencer.update_bounds,
          BoundsInferencer.accept, BoundsInferencer.accept_list, BoundsInferencer.accept_stages,
          BoundsInferencer.inference_func, BoundsInferencer.inference, Memory.set_func, mk_func,
          mk_func_default, func_define, define_base_case, func_add_update,
          ReverseAccumulationVisitor.new, ReverseAccumulationVisitor.accumulate,
          ReverseAccumulationVisitor.adjoint_of, ReverseAccumulationVisitor.adjoint_funcs_at,
          ReverseAccumulationVisitor.canonicalize_arg, ReverseAccumulationVisitor.canonicalize,
          ReverseAccumulationVisitor.scatter, ReverseAccumulationVisitor.accumulate_exp,
          ReverseAccumulationVisitor.accept, ReverseAccumulationVisitor.walk,
          ReverseAccumulationVisitor.create_stub, ReverseAccumulationVisitor.create_stubs,
          ReverseAccumulationVisitor.seed_root, ReverseAccumulationVisitor.new_tmp,
          ReverseAccumulationVisitor.add_back, ReverseAccumulationVisitor.propagate_stage,
          ReverseAccumulationVisitor.propagate_stages, ReverseAccumulationVisitor.propagate_func,
          ReverseAccumulationVisitor.propagate_funcs,
          ReverseAccumulationVisitor.propagate_adjoints, propagate_adjoints, eval_expr, eval_args,
          find_rdom, find_rdom_list, rdom_points, lhs_is_pure, eval_update_points, eval_update,
          eval_updates, eval_func, adjoint_value, constant_memory, constant_output,
          multiply_memory, call_out_zero, shift_memory, reduction_memory, two_inputs_memory,
          let_output, divide_output, diamond_memory, diamond_output, Expr.operands,
          Expr.is_halide_call, Expr.call_func, Expr.size, Expr.size_list, subterms, subterms_list,
          direct_calls, direct_calls_list, all_calls, all_calls_list, Function.stage_exprs,
          program_roots, program_nodes, Consistent, func_name, UniqueNames, nested_memory,
          nested_output, FunctionSorter.Settled, FunctionSorter.Good, FunctionSorter.SortFuncSpec,
          WellFormed, untraversed, Expr.is_func_or_image_call, engine_calls,
          FuncsOnlyInHalideCalls, ReverseAccumulationVisitor.KeysIn,
          ReverseAccumulationVisitor.Stored, ReverseAccumulationVisitor.TmpDefined,
          ReverseAccumulationVisitor.StoredAll, SameNameSameArgs, NodesById, OperandsFirst,
          ExpressionSorter.Pending, shared_operand_expr, five_minus_x, two_sites_memory,
          two_sites_output, eval_pair, inferred_bounds, bounds_values, two_slots_memory,
          max_output, min_output, staged_memory, call_f_zero, shared_body_memory, supported_shape,
          renamed_args_memory, call_g_zero, tie_memory, tie_max_output, tie_min_output,
          unused_let_output, BoundsInferencer.Covered, BoundsInferencer.InferenceFuncSpec,
          Expr.erase, Expr.erase_list, Expr.arith, rule_contributions, accumulate_all,
          contributions_into, shared_leaf_expr, seeded_engine,
          ReverseAccumulationVisitor.stage_start, shared_body_expr, shared_body_b,
          shared_body_walk_start, Except.bind, Except.map, bind, pure, Except.pure]
  · simp [Expr.id, Expr.same_as, map_find, map_set, map_keys, Memory.fresh, mk_add, mk_sub,
          mk_mul, mk_div, mk_min, mk_max, mk_le, mk_ge, mk_select, mk_let, mk_float, mk_var,
          mk_vars, mk_neg, mk_exp, mk_call, VariableFinder.include_with, VariableFinder.accept,
          VariableFinder.accept_list, VariableFinder.find, VariableReplacer.mutate,
          VariableReplacer.mutate_args, VariableReplacer.replace, inverse, rvar_name, rdom_slots,
          mk_rdom, rdom_domain, rdom_at, rdom_var, find_arg, get_min_max_bounds, merge_bounds,
          Function.stage_values, FunctionSorter.include_with, FunctionSorter.accept,
          FunctionSorter.accept_list, FunctionSorter.accept_stages, FunctionSorter.sort_func,
          FunctionSorter.sort, ExpressionSorter.include_with, ExpressionSorter.accept,
          ExpressionSorter.accept_list, ExpressionSorter.sort, BoundsInferencer.include_with,
          BoundsInferencer.arg_bounds, BoundsInferencer.merge_args,
          BoundsInferencer.merge_previous, BoundsInferencer.update_bounds,
          BoundsInferencer.accept, BoundsInferencer.accept_list, BoundsInferencer.accept_stages,
          BoundsInferencer.inference_func, BoundsInferencer.inference, Memory.set_func, mk_func,
          mk_func_default, func_define, define_base_case, func_add_update,
          ReverseAccumulationVisitor.new, ReverseAccumulationVisitor.accumulate,
          ReverseAccumulationVisitor.adjoint_of, ReverseAccumulationVisitor.adjoint_funcs_at,
          ReverseAccumulationVisitor.canonicalize_arg, ReverseAccumulationVisitor.canonicalize,
          ReverseAccumulationVisitor.scatter, ReverseAccumulationVisitor.accumulate_exp,
          ReverseAccumulationVisitor.accept, ReverseAccumulationVisitor.walk,
          ReverseAccumulationVisitor.create_stub, ReverseAccumulationVisitor.create_stubs,
          ReverseAccumulationVisitor.seed_root, ReverseAccumulationVisitor.new_tmp,
          ReverseAccumulationVisitor.add_back, ReverseAccumulationVisitor.propagate_stage,
          ReverseAccumulationVisitor.propagate_stages, ReverseAccumulationVisitor.propagate_func,
          ReverseAccumulationVisitor.propagate_funcs,
          ReverseAccumulationVisitor.propagate_adjoints, propagate_adjoints, eval_expr, eval_args,
          find_rdom, find_rdom_list, rdom_points, lhs_is_pure, eval_update_points, eval_update,
          eval_updates, eval_func, adjoint_value, constant_memory, constant_output,
          multiply_memory, call_out_zero, shift_memory, reduction_memory, two_inputs_memory,
          let_output, divide_output, diamond_memory, diamond_output, Expr.operands,
          Expr.is_halide_call, Expr.call_func, Expr.size, Expr.size_list, subterms, subterms_list,
          direct_calls, direct_calls_list, all_calls, all_calls_list, Function.stage_exprs,
          program_roots, program_nodes, Consistent, func_name, UniqueNames, nested_memory,
          nested_output, FunctionSorter.Settled, FunctionSorter.Good, FunctionSorter.SortFuncSpec,
          WellFormed, untraversed, Expr.is_func_or_image_call, engine_calls,
          FuncsOnlyInHalideCalls, ReverseAccumulationVisitor.KeysIn,
          ReverseAccumulationVisitor.Stored, ReverseAccumulationVisitor.TmpDefined,
          ReverseAccumulationVisitor.StoredAll, SameNameSameArgs, NodesById, OperandsFirst,
          ExpressionSorter.Pending, shared_operand_expr, five_minus_x, two_sites_memory,
          two_sites_output, eval_pair, inferred_bounds, bounds_values, two_slots_memory,
          max_output, min_output, staged_memory, call_f_zero, shared_body_memory, supported_shape,
          renamed_args_memory, call_g_zero, tie_memory, tie_max_output, tie_min_output,
          unused_let_output, BoundsInferencer.Covered, BoundsInferencer.InferenceFuncSpec,
          Expr.erase, Expr.erase_list, Expr.arith, rule_contributions, accumulate_all,
          contributions_into, shared_leaf_expr, seeded_engine,
          ReverseAccumulationVisitor.stage_start, shared_body_expr, shared_body_b,
          shared_body_walk_start, Except.bind, Except.map, bind, pure, Except.pure]
  · intro p hp hc
    simp only [shared_body_expr, subterms, subterms_list, List.mem_cons, List.mem_append,
      List.mem_singleton, List.not_mem_nil, or_false, List.append_nil] at hp
    rcases hp with rfl | (rfl | rfl) | rfl <;> simp [Expr.operands, shared_body_expr] at hc ⊢
  · simp [Expr.id, Expr.same_as, map_find, map_set, map_keys, Memory.fresh, mk_add, mk_sub,
          mk_mul, mk_div, mk_min, mk_max, mk_le, mk_ge, mk_select, mk_let, mk_float, mk_var,
          mk_vars, mk_neg, mk_exp, mk_call, VariableFinder.include_with, VariableFinder.accept,
          VariableFinder.accept_list, VariableFinder.find, VariableReplacer.mutate,
          VariableReplacer.mutate_args, VariableReplacer.replace, inverse, rvar_name, rdom_slots,
          mk_rdom, rdom_domain, rdom_at, rdom_var, find_arg, get_min_max_bounds, merge_bounds,
          Function.stage_values, FunctionSorter.include_with, FunctionSorter.accept,
          FunctionSorter.accept_list, FunctionSorter.accept_stages, FunctionSorter.sort_func,
          FunctionSorter.sort, ExpressionSorter.include_with, ExpressionSorter.accept,
          ExpressionSorter.accept_list, ExpressionSorter.sort, BoundsInferencer.include_with,
          BoundsInferencer.arg_bounds, BoundsInferencer.merge_args,
          BoundsInferencer.merge_previous, BoundsInferencer.update_bounds,
          BoundsInferencer.accept, BoundsInferencer.accept_list, BoundsInferencer.accept_stages,
          BoundsInferencer.inference_func, BoundsInferencer.inference, Memory.set_func, mk_func,
          mk_func_default, func_define, define_base_case, func_add_update,
          ReverseAccumulationVisitor.new, ReverseAccumulationVisitor.accumulate,
          ReverseAccumulationVisitor.adjoint_of, ReverseAccumulationVisitor.adjoint_funcs_at,
          ReverseAccumulationVisitor.canonicalize_arg, ReverseAccumulationVisitor.canonicalize,
          ReverseAccumulationVisitor.scatter, ReverseAccumulationVisitor.accumulate_exp,
          ReverseAccumulationVisitor.accept, ReverseAccumulationVisitor.walk,
          ReverseAccumulationVisitor.create_stub, ReverseAccumulationVisitor.create_stubs,
          ReverseAccumulationVisitor.seed_root, ReverseAccumulationVisitor.new_tmp,
          ReverseAccumulationVisitor.add_back, ReverseAccumulationVisitor.propagate_stage,
          ReverseAccumulationVisitor.propagate_stages, ReverseAccumulationVisitor.propagate_func,
          ReverseAccumulationVisitor.propagate_funcs,
          ReverseAccumulationVisitor.propagate_adjoints, propagate_adjoints, eval_expr, eval_args,
          find_rdom, find_rdom_list, rdom_points, lhs_is_pure, eval_update_points, eval_update,
          eval_updates, eval_func, adjoint_value, constant_memory, constant_output,
          multiply_memory, call_out_zero, shift_memory, reduction_memory, two_inputs_memory,
          let_output, divide_output, diamond_memory, diamond_output, Expr.operands,
          Expr.is_halide_call, Expr.call_func, Expr.size, Expr.size_list, subterms, subterms_list,
          direct_calls, direct_calls_list, all_calls, all_calls_list, Function.stage_exprs,
          program_roots, program_nodes, Consistent, func_name, UniqueNames, nested_memory,
          nested_output, FunctionSorter.Settled, FunctionSorter.Good, FunctionSorter.SortFuncSpec,
          WellFormed, untraversed, Expr.is_func_or_image_call, engine_calls,
          FuncsOnlyInHalideCalls, ReverseAccumulationVisitor.KeysIn,
          ReverseAccumulationVisitor.Stored, ReverseAccumulationVisitor.TmpDefined,
          ReverseAccumulationVisitor.StoredAll, SameNameSameArgs, NodesById, OperandsFirst,
          ExpressionSorter.Pending, shared_operand_expr, five_minus_x, two_sites_memory,
          two_sites_output, eval_pair, inferred_bounds, bounds_values, two_slots_memory,
          max_output, min_output, staged_memory, call_f_zero, shared_body_memory, supported_shape,
          renamed_args_memory, call_g_zero, tie_memory, tie_max_output, tie_min_output,
          unused_let_output, BoundsInferencer.Covered, BoundsInferencer.InferenceFuncSpec,
          Expr.erase, Expr.erase_list, Expr.arith, rule_contributions, accumulate_all,
          contributions_into, shared_leaf_expr, seeded_engine,
          ReverseAccumulationVisitor.stage_start, shared_body_expr, shared_body_b,
          shared_body_walk_start, Except.bind, Except.map, bind, pure, Except.pure]
  · simp [Expr.id, Expr.same_as, map_find, map_set, map_keys, Memory.fresh, mk_add, mk_sub,
          mk_mul, mk_div, mk_min, mk_max, mk_le, mk_ge, mk_select, mk_let, mk_float, mk_var,
          mk_vars, mk_neg, mk_exp, mk_call, VariableFinder.include_with, VariableFinder.accept,
          VariableFinder.accept_list, VariableFinder.find, VariableReplacer.mutate,
          VariableReplacer.mutate_args, VariableReplacer.replace, inverse, rvar_name, rdom_slots,
          mk_rdom, rdom_domain, rdom_at, rdom_var, find_arg, get_min_max_bounds, merge_bounds,
          Function.stage_values, FunctionSorter.include_with, FunctionSorter.accept,
          FunctionSorter.accept_list, FunctionSorter.accept_stages, FunctionSorter.sort_func,
          FunctionSorter.sort, ExpressionSorter.include_with, ExpressionSorter.accept,
          ExpressionSorter.accept_list, ExpressionSorter.sort, BoundsInferencer.include_with,
          BoundsInferencer.arg_bounds, BoundsInferencer.merge_args,
          BoundsInferencer.merge_previous, BoundsInferencer.update_bounds,
          BoundsInferencer.accept, BoundsInferencer.accept_list, BoundsInferencer.accept_stages,
          BoundsInferencer.inference_func, BoundsInferencer.inference, Memory.set_func, mk_func,
          mk_func_default, func_define, define_base_case, func_add_update,
          ReverseAccumulationVisitor.new, ReverseAccumulationVisitor.accumulate,
          ReverseAccumulationVisitor.adjoint_of, ReverseAccumulationVisitor.adjoint_funcs_at,
          ReverseAccumulationVisitor.canonicalize_arg, ReverseAccumulationVisitor.canonicalize,
          ReverseAccumulationVisitor.scatter, ReverseAccumulationVisitor.accumulate_exp,
          ReverseAccumulationVisitor.accept, ReverseAccumulationVisitor.walk,
          ReverseAccumulationVisitor.create_stub, ReverseAccumulationVisitor.create_stubs,
          ReverseAccumulationVisitor.seed_root, ReverseAccumulationVisitor.new_tmp,
          ReverseAccumulationVisitor.add_back, ReverseAccumulationVisitor.propagate_stage,
          ReverseAccumulationVisitor.propagate_stages, ReverseAccumulationVisitor.propagate_func,
          ReverseAccumulationVisitor.propagate_funcs,
          ReverseAccumulationVisitor.propagate_adjoints, propagate_adjoints, eval_expr, eval_args,
          find_rdom, find_rdom_list, rdom_points, lhs_is_pure, eval_update_points, eval_update,
          eval_updates, eval_func, adjoint_value, constant_memory, constant_output,
          multiply_memory, call_out_zero, shift_memory, reduction_memory, two_inputs_memory,
          let_output, divide_output, diamond_memory, diamond_output, Expr.operands,
          Expr.is_halide_call, Expr.call_func, Expr.size, Expr.size_list, subterms, subterms_list,
          direct_calls, direct_calls_list, all_calls, all_calls_list, Function.stage_exprs,
          program_roots, program_nodes, Consistent, func_name, UniqueNames, nested_memory,
          nested_output, FunctionSorter.Settled, FunctionSorter.Good, FunctionSorter.SortFuncSpec,
          WellFormed, untraversed, Expr.is_func_or_image_call, engine_calls,
          FuncsOnlyInHalideCalls, ReverseAccumulationVisitor.KeysIn,
          ReverseAccumulationVisitor.Stored, ReverseAccumulationVisitor.TmpDefined,
          ReverseAccumulationVisitor.StoredAll, SameNameSameArgs, NodesById, OperandsFirst,
          ExpressionSorter.Pending, shared_operand_expr, five_minus_x, two_sites_memory,
          two_sites_output, eval_pair, inferred_bounds, bounds_values, two_slots_memory,
          max_output, min_output, staged_memory, call_f_zero, shared_body_memory, supported_shape,
          renamed_args_memory, call_g_zero, tie_memory, tie_max_output, tie_min_output,
          unused_let_output, BoundsInferencer.Covered, BoundsInferencer.InferenceFuncSpec,
          Expr.erase, Expr.erase_list, Expr.arith, rule_contributions, accumulate_all,
          contributions_into, shared_leaf_expr, seeded_engine,
          ReverseAccumulationVisitor.stage_start, shared_body_expr, shared_body_b,
          shared_body_walk_start, Except.bind, Except.map, bind, pure, Except.pure]

end Derivative
